import Mathlib

/-! # webserv configuration pipeline

A shallow embedding of the configuration front end of `webserv`
(`ConfigParser.cpp`, `ConfigValidator.cpp` and the data-model headers):
lexer, recursive-descent parser, data model and validator, followed by the
theorems that settle the specification's claims against that code.

Conventions of the embedding.

* A `std::string` is the list of its bytes; every byte is written as a `Char`.
* `size_t` and `unsigned long` are 64 bits wide, `int` is 32 bits wide and
  `long` is 64 bits wide (LP64); arithmetic on them is `Nat`/`Int` arithmetic
  with an explicit reduction where the machine type can wrap.
* A C++ exception is an `Except`/`Result` error value.
* The character classification functions are those of the "C" locale.
-/

namespace Webserv

/-- A `std::string`: the list of its bytes. -/
abbrev Str := List Char

/-! ## Character classes and C library conversions -/

/-- `std::isspace` in the "C" locale: space, `\t`, `\n`, `\v`, `\f`, `\r`. -/
def isspace (c : Char) : Bool :=
  c == ' ' || c == '\t' || c == '\n' || c == '\x0b' || c == '\x0c' || c == '\r'

/-- `std::isdigit`: the ten ASCII digits. -/
def isdigit (c : Char) : Bool :=
  decide (48 ≤ c.toNat) && decide (c.toNat ≤ 57)

/-- `std::isalnum` in the "C" locale: ASCII digits and letters. -/
def isalnum (c : Char) : Bool :=
  isdigit c
    || (decide (65 ≤ c.toNat) && decide (c.toNat ≤ 90))
    || (decide (97 ≤ c.toNat) && decide (c.toNat ≤ 122))

/-- Value of one decimal digit character. -/
def digitVal (c : Char) : Nat := c.toNat - 48

/-- Decimal value of a digit string (most significant digit first); `0` for
the empty string. -/
def decVal (s : Str) : Nat := s.foldl (fun a c => a * 10 + digitVal c) 0

/-- Reduction of an integer to the 32-bit two's-complement `int` range. -/
def wrapInt32 (z : Int) : Int := (z + 2147483648) % 4294967296 - 2147483648

/-- Reduction of a natural number to the 64-bit `size_t` range. -/
def wrapSizeT (n : Nat) : Nat := n % 18446744073709551616

/-- Splits off an optional sign: `(negative, rest)`. -/
def takeSign : Str → Bool × Str
  | '-' :: r => (true, r)
  | '+' :: r => (false, r)
  | s => (false, s)

/-- `strtol(s, 0, 10)` as glibc implements it: leading white space is skipped,
an optional sign is read, then the longest run of digits; a value outside the
range of `long` is clamped to `LONG_MIN`/`LONG_MAX`; no digits give `0`. -/
def strtol10 (s : Str) : Int :=
  let s1 := s.dropWhile isspace
  let sg := takeSign s1
  let v : Int := (decVal (sg.2.takeWhile isdigit) : Nat)
  if sg.1 then max (-v) (-9223372036854775808) else min v 9223372036854775807

/-- `std::atoi`: glibc computes `(int) strtol(s, 0, 10)`. -/
def atoi (s : Str) : Int := wrapInt32 (strtol10 s)

/-- `strtoul(s, 0, 10)` as glibc implements it: white space, optional sign,
digits; an overflowing magnitude gives `ULONG_MAX`, otherwise a leading `-`
negates the value in `unsigned long`. -/
def strtoul10 (s : Str) : Nat :=
  let s1 := s.dropWhile isspace
  let sg := takeSign s1
  let v := decVal (sg.2.takeWhile isdigit)
  if 18446744073709551615 < v then 18446744073709551615
  else if sg.1 then wrapSizeT (18446744073709551616 - v) else v

/-- `std::string::rfind(c)`: index of the last occurrence of `c`, or `none`
for `npos`. -/
def rfind (c : Char) : Str → Option Nat
  | [] => none
  | x :: xs =>
    match rfind c xs with
    | some i => some (i + 1)
    | none => if x = c then some 0 else none

/-! ## Parser helpers -/

/-- Product in `size_t`. -/
def mulSizeT (a b : Nat) : Nat := wrapSizeT (a * b)

/-- `ConfigParser::parseSizeWithUnit`. -/
def parseSizeWithUnit (s : Str) : Nat :=
  if s.isEmpty then 0
  else
    let i := (s.takeWhile isdigit).length
    let num := s.take i
    let suf := s.drop i
    let base := strtoul10 num
    if suf.isEmpty then base
    else if suf = ['K'] ∨ suf = ['k'] then mulSizeT base 1024
    else if suf = ['M'] ∨ suf = ['m'] then mulSizeT (mulSizeT base 1024) 1024
    else if suf = ['G'] ∨ suf = ['g'] then
      mulSizeT (mulSizeT (mulSizeT base 1024) 1024) 1024
    else if suf = ['K', 'B'] ∨ suf = ['k', 'b'] then mulSizeT base 1024
    else if suf = ['M', 'B'] ∨ suf = ['m', 'b'] then mulSizeT (mulSizeT base 1024) 1024
    else if suf = ['G', 'B'] ∨ suf = ['g', 'b'] then
      mulSizeT (mulSizeT (mulSizeT base 1024) 1024) 1024
    else base

/-- The wildcard address written by `splitHostPort`. -/
def wildcardHost : Str := "0.0.0.0".toList

/-- `ConfigParser::splitHostPort`: the pair `(host, port)` left in the two
output parameters. -/
def splitHostPort (s : Str) : Str × Int :=
  match rfind ':' s with
  | none => (wildcardHost, atoi s)
  | some pos =>
    let host := s.take pos
    let p := s.drop (pos + 1)
    (if host = [] ∨ host = ['*'] then wildcardHost else host, atoi p)

/-! ## Ordered containers

`std::map` and `std::set` keep their elements in strictly increasing key
order; they are modelled as lists in that order.  `std::string` keys compare
lexicographically byte by byte, which is the order of `List Char`. -/

/-- `m[k] = v` on a `std::map`: the entry for `k` is created at its place in
key order, or its value is overwritten when the key is already present. -/
def mapAssign {κ ν : Type} [LinearOrder κ] (k : κ) (v : ν) : List (κ × ν) → List (κ × ν)
  | [] => [(k, v)]
  | e :: r =>
    if k < e.1 then (k, v) :: e :: r
    else if e.1 < k then e :: mapAssign k v r
    else (k, v) :: r

/-- `std::set::insert`: nothing happens when the element is already present. -/
def setInsert {κ : Type} [LinearOrder κ] (k : κ) : List κ → List κ
  | [] => [k]
  | e :: r =>
    if k < e then k :: e :: r
    else if e < k then e :: setInsert k r
    else e :: r

/-! ## Data model (`ServerBlock.hpp`, `LocationBlock.hpp`, `Config.hpp`) -/

/-- `struct ListenEntry`. -/
structure ListenEntry where
  host : Str
  port : Int
  deriving DecidableEq, Repr

/-- `class LocationBlock`. -/
structure LocationBlock where
  path_prefix : Str := []
  root : Str := []
  methods : List Str := []
  autoindex : Bool := false
  index_files : List Str := []
  upload_store : Str := []
  cgi_map : List (Str × Str) := []
  has_redirect : Bool := false
  redirect_code : Str := []
  redirect_to : Str := []
  deriving DecidableEq, Repr

namespace LocationBlock

def setPathPrefix (loc : LocationBlock) (p : Str) : LocationBlock :=
  { loc with path_prefix := p }

def setRoot (loc : LocationBlock) (p : Str) : LocationBlock := { loc with root := p }

def setAutoIndex (loc : LocationBlock) (v : Bool) : LocationBlock := { loc with autoindex := v }

def setUploadStore (loc : LocationBlock) (p : Str) : LocationBlock :=
  { loc with upload_store := p }

def addIndex (loc : LocationBlock) (f : Str) : LocationBlock :=
  { loc with index_files := loc.index_files ++ [f] }

def addMethod (loc : LocationBlock) (m : Str) : LocationBlock :=
  { loc with methods := setInsert m loc.methods }

def setRedirect (loc : LocationBlock) (code target : Str) : LocationBlock :=
  { loc with has_redirect := true, redirect_code := code, redirect_to := target }

def mapCgi (loc : LocationBlock) (ext execPath : Str) : LocationBlock :=
  { loc with cgi_map := mapAssign ext execPath loc.cgi_map }

end LocationBlock

/-- `class ServerBlock`. -/
structure ServerBlock where
  listens : List ListenEntry := []
  root : Str := []
  index_files : List Str := []
  server_name : Str := []
  client_max_body_size : Nat := 0
  error_pages : List (Int × Str) := []
  locations : List LocationBlock := []
  deriving DecidableEq, Repr

namespace ServerBlock

def addListen (srv : ServerBlock) (host : Str) (port : Int) : ServerBlock :=
  { srv with listens := srv.listens ++ [⟨host, port⟩] }

def setRoot (srv : ServerBlock) (p : Str) : ServerBlock := { srv with root := p }

def addIndex (srv : ServerBlock) (f : Str) : ServerBlock :=
  { srv with index_files := srv.index_files ++ [f] }

def setServerName (srv : ServerBlock) (n : Str) : ServerBlock := { srv with server_name := n }

def setClientMaxBodySize (srv : ServerBlock) (n : Nat) : ServerBlock :=
  { srv with client_max_body_size := n }

def setErrorPage (srv : ServerBlock) (code : Int) (path : Str) : ServerBlock :=
  { srv with error_pages := mapAssign code path srv.error_pages }

def addLocation (srv : ServerBlock) (loc : LocationBlock) : ServerBlock :=
  { srv with locations := srv.locations ++ [loc] }

end ServerBlock

/-- `class Config`. -/
structure Config where
  servers : List ServerBlock := []
  deriving DecidableEq, Repr

namespace Config

def addServer (cfg : Config) (s : ServerBlock) : Config :=
  { cfg with servers := cfg.servers ++ [s] }

/-- `Config::collectAllListens`. -/
def collectAllListens (cfg : Config) : List ListenEntry :=
  cfg.servers.foldl (fun out s => s.listens.foldl (fun o e => o ++ [e]) out) []

end Config

/-! ## Lexer (`ConfigParser.cpp`, class `Lexer`) -/

/-- `Token::Type`. -/
inductive TokType where
  | T_IDENT
  | T_NUMBER
  | T_STRING
  | T_LBRACE
  | T_RBRACE
  | T_SEMI
  | T_EOF
  deriving DecidableEq, Repr

open TokType

/-- `struct Token`; the default constructor gives `(T_EOF, "", 0)`. -/
structure Token where
  type : TokType := T_EOF
  text : Str := []
  line : Nat := 0
  deriving DecidableEq, Repr

/-- `class Lexer`: the buffered source, the read position and the current line. -/
structure Lexer where
  src : Str
  pos : Nat
  line : Nat
  deriving DecidableEq, Repr

/-- `std::string::substr(start, len)`. -/
def substr (s : Str) (start len : Nat) : Str := (s.drop start).take len

/-- `std::getline`: the characters up to the next newline (which is consumed
and not stored) and the rest of the input; `none` when the stream is already
at its end. -/
def getline (inp : Str) : Option (Str × Str) :=
  if inp.isEmpty then none
  else some (inp.takeWhile (fun c => c != '\n'), (inp.dropWhile (fun c => c != '\n')).drop 1)

/-- The `while (std::getline(in, line)) buf << line << "\n"` loop of
`Lexer::load`; every round on a non-empty input removes at least one
character, so a budget of one round per input character lets the loop end by
itself. -/
def readLines : Nat → Str → Str → Str
  | 0, _, buf => buf
  | n + 1, inp, buf =>
    match getline inp with
    | none => buf
    | some r => readLines n r.2 (buf ++ r.1 ++ ['\n'])

namespace Lexer

/-- `Lexer::load` on a file that could be opened, given its content. -/
def load (content : Str) : Lexer :=
  { src := readLines content.length content [], pos := 0, line := 1 }

/-- `Lexer::eof`. -/
def eof (lx : Lexer) : Bool := decide (lx.src.length ≤ lx.pos)

/-- `Lexer::peek`. -/
def peek (lx : Lexer) : Char :=
  if lx.eof then '\x00' else lx.src.getD lx.pos '\x00'

/-- `Lexer::get`: the character read and the lexer afterwards. -/
def get (lx : Lexer) : Char × Lexer :=
  if lx.eof then ('\x00', lx)
  else
    let c := lx.src.getD lx.pos '\x00'
    (c, { lx with pos := lx.pos + 1, line := if c = '\n' then lx.line + 1 else lx.line })

/-- Number of characters not read yet; every lexer loop reads one character
per round, so this many rounds always let it reach its own exit test. -/
def remaining (lx : Lexer) : Nat := lx.src.length - lx.pos

/-- The loop `while (!eof() && isspace(peek())) get();`. -/
def skipSpaces : Nat → Lexer → Lexer
  | 0, lx => lx
  | n + 1, lx =>
    if !lx.eof && isspace lx.peek then skipSpaces n lx.get.2 else lx

/-- The loop `while (!eof() && get() != '\n') {}`. -/
def skipLine : Nat → Lexer → Lexer
  | 0, lx => lx
  | n + 1, lx =>
    if lx.eof then lx
    else
      let r := lx.get
      if r.1 != '\n' then skipLine n r.2 else r.2

/-- The `for (;;)` loop of `Lexer::skipSpacesAndComments`. -/
def skipSpacesAndCommentsLoop : Nat → Lexer → Lexer
  | 0, lx => lx
  | n + 1, lx =>
    let lx1 := skipSpaces lx.remaining lx
    if !lx1.eof && lx1.peek == '#' then
      skipSpacesAndCommentsLoop n (skipLine lx1.remaining lx1)
    else lx1

/-- `Lexer::skipSpacesAndComments`. -/
def skipSpacesAndComments (lx : Lexer) : Lexer :=
  skipSpacesAndCommentsLoop (lx.remaining + 1) lx

end Lexer

/-- `isIdentChar`. -/
def isIdentChar (c : Char) : Bool :=
  if isalnum c then true
  else if c == '_' || c == '.' || c == '-' || c == '/' || c == ':' || c == '[' || c == ']'
  then true
  else false

/-- The exit test shared by `readIdent` and `readNumberOrIdent`:
`!isIdentChar(c) || c == ';' || c == '{' || c == '}' || c == '"' || c == '#'`. -/
def identStop (c : Char) : Bool :=
  !isIdentChar c || c == ';' || c == '\x7b' || c == '\x7d' || c == '\x22' || c == '#'

namespace Lexer

/-- The loop of `Lexer::readIdent`. -/
def readIdentLoop : Nat → Lexer → Lexer
  | 0, lx => lx
  | n + 1, lx =>
    if lx.eof then lx
    else if identStop lx.peek then lx
    else readIdentLoop n lx.get.2

/-- `Lexer::readIdent`. -/
def readIdent (lx : Lexer) : Token × Lexer :=
  let start := lx.pos
  let lx1 := readIdentLoop lx.remaining lx
  ({ type := T_IDENT, text := substr lx1.src start (lx1.pos - start), line := lx1.line }, lx1)

/-- The loop of `Lexer::readNumberOrIdent`, carrying the flag `allDigits`. -/
def readNumberOrIdentLoop : Nat → Lexer → Bool → Lexer × Bool
  | 0, lx, allDigits => (lx, allDigits)
  | n + 1, lx, allDigits =>
    if lx.eof then (lx, allDigits)
    else if identStop lx.peek then (lx, allDigits)
    else readNumberOrIdentLoop n lx.get.2 (if !isdigit lx.peek then false else allDigits)

/-- `Lexer::readNumberOrIdent`. -/
def readNumberOrIdent (lx : Lexer) : Token × Lexer :=
  let start := lx.pos
  let r := readNumberOrIdentLoop lx.remaining lx true
  let lx1 := r.1
  let s := substr lx1.src start (lx1.pos - start)
  if s.isEmpty then ({ type := T_IDENT, text := s, line := lx1.line }, lx1)
  else if r.2 then ({ type := T_NUMBER, text := s, line := lx1.line }, lx1)
  else ({ type := T_IDENT, text := s, line := lx1.line }, lx1)

/-- The loop of `Lexer::readString`: a backslash takes the following
character with it. -/
def readStringLoop : Nat → Lexer → Lexer
  | 0, lx => lx
  | n + 1, lx =>
    if !lx.eof && lx.peek != '\x22' then
      let r := lx.get
      readStringLoop n (if r.1 == '\x5c' && !r.2.eof then r.2.get.2 else r.2)
    else lx

/-- `Lexer::readString`. -/
def readString (lx : Lexer) : Token × Lexer :=
  let lx0 := lx.get.2
  let start := lx0.pos
  let lx1 := readStringLoop lx0.remaining lx0
  if lx1.eof then ({ type := T_EOF, text := [], line := lx1.line }, lx1)
  else
    let s := substr lx1.src start (lx1.pos - start)
    let lx2 := lx1.get.2
    ({ type := T_STRING, text := s, line := lx2.line }, lx2)

/-- `Lexer::next`. -/
def next (lx : Lexer) : Token × Lexer :=
  let lx1 := lx.skipSpacesAndComments
  if lx1.eof then ({ type := T_EOF, text := [], line := lx1.line }, lx1)
  else
    let c := lx1.peek
    if c = '\x7b' then
      let lx2 := lx1.get.2
      ({ type := T_LBRACE, text := ['\x7b'], line := lx2.line }, lx2)
    else if c = '\x7d' then
      let lx2 := lx1.get.2
      ({ type := T_RBRACE, text := ['\x7d'], line := lx2.line }, lx2)
    else if c = ';' then
      let lx2 := lx1.get.2
      ({ type := T_SEMI, text := [';'], line := lx2.line }, lx2)
    else if c = '\x22' then lx1.readString
    else if isdigit c then lx1.readNumberOrIdent
    else lx1.readIdent

end Lexer

/-! ## Parser (`ConfigParser.cpp`, class `ConfigParser`) -/

/-- `class ParseError`: the message given to the constructor and the line. -/
structure ParseError where
  msg : Str
  line : Nat
  deriving DecidableEq, Repr

/-- `ParseError::compose`, the text returned by `what()`. -/
def ParseError.what (e : ParseError) : Str :=
  "Config parse error at line ".toList ++ Nat.toDigits 10 e.line ++ ": ".toList ++ e.msg

/-- The mutable members of `ConfigParser`: the lexer and the current token. -/
structure PState where
  lex : Lexer
  cur : Token
  deriving DecidableEq, Repr

/-- Outcome of a parser routine: normal return with the parser state
afterwards, a thrown `ParseError`, or exhaustion of the step budget that
bounds the routine's loops (the routine has not returned yet). -/
inductive Result (α : Type) where
  | ok (a : α) (st : PState)
  | err (e : ParseError)
  | outOfFuel
  deriving DecidableEq, Repr

/-- Sequencing: run `f` on a normal return, pass an error or an exhausted
budget through. -/
def Result.bind {α β : Type} (r : Result α) (f : α → PState → Result β) : Result β :=
  match r with
  | .ok a st => f a st
  | .err e => .err e
  | .outOfFuel => .outOfFuel

/-- `ConfigParser::advance`. -/
def advance (st : PState) : PState :=
  let r := st.lex.next
  { lex := r.2, cur := r.1 }

/-- `ConfigParser::accept`. -/
def accept (t : TokType) (st : PState) : Bool × PState :=
  if st.cur.type = t then (true, advance st) else (false, st)

/-- `ConfigParser::expect`. -/
def expect (t : TokType) (what : Str) (st : PState) : Result Unit :=
  let r := accept t st
  if r.1 then .ok () r.2
  else .err { msg := "Expected ".toList ++ what, line := r.2.cur.line }

/-- The text `';'` passed to `expect`. -/
def semiWhat : Str := "\x27;\x27".toList

/-- The text `'{'` passed to `expect`. -/
def lbraceWhat : Str := "\x27\x7b\x27".toList

/-- The text `'}'` passed to `expect`. -/
def rbraceWhat : Str := "\x27\x7d\x27".toList

/-- The test `cur_.type != T_IDENT && cur_.type != T_STRING` negated. -/
def isIdentOrString (t : Token) : Bool := t.type = T_IDENT || t.type = T_STRING

/-- `ConfigParser::dir_listen`. -/
def dir_listen (srv : ServerBlock) (st : PState) : Result ServerBlock :=
  let st1 := advance st
  if !isIdentOrString st1.cur then
    .err { msg := "listen expects \x27host:port\x27 or \x27port\x27".toList, line := st1.cur.line }
  else
    let s := st1.cur.text
    let st2 := advance st1
    (expect T_SEMI semiWhat st2).bind fun _ st3 =>
      let hp := splitHostPort s
      .ok (srv.addListen hp.1 hp.2) st3

/-- `ConfigParser::dir_root`. -/
def dir_root (srv : ServerBlock) (st : PState) : Result ServerBlock :=
  let st1 := advance st
  if !isIdentOrString st1.cur then
    .err { msg := "root expects a path".toList, line := st1.cur.line }
  else
    let srv1 := srv.setRoot st1.cur.text
    let st2 := advance st1
    (expect T_SEMI semiWhat st2).bind fun _ st3 => .ok srv1 st3

/-- The `while` loop of `ConfigParser::dir_index`. -/
def dir_index_loop : Nat → ServerBlock → PState → Result ServerBlock
  | 0, _, _ => .outOfFuel
  | n + 1, srv, st =>
    if isIdentOrString st.cur then dir_index_loop n (srv.addIndex st.cur.text) (advance st)
    else .ok srv st

/-- `ConfigParser::dir_index`. -/
def dir_index (fuel : Nat) (srv : ServerBlock) (st : PState) : Result ServerBlock :=
  let st1 := advance st
  if !isIdentOrString st1.cur then
    .err { msg := "index expects at least one filename".toList, line := st1.cur.line }
  else
    (dir_index_loop fuel srv st1).bind fun srv1 st2 =>
      (expect T_SEMI semiWhat st2).bind fun _ st3 => .ok srv1 st3

/-- `ConfigParser::dir_server_name`. -/
def dir_server_name (srv : ServerBlock) (st : PState) : Result ServerBlock :=
  let st1 := advance st
  if !isIdentOrString st1.cur then
    .err { msg := "server_name expects a token".toList, line := st1.cur.line }
  else
    let srv1 := srv.setServerName st1.cur.text
    let st2 := advance st1
    (expect T_SEMI semiWhat st2).bind fun _ st3 => .ok srv1 st3

/-- `ConfigParser::dir_client_max_body_size`. -/
def dir_client_max_body_size (srv : ServerBlock) (st : PState) : Result ServerBlock :=
  let st1 := advance st
  if st1.cur.type ≠ T_IDENT ∧ st1.cur.type ≠ T_NUMBER then
    .err { msg := "client_max_body_size expects a number or suffixed size".toList,
           line := st1.cur.line }
  else
    let n := parseSizeWithUnit st1.cur.text
    let srv1 := srv.setClientMaxBodySize n
    let st2 := advance st1
    (expect T_SEMI semiWhat st2).bind fun _ st3 => .ok srv1 st3

/-- `ConfigParser::dir_error_page`. -/
def dir_error_page (srv : ServerBlock) (st : PState) : Result ServerBlock :=
  let st1 := advance st
  if st1.cur.type ≠ T_NUMBER then
    .err { msg := "error_page expects a numeric code".toList, line := st1.cur.line }
  else
    let code := atoi st1.cur.text
    let st2 := advance st1
    if !isIdentOrString st2.cur then
      .err { msg := "error_page expects a path".toList, line := st2.cur.line }
    else
      let srv1 := srv.setErrorPage code st2.cur.text
      let st3 := advance st2
      (expect T_SEMI semiWhat st3).bind fun _ st4 => .ok srv1 st4

/-- `ConfigParser::loc_root`. -/
def loc_root (loc : LocationBlock) (st : PState) : Result LocationBlock :=
  let st1 := advance st
  if !isIdentOrString st1.cur then
    .err { msg := "root expects a path".toList, line := st1.cur.line }
  else
    let loc1 := loc.setRoot st1.cur.text
    let st2 := advance st1
    (expect T_SEMI semiWhat st2).bind fun _ st3 => .ok loc1 st3

/-- The `while` loop of `ConfigParser::loc_methods`. -/
def loc_methods_loop : Nat → LocationBlock → PState → Result LocationBlock
  | 0, _, _ => .outOfFuel
  | n + 1, loc, st =>
    if st.cur.type = T_IDENT then loc_methods_loop n (loc.addMethod st.cur.text) (advance st)
    else .ok loc st

/-- `ConfigParser::loc_methods`. -/
def loc_methods (fuel : Nat) (loc : LocationBlock) (st : PState) : Result LocationBlock :=
  let st1 := advance st
  if st1.cur.type ≠ T_IDENT then
    .err { msg := "methods expects a list (GET/POST/DELETE)".toList, line := st1.cur.line }
  else
    (loc_methods_loop fuel loc st1).bind fun loc1 st2 =>
      (expect T_SEMI semiWhat st2).bind fun _ st3 => .ok loc1 st3

/-- `ConfigParser::loc_autoindex`. -/
def loc_autoindex (loc : LocationBlock) (st : PState) : Result LocationBlock :=
  let st1 := advance st
  if st1.cur.type ≠ T_IDENT then
    .err { msg := "autoindex expects \x27on\x27 or \x27off\x27".toList, line := st1.cur.line }
  else if st1.cur.text = "on".toList then
    let loc1 := loc.setAutoIndex true
    let st2 := advance st1
    (expect T_SEMI semiWhat st2).bind fun _ st3 => .ok loc1 st3
  else if st1.cur.text = "off".toList then
    let loc1 := loc.setAutoIndex false
    let st2 := advance st1
    (expect T_SEMI semiWhat st2).bind fun _ st3 => .ok loc1 st3
  else
    .err { msg := "autoindex value must be \x27on\x27 or \x27off\x27".toList, line := st1.cur.line }

/-- The `while` loop of `ConfigParser::loc_index`. -/
def loc_index_loop : Nat → LocationBlock → PState → Result LocationBlock
  | 0, _, _ => .outOfFuel
  | n + 1, loc, st =>
    if isIdentOrString st.cur then loc_index_loop n (loc.addIndex st.cur.text) (advance st)
    else .ok loc st

/-- `ConfigParser::loc_index`. -/
def loc_index (fuel : Nat) (loc : LocationBlock) (st : PState) : Result LocationBlock :=
  let st1 := advance st
  if !isIdentOrString st1.cur then
    .err { msg := "index expects at least one filename".toList, line := st1.cur.line }
  else
    (loc_index_loop fuel loc st1).bind fun loc1 st2 =>
      (expect T_SEMI semiWhat st2).bind fun _ st3 => .ok loc1 st3

/-- `ConfigParser::loc_upload_store`. -/
def loc_upload_store (loc : LocationBlock) (st : PState) : Result LocationBlock :=
  let st1 := advance st
  if !isIdentOrString st1.cur then
    .err { msg := "upload_store expects a path".toList, line := st1.cur.line }
  else
    let loc1 := loc.setUploadStore st1.cur.text
    let st2 := advance st1
    (expect T_SEMI semiWhat st2).bind fun _ st3 => .ok loc1 st3

/-- `ConfigParser::loc_return`. -/
def loc_return (loc : LocationBlock) (st : PState) : Result LocationBlock :=
  let st1 := advance st
  if st1.cur.type ≠ T_NUMBER ∧ st1.cur.type ≠ T_IDENT then
    .err { msg := "return expects a status code".toList, line := st1.cur.line }
  else
    let code := st1.cur.text
    let st2 := advance st1
    if st2.cur.type = T_SEMI then
      .ok (loc.setRedirect code []) (advance st2)
    else if !isIdentOrString st2.cur then
      .err { msg := "return expects a target path or URL".toList, line := st2.cur.line }
    else
      let target := st2.cur.text
      let st3 := advance st2
      let loc1 := loc.setRedirect code target
      (expect T_SEMI semiWhat st3).bind fun _ st4 => .ok loc1 st4

/-- `ConfigParser::loc_cgi_pass`. -/
def loc_cgi_pass (loc : LocationBlock) (st : PState) : Result LocationBlock :=
  let st1 := advance st
  if st1.cur.type ≠ T_IDENT then
    .err { msg := "cgi_pass expects an extension (e.g. .py)".toList, line := st1.cur.line }
  else
    let ext := st1.cur.text
    let st2 := advance st1
    if !isIdentOrString st2.cur then
      .err { msg := "cgi_pass expects an interpreter path".toList, line := st2.cur.line }
    else
      let execPath := st2.cur.text
      let st3 := advance st2
      let loc1 := loc.mapCgi ext execPath
      (expect T_SEMI semiWhat st3).bind fun _ st4 => .ok loc1 st4

/-- `ConfigParser::parseLocationDirective`; the `parent` argument is unused
in the source and is left out. -/
def parseLocationDirective (fuel : Nat) (loc : LocationBlock) (st : PState) :
    Result LocationBlock :=
  if st.cur.type ≠ T_IDENT then
    .err { msg := "Expected directive name in location".toList, line := st.cur.line }
  else if st.cur.text = "root".toList then loc_root loc st
  else if st.cur.text = "methods".toList then loc_methods fuel loc st
  else if st.cur.text = "autoindex".toList then loc_autoindex loc st
  else if st.cur.text = "index".toList then loc_index fuel loc st
  else if st.cur.text = "upload_store".toList then loc_upload_store loc st
  else if st.cur.text = "return".toList then loc_return loc st
  else if st.cur.text = "cgi_pass".toList then loc_cgi_pass loc st
  else .err { msg := "Unknown location directive: ".toList ++ st.cur.text, line := st.cur.line }

/-- The `while` loop of `ConfigParser::parseLocation`. -/
def parseLocationLoop : Nat → LocationBlock → PState → Result LocationBlock
  | 0, _, _ => .outOfFuel
  | n + 1, loc, st =>
    if st.cur.type ≠ T_RBRACE then
      if st.cur.type = T_EOF then
        .err { msg := "Unclosed location block".toList, line := st.cur.line }
      else
        (parseLocationDirective n loc st).bind fun loc1 st1 => parseLocationLoop n loc1 st1
    else .ok loc st

/-- `ConfigParser::parseLocation`; the `server` argument is only handed on
to `parseLocationDirective`, which ignores it. -/
def parseLocation (fuel : Nat) (pfx : Str) (st : PState) : Result LocationBlock :=
  parseLocationLoop fuel (({} : LocationBlock).setPathPrefix pfx) st

/-- `ConfigParser::dir_location`. -/
def dir_location (fuel : Nat) (srv : ServerBlock) (st : PState) : Result ServerBlock :=
  let st1 := advance st
  if !isIdentOrString st1.cur then
    .err { msg := "location expects a path prefix".toList, line := st1.cur.line }
  else
    let pfx := st1.cur.text
    let st2 := advance st1
    (expect T_LBRACE lbraceWhat st2).bind fun _ st3 =>
      (parseLocation fuel pfx st3).bind fun loc st4 =>
        (expect T_RBRACE rbraceWhat st4).bind fun _ st5 => .ok (srv.addLocation loc) st5

/-- `ConfigParser::parseServerDirective`. -/
def parseServerDirective (fuel : Nat) (srv : ServerBlock) (st : PState) : Result ServerBlock :=
  if st.cur.type ≠ T_IDENT then
    .err { msg := "Expected directive name".toList, line := st.cur.line }
  else if st.cur.text = "listen".toList then dir_listen srv st
  else if st.cur.text = "root".toList then dir_root srv st
  else if st.cur.text = "index".toList then dir_index fuel srv st
  else if st.cur.text = "server_name".toList then dir_server_name srv st
  else if st.cur.text = "client_max_body_size".toList then dir_client_max_body_size srv st
  else if st.cur.text = "error_page".toList then dir_error_page srv st
  else if st.cur.text = "location".toList then dir_location fuel srv st
  else .err { msg := "Unknown server directive: ".toList ++ st.cur.text, line := st.cur.line }

/-- The `while` loop of `ConfigParser::parseServer`. -/
def parseServerLoop : Nat → ServerBlock → PState → Result ServerBlock
  | 0, _, _ => .outOfFuel
  | n + 1, srv, st =>
    if st.cur.type ≠ T_RBRACE then
      if st.cur.type = T_EOF then
        .err { msg := "Unclosed server block".toList, line := st.cur.line }
      else
        (parseServerDirective n srv st).bind fun srv1 st1 => parseServerLoop n srv1 st1
    else .ok srv st

/-- `ConfigParser::parseServer`. -/
def parseServer (fuel : Nat) (st : PState) : Result ServerBlock :=
  let st1 := advance st
  (expect T_LBRACE lbraceWhat st1).bind fun _ st2 =>
    (parseServerLoop fuel {} st2).bind fun srv st3 =>
      (expect T_RBRACE rbraceWhat st3).bind fun _ st4 => .ok srv st4

/-- The `while` loop of `ConfigParser::parseConfig`. -/
def parseConfigLoop : Nat → Config → PState → Result Config
  | 0, _, _ => .outOfFuel
  | n + 1, cfg, st =>
    if st.cur.type ≠ T_EOF then
      if st.cur.type = T_IDENT ∧ st.cur.text = "server".toList then
        (parseServer n st).bind fun srv st1 => parseConfigLoop n (cfg.addServer srv) st1
      else
        .err { msg := "Expected \x27server\x27 block".toList, line := st.cur.line }
    else .ok cfg st

/-- `ConfigParser::parseConfig`. -/
def parseConfig (fuel : Nat) (st : PState) : Result Config :=
  parseConfigLoop fuel {} st

/-- The parser state once `parseFile` has loaded the file and made its first
`advance()`; the token held before that call is replaced, whatever it was. -/
def initState (content : Str) : PState :=
  advance { lex := Lexer.load content, cur := {} }

/-- `ConfigParser::parseFile` on a file that could be opened, given its
content; `fuel` bounds the number of rounds of each parser loop. -/
def parseFile (fuel : Nat) (content : Str) : Result Config :=
  parseConfig fuel (initState content)

/-! ## Validator (`ConfigValidator.cpp`) -/

/-- What `stat(2)` reports for a path: failure, a directory, a regular file,
or some other kind of file. -/
inductive FileKind where
  | missing
  | directory
  | regular
  | other
  deriving DecidableEq, Repr

/-- The state of the filesystem during one validation run: the outcome of
`stat` for every path. -/
abbrev FileSystem := Str → FileKind

/-- `class ValidationError`: the message. -/
structure ValidationError where
  msg : Str
  deriving DecidableEq, Repr

/-- `toStringSizeT`: decimal text of a `size_t`. -/
def toStringSizeT (n : Nat) : Str := Nat.toDigits 10 n

/-- Conversion of an `int` argument to the `size_t` parameter of
`toStringSizeT`. -/
def intToSizeT (z : Int) : Nat := (z % 18446744073709551616).toNat

/-- `std::ostream << int`: signed decimal text. -/
def intToString (z : Int) : Str :=
  if z < 0 then '-' :: Nat.toDigits 10 z.natAbs else Nat.toDigits 10 z.natAbs

/-- `ConfigValidator::isValidPort`. -/
def isValidPort (p : Int) : Bool := decide (1 ≤ p) && decide (p ≤ 65535)

/-- `ConfigValidator::pathExists`. -/
def pathExists (fs : FileSystem) (p : Str) : Bool := fs p != FileKind.missing

/-- `ConfigValidator::isDir`. -/
def isDir (fs : FileSystem) (p : Str) : Bool :=
  if fs p = FileKind.missing then false else fs p == FileKind.directory

/-- `ConfigValidator::isFile`. -/
def isFile (fs : FileSystem) (p : Str) : Bool :=
  if fs p = FileKind.missing then false else fs p == FileKind.regular

/-- `ConfigValidator::joinPath`. -/
def joinPath (a b : Str) : Str :=
  if a.isEmpty then b
  else if b.isEmpty then a
  else if a.getD (a.length - 1) '\x00' = '/' then a ++ b
  else a ++ ['/'] ++ b

/-- `ConfigValidator::stripLeadingSlash`. -/
def stripLeadingSlash (p : Str) : Str :=
  if !p.isEmpty && p.getD 0 '\x00' == '/' then p.drop 1 else p

/-- `ConfigValidator::normalizeRoot`. -/
def normalizeRoot (base root : Str) : Str :=
  if base.isEmpty then root
  else if !root.isEmpty
      && (root.getD 0 '\x00' == '/'
          || (decide (root.length > 1) && root.getD 0 '\x00' == '.'
              && (root.getD 1 '\x00' == '/'
                  || (decide (root.length > 2) && root.getD 1 '\x00' == '.'
                      && root.getD 2 '\x00' == '/')))) then root
  else joinPath base root

/-- Text in front of every server-level message: `Server #<index>`. -/
def serverTag (serverIndex : Nat) : Str := "Server #".toList ++ toStringSizeT serverIndex

/-- The `for` loop of `ConfigValidator::validateErrorPages` over the map
entries in key order. -/
def validateErrorPagesLoop (fs : FileSystem) (effectiveRoot : Str) (serverIndex : Nat) :
    List (Int × Str) → Except ValidationError Unit
  | [] => .ok ()
  | e :: rest =>
    let code := e.1
    let rel := e.2
    let underRoot :=
      if !rel.isEmpty && rel.getD 0 '\x00' == '/' then
        joinPath effectiveRoot (stripLeadingSlash rel)
      else joinPath effectiveRoot rel
    if !pathExists fs underRoot || !isFile fs underRoot then
      .error { msg := serverTag serverIndex ++ ": error_page ".toList ++ intToString code
                 ++ " points to missing file: ".toList ++ underRoot }
    else validateErrorPagesLoop fs effectiveRoot serverIndex rest

/-- `ConfigValidator::validateErrorPages`. -/
def validateErrorPages (fs : FileSystem) (srv : ServerBlock) (effectiveRoot : Str)
    (serverIndex : Nat) : Except ValidationError Unit :=
  validateErrorPagesLoop fs effectiveRoot serverIndex srv.error_pages

/-- Text in front of every location-level message:
`Server #<index> location '<prefix>'`. -/
def locationTag (serverIndex : Nat) (loc : LocationBlock) : Str :=
  serverTag serverIndex ++ " location \x27".toList ++ loc.path_prefix ++ "\x27".toList

/-- The `for` loop of `ConfigValidator::validateLocations`. -/
def validateLocationsLoop (fs : FileSystem) (effectiveRoot : Str) (serverIndex : Nat) :
    List LocationBlock → Except ValidationError Unit
  | [] => .ok ()
  | loc :: rest =>
    let lroot := if loc.root.isEmpty then effectiveRoot else normalizeRoot effectiveRoot loc.root
    if !pathExists fs lroot || !isDir fs lroot then
      .error { msg := locationTag serverIndex loc
                 ++ ": root not found or not a directory: ".toList ++ lroot }
    else
      let up := loc.upload_store
      if !up.isEmpty then
        let upAbs := normalizeRoot lroot up
        if !pathExists fs upAbs || !isDir fs upAbs then
          .error { msg := locationTag serverIndex loc
                     ++ ": upload_store directory not found or not a directory: ".toList
                     ++ upAbs }
        else validateLocationsLoop fs effectiveRoot serverIndex rest
      else validateLocationsLoop fs effectiveRoot serverIndex rest

/-- `ConfigValidator::validateLocations`. -/
def validateLocations (fs : FileSystem) (srv : ServerBlock) (effectiveRoot : Str)
    (serverIndex : Nat) : Except ValidationError Unit :=
  validateLocationsLoop fs effectiveRoot serverIndex srv.locations

/-- The port loop of `ConfigValidator::validateServer`. -/
def validatePortsLoop (serverIndex : Nat) : List ListenEntry → Except ValidationError Unit
  | [] => .ok ()
  | e :: rest =>
    if !isValidPort e.port then
      .error { msg := serverTag serverIndex ++ ": invalid port ".toList
                 ++ toStringSizeT (intToSizeT e.port) }
    else validatePortsLoop serverIndex rest

/-- `ConfigValidator::validateServer`. -/
def validateServer (fs : FileSystem) (srv : ServerBlock) (serverIndex : Nat) (baseDir : Str) :
    Except ValidationError Unit :=
  if srv.listens.isEmpty then
    .error { msg := serverTag serverIndex ++ ": no \x27listen\x27 directives".toList }
  else
    match validatePortsLoop serverIndex srv.listens with
    | .error e => .error e
    | .ok _ =>
      let effectiveRoot := normalizeRoot baseDir srv.root
      if effectiveRoot.isEmpty then
        .error { msg := serverTag serverIndex ++ ": \x27root\x27 is empty".toList }
      else if !pathExists fs effectiveRoot || !isDir fs effectiveRoot then
        .error { msg := serverTag serverIndex
                   ++ ": root directory not found or not a directory: ".toList ++ effectiveRoot }
      else
        match validateErrorPages fs srv effectiveRoot serverIndex with
        | .error e => .error e
        | .ok _ => validateLocations fs srv effectiveRoot serverIndex

/-- The server loop of `ConfigValidator::validate`, from index `i` on. -/
def validateServersLoop (fs : FileSystem) (baseDir : Str) :
    Nat → List ServerBlock → Except ValidationError Unit
  | _, [] => .ok ()
  | i, srv :: rest =>
    match validateServer fs srv i baseDir with
    | .error e => .error e
    | .ok _ => validateServersLoop fs baseDir (i + 1) rest

/-- `ConfigValidator::validate`. -/
def validate (fs : FileSystem) (cfg : Config) (baseDir : Str) : Except ValidationError Unit :=
  if cfg.servers.isEmpty then
    .error { msg := "No servers defined in configuration".toList }
  else validateServersLoop fs baseDir 0 cfg.servers

/-! ## Definitions that follow the wording of the specification -/

/-- The multiplier the specification assigns to a unit suffix. -/
def unitMultiplier (suf : Str) : Nat :=
  if suf = ['K'] ∨ suf = ['k'] ∨ suf = ['K', 'B'] ∨ suf = ['k', 'b'] then 1024
  else if suf = ['M'] ∨ suf = ['m'] ∨ suf = ['M', 'B'] ∨ suf = ['m', 'b'] then 1024 * 1024
  else if suf = ['G'] ∨ suf = ['g'] ∨ suf = ['G', 'B'] ∨ suf = ['g', 'b'] then 1024 * 1024 * 1024
  else 1


/-- "Is an existing directory": `stat` succeeds and reports a directory. -/
def ExistingDir (fs : FileSystem) (p : Str) : Prop := fs p = FileKind.directory

/-- "Is an existing regular file": `stat` succeeds and reports a regular file. -/
def ExistingFile (fs : FileSystem) (p : Str) : Prop := fs p = FileKind.regular

/-- The effective root of a location under the effective root of its
server: the effective root of the server when the location declares none,
otherwise what `validateLocations` computes from the declared root. -/
def locationRoot (effectiveRoot : Str) (loc : LocationBlock) : Str :=
  if loc.root = [] then effectiveRoot else normalizeRoot effectiveRoot loc.root

/-- The file checked for an error page path: the path joined under the
effective root, a leading slash being stripped first. -/
def errorPageFile (effectiveRoot rel : Str) : Str :=
  joinPath effectiveRoot (stripLeadingSlash rel)

/-- Step 5 of the validation rules for one location. -/
def LocationOk (fs : FileSystem) (effectiveRoot : Str) (loc : LocationBlock) : Prop :=
  ExistingDir fs (locationRoot effectiveRoot loc)
  ∧ (loc.upload_store ≠ [] →
      ExistingDir fs (normalizeRoot (locationRoot effectiveRoot loc) loc.upload_store))

/-- Steps 1 to 4 of the validation rules for one server: the checks that do
not look at its locations. -/
def ServerLevelOk (fs : FileSystem) (baseDir : Str) (srv : ServerBlock) : Prop :=
  srv.listens ≠ []
  ∧ (∀ e ∈ srv.listens, 1 ≤ e.port ∧ e.port ≤ 65535)
  ∧ normalizeRoot baseDir srv.root ≠ []
  ∧ ExistingDir fs (normalizeRoot baseDir srv.root)
  ∧ (∀ e ∈ srv.error_pages, ExistingFile fs (errorPageFile (normalizeRoot baseDir srv.root) e.2))

/-- All validation rules for one server. -/
def ServerOk (fs : FileSystem) (baseDir : Str) (srv : ServerBlock) : Prop :=
  ServerLevelOk fs baseDir srv
  ∧ ∀ loc ∈ srv.locations, LocationOk fs (normalizeRoot baseDir srv.root) loc

/-- All validation rules for a configuration. -/
def ConfigOk (fs : FileSystem) (cfg : Config) (baseDir : Str) : Prop :=
  cfg.servers ≠ [] ∧ ∀ srv ∈ cfg.servers, ServerOk fs baseDir srv

/-- `needle` occurs in `hay` as a contiguous substring. -/
def Contains (hay needle : Str) : Prop := needle <:+: hay

/-! ## The directives of a block, as the parser meets them

The parser has no syntax tree: a block is the sequence of calls its loop
makes to the directive dispatcher.  The functions below record, for a run of
a block loop, the parser states at which those calls are made; the current
token of such a state is the keyword of the directive. -/

/-- The states at which the loop of `parseLocation` calls
`parseLocationDirective`, in order (the last one is the
directive that failed when the loop did not return). -/
def locationDirectiveStarts : Nat → LocationBlock → PState → List PState
  | 0, _, _ => []
  | n + 1, loc, st =>
    if st.cur.type ≠ T_RBRACE then
      if st.cur.type = T_EOF then []
      else
        match parseLocationDirective n loc st with
        | .ok loc1 st1 => st :: locationDirectiveStarts n loc1 st1
        | _ => [st]
    else []

/-- The states at which the loop of `parseServer` calls
`parseServerDirective`, in order. -/
def serverDirectiveStarts : Nat → ServerBlock → PState → List PState
  | 0, _, _ => []
  | n + 1, srv, st =>
    if st.cur.type ≠ T_RBRACE then
      if st.cur.type = T_EOF then []
      else
        match parseServerDirective n srv st with
        | .ok srv1 st1 => st :: serverDirectiveStarts n srv1 st1
        | _ => [st]
    else []

/-- The directive lists of the server blocks met by the loop of
`parseConfig`, one per call to `parseServer`, in order. -/
def serverBlockTraces : Nat → Config → PState → List (List PState)
  | 0, _, _ => []
  | n + 1, cfg, st =>
    if st.cur.type ≠ T_EOF then
      if st.cur.type = T_IDENT ∧ st.cur.text = "server".toList then
        match parseServer n st with
        | .ok srv st1 =>
          serverDirectiveStarts n {} (advance (advance st))
            :: serverBlockTraces n (cfg.addServer srv) st1
        | _ => [serverDirectiveStarts n {} (advance (advance st))]
      else []
    else []

/-- The directive keyword at a directive start. -/
def keyword (st : PState) : Str := st.cur.text

/-- The `(code, path)` pairs of the `error_page` directives among the given
directive starts: the code is `atoi` of the first argument token, the path is
the text of the second. -/
def errorPageDirectives (starts : List PState) : List (Int × Str) :=
  (starts.filter fun st => keyword st = "error_page".toList).map fun st =>
    (atoi (advance st).cur.text, (advance (advance st)).cur.text)

/-- The `(extension, interpreter)` pairs of the `cgi_pass` directives among
the given directive starts. -/
def cgiPassDirectives (starts : List PState) : List (Str × Str) :=
  (starts.filter fun st => keyword st = "cgi_pass".toList).map fun st =>
    ((advance st).cur.text, (advance (advance st)).cur.text)

/-- The value given to key `k` by the last pair with that key, if any. -/
def lastValue {κ ν : Type} [DecidableEq κ] (k : κ) (ds : List (κ × ν)) : Option ν :=
  ds.foldl (fun acc d => if d.1 = k then some d.2 else acc) none

/-- Runs `k` complete server blocks from `st`, as `k` rounds of the loop of
`parseConfig` do; `none` when one of them does not return normally. -/
def runServerBlocks (fuel : Nat) : Nat → PState → Option PState
  | 0, st => some st
  | k + 1, st =>
    if st.cur.type = T_IDENT ∧ st.cur.text = "server".toList then
      match parseServer fuel st with
      | .ok _ st1 => runServerBlocks fuel k st1
      | _ => none
    else none

/-- Runs `m` complete server directives from `st`, as `m` rounds of the loop
of `parseServer` do. -/
def runServerDirectives (fuel : Nat) : Nat → ServerBlock → PState → Option (ServerBlock × PState)
  | 0, srv, st => some (srv, st)
  | m + 1, srv, st =>
    if st.cur.type ≠ T_RBRACE ∧ st.cur.type ≠ T_EOF then
      match parseServerDirective fuel srv st with
      | .ok srv1 st1 => runServerDirectives fuel m srv1 st1
      | _ => none
    else none

/-- Runs `j` complete location directives from `st`, as `j` rounds of the
loop of `parseLocation` do. -/
def runLocationDirectives (fuel : Nat) :
    Nat → LocationBlock → PState → Option (LocationBlock × PState)
  | 0, loc, st => some (loc, st)
  | j + 1, loc, st =>
    if st.cur.type ≠ T_RBRACE ∧ st.cur.type ≠ T_EOF then
      match parseLocationDirective fuel loc st with
      | .ok loc1 st1 => runLocationDirectives fuel j loc1 st1
      | _ => none
    else none

/-- Number of newline characters in a text. -/
def newlineCount (s : Str) : Nat := s.count '\n'

/-- The representation invariant of a `std::map`: keys strictly increasing. -/
def KeysSorted {κ ν : Type} [LinearOrder κ] (m : List (κ × ν)) : Prop :=
  m.Pairwise fun a b => a.1 < b.1

/-- The map obtained from `m` by the assignments `m[k] = v` for the pairs of
`ds`, in order. -/
def assignAll {κ ν : Type} [LinearOrder κ] (m : List (κ × ν)) (ds : List (κ × ν)) :
    List (κ × ν) :=
  ds.foldl (fun acc d => mapAssign d.1 d.2 acc) m

/-- The outcome `r2` extends `r1`: when `r1` is a finished outcome (a return or
an error, not an exhausted budget), `r2` is the same outcome. -/
def Result.Extends {α : Type} (r1 r2 : Result α) : Prop :=
  r1 ≠ .outOfFuel → r2 = r1

/-- What the lexer satisfies throughout a run on the buffered source `src`:
it still holds `src`, and its line counter is one plus the number of newlines
among the characters read so far. -/
def LexLineInv (src : Str) (lx : Lexer) : Prop :=
  lx.src = src ∧ lx.line = 1 + newlineCount (src.take lx.pos)

/-- What the parser state satisfies throughout a run on the buffered source
`src`: the lexer invariant, and a current token of kind `T_EOF` carries the
line one plus the number of newlines of the whole of `src`. -/
def LineInv (src : Str) (st : PState) : Prop :=
  LexLineInv src st.lex ∧ (st.cur.type = T_EOF → st.cur.line = 1 + newlineCount src)

/-- The text `Lexer::load` buffers for a file content, in closed form: the
content itself, with a newline added at the end when the content is not
empty and does not end with one. -/
def bufferedText (content : Str) : Str :=
  if content = [] then []
  else if content.getLast? = some '\n' then content
  else content ++ ['\n']

/-- The text consists of white space and comments only; the flag tells
whether the text starts inside a comment (a comment runs from `#` to the next
newline, or to the end of the text). -/
def blankText : Bool → Str → Bool
  | _, [] => true
  | false, c :: r =>
    if isspace c then blankText false r
    else if c = '#' then blankText true r
    else false
  | true, c :: r => if c = '\n' then blankText false r else blankText true r

/-- The part of the buffered source the lexer has not read yet. -/
def Lexer.rest (lx : Lexer) : Str := lx.src.drop lx.pos

/-! ## Concrete inputs used to exercise the theorems -/

/-- A filesystem whose only entries are the directory `www` and the regular
file `www/404.html`. -/
def sampleFs : FileSystem := fun p =>
  if p = "www".toList then FileKind.directory
  else if p = "www/404.html".toList then FileKind.regular
  else FileKind.missing

/-- A location `/img` whose declared root `/nope` does not exist. -/
def sampleBadLocation : LocationBlock :=
  { path_prefix := "/img".toList, root := "/nope".toList }

/-- One server with root `www` and the location `sampleBadLocation`. -/
def sampleServerBadLocation : ServerBlock :=
  { listens := [⟨wildcardHost, 8080⟩], root := "www".toList, locations := [sampleBadLocation] }

/-- One server with root `www` whose page for status 500 is absent. -/
def sampleServerBadErrorPage : ServerBlock :=
  { listens := [⟨wildcardHost, 8080⟩], root := "www".toList,
    error_pages := [(404, "/404.html".toList), (500, "/500.html".toList)] }

/-- A configuration text with three locations: a `return` with a code only,
a `return` with a code and a target, and a location without `return`. -/
def sampleReturnSource : Str :=
  ("server \x7b\n  listen 127.0.0.1:8080;\n"
    ++ "  location /a \x7b return 301; \x7d\n"
    ++ "  location /b \x7b return 301 /new; \x7d\n"
    ++ "  location /c \x7b root www; \x7d\n\x7d\n").toList

/-- The parser state after `k` further calls of `advance`. -/
def advanceN (k : Nat) (st : PState) : PState := advance^[k] st

/-- A server block that names status 404 twice and maps the extension `.py`
twice. -/
def sampleDuplicateSource : Str :=
  ("server \x7b\n  error_page 404 /a.html;\n  error_page 500 /b.html;\n"
    ++ "  error_page 404 /c.html;\n  location /cgi \x7b\n"
    ++ "    cgi_pass .py /usr/bin/python2;\n    cgi_pass .py /usr/bin/python3;\n  \x7d\n\x7d\n").toList

/-- The location block of `sampleDuplicateSource` as the parser builds it. -/
def sampleDuplicateLocation : LocationBlock :=
  { path_prefix := "/cgi".toList, cgi_map := [(".py".toList, "/usr/bin/python3".toList)] }

/-- The server block of `sampleDuplicateSource` as the parser builds it. -/
def sampleDuplicateServer : ServerBlock :=
  { error_pages := [(404, "/c.html".toList), (500, "/b.html".toList)],
    locations := [sampleDuplicateLocation] }

/-- Two server blocks; the second one has no `listen` directive. -/
def sampleNoListenSource : Str :=
  ("server \x7b\n  listen 0.0.0.0:80;\n  root www;\n\x7d\n"
    ++ "server \x7b\n  root www;\n  server_name example.org;\n\x7d\n").toList

/-- The configuration the parser builds from `sampleNoListenSource`. -/
def sampleNoListenConfig : Config :=
  { servers := [
      { listens := [⟨"0.0.0.0".toList, 80⟩], root := "www".toList },
      { root := "www".toList, server_name := "example.org".toList }] }

/-- One complete server block, then a server block that is never closed;
the text has six newlines. -/
def sampleUnclosedServerSource : Str :=
  ("server \x7b\n  listen 1.2.3.4:80;\n\x7d\n"
    ++ "server \x7b\n  root www;\n  # end of file comes next\n").toList

/-- A server block in which a location block is never closed; the text has
four newlines. -/
def sampleUnclosedLocationSource : Str :=
  "server \x7b\n  root www;\n  location /x \x7b\n    autoindex on;\n".toList

/-- A filesystem with the directories `www` and `img` and nothing else; in
particular there is no `www/img`. -/
def sampleFsTwoDirs : FileSystem := fun p =>
  if p = "www".toList then FileKind.directory
  else if p = "img".toList then FileKind.directory
  else FileKind.missing

/-- One server with root `www` and a location `/` that declares the root
`img`. -/
def sampleServerLocationRoot : ServerBlock :=
  { listens := [⟨wildcardHost, 8080⟩], root := "www".toList,
    locations := [{ path_prefix := "/".toList, root := "img".toList }] }

/-- A server whose listen port text `4294967297` does not fit in an `int`. -/
def sampleOverflowPortSource : Str :=
  "server \x7b\n  listen 0.0.0.0:4294967297;\n  root www;\n\x7d\n".toList

/-- A server whose listen port text `80abc` has text after its digits. -/
def sampleTrailingPortSource : Str :=
  "server \x7b\n  listen 0.0.0.0:80abc;\n  root www;\n\x7d\n".toList

/-- A server whose listen port `70000` is out of range. -/
def sampleBigPortSource : Str :=
  "server \x7b\n  listen 0.0.0.0:70000;\n  root www;\n\x7d\n".toList

/-- One complete server block followed by a quoted `"server"` at top level. -/
def sampleTopLevelStringSource : Str :=
  "server \x7b\n  root www;\n\x7d\n\x22server\x22 \x7b\n\x7d\n".toList

/-- A text of white space and comments only. -/
def sampleBlankSource : Str := "\n  # nothing here\n\t\n# still nothing".toList

/-- A server block that holds the unknown directive `gzip`. -/
def sampleUnknownServerDirectiveSource : Str :=
  "server \x7b\n  root www;\n  gzip on;\n\x7d\n".toList

/-- A location block that holds a `listen` directive. -/
def sampleUnknownLocationDirectiveSource : Str :=
  "server \x7b\n  location / \x7b\n    autoindex on;\n    listen 80;\n  \x7d\n\x7d\n".toList

/-- A server block whose `index` directive is followed by the character `@`. -/
def sampleStuckSource : Str := "server \x7b\n  index @;\n\x7d\n".toList

/-- A source that ends inside a string. -/
def sampleUnterminatedSource : Str := "root \x22abc\n".toList

/-- A lexer about to read the text `s` on line 1. -/
def lexerAt (s : Str) : Lexer := { src := s, pos := 0, line := 1 }

/-- A server block with the same `listen` directive twice and another one
in between other directives. -/
def sampleTwoListensSource : Str :=
  "server \x7b\n  listen 0.0.0.0:80;\n  root www;\n  listen 0.0.0.0:80;\n  listen 127.0.0.1:81;\n\x7d\n".toList

/-- Two servers with two and one listen entries. -/
def sampleTwoServers : Config :=
  { servers := [{ listens := [⟨"a".toList, 1⟩, ⟨"b".toList, 2⟩] },
                { listens := [⟨"c".toList, 3⟩] }] }

/-- A server with two `index` directives and a location with `index`,
`methods` and `autoindex` directives. -/
def sampleListsSource : Str :=
  ("server \x7b\n  index a.html \x22b.html\x22;\n  root www;\n  index c.html;\n"
    ++ "  location / \x7b\n    index d.html e.html;\n    methods GET GET get;\n"
    ++ "    autoindex on;\n    autoindex off;\n  \x7d\n\x7d\n").toList

/-- Location blocks with `autoindex` arguments that are not the Identifier
`on` or `off`: `ON`, the Number `1`, and the String `"on"`. -/
def sampleAutoindexSource : Str :=
  ("server \x7b\n  location /a \x7b\n    autoindex ON;\n  \x7d\n"
    ++ "  location /b \x7b\n    autoindex 1;\n  \x7d\n"
    ++ "  location /c \x7b\n    autoindex \x22on\x22;\n  \x7d\n\x7d\n").toList

/-- A server block with a bare all-digit port. -/
def sampleBarePortSource : Str := "server \x7b\n  listen 8080;\n\x7d\n".toList

/-- A server block whose `error_page` code is not numeric. -/
def sampleErrorPageWordSource : Str :=
  "server \x7b\n  error_page abc /e.html;\n\x7d\n".toList

/-- A server block with a numeric `error_page` code. -/
def sampleErrorPageSource : Str :=
  "server \x7b\n  error_page 404 /e.html;\n\x7d\n".toList

/-- A server block whose `root` argument is a string that is never closed. -/
def sampleOpenStringSource : Str := "server \x7b\n  root \x22abc;\n\x7d\n".toList

/-- A `root` directive whose String argument spans two lines. -/
def sampleTwoLineStringSource : Str := "root \x22a\nb\x22;\n".toList

/-- A `root` directive without its `;`: the closing brace on the next line
stands in its place. -/
def sampleMissingSemiSource : Str := "server \x7b\n  root www\n\x7d\n".toList


/-- A configuration whose second server has no listen entry, a root that
does not exist and an error page; the first server is valid. -/
def sampleManyViolations : Config :=
  { servers := [{ listens := [⟨"0.0.0.0".toList, 80⟩], root := "www".toList },
                { listens := [], root := "nowhere".toList,
                  error_pages := [(404, "/404.html".toList)] }] }

/-- A server with a port out of range, a root that does not exist and a
location. -/
def samplePortAndRoot : Config :=
  { servers := [{ listens := [⟨"0.0.0.0".toList, 80⟩, ⟨"0.0.0.0".toList, 70000⟩,
                              ⟨"0.0.0.0".toList, 0⟩],
                  root := "nowhere".toList,
                  locations := [{ path_prefix := "/a".toList, root := "/missing".toList }] }] }

/-- A server that declares no root. -/
def sampleServerNoRoot : ServerBlock := { listens := [⟨"0.0.0.0".toList, 80⟩] }

/-- A server block that listens on port -1. -/
def sampleNegativePortSource : Str := "server \x7b\n  listen 0.0.0.0:-1;\n\x7d\n".toList

/-- A filesystem with the directory `www` and the regular files
`www/index.htm` and `www/home.html`. -/
def sampleFsIndex : FileSystem := fun p =>
  if p = "www".toList then FileKind.directory
  else if p = "www/index.htm".toList ∨ p = "www/home.html".toList then FileKind.regular
  else FileKind.missing

/-! ## Further definitions that follow the wording of the specification -/

/-- "Absolute or explicitly relative": the root starts with `/`, `./` or
`../`. -/
def rootedOrExplicit (root : Str) : Bool :=
  match root with
  | '/' :: _ => true
  | '.' :: '/' :: _ => true
  | '.' :: '.' :: '/' :: _ => true
  | _ => false

/-- Joining as the specification words it: `b` is put after `a` with exactly
one `/` between them unless `a` already ends with `/`; an empty `b` gives `a`
itself. -/
def joinWithSlash (a b : Str) : Str :=
  if b = [] then a
  else if a.getLast? = some '/' then a ++ b
  else a ++ '/' :: b

/-- The port part of a listen value: the text after its last `:`, or the
whole value when it has no `:`. -/
def portPart (s : Str) : Str :=
  match rfind ':' s with
  | none => s
  | some i => s.drop (i + 1)

/-- The directive keywords of a server block. -/
def serverKeywords : List Str :=
  ["listen".toList, "root".toList, "index".toList, "server_name".toList,
   "client_max_body_size".toList, "error_page".toList, "location".toList]

/-- The directive keywords of a location block. -/
def locationKeywords : List Str :=
  ["root".toList, "methods".toList, "autoindex".toList, "index".toList,
   "upload_store".toList, "return".toList, "cgi_pass".toList]

/-- The body of a string literal, read off the text that follows the opening
quote: the characters up to the first quote that is not taken as the
character after a backslash, each kept as it stands, and the text after that
quote; `none` when no such quote exists. -/
def stringBody : Str → Option (Str × Str)
  | [] => none
  | '\x22' :: t => some ([], t)
  | '\x5c' :: c :: t => (stringBody t).map fun p => ('\x5c' :: c :: p.1, p.2)
  | c :: t => (stringBody t).map fun p => (c :: p.1, p.2)

/-! ## Spec-side readings used by the claims on listen entries and lists -/

/-- The listen entries of the `listen` directives among the given directive
starts, in order: host and port are what `splitHostPort` reads from the
argument token. -/
def listenDirectives (starts : List PState) : List ListenEntry :=
  (starts.filter fun st => keyword st = "listen".toList).map fun st =>
    ⟨(splitHostPort (advance st).cur.text).1, (splitHostPort (advance st).cur.text).2⟩

/-- Number of listen entries of the servers declared before server `i`. -/
def listenOffset (cfg : Config) (i : Nat) : Nat :=
  ((cfg.servers.take i).map fun s => s.listens.length).sum

/-- The texts of the `k` tokens that start with the current token of `st`,
in order. -/
def argTexts (k : Nat) (st : PState) : List Str :=
  (List.range k).map fun i => (advanceN i st).cur.text

/-- The set obtained from `s` by inserting the elements of `xs` one after the
other. -/
def insertAll {κ : Type} [LinearOrder κ] (s : List κ) (xs : List κ) : List κ :=
  xs.foldl (fun acc x => setInsert x acc) s

/-- The 1-based line number of the character at position `p` of `src`: one
plus the number of newline characters before it. -/
def lineOfPos (src : Str) (p : Nat) : Nat := 1 + newlineCount (src.take p)

/-- The error `e` was raised with `s` as parser state: it carries the line of
the current token of `s`, and when its message is "Expected ';'" that token is
not a semicolon. -/
def ErrorAt (e : ParseError) (s : PState) : Prop :=
  e.line = s.cur.line ∧ (e.msg = "Expected ".toList ++ semiWhat → s.cur.type ≠ T_SEMI)

/-! ## The parser object across several parses

`Lexer::load` and `ConfigParser::parseFile` are methods of objects that may
have been used before; the definitions below take the state the object is in
when the method is called. -/

/-- `Lexer::load` called on a lexer in state `lx`, for a file that could be
opened, given its content: the three members are assigned. -/
def Lexer.loadOver (lx : Lexer) (content : Str) : Lexer :=
  { lx with src := readLines content.length content [], pos := 0, line := 1 }

/-- `ConfigParser::parseFile` called on a parser object in state `p`. -/
def parseFileOn (p : PState) (fuel : Nat) (content : Str) : Result Config :=
  parseConfig fuel (advance { p with lex := p.lex.loadOver content })

/-! ## Path resolution (`PathUtils.cpp`) -/

/-- `std::getline(ss, token, delim)`: the characters up to the next `delim`
(which is consumed and not stored) and the rest of the input; `none` when the
stream is already at its end. -/
def getlineDelim (delim : Char) (inp : Str) : Option (Str × Str) :=
  if inp.isEmpty then none
  else some (inp.takeWhile (fun c => c != delim), (inp.dropWhile (fun c => c != delim)).drop 1)

/-- The `while (std::getline(ss, token, delim)) parts.push_back(token)` loop
of `splitPath`; every round removes at least one character of a non-empty
input. -/
def splitPathLoop (delim : Char) : Nat → Str → List Str → List Str
  | 0, _, parts => parts
  | n + 1, inp, parts =>
    match getlineDelim delim inp with
    | none => parts
    | some r => splitPathLoop delim n r.2 (parts ++ [r.1])

/-- `splitPath`. -/
def splitPath (path : Str) (delim : Char) : List Str :=
  splitPathLoop delim path.length path []

/-- The segment loop of `resolvePath`, with the stack built so far. -/
def resolveSegments : List Str → List Str → List Str
  | [], stack => stack
  | seg :: rest, stack =>
    if seg.isEmpty || seg = ['.'] then resolveSegments rest stack
    else if seg = ['.', '.'] then
      resolveSegments rest (if !stack.isEmpty then stack.dropLast else stack)
    else resolveSegments rest (stack ++ [seg])

/-- `resolvePath`; the `std::runtime_error` thrown for an empty root is the
error outcome, with its message. -/
def resolvePath (root requestPath : Str) : Except Str Str :=
  if root.isEmpty then .error "resolvePath: root is empty".toList
  else
    let cleanRoot :=
      if !root.isEmpty && root.getD (root.length - 1) '\x00' == '/' then
        root.take (root.length - 1)
      else root
    let parts := splitPath requestPath '/'
    let stack := resolveSegments parts []
    .ok (stack.foldl (fun oss seg => oss ++ ['/'] ++ seg) cleanRoot)

/-! ## Directory requests (`DirectoryResolver.cpp`) -/

/-- `enum DirDecision`. -/
inductive DirDecision where
  | ServeIndexFile
  | ServeAutoIndex
  | Forbidden
  deriving DecidableEq, Repr

/-- `struct DirResolveResult`. -/
structure DirResolveResult where
  decision : DirDecision
  file_path : Str := []
  html : Str := []
  deriving DecidableEq, Repr

namespace DirectoryResolver

/-- The `joinPath` of `DirectoryResolver.cpp` (it has no case for an empty
second argument). -/
def joinPath (a b : Str) : Str :=
  if a.isEmpty then b
  else if a.getD (a.length - 1) '\x00' = '/' then a ++ b
  else a ++ ['/'] ++ b

/-- `fileExists`. -/
def fileExists (fs : FileSystem) (absPath : Str) : Bool :=
  if fs absPath = FileKind.missing then false else fs absPath == FileKind.regular

/-- `findIndexFile`: `some outPath` when it returns true. -/
def findIndexFile (fs : FileSystem) (dirAbsPath : Str) : List Str → Option Str
  | [] => none
  | name :: rest =>
    let p := joinPath dirAbsPath name
    if fileExists fs p then some p else findIndexFile fs dirAbsPath rest

/-- `resolveDirectoryRequest`; `generateAutoIndex`, which reads the
directory, is taken as a parameter. -/
def resolveDirectoryRequest (fs : FileSystem) (generateAutoIndex : Str → Str → Str)
    (dirAbsPath urlPath : Str) (indexList : List Str) (autoindexOn : Bool) :
    DirResolveResult :=
  match findIndexFile fs dirAbsPath indexList with
  | some idx => { decision := DirDecision.ServeIndexFile, file_path := idx }
  | none =>
    if autoindexOn then
      { decision := DirDecision.ServeAutoIndex, html := generateAutoIndex dirAbsPath urlPath }
    else { decision := DirDecision.Forbidden }

end DirectoryResolver

/-! ## The validation checks, one by one, in the order of the specification -/

/-- The message of the first failing check of a list of checks taken in
order, a check that passes being `none`. -/
def firstViolation : List (Option Str) → Option Str
  | [] => none
  | some m :: _ => some m
  | none :: rest => firstViolation rest

/-- The outcome of a validation run whose first failing check has message
`m`, or that has no failing check. -/
def outcomeOf : Option Str → Except ValidationError Unit
  | some m => .error { msg := m }
  | none => .ok ()

/-- The check of one listen port. -/
def portCheck (i : Nat) (e : ListenEntry) : Option Str :=
  if 1 ≤ e.port ∧ e.port ≤ 65535 then none
  else some (serverTag i ++ ": invalid port ".toList ++ toStringSizeT (intToSizeT e.port))

/-- The check of one error page under the effective root. -/
def errorPageCheck (fs : FileSystem) (effectiveRoot : Str) (i : Nat) (e : Int × Str) :
    Option Str :=
  if fs (errorPageFile effectiveRoot e.2) = FileKind.regular then none
  else some (serverTag i ++ ": error_page ".toList ++ intToString e.1
          ++ " points to missing file: ".toList ++ errorPageFile effectiveRoot e.2)

/-- The two checks of one location: its root, then its upload store. -/
def locationChecks (fs : FileSystem) (effectiveRoot : Str) (i : Nat) (loc : LocationBlock) :
    List (Option Str) :=
  [if fs (locationRoot effectiveRoot loc) = FileKind.directory then none
   else some (locationTag i loc ++ ": root not found or not a directory: ".toList
          ++ locationRoot effectiveRoot loc),
   if loc.upload_store = []
       ∨ fs (normalizeRoot (locationRoot effectiveRoot loc) loc.upload_store)
           = FileKind.directory then none
   else some (locationTag i loc
          ++ ": upload_store directory not found or not a directory: ".toList
          ++ normalizeRoot (locationRoot effectiveRoot loc) loc.upload_store)]

/-- The checks of server number `i`, in order: the zero-listen check, the
listen ports in declaration order, the empty-root check, the
root-is-a-directory check, the error pages in the order of the map, the
locations in declaration order. -/
def serverChecks (fs : FileSystem) (baseDir : Str) (i : Nat) (srv : ServerBlock) :
    List (Option Str) :=
  [if srv.listens = [] then some (serverTag i ++ ": no \x27listen\x27 directives".toList)
   else none]
  ++ srv.listens.map (portCheck i)
  ++ [if normalizeRoot baseDir srv.root = [] then
        some (serverTag i ++ ": \x27root\x27 is empty".toList)
      else none,
      if fs (normalizeRoot baseDir srv.root) = FileKind.directory then none
      else some (serverTag i ++ ": root directory not found or not a directory: ".toList
             ++ normalizeRoot baseDir srv.root)]
  ++ srv.error_pages.map (errorPageCheck fs (normalizeRoot baseDir srv.root) i)
  ++ (srv.locations.map (locationChecks fs (normalizeRoot baseDir srv.root) i)).flatten

/-- The checks of the servers of a list, in declaration order, the first one
having number `i`. -/
def serversChecks (fs : FileSystem) (baseDir : Str) : Nat → List ServerBlock → List (Option Str)
  | _, [] => []
  | i, srv :: rest => serverChecks fs baseDir i srv ++ serversChecks fs baseDir (i + 1) rest

/-- The outcome the specification gives to a validation run: the error for a
configuration without servers, otherwise the first failing check. -/
def expectedOutcome (fs : FileSystem) (cfg : Config) (baseDir : Str) :
    Except ValidationError Unit :=
  if cfg.servers = [] then .error { msg := "No servers defined in configuration".toList }
  else outcomeOf (firstViolation (serversChecks fs baseDir 0 cfg.servers))

/-- The segments of a request path in the words of the specification: the
request is split on the slash; empty segments and `.` are dropped; `..`
removes the segment kept last, and does nothing when none is kept. -/
def normalisedSegments (req : Str) : List Str :=
  (req.splitOn '/').foldl
    (fun kept s =>
      if s = [] ∨ s = ['.'] then kept
      else if s = ['.', '.'] then kept.dropLast
      else kept ++ [s])
    []

/-- The root with one trailing slash removed. -/
def stripOneSlash (root : Str) : Str :=
  if root.getLast? = some '/' then root.dropLast else root

/-- The resolved path in the words of the specification: the stripped root
followed by a slash and the segment, for every normalised segment. -/
def resolvePathSpec (root req : Str) : Str :=
  stripOneSlash root ++ ((normalisedSegments req).map (fun s => '/' :: s)).flatten

/-- The text is an interleaving of white space characters and complete
comments, in the words of the specification: a comment is `#`, then characters
other than the newline, then a newline. The flag tells whether the text starts
inside a comment; the text must end outside one. -/
def blankPrefix : Bool → Str → Bool
  | inComment, [] => !inComment
  | false, c :: r =>
    if isspace c then blankPrefix false r
    else if c = '#' then blankPrefix true r
    else false
  | true, c :: r => if c = '\n' then blankPrefix false r else blankPrefix true r

/-- The tokens returned by the first `n` calls of `Lexer::next`. -/
def tokenStream : Nat → Lexer → List Token
  | 0, _ => []
  | n + 1, lx => lx.next.1 :: tokenStream n lx.next.2

/-- The token with its line number increased by `d`. -/
def Token.shiftLine (d : Nat) (t : Token) : Token := { t with line := t.line + d }

/-- Two lexers have the same text left to read, and the line counter of the
first is `d` ahead of that of the second. -/
def SameRest (d : Nat) (a b : Lexer) : Prop := a.rest = b.rest ∧ a.line = b.line + d

/-- What a lexer routine has read: a text `w` such that the text left before
is `w` followed by the text left afterwards. -/
def Consumed (lx0 lx : Lexer) : Prop :=
  ∃ w : Str, lx0.rest = w ++ lx.rest ∧ lx.src = lx0.src ∧ lx.pos = lx0.pos + w.length


/-! ## The parser object when a routine returns or throws

A `throw` leaves the members `lex_` and `cur_` of the parser object as they
are at that moment.  The functions of this section give the parser state at
the moment a routine stops, by its normal return or by a `throw`; they follow
the routines of `ConfigParser.cpp` step by step and leave the configuration
data out where the flow of control does not depend on it.  Where a step budget
runs out the routine has not stopped yet, and the state given is the one the
loop had reached. -/

/-- The parser state when the routine with outcome `r` stops, for a routine
that goes on after a first part: `k` gives the state when the rest stops,
`atThrow` the state when the first part throws. -/
def Result.stopWith {α : Type} (r : Result α) (atThrow : PState) (k : α → PState → PState) :
    PState :=
  match r with
  | .ok a st => k a st
  | _ => atThrow

/-- The parser state when `expect` returns or throws: `accept` has advanced
when the kind matched and has left the state alone otherwise. -/
def expect_stop (t : TokType) (st : PState) : PState := (accept t st).2

/-- State when `dir_listen` stops. -/
def dir_listen_stop (st : PState) : PState :=
  let st1 := advance st
  if !isIdentOrString st1.cur then st1 else expect_stop T_SEMI (advance st1)

/-- State when `dir_root` stops. -/
def dir_root_stop (st : PState) : PState :=
  let st1 := advance st
  if !isIdentOrString st1.cur then st1 else expect_stop T_SEMI (advance st1)

/-- State when `dir_index` stops. -/
def dir_index_stop (fuel : Nat) (srv : ServerBlock) (st : PState) : PState :=
  let st1 := advance st
  if !isIdentOrString st1.cur then st1
  else (dir_index_loop fuel srv st1).stopWith st1 fun _ st2 => expect_stop T_SEMI st2

/-- State when `dir_server_name` stops. -/
def dir_server_name_stop (st : PState) : PState :=
  let st1 := advance st
  if !isIdentOrString st1.cur then st1 else expect_stop T_SEMI (advance st1)

/-- State when `dir_client_max_body_size` stops. -/
def dir_client_max_body_size_stop (st : PState) : PState :=
  let st1 := advance st
  if st1.cur.type ≠ T_IDENT ∧ st1.cur.type ≠ T_NUMBER then st1
  else expect_stop T_SEMI (advance st1)

/-- State when `dir_error_page` stops. -/
def dir_error_page_stop (st : PState) : PState :=
  let st1 := advance st
  if st1.cur.type ≠ T_NUMBER then st1
  else
    let st2 := advance st1
    if !isIdentOrString st2.cur then st2 else expect_stop T_SEMI (advance st2)

/-- State when `loc_root` stops. -/
def loc_root_stop (st : PState) : PState :=
  let st1 := advance st
  if !isIdentOrString st1.cur then st1 else expect_stop T_SEMI (advance st1)

/-- State when `loc_methods` stops. -/
def loc_methods_stop (fuel : Nat) (loc : LocationBlock) (st : PState) : PState :=
  let st1 := advance st
  if st1.cur.type ≠ T_IDENT then st1
  else (loc_methods_loop fuel loc st1).stopWith st1 fun _ st2 => expect_stop T_SEMI st2

/-- State when `loc_autoindex` stops. -/
def loc_autoindex_stop (st : PState) : PState :=
  let st1 := advance st
  if st1.cur.type ≠ T_IDENT then st1
  else if st1.cur.text = "on".toList then expect_stop T_SEMI (advance st1)
  else if st1.cur.text = "off".toList then expect_stop T_SEMI (advance st1)
  else st1

/-- State when `loc_index` stops. -/
def loc_index_stop (fuel : Nat) (loc : LocationBlock) (st : PState) : PState :=
  let st1 := advance st
  if !isIdentOrString st1.cur then st1
  else (loc_index_loop fuel loc st1).stopWith st1 fun _ st2 => expect_stop T_SEMI st2

/-- State when `loc_upload_store` stops. -/
def loc_upload_store_stop (st : PState) : PState :=
  let st1 := advance st
  if !isIdentOrString st1.cur then st1 else expect_stop T_SEMI (advance st1)

/-- State when `loc_return` stops. -/
def loc_return_stop (st : PState) : PState :=
  let st1 := advance st
  if st1.cur.type ≠ T_NUMBER ∧ st1.cur.type ≠ T_IDENT then st1
  else
    let st2 := advance st1
    if st2.cur.type = T_SEMI then advance st2
    else if !isIdentOrString st2.cur then st2
    else expect_stop T_SEMI (advance st2)

/-- State when `loc_cgi_pass` stops. -/
def loc_cgi_pass_stop (st : PState) : PState :=
  let st1 := advance st
  if st1.cur.type ≠ T_IDENT then st1
  else
    let st2 := advance st1
    if !isIdentOrString st2.cur then st2 else expect_stop T_SEMI (advance st2)

/-- State when `parseLocationDirective` stops. -/
def parseLocationDirective_stop (fuel : Nat) (loc : LocationBlock) (st : PState) : PState :=
  if st.cur.type ≠ T_IDENT then st
  else if st.cur.text = "root".toList then loc_root_stop st
  else if st.cur.text = "methods".toList then loc_methods_stop fuel loc st
  else if st.cur.text = "autoindex".toList then loc_autoindex_stop st
  else if st.cur.text = "index".toList then loc_index_stop fuel loc st
  else if st.cur.text = "upload_store".toList then loc_upload_store_stop st
  else if st.cur.text = "return".toList then loc_return_stop st
  else if st.cur.text = "cgi_pass".toList then loc_cgi_pass_stop st
  else st

/-- State when the loop of `parseLocation` stops. -/
def parseLocationLoop_stop : Nat → LocationBlock → PState → PState
  | 0, _, st => st
  | n + 1, loc, st =>
    if st.cur.type ≠ T_RBRACE then
      if st.cur.type = T_EOF then st
      else
        (parseLocationDirective n loc st).stopWith (parseLocationDirective_stop n loc st)
          fun loc1 st1 => parseLocationLoop_stop n loc1 st1
    else st

/-- State when `parseLocation` stops. -/
def parseLocation_stop (fuel : Nat) (pfx : Str) (st : PState) : PState :=
  parseLocationLoop_stop fuel (({} : LocationBlock).setPathPrefix pfx) st

/-- State when `dir_location` stops. -/
def dir_location_stop (fuel : Nat) (st : PState) : PState :=
  let st1 := advance st
  if !isIdentOrString st1.cur then st1
  else
    let pfx := st1.cur.text
    let st2 := advance st1
    (expect T_LBRACE lbraceWhat st2).stopWith (expect_stop T_LBRACE st2) fun _ st3 =>
      (parseLocation fuel pfx st3).stopWith (parseLocation_stop fuel pfx st3) fun _ st4 =>
        expect_stop T_RBRACE st4

/-- State when `parseServerDirective` stops. -/
def parseServerDirective_stop (fuel : Nat) (srv : ServerBlock) (st : PState) : PState :=
  if st.cur.type ≠ T_IDENT then st
  else if st.cur.text = "listen".toList then dir_listen_stop st
  else if st.cur.text = "root".toList then dir_root_stop st
  else if st.cur.text = "index".toList then dir_index_stop fuel srv st
  else if st.cur.text = "server_name".toList then dir_server_name_stop st
  else if st.cur.text = "client_max_body_size".toList then dir_client_max_body_size_stop st
  else if st.cur.text = "error_page".toList then dir_error_page_stop st
  else if st.cur.text = "location".toList then dir_location_stop fuel st
  else st

/-- State when the loop of `parseServer` stops. -/
def parseServerLoop_stop : Nat → ServerBlock → PState → PState
  | 0, _, st => st
  | n + 1, srv, st =>
    if st.cur.type ≠ T_RBRACE then
      if st.cur.type = T_EOF then st
      else
        (parseServerDirective n srv st).stopWith (parseServerDirective_stop n srv st)
          fun srv1 st1 => parseServerLoop_stop n srv1 st1
    else st

/-- State when `parseServer` stops. -/
def parseServer_stop (fuel : Nat) (st : PState) : PState :=
  let st1 := advance st
  (expect T_LBRACE lbraceWhat st1).stopWith (expect_stop T_LBRACE st1) fun _ st2 =>
    (parseServerLoop fuel {} st2).stopWith (parseServerLoop_stop fuel {} st2) fun _ st3 =>
      expect_stop T_RBRACE st3

/-- State when the loop of `parseConfig` stops. -/
def parseConfigLoop_stop : Nat → Config → PState → PState
  | 0, _, st => st
  | n + 1, cfg, st =>
    if st.cur.type ≠ T_EOF then
      if st.cur.type = T_IDENT ∧ st.cur.text = "server".toList then
        (parseServer n st).stopWith (parseServer_stop n st)
          fun srv st1 => parseConfigLoop_stop n (cfg.addServer srv) st1
      else st
    else st

/-- State when `parseConfig` stops. -/
def parseConfig_stop (fuel : Nat) (st : PState) : PState := parseConfigLoop_stop fuel {} st

/-- State of the parser object when `parseFile` stops, by its return or by a
`ParseError`, on a file that could be opened. -/
def parseFile_stop (fuel : Nat) (content : Str) : PState :=
  parseConfig_stop fuel (initState content)

/-- The routine with outcome `r` stops in the state `s`: a normal return
hands back `s`, and an error was raised with `s` as parser state. -/
def StopsAt {α : Type} (r : Result α) (s : PState) : Prop :=
  (∀ a st1, r = .ok a st1 → s = st1) ∧ (∀ e, r = .err e → ErrorAt e s)


/-! ## The grammar of the configuration language, in the words of the specification

```
Config    := Server*
Server    := "server" "{" ServerDirective* "}"
ServerDirective := listen | root | index | server_name
                  | client_max_body_size | error_page | location
location  := "location" PathToken "{" LocationDirective* "}"
LocationDirective := root | methods | autoindex | index
                    | upload_store | return | cgi_pass
```
with the kinds of the arguments given by the table of directive argument
contracts.  A source is syntactically valid when its token sequence is the
token sequence of a list of server blocks written in this grammar. -/

/-- A token as the grammar sees it: its kind and its text. -/
abbrev Lexeme := TokType × Str

/-- The kind and the text of a token. -/
def Token.lexeme (t : Token) : Lexeme := (t.type, t.text)

/-- The kinds and texts of the tokens returned by the first `n` calls of
`Lexer::next`. -/
def lexemes (n : Nat) (lx : Lexer) : List Lexeme := (tokenStream n lx).map Token.lexeme

/-- An argument of kind Identifier or String. -/
def Lexeme.isPath (a : Lexeme) : Bool := a.1 = T_IDENT || a.1 = T_STRING

/-- An Identifier token with the given text: a keyword. -/
def kw (s : String) : Lexeme := (T_IDENT, s.toList)

/-- The token `;`. -/
def semiLexeme : Lexeme := (T_SEMI, [';'])

/-- The token `{`. -/
def lbraceLexeme : Lexeme := (T_LBRACE, ['\x7b'])

/-- The token `}`. -/
def rbraceLexeme : Lexeme := (T_RBRACE, ['\x7d'])

/-- The token at the end of the input. -/
def eofLexeme : Lexeme := (T_EOF, [])

/-- A location directive as it is written: the keyword is given by the
constructor, the fields are the argument tokens. -/
inductive LocationDirectiveForm where
  | root (path : Lexeme)
  | methods (names : List Lexeme)
  | autoindex (value : Lexeme)
  | index (files : List Lexeme)
  | uploadStore (path : Lexeme)
  | redirect (code : Lexeme) (target : Option Lexeme)
  | cgiPass (ext interp : Lexeme)
  deriving DecidableEq, Repr

/-- A server directive as it is written. -/
inductive ServerDirectiveForm where
  | listen (addr : Lexeme)
  | root (path : Lexeme)
  | index (files : List Lexeme)
  | serverName (name : Lexeme)
  | clientMaxBodySize (size : Lexeme)
  | errorPage (code path : Lexeme)
  | location (pfx : Lexeme) (body : List LocationDirectiveForm)
  deriving DecidableEq, Repr

/-- The argument contract of a location directive (table of section 4.2). -/
def LocationDirectiveForm.wellFormed : LocationDirectiveForm → Bool
  | .root p => p.isPath
  | .methods ns => !ns.isEmpty && ns.all fun a => a.1 = T_IDENT
  | .autoindex v => v = kw "on" || v = kw "off"
  | .index fs => !fs.isEmpty && fs.all Lexeme.isPath
  | .uploadStore p => p.isPath
  | .redirect c none => c.1 = T_NUMBER || c.1 = T_IDENT
  | .redirect c (some t) => (c.1 = T_NUMBER || c.1 = T_IDENT) && t.isPath
  | .cgiPass e i => e.1 = T_IDENT && i.isPath

/-- The tokens of a location directive: keyword, arguments, `;`. -/
def LocationDirectiveForm.tokens : LocationDirectiveForm → List Lexeme
  | .root p => [kw "root", p, semiLexeme]
  | .methods ns => kw "methods" :: ns ++ [semiLexeme]
  | .autoindex v => [kw "autoindex", v, semiLexeme]
  | .index fs => kw "index" :: fs ++ [semiLexeme]
  | .uploadStore p => [kw "upload_store", p, semiLexeme]
  | .redirect c none => [kw "return", c, semiLexeme]
  | .redirect c (some t) => [kw "return", c, t, semiLexeme]
  | .cgiPass e i => [kw "cgi_pass", e, i, semiLexeme]

/-- The tokens of the directives of a location block, one after the other. -/
def locationBodyTokens (body : List LocationDirectiveForm) : List Lexeme :=
  (body.map LocationDirectiveForm.tokens).flatten

/-- The argument contract of a server directive (table of section 4.2). -/
def ServerDirectiveForm.wellFormed : ServerDirectiveForm → Bool
  | .listen a => a.isPath
  | .root p => p.isPath
  | .index fs => !fs.isEmpty && fs.all Lexeme.isPath
  | .serverName n => n.isPath
  | .clientMaxBodySize s => s.1 = T_IDENT || s.1 = T_NUMBER
  | .errorPage c p => c.1 = T_NUMBER && p.isPath
  | .location p body => p.isPath && body.all LocationDirectiveForm.wellFormed

/-- The tokens of a server directive: keyword, arguments, and `;` or, for
`location`, the block in braces. -/
def ServerDirectiveForm.tokens : ServerDirectiveForm → List Lexeme
  | .listen a => [kw "listen", a, semiLexeme]
  | .root p => [kw "root", p, semiLexeme]
  | .index fs => kw "index" :: fs ++ [semiLexeme]
  | .serverName n => [kw "server_name", n, semiLexeme]
  | .clientMaxBodySize s => [kw "client_max_body_size", s, semiLexeme]
  | .errorPage c p => [kw "error_page", c, p, semiLexeme]
  | .location p body =>
    kw "location" :: p :: lbraceLexeme :: locationBodyTokens body ++ [rbraceLexeme]

/-- The directive is a `listen` directive. -/
def ServerDirectiveForm.isListen : ServerDirectiveForm → Bool
  | .listen _ => true
  | _ => false

/-- The tokens of the directives of a server block, one after the other. -/
def serverBodyTokens (body : List ServerDirectiveForm) : List Lexeme :=
  (body.map ServerDirectiveForm.tokens).flatten

/-- The tokens of a server block: `server`, `{`, the directives, `}`. -/
def serverTokens (body : List ServerDirectiveForm) : List Lexeme :=
  kw "server" :: lbraceLexeme :: serverBodyTokens body ++ [rbraceLexeme]

/-- The tokens of a configuration: the server blocks, then the end of the
input. -/
def configTokens (blocks : List (List ServerDirectiveForm)) : List Lexeme :=
  (blocks.map serverTokens).flatten ++ [eofLexeme]

/-- The current token of the parser and the tokens the following calls of
`advance` bring are the given ones. -/
def Reads : PState → List Lexeme → Prop
  | _, [] => True
  | st, t :: ts => st.cur.lexeme = t ∧ Reads (advance st) ts

/-- The server blocks of `sampleNoListenSource` as they are written. -/
def sampleNoListenBlocks : List (List ServerDirectiveForm) :=
  [[.listen (T_IDENT, "0.0.0.0:80".toList), .root (T_IDENT, "www".toList)],
   [.root (T_IDENT, "www".toList), .serverName (T_IDENT, "example.org".toList)]]

/-! # Theorems -/

set_option maxRecDepth 100000

theorem not_dir_check (fs : FileSystem) (p : Str) :
    (!pathExists fs p || !isDir fs p) = true ↔ ¬ ExistingDir fs p := by
  unfold pathExists isDir ExistingDir
  cases h : fs p <;> simp

theorem not_file_check (fs : FileSystem) (p : Str) :
    (!pathExists fs p || !isFile fs p) = true ↔ ¬ ExistingFile fs p := by
  unfold pathExists isFile ExistingFile
  cases h : fs p <;> simp

theorem isEmpty_eq_true_iff (s : Str) : s.isEmpty = true ↔ s = [] := by
  cases s <;> simp

theorem errorPage_underRoot (effectiveRoot rel : Str) :
    (if (!rel.isEmpty && rel.getD 0 '\x00' == '/') = true then
        joinPath effectiveRoot (stripLeadingSlash rel)
      else joinPath effectiveRoot rel) = errorPageFile effectiveRoot rel := by
  unfold errorPageFile
  split
  · rfl
  · rename_i h
    unfold stripLeadingSlash
    rw [if_neg h]

theorem validateErrorPagesLoop_ok_iff (fs : FileSystem) (root : Str) (i : Nat)
    (l : List (Int × Str)) :
    validateErrorPagesLoop fs root i l = .ok ()
      ↔ ∀ e ∈ l, ExistingFile fs (errorPageFile root e.2) := by
  induction l with
  | nil => simp [validateErrorPagesLoop]
  | cons e r ih =>
    unfold validateErrorPagesLoop
    simp only [errorPage_underRoot]
    by_cases h : ExistingFile fs (errorPageFile root e.2)
    · rw [if_neg (by rw [not_file_check]; exact not_not.mpr h), ih]
      simp [h]
    · rw [if_pos ((not_file_check _ _).mpr h)]
      simp [h]

theorem lroot_eq (effectiveRoot : Str) (loc : LocationBlock) :
    (if loc.root.isEmpty = true then effectiveRoot else normalizeRoot effectiveRoot loc.root)
      = locationRoot effectiveRoot loc := by
  unfold locationRoot
  simp only [isEmpty_eq_true_iff]

theorem validateLocationsLoop_ok_iff (fs : FileSystem) (root : Str) (i : Nat)
    (l : List LocationBlock) :
    validateLocationsLoop fs root i l = .ok () ↔ ∀ loc ∈ l, LocationOk fs root loc := by
  induction l with
  | nil => simp [validateLocationsLoop]
  | cons loc r ih =>
    unfold validateLocationsLoop
    simp only [lroot_eq, List.forall_mem_cons]
    by_cases h : ExistingDir fs (locationRoot root loc)
    · rw [if_neg (by rw [not_dir_check]; exact not_not.mpr h)]
      by_cases hu : loc.upload_store = []
      · simp [hu, h, ih, LocationOk]
      · have hu2 : (!loc.upload_store.isEmpty) = true := by
          cases hx : loc.upload_store <;> simp_all
        rw [if_pos hu2]
        by_cases h2 : ExistingDir fs
            (normalizeRoot (locationRoot root loc) loc.upload_store)
        · rw [if_neg (by rw [not_dir_check]; exact not_not.mpr h2), ih]
          simp [h, h2, LocationOk]
        · rw [if_pos ((not_dir_check _ _).mpr h2)]
          simp [h, h2, hu, LocationOk]
    · rw [if_pos ((not_dir_check _ _).mpr h)]
      simp [h, LocationOk]

theorem validatePortsLoop_ok_iff (i : Nat) (l : List ListenEntry) :
    validatePortsLoop i l = .ok () ↔ ∀ e ∈ l, 1 ≤ e.port ∧ e.port ≤ 65535 := by
  induction l with
  | nil => simp [validatePortsLoop]
  | cons e r ih =>
    unfold validatePortsLoop
    by_cases h : 1 ≤ e.port ∧ e.port ≤ 65535
    · have : isValidPort e.port = true := by simp [isValidPort, h.1, h.2]
      simp [this, ih, h]
    · have : isValidPort e.port = false := by
        simp only [isValidPort, Bool.and_eq_false_iff, decide_eq_false_iff_not]
        by_cases h1 : 1 ≤ e.port
        · exact Or.inr (fun h2 => h ⟨h1, h2⟩)
        · exact Or.inl h1
      simp [this, h]

theorem validateServer_ok_iff (fs : FileSystem) (srv : ServerBlock) (i : Nat) (base : Str) :
    validateServer fs srv i base = .ok () ↔ ServerOk fs base srv := by
  unfold validateServer ServerOk ServerLevelOk validateErrorPages validateLocations
  by_cases h1 : srv.listens = []
  · simp [h1]
  · have h1e : srv.listens.isEmpty = false := by
      cases hx : srv.listens <;> simp_all
    simp only [h1e, Bool.false_eq_true, if_false]
    by_cases h2 : ∀ e ∈ srv.listens, 1 ≤ e.port ∧ e.port ≤ 65535
    · have hp := (validatePortsLoop_ok_iff i srv.listens).mpr h2
      rw [hp]
      simp only
      by_cases h3 : normalizeRoot base srv.root = []
      · simp [h3]
      · have h3e : (normalizeRoot base srv.root).isEmpty = false := by
          cases hx : normalizeRoot base srv.root <;> simp_all
        simp only [h3e, Bool.false_eq_true, if_false]
        by_cases h4 : ExistingDir fs (normalizeRoot base srv.root)
        · rw [if_neg (by rw [not_dir_check]; exact not_not.mpr h4)]
          by_cases h5 : ∀ e ∈ srv.error_pages,
              ExistingFile fs (errorPageFile (normalizeRoot base srv.root) e.2)
          · rw [(validateErrorPagesLoop_ok_iff fs _ i _).mpr h5]
            simp only
            rw [validateLocationsLoop_ok_iff]
            exact ⟨fun h => ⟨⟨h1, h2, h3, h4, h5⟩, h⟩, fun h => h.2⟩
          · have hne : validateErrorPagesLoop fs (normalizeRoot base srv.root) i srv.error_pages
                ≠ .ok () := fun h => h5 ((validateErrorPagesLoop_ok_iff fs _ i _).mp h)
            cases hx : validateErrorPagesLoop fs (normalizeRoot base srv.root) i srv.error_pages
            · simp only
              constructor
              · intro h; cases h
              · intro h; exact absurd h.1.2.2.2.2 h5
            · exact absurd hx hne
        · rw [if_pos ((not_dir_check _ _).mpr h4)]
          constructor
          · intro h; cases h
          · intro h; exact absurd h.1.2.2.2.1 h4
    · have hne : validatePortsLoop i srv.listens ≠ .ok () :=
        fun h => h2 ((validatePortsLoop_ok_iff i _).mp h)
      cases hx : validatePortsLoop i srv.listens
      · simp only
        constructor
        · intro h; cases h
        · intro h; exact absurd h.1.2.1 h2
      · exact absurd hx hne

theorem validateServersLoop_ok_iff (fs : FileSystem) (base : Str) (i : Nat)
    (l : List ServerBlock) :
    validateServersLoop fs base i l = .ok () ↔ ∀ srv ∈ l, ServerOk fs base srv := by
  induction l generalizing i with
  | nil => simp [validateServersLoop]
  | cons s r ih =>
    unfold validateServersLoop
    by_cases h : ServerOk fs base s
    · rw [(validateServer_ok_iff fs s i base).mpr h]
      simp only
      rw [ih]
      simp [h]
    · have hne : validateServer fs s i base ≠ .ok () :=
        fun hx => h ((validateServer_ok_iff fs s i base).mp hx)
      cases hx : validateServer fs s i base
      · simp only
        constructor
        · intro h2; cases h2
        · intro h2; exact absurd (h2 s (List.mem_cons_self _ _)) h
      · exact absurd hx hne

theorem validate_ok_iff_configOk (fs : FileSystem) (cfg : Config) (base : Str) :
    validate fs cfg base = .ok () ↔ ConfigOk fs cfg base := by
  unfold validate ConfigOk
  by_cases h : cfg.servers = []
  · simp [h]
  · have he : cfg.servers.isEmpty = false := by
      cases hx : cfg.servers <;> simp_all
    simp only [he, Bool.false_eq_true, if_false]
    rw [validateServersLoop_ok_iff]
    exact ⟨fun hx => ⟨h, hx⟩, fun hx => hx.2⟩

theorem validate_error_of_not_ok (fs : FileSystem) (cfg : Config) (base : Str)
    (h : ¬ ConfigOk fs cfg base) : ∃ e, validate fs cfg base = .error e := by
  cases hx : validate fs cfg base with
  | error e => exact ⟨e, rfl⟩
  | ok u =>
    cases u
    exact absurd ((validate_ok_iff_configOk fs cfg base).mp hx) h

/-- Claim C8: `validate` succeeds exactly when the configuration has at least
one server and every server has a listen entry, only ports in [1, 65535], a
non-empty effective root that is an existing directory, only error pages that
are existing regular files under that root, and only locations whose
effective root is an existing directory and whose upload store, when set,
resolves to an existing directory; in every other case it fails with a
`ValidationError`. -/
theorem validate_succeeds_iff (fs : FileSystem) (cfg : Config) (baseDir : Str) :
    (validate fs cfg baseDir = .ok () ↔ ConfigOk fs cfg baseDir)
    ∧ (¬ ConfigOk fs cfg baseDir → ∃ e, validate fs cfg baseDir = .error e) :=
  ⟨validate_ok_iff_configOk fs cfg baseDir, validate_error_of_not_ok fs cfg baseDir⟩

theorem validateServersLoop_append (fs : FileSystem) (base : Str) (i : Nat)
    (pre : List ServerBlock) (srv : ServerBlock) (post : List ServerBlock)
    (hpre : ∀ s ∈ pre, ServerOk fs base s) :
    validateServersLoop fs base i (pre ++ srv :: post)
      = validateServersLoop fs base (i + pre.length) (srv :: post) := by
  induction pre generalizing i with
  | nil => rfl
  | cons s r ih =>
    have hs : validateServer fs s i base = .ok () :=
      (validateServer_ok_iff fs s i base).mpr (hpre s (List.mem_cons_self _ _))
    have hr : ∀ t ∈ r, ServerOk fs base t := fun t ht => hpre t (List.mem_cons_of_mem _ ht)
    rw [List.cons_append, validateServersLoop, hs]
    simp only
    rw [ih (i + 1) hr, List.length_cons]
    congr 1
    omega

theorem validateLocationsLoop_append (fs : FileSystem) (root : Str) (i : Nat)
    (lpre : List LocationBlock) (rest : List LocationBlock)
    (hpre : ∀ l ∈ lpre, LocationOk fs root l) :
    validateLocationsLoop fs root i (lpre ++ rest) = validateLocationsLoop fs root i rest := by
  induction lpre with
  | nil => rfl
  | cons l r ih =>
    have hl : LocationOk fs root l := hpre l (List.mem_cons_self _ _)
    have hr : ∀ t ∈ r, LocationOk fs root t := fun t ht => hpre t (List.mem_cons_of_mem _ ht)
    have h1 : validateLocationsLoop fs root i (l :: (r ++ rest))
        = validateLocationsLoop fs root i (r ++ rest) := by
      obtain ⟨hd, hu⟩ := hl
      rw [validateLocationsLoop]
      simp only [lroot_eq]
      rw [if_neg (by rw [not_dir_check]; exact not_not.mpr hd)]
      by_cases hx : l.upload_store = []
      · simp [hx]
      · have hu2 : (!l.upload_store.isEmpty) = true := by
          cases hy : l.upload_store <;> simp_all
        rw [if_pos hu2, if_neg (by rw [not_dir_check]; exact not_not.mpr (hu hx))]
    rw [List.cons_append, h1, ih hr]

theorem validateServer_of_serverLevelOk (fs : FileSystem) (srv : ServerBlock) (i : Nat)
    (base : Str) (h : ServerLevelOk fs base srv) :
    validateServer fs srv i base
      = validateLocationsLoop fs (normalizeRoot base srv.root) i srv.locations := by
  obtain ⟨h1, h2, h3, h4, h5⟩ := h
  have h1e : srv.listens.isEmpty = false := by
    cases hx : srv.listens <;> simp_all
  have h3e : (normalizeRoot base srv.root).isEmpty = false := by
    cases hx : normalizeRoot base srv.root <;> simp_all
  unfold validateServer validateErrorPages validateLocations
  simp only [h1e, Bool.false_eq_true, if_false, (validatePortsLoop_ok_iff i srv.listens).mpr h2,
    h3e]
  rw [if_neg (by rw [not_dir_check]; exact not_not.mpr h4),
    (validateErrorPagesLoop_ok_iff fs _ i _).mpr h5]

theorem validateLocationsLoop_bad_root (fs : FileSystem) (root : Str) (i : Nat)
    (loc : LocationBlock) (rest : List LocationBlock)
    (hbad : ¬ ExistingDir fs (locationRoot root loc)) :
    validateLocationsLoop fs root i (loc :: rest)
      = .error { msg := locationTag i loc ++ ": root not found or not a directory: ".toList
                   ++ locationRoot root loc } := by
  unfold validateLocationsLoop
  simp only [lroot_eq]
  rw [if_pos ((not_dir_check _ _).mpr hbad)]

/-- Claim C9: when all servers before `srv` pass, the server-level checks of
`srv` pass, all locations of `srv` before `loc` pass and the effective root of
`loc` is not an existing directory, `validate` fails with the message
`Server #<index> location '<prefix>': root not found or not a directory: <root>`,
which contains the 0-based server index, the path prefix of the location and
the offending path. -/
theorem validate_location_root_message (fs : FileSystem) (cfg : Config) (baseDir : Str)
    (pre post : List ServerBlock) (srv : ServerBlock)
    (lpre lpost : List LocationBlock) (loc : LocationBlock)
    (hcfg : cfg.servers = pre ++ srv :: post)
    (hpre : ∀ s ∈ pre, ServerOk fs baseDir s)
    (hsrv : ServerLevelOk fs baseDir srv)
    (hlocs : srv.locations = lpre ++ loc :: lpost)
    (hlpre : ∀ l ∈ lpre, LocationOk fs (normalizeRoot baseDir srv.root) l)
    (hbad : ¬ ExistingDir fs (locationRoot (normalizeRoot baseDir srv.root) loc)) :
    ∃ e : ValidationError,
      validate fs cfg baseDir = .error e
      ∧ e.msg = "Server #".toList ++ toStringSizeT pre.length ++ " location \x27".toList
          ++ loc.path_prefix ++ "\x27: root not found or not a directory: ".toList
          ++ locationRoot (normalizeRoot baseDir srv.root) loc
      ∧ Contains e.msg (toStringSizeT pre.length)
      ∧ Contains e.msg loc.path_prefix
      ∧ Contains e.msg (locationRoot (normalizeRoot baseDir srv.root) loc) := by
  have hne : cfg.servers.isEmpty = false := by rw [hcfg]; cases pre <;> rfl
  have hv : validate fs cfg baseDir
      = .error { msg := locationTag pre.length loc
                   ++ ": root not found or not a directory: ".toList
                   ++ locationRoot (normalizeRoot baseDir srv.root) loc } := by
    unfold validate
    simp only [hne, Bool.false_eq_true, if_false]
    rw [hcfg, validateServersLoop_append fs baseDir 0 pre srv post hpre, validateServersLoop,
      validateServer_of_serverLevelOk fs srv _ baseDir hsrv, hlocs,
      validateLocationsLoop_append fs _ _ lpre _ hlpre,
      validateLocationsLoop_bad_root fs _ _ loc lpost hbad]
    simp
  refine ⟨_, hv, ?_, ?_, ?_, ?_⟩
  · simp [locationTag, serverTag, List.append_assoc]
  · exact ⟨"Server #".toList, " location \x27".toList ++ loc.path_prefix ++ "\x27".toList
      ++ ": root not found or not a directory: ".toList
      ++ locationRoot (normalizeRoot baseDir srv.root) loc,
      by simp [locationTag, serverTag, List.append_assoc]⟩
  · exact ⟨"Server #".toList ++ toStringSizeT pre.length ++ " location \x27".toList,
      "\x27".toList ++ ": root not found or not a directory: ".toList
      ++ locationRoot (normalizeRoot baseDir srv.root) loc,
      by simp [locationTag, serverTag, List.append_assoc]⟩
  · exact ⟨locationTag pre.length loc ++ ": root not found or not a directory: ".toList, [],
      by simp⟩

theorem validate_location_root_message_witness :
    validate sampleFs { servers := [sampleServerBadLocation] } []
      = .error { msg :=
          "Server #0 location \x27/img\x27: root not found or not a directory: /nope".toList } := by
  obtain ⟨e, hv, hm, _⟩ := validate_location_root_message sampleFs
    { servers := [sampleServerBadLocation] } [] [] [] sampleServerBadLocation [] []
    sampleBadLocation rfl (by simp)
    (by unfold ServerLevelOk ExistingDir ExistingFile; decide) rfl (by simp)
    (by unfold ExistingDir; decide)
  rw [hv]
  cases e
  simp only at hm
  rw [hm]
  rfl

/-- Claim C10: a configuration that contains a server with an error page
whose file, resolved under the effective root of that server, is not an
existing regular file fails validation with a `ValidationError`, for every
base directory and filesystem. -/
theorem validate_missing_error_page (fs : FileSystem) (cfg : Config) (baseDir : Str)
    (srv : ServerBlock) (e : Int × Str)
    (hsrv : srv ∈ cfg.servers) (he : e ∈ srv.error_pages)
    (hbad : ¬ ExistingFile fs (errorPageFile (normalizeRoot baseDir srv.root) e.2)) :
    ∃ err : ValidationError, validate fs cfg baseDir = .error err :=
  validate_error_of_not_ok fs cfg baseDir
    (fun hok => hbad ((hok.2 srv hsrv).1.2.2.2.2 e he))

theorem validate_missing_error_page_witness :
    (validate sampleFs { servers := [sampleServerBadErrorPage] } []).isOk = false := by
  obtain ⟨e, hv⟩ := validate_missing_error_page sampleFs
    { servers := [sampleServerBadErrorPage] } [] sampleServerBadErrorPage
    (500, "/500.html".toList) (by simp) (by simp [sampleServerBadErrorPage])
    (by unfold ExistingFile; decide)
  rw [hv]
  rfl

theorem isspace_of_isdigit {c : Char} (h : isdigit c = true) : isspace c = false := by
  rw [Bool.eq_false_iff]
  intro hs
  simp only [isspace, Bool.or_eq_true, beq_iff_eq] at hs
  rcases hs with ((((h1 | h1) | h1) | h1) | h1) | h1 <;> subst h1 <;> revert h <;> decide

theorem takeSign_of_isdigit {c : Char} (r : Str) (h : isdigit c = true) :
    takeSign (c :: r) = (false, c :: r) := by
  by_cases h1 : c = '-'
  · subst h1; exact absurd h (by decide)
  · by_cases h2 : c = '+'
    · subst h2; exact absurd h (by decide)
    · unfold takeSign
      split
      · rename_i heq; exact absurd (List.cons.inj heq).1 h1
      · rename_i heq; exact absurd (List.cons.inj heq).1 h2
      · rfl

theorem takeWhile_eq_self_of_all {p : Char → Bool} {s : Str} (h : s.all p = true) :
    s.takeWhile p = s := by
  induction s with
  | nil => rfl
  | cons c r ih =>
    simp only [List.all_cons, Bool.and_eq_true] at h
    simp [List.takeWhile_cons, h.1, ih h.2]

theorem strtol10_digits {p : Str} (hd : p.all isdigit = true)
    (hv : decVal p ≤ 9223372036854775807) : strtol10 p = (decVal p : Int) := by
  cases p with
  | nil => decide
  | cons c r =>
    have hc : isdigit c = true := by
      simp only [List.all_cons, Bool.and_eq_true] at hd; exact hd.1
    have h1 : (c :: r).dropWhile isspace = c :: r := by
      simp [List.dropWhile_cons, isspace_of_isdigit hc]
    unfold strtol10
    simp only [h1, takeSign_of_isdigit r hc, takeWhile_eq_self_of_all hd]
    simp only [Bool.false_eq_true, if_false]
    omega

theorem atoi_digits {p : Str} (hd : p.all isdigit = true) (hv : decVal p ≤ 2147483647) :
    atoi p = (decVal p : Int) := by
  unfold atoi
  rw [strtol10_digits hd (by omega)]
  unfold wrapInt32
  omega

theorem rfind_eq_none {c : Char} {s : Str} (h : ∀ x ∈ s, x ≠ c) : rfind c s = none := by
  induction s with
  | nil => rfl
  | cons x r ih =>
    have hr : rfind c r = none := ih (fun y hy => h y (List.mem_cons_of_mem _ hy))
    have hx : x ≠ c := h x (List.mem_cons_self _ _)
    simp [rfind, hr, hx]

theorem rfind_append_cons {c : Char} (h p : Str) (hp : ∀ x ∈ p, x ≠ c) :
    rfind c (h ++ c :: p) = some h.length := by
  induction h with
  | nil => simp [rfind, rfind_eq_none hp]
  | cons x r ih => simp [rfind, ih]

theorem ne_colon_of_all_isdigit {p : Str} (hd : p.all isdigit = true) :
    ∀ x ∈ p, x ≠ ':' := by
  intro x hx hc
  have := List.all_eq_true.mp hd x hx
  subst hc
  revert this; decide

theorem splitHostPort_host_port (h p : Str) (hd : p.all isdigit = true) :
    splitHostPort (h ++ ':' :: p)
      = (if h = [] ∨ h = ['*'] then wildcardHost else h, atoi p) := by
  unfold splitHostPort
  rw [rfind_append_cons h p (ne_colon_of_all_isdigit hd)]
  simp

theorem splitHostPort_bare (p : Str) (hd : p.all isdigit = true) :
    splitHostPort p = (wildcardHost, atoi p) := by
  unfold splitHostPort
  rw [rfind_eq_none (ne_colon_of_all_isdigit hd)]

/-- Claim C1: for every host string `h` and every decimal digit string `p`
whose value fits in a C `int`, `splitHostPort` sends `h:p` to `(h, value p)`
when `h` is neither empty nor `*` (the split is at the last colon, so `h` may
contain colons), and sends `*:p`, `:p` and the bare `p` to
`("0.0.0.0", value p)`.  The digit string may even be empty. -/
theorem splitHostPort_spec (h p : Str) (hd : p.all isdigit = true)
    (hv : decVal p ≤ 2147483647) :
    (h ≠ [] → h ≠ ['*'] → splitHostPort (h ++ ':' :: p) = (h, (decVal p : Int)))
    ∧ splitHostPort ('*' :: ':' :: p) = (wildcardHost, (decVal p : Int))
    ∧ splitHostPort (':' :: p) = (wildcardHost, (decVal p : Int))
    ∧ splitHostPort p = (wildcardHost, (decVal p : Int)) := by
  refine ⟨?_, ?_, ?_, ?_⟩
  · intro h1 h2
    rw [splitHostPort_host_port h p hd, atoi_digits hd hv]
    simp [h1, h2]
  · have := splitHostPort_host_port ['*'] p hd
    simpa [atoi_digits hd hv] using this
  · have := splitHostPort_host_port [] p hd
    simpa [atoi_digits hd hv] using this
  · rw [splitHostPort_bare p hd, atoi_digits hd hv]

theorem splitHostPort_spec_witness :
    splitHostPort ("127.0.0.1".toList ++ ':' :: "8080".toList) = ("127.0.0.1".toList, 8080)
    ∧ splitHostPort "*:8080".toList = ("0.0.0.0".toList, 8080)
    ∧ splitHostPort ":8080".toList = ("0.0.0.0".toList, 8080)
    ∧ splitHostPort "8080".toList = ("0.0.0.0".toList, 8080) :=
  ⟨(splitHostPort_spec "127.0.0.1".toList "8080".toList (by decide) (by decide)).1
      (by decide) (by decide),
   (splitHostPort_spec "127.0.0.1".toList "8080".toList (by decide) (by decide)).2.1,
   (splitHostPort_spec "127.0.0.1".toList "8080".toList (by decide) (by decide)).2.2.1,
   (splitHostPort_spec "127.0.0.1".toList "8080".toList (by decide) (by decide)).2.2.2⟩

theorem all_takeWhile (p : Char → Bool) (s : Str) : (s.takeWhile p).all p = true := by
  induction s with
  | nil => rfl
  | cons c r ih =>
    by_cases hc : p c = true
    · simp [List.takeWhile_cons, hc, ih]
    · simp [List.takeWhile_cons, hc]

theorem take_length_takeWhile (p : Char → Bool) (s : Str) :
    s.take (s.takeWhile p).length = s.takeWhile p := by
  induction s with
  | nil => rfl
  | cons c r ih =>
    by_cases hc : p c = true
    · simp [List.takeWhile_cons, hc, ih]
    · simp [List.takeWhile_cons, hc]

theorem drop_length_takeWhile (p : Char → Bool) (s : Str) :
    s.drop (s.takeWhile p).length = s.dropWhile p := by
  induction s with
  | nil => rfl
  | cons c r ih =>
    by_cases hc : p c = true
    · simp [List.takeWhile_cons, List.dropWhile_cons, hc, ih]
    · simp [List.takeWhile_cons, List.dropWhile_cons, hc]

theorem strtoul10_digits {p : Str} (hd : p.all isdigit = true)
    (hv : decVal p < 18446744073709551616) : strtoul10 p = decVal p := by
  cases p with
  | nil => decide
  | cons c r =>
    have hc : isdigit c = true := by
      simp only [List.all_cons, Bool.and_eq_true] at hd; exact hd.1
    have h1 : (c :: r).dropWhile isspace = c :: r := by
      simp [List.dropWhile_cons, isspace_of_isdigit hc]
    unfold strtoul10
    simp only [h1, takeSign_of_isdigit r hc, takeWhile_eq_self_of_all hd]
    simp only [Bool.false_eq_true, if_false]
    rw [if_neg (by omega)]

theorem mulSizeT_eq {a b : Nat} (h : a * b < 18446744073709551616) : mulSizeT a b = a * b := by
  unfold mulSizeT wrapSizeT
  exact Nat.mod_eq_of_lt h

/-- `parseSizeWithUnit` in terms of the digit prefix and the suffix, with the
products still reduced to `size_t`. -/
theorem parseSizeWithUnit_eq (s : Str) (hb : decVal (s.takeWhile isdigit) < 18446744073709551616) :
    parseSizeWithUnit s =
      let base := decVal (s.takeWhile isdigit)
      let suf := s.dropWhile isdigit
      if suf = ['K'] ∨ suf = ['k'] ∨ suf = ['K', 'B'] ∨ suf = ['k', 'b'] then mulSizeT base 1024
      else if suf = ['M'] ∨ suf = ['m'] ∨ suf = ['M', 'B'] ∨ suf = ['m', 'b'] then
        mulSizeT (mulSizeT base 1024) 1024
      else if suf = ['G'] ∨ suf = ['g'] ∨ suf = ['G', 'B'] ∨ suf = ['g', 'b'] then
        mulSizeT (mulSizeT (mulSizeT base 1024) 1024) 1024
      else base := by
  cases s with
  | nil => decide
  | cons c r =>
    unfold parseSizeWithUnit
    simp only [take_length_takeWhile, drop_length_takeWhile, List.isEmpty_cons,
      Bool.false_eq_true, if_false]
    rw [strtoul10_digits (all_takeWhile _ _) hb]
    generalize List.dropWhile isdigit (c :: r) = suf
    generalize decVal (List.takeWhile isdigit (c :: r)) = base
    by_cases h0 : suf = []
    · subst h0; simp
    · have : suf.isEmpty = false := by cases suf <;> simp_all
      simp only [this, Bool.false_eq_true, if_false]
      by_cases h1 : suf = ['K']
      · subst h1; simp
      by_cases h2 : suf = ['k']
      · subst h2; simp
      by_cases h3 : suf = ['M']
      · subst h3; simp
      by_cases h4 : suf = ['m']
      · subst h4; simp
      by_cases h5 : suf = ['G']
      · subst h5; simp
      by_cases h6 : suf = ['g']
      · subst h6; simp
      by_cases h7 : suf = ['K', 'B']
      · subst h7; simp
      by_cases h8 : suf = ['k', 'b']
      · subst h8; simp
      by_cases h9 : suf = ['M', 'B']
      · subst h9; simp
      by_cases h10 : suf = ['m', 'b']
      · subst h10; simp
      by_cases h11 : suf = ['G', 'B']
      · subst h11; simp
      by_cases h12 : suf = ['g', 'b']
      · subst h12; simp
      simp only [h1, h2, h3, h4, h5, h6, h7, h8, h9, h10, h11, h12, or_self, if_false]

theorem parseSizeWithUnit_eq_mul (s : Str)
    (h : decVal (s.takeWhile isdigit) * unitMultiplier (s.dropWhile isdigit)
          < 18446744073709551616) :
    parseSizeWithUnit s
      = decVal (s.takeWhile isdigit) * unitMultiplier (s.dropWhile isdigit) := by
  have hpos : 1 ≤ unitMultiplier (s.dropWhile isdigit) := by
    unfold unitMultiplier; split_ifs <;> omega
  have hb : decVal (s.takeWhile isdigit) < 18446744073709551616 :=
    lt_of_le_of_lt (Nat.le_mul_of_pos_right _ hpos) h
  rw [parseSizeWithUnit_eq s hb]
  revert h
  generalize List.dropWhile isdigit s = suf
  generalize decVal (List.takeWhile isdigit s) = base
  intro h
  unfold unitMultiplier at h ⊢
  simp only
  split_ifs at h ⊢
  · exact mulSizeT_eq h
  · have e1 : mulSizeT base 1024 = base * 1024 := mulSizeT_eq (by omega)
    rw [e1, mulSizeT_eq (by omega)]; omega
  · have e1 : mulSizeT base 1024 = base * 1024 := mulSizeT_eq (by omega)
    rw [e1]
    have e2 : mulSizeT (base * 1024) 1024 = base * 1024 * 1024 := mulSizeT_eq (by omega)
    rw [e2, mulSizeT_eq (by omega)]; omega
  · omega

theorem takeWhile_append_stop {p : Char → Bool} {d : Str} (c : Char) (r : Str)
    (hd : d.all p = true) (hc : p c = false) : (d ++ c :: r).takeWhile p = d := by
  induction d with
  | nil => simp [List.takeWhile_cons, hc]
  | cons x xs ih =>
    simp only [List.all_cons, Bool.and_eq_true] at hd
    simp [List.takeWhile_cons, hd.1, ih hd.2]

theorem dropWhile_append_stop {p : Char → Bool} {d : Str} (c : Char) (r : Str)
    (hd : d.all p = true) (hc : p c = false) : (d ++ c :: r).dropWhile p = c :: r := by
  induction d with
  | nil => simp [List.dropWhile_cons, hc]
  | cons x xs ih =>
    simp only [List.all_cons, Bool.and_eq_true] at hd
    simp [List.dropWhile_cons, hd.1, ih hd.2]

/-- Size text made of a digit string and a suffix that starts with a
non-digit: the value is the digit value times the multiplier of exactly that
suffix. -/
theorem parseSizeWithUnit_append (d : Str) (c : Char) (r : Str) (hd : d.all isdigit = true)
    (hc : isdigit c = false)
    (h : decVal d * unitMultiplier (c :: r) < 18446744073709551616) :
    parseSizeWithUnit (d ++ c :: r) = decVal d * unitMultiplier (c :: r) := by
  have := parseSizeWithUnit_eq_mul (d ++ c :: r)
  rw [takeWhile_append_stop c r hd hc, dropWhile_append_stop c r hd hc] at this
  exact this h

/-- Claim C2: `parseSizeWithUnit s` is the value of the longest leading run
of digits of `s` (zero when that run is empty) times the multiplier of the
rest of `s`: 1024 for `K`, `k`, `KB`, `kb`, 1024² for `M`, `m`, `MB`, `mb`,
1024³ for `G`, `g`, `GB`, `gb`, and 1 for an empty or any other suffix,
whenever that product is below 2^64. -/
theorem parseSizeWithUnit_spec (s : Str)
    (h : decVal (s.takeWhile isdigit) * unitMultiplier (s.dropWhile isdigit)
          < 18446744073709551616) :
    parseSizeWithUnit s
      = decVal (s.takeWhile isdigit) * unitMultiplier (s.dropWhile isdigit) :=
  parseSizeWithUnit_eq_mul s h

theorem parseSizeWithUnit_spec_witness :
    parseSizeWithUnit "10M".toList = 10485760
    ∧ parseSizeWithUnit "512K".toList = 524288
    ∧ parseSizeWithUnit "1GB".toList = 1073741824
    ∧ parseSizeWithUnit "100".toList = 100
    ∧ parseSizeWithUnit "100Q".toList = 100 :=
  ⟨parseSizeWithUnit_spec "10M".toList (by decide),
   parseSizeWithUnit_spec "512K".toList (by decide),
   parseSizeWithUnit_spec "1GB".toList (by decide),
   parseSizeWithUnit_spec "100".toList (by decide),
   parseSizeWithUnit_spec "100Q".toList (by decide)⟩

/-- Claim C3 fails as stated: the mixed-case suffix `Kb` is not matched, so
`1Kb` parses to 1 and not to 1 × 1024. -/
theorem parseSizeWithUnit_mixed_case_counterexample :
    parseSizeWithUnit ("1".toList ++ "Kb".toList) = 1
    ∧ parseSizeWithUnit ("1".toList ++ "Kb".toList) ≠ decVal "1".toList * 1024 := by
  decide

/-- Claim C3 as amended: the unit suffix is matched in its all-upper and
all-lower spellings only.  For every digit string `d`, appending `K`, `k`,
`KB` or `kb` multiplies the value of `d` by 1024, appending `M`, `m`, `MB` or
`mb` by 1024², appending `G`, `g`, `GB` or `gb` by 1024³ (each time provided
the product is below 2^64), and appending a mixed-case form `Kb`, `kB`, `Mb`,
`mB`, `Gb` or `gB` leaves the value of `d`. -/
theorem parseSizeWithUnit_suffix_case (d suf : Str) (hd : d.all isdigit = true) :
    (suf ∈ [['K'], ['k'], ['K', 'B'], ['k', 'b']] → decVal d * 1024 < 18446744073709551616 →
        parseSizeWithUnit (d ++ suf) = decVal d * 1024)
    ∧ (suf ∈ [['M'], ['m'], ['M', 'B'], ['m', 'b']] →
        decVal d * (1024 * 1024) < 18446744073709551616 →
        parseSizeWithUnit (d ++ suf) = decVal d * (1024 * 1024))
    ∧ (suf ∈ [['G'], ['g'], ['G', 'B'], ['g', 'b']] →
        decVal d * (1024 * 1024 * 1024) < 18446744073709551616 →
        parseSizeWithUnit (d ++ suf) = decVal d * (1024 * 1024 * 1024))
    ∧ (suf ∈ [['K', 'b'], ['k', 'B'], ['M', 'b'], ['m', 'B'], ['G', 'b'], ['g', 'B']] →
        decVal d < 18446744073709551616 →
        parseSizeWithUnit (d ++ suf) = decVal d) := by
  refine ⟨?_, ?_, ?_, ?_⟩ <;> intro hs hv <;>
    simp only [List.mem_cons, List.mem_singleton, List.not_mem_nil, or_false] at hs
  · rcases hs with rfl | rfl | rfl | rfl <;>
      exact parseSizeWithUnit_append d _ _ hd (by decide) hv
  · rcases hs with rfl | rfl | rfl | rfl <;>
      exact parseSizeWithUnit_append d _ _ hd (by decide) hv
  · rcases hs with rfl | rfl | rfl | rfl <;>
      exact parseSizeWithUnit_append d _ _ hd (by decide) hv
  · rcases hs with rfl | rfl | rfl | rfl | rfl | rfl <;>
      exact (parseSizeWithUnit_append d _ _ hd (by decide)
        (by simpa [unitMultiplier] using hv)).trans (by simp [unitMultiplier])

theorem parseSizeWithUnit_suffix_case_witness :
    parseSizeWithUnit ("2".toList ++ "kb".toList) = 2048
    ∧ parseSizeWithUnit ("3".toList ++ "M".toList) = 3145728
    ∧ parseSizeWithUnit ("1".toList ++ "gb".toList) = 1073741824
    ∧ parseSizeWithUnit ("7".toList ++ "mB".toList) = 7 :=
  ⟨(parseSizeWithUnit_suffix_case "2".toList "kb".toList (by decide)).1 (by decide) (by decide),
   (parseSizeWithUnit_suffix_case "3".toList "M".toList (by decide)).2.1 (by decide) (by decide),
   (parseSizeWithUnit_suffix_case "1".toList "gb".toList (by decide)).2.2.1
      (by decide) (by decide),
   (parseSizeWithUnit_suffix_case "7".toList "mB".toList (by decide)).2.2.2
      (by decide) (by decide)⟩

/-! ## What a directive handler that returns has done to its block -/

theorem bind_eq_ok {α β : Type} {r : Result α} {f : α → PState → Result β} {b : β} {st : PState}
    (h : r.bind f = .ok b st) : ∃ a st1, r = .ok a st1 ∧ f a st1 = .ok b st := by
  cases r with
  | ok a st1 => exact ⟨a, st1, rfl, h⟩
  | err e => exact Result.noConfusion h
  | outOfFuel => exact Result.noConfusion h

theorem expect_eq_ok {t : TokType} {w : Str} {st st1 : PState} {u : Unit}
    (h : expect t w st = .ok u st1) : st.cur.type = t ∧ st1 = advance st := by
  unfold expect accept at h
  by_cases ht : st.cur.type = t
  · simp only [ht, if_true] at h
    exact ⟨ht, (Result.ok.inj h).2.symm⟩
  · simp only [ht, if_false] at h
    exact Result.noConfusion h

theorem expect_of_type {t : TokType} (w : Str) {st : PState} (h : st.cur.type = t) :
    expect t w st = .ok () (advance st) := by
  unfold expect accept
  simp [h]

theorem semi_tail_eq_ok {α : Type} {a b : α} {st st1 : PState}
    (h : ((expect T_SEMI semiWhat st).bind fun _ st3 => Result.ok a st3) = .ok b st1) :
    b = a ∧ st.cur.type = T_SEMI ∧ st1 = advance st := by
  obtain ⟨u, s, h1, h2⟩ := bind_eq_ok h
  obtain ⟨h3, h4⟩ := expect_eq_ok h1
  obtain ⟨h5, h6⟩ := Result.ok.inj h2
  exact ⟨h5.symm, h3, by rw [← h6, h4]⟩

theorem loc_root_eq_ok {loc loc1 : LocationBlock} {st st1 : PState}
    (h : loc_root loc st = .ok loc1 st1) : loc1 = loc.setRoot (advance st).cur.text := by
  unfold loc_root at h
  simp only at h
  split at h
  · exact Result.noConfusion h
  · exact (semi_tail_eq_ok h).1

theorem loc_return_eq_ok {loc loc1 : LocationBlock} {st st1 : PState}
    (h : loc_return loc st = .ok loc1 st1) :
    loc1 = loc.setRedirect (advance st).cur.text
      (if (advance (advance st)).cur.type = T_SEMI then [] else (advance (advance st)).cur.text) := by
  unfold loc_return at h
  simp only at h
  split at h
  · exact Result.noConfusion h
  · split at h
    · rename_i hs
      rw [if_pos hs]; exact (Result.ok.inj h).1.symm
    · rename_i hs
      split at h
      · exact Result.noConfusion h
      · rw [if_neg hs]; exact (semi_tail_eq_ok h).1
theorem loc_methods_loop_frame {n : Nat} {loc loc1 : LocationBlock} {st st1 : PState}
    (h : loc_methods_loop n loc st = .ok loc1 st1) :
    loc1 = { loc with methods := loc1.methods } := by
  induction n generalizing loc st with
  | zero => exact Result.noConfusion h
  | succ n ih =>
    unfold loc_methods_loop at h
    split at h
    · have := ih h
      rw [this]; rfl
    · rw [← (Result.ok.inj h).1]

theorem loc_methods_frame {n : Nat} {loc loc1 : LocationBlock} {st st1 : PState}
    (h : loc_methods n loc st = .ok loc1 st1) :
    loc1 = { loc with methods := loc1.methods } := by
  unfold loc_methods at h
  simp only at h
  split at h
  · exact Result.noConfusion h
  · obtain ⟨loc2, st2, h1, h2⟩ := bind_eq_ok h
    rw [(semi_tail_eq_ok h2).1]
    exact loc_methods_loop_frame h1

theorem loc_index_loop_frame {n : Nat} {loc loc1 : LocationBlock} {st st1 : PState}
    (h : loc_index_loop n loc st = .ok loc1 st1) :
    loc1 = { loc with index_files := loc1.index_files } := by
  induction n generalizing loc st with
  | zero => exact Result.noConfusion h
  | succ n ih =>
    unfold loc_index_loop at h
    split at h
    · have := ih h
      rw [this]; rfl
    · rw [← (Result.ok.inj h).1]

theorem loc_index_frame {n : Nat} {loc loc1 : LocationBlock} {st st1 : PState}
    (h : loc_index n loc st = .ok loc1 st1) :
    loc1 = { loc with index_files := loc1.index_files } := by
  unfold loc_index at h
  simp only at h
  split at h
  · exact Result.noConfusion h
  · obtain ⟨loc2, st2, h1, h2⟩ := bind_eq_ok h
    rw [(semi_tail_eq_ok h2).1]
    exact loc_index_loop_frame h1

theorem loc_autoindex_frame {loc loc1 : LocationBlock} {st st1 : PState}
    (h : loc_autoindex loc st = .ok loc1 st1) :
    loc1 = { loc with autoindex := loc1.autoindex } := by
  unfold loc_autoindex at h
  simp only at h
  split at h
  · exact Result.noConfusion h
  · split at h
    · rw [(semi_tail_eq_ok h).1]; rfl
    · split at h
      · rw [(semi_tail_eq_ok h).1]; rfl
      · exact Result.noConfusion h

theorem loc_upload_store_eq_ok {loc loc1 : LocationBlock} {st st1 : PState}
    (h : loc_upload_store loc st = .ok loc1 st1) :
    loc1 = loc.setUploadStore (advance st).cur.text := by
  unfold loc_upload_store at h
  simp only at h
  split at h
  · exact Result.noConfusion h
  · exact (semi_tail_eq_ok h).1

theorem loc_cgi_pass_eq_ok {loc loc1 : LocationBlock} {st st1 : PState}
    (h : loc_cgi_pass loc st = .ok loc1 st1) :
    loc1 = loc.mapCgi (advance st).cur.text (advance (advance st)).cur.text := by
  unfold loc_cgi_pass at h
  simp only at h
  split at h
  · exact Result.noConfusion h
  · split at h
    · exact Result.noConfusion h
    · exact (semi_tail_eq_ok h).1

theorem dir_listen_eq_ok {srv srv1 : ServerBlock} {st st1 : PState}
    (h : dir_listen srv st = .ok srv1 st1) :
    srv1 = srv.addListen (splitHostPort (advance st).cur.text).1
      (splitHostPort (advance st).cur.text).2 := by
  unfold dir_listen at h
  simp only at h
  split at h
  · exact Result.noConfusion h
  · exact (semi_tail_eq_ok h).1

theorem dir_root_eq_ok {srv srv1 : ServerBlock} {st st1 : PState}
    (h : dir_root srv st = .ok srv1 st1) : srv1 = srv.setRoot (advance st).cur.text := by
  unfold dir_root at h
  simp only at h
  split at h
  · exact Result.noConfusion h
  · exact (semi_tail_eq_ok h).1

theorem dir_index_loop_frame {n : Nat} {srv srv1 : ServerBlock} {st st1 : PState}
    (h : dir_index_loop n srv st = .ok srv1 st1) :
    srv1 = { srv with index_files := srv1.index_files } := by
  induction n generalizing srv st with
  | zero => exact Result.noConfusion h
  | succ n ih =>
    unfold dir_index_loop at h
    split at h
    · have := ih h
      rw [this]; rfl
    · rw [← (Result.ok.inj h).1]

theorem dir_index_frame {n : Nat} {srv srv1 : ServerBlock} {st st1 : PState}
    (h : dir_index n srv st = .ok srv1 st1) :
    srv1 = { srv with index_files := srv1.index_files } := by
  unfold dir_index at h
  simp only at h
  split at h
  · exact Result.noConfusion h
  · obtain ⟨srv2, st2, h1, h2⟩ := bind_eq_ok h
    rw [(semi_tail_eq_ok h2).1]
    exact dir_index_loop_frame h1

theorem dir_server_name_eq_ok {srv srv1 : ServerBlock} {st st1 : PState}
    (h : dir_server_name srv st = .ok srv1 st1) :
    srv1 = srv.setServerName (advance st).cur.text := by
  unfold dir_server_name at h
  simp only at h
  split at h
  · exact Result.noConfusion h
  · exact (semi_tail_eq_ok h).1

theorem dir_client_max_body_size_eq_ok {srv srv1 : ServerBlock} {st st1 : PState}
    (h : dir_client_max_body_size srv st = .ok srv1 st1) :
    srv1 = srv.setClientMaxBodySize (parseSizeWithUnit (advance st).cur.text) := by
  unfold dir_client_max_body_size at h
  simp only at h
  split at h
  · exact Result.noConfusion h
  · exact (semi_tail_eq_ok h).1

theorem dir_error_page_eq_ok {srv srv1 : ServerBlock} {st st1 : PState}
    (h : dir_error_page srv st = .ok srv1 st1) :
    srv1 = srv.setErrorPage (atoi (advance st).cur.text) (advance (advance st)).cur.text := by
  unfold dir_error_page at h
  simp only at h
  split at h
  · exact Result.noConfusion h
  · split at h
    · exact Result.noConfusion h
    · exact (semi_tail_eq_ok h).1

theorem dir_location_eq_ok {n : Nat} {srv srv1 : ServerBlock} {st st1 : PState}
    (h : dir_location n srv st = .ok srv1 st1) :
    ∃ loc st2, parseLocation n (advance st).cur.text (advance (advance (advance st)))
        = .ok loc st2 ∧ srv1 = srv.addLocation loc := by
  unfold dir_location at h
  simp only at h
  split at h
  · exact Result.noConfusion h
  · obtain ⟨u, st3, h1, h2⟩ := bind_eq_ok h
    obtain ⟨loc, st4, h3, h4⟩ := bind_eq_ok h2
    obtain ⟨u2, st5, h5, h6⟩ := bind_eq_ok h4
    rw [(expect_eq_ok h1).2] at h3
    exact ⟨loc, st4, h3, (Result.ok.inj h6).1.symm⟩
/-- A location directive that returns was dispatched on one of the seven
keywords, and it is the handler of that keyword that returned. -/
theorem parseLocationDirective_cases {n : Nat} {loc loc1 : LocationBlock} {st st1 : PState}
    (h : parseLocationDirective n loc st = .ok loc1 st1) :
    (keyword st = "root".toList ∧ loc_root loc st = .ok loc1 st1)
    ∨ (keyword st = "methods".toList ∧ loc_methods n loc st = .ok loc1 st1)
    ∨ (keyword st = "autoindex".toList ∧ loc_autoindex loc st = .ok loc1 st1)
    ∨ (keyword st = "index".toList ∧ loc_index n loc st = .ok loc1 st1)
    ∨ (keyword st = "upload_store".toList ∧ loc_upload_store loc st = .ok loc1 st1)
    ∨ (keyword st = "return".toList ∧ loc_return loc st = .ok loc1 st1)
    ∨ (keyword st = "cgi_pass".toList ∧ loc_cgi_pass loc st = .ok loc1 st1) := by
  unfold parseLocationDirective at h
  unfold keyword
  split at h
  · exact Result.noConfusion h
  split at h
  · rename_i hk; exact Or.inl ⟨hk, h⟩
  split at h
  · rename_i hk; exact Or.inr (Or.inl ⟨hk, h⟩)
  split at h
  · rename_i hk; exact Or.inr (Or.inr (Or.inl ⟨hk, h⟩))
  split at h
  · rename_i hk; exact Or.inr (Or.inr (Or.inr (Or.inl ⟨hk, h⟩)))
  split at h
  · rename_i hk; exact Or.inr (Or.inr (Or.inr (Or.inr (Or.inl ⟨hk, h⟩))))
  split at h
  · rename_i hk; exact Or.inr (Or.inr (Or.inr (Or.inr (Or.inr (Or.inl ⟨hk, h⟩)))))
  split at h
  · rename_i hk; exact Or.inr (Or.inr (Or.inr (Or.inr (Or.inr (Or.inr ⟨hk, h⟩)))))
  · exact Result.noConfusion h

/-- A server directive that returns was dispatched on one of the seven
keywords, and it is the handler of that keyword that returned. -/
theorem parseServerDirective_cases {n : Nat} {srv srv1 : ServerBlock} {st st1 : PState}
    (h : parseServerDirective n srv st = .ok srv1 st1) :
    (keyword st = "listen".toList ∧ dir_listen srv st = .ok srv1 st1)
    ∨ (keyword st = "root".toList ∧ dir_root srv st = .ok srv1 st1)
    ∨ (keyword st = "index".toList ∧ dir_index n srv st = .ok srv1 st1)
    ∨ (keyword st = "server_name".toList ∧ dir_server_name srv st = .ok srv1 st1)
    ∨ (keyword st = "client_max_body_size".toList
        ∧ dir_client_max_body_size srv st = .ok srv1 st1)
    ∨ (keyword st = "error_page".toList ∧ dir_error_page srv st = .ok srv1 st1)
    ∨ (keyword st = "location".toList ∧ dir_location n srv st = .ok srv1 st1) := by
  unfold parseServerDirective at h
  unfold keyword
  split at h
  · exact Result.noConfusion h
  split at h
  · rename_i hk; exact Or.inl ⟨hk, h⟩
  split at h
  · rename_i hk; exact Or.inr (Or.inl ⟨hk, h⟩)
  split at h
  · rename_i hk; exact Or.inr (Or.inr (Or.inl ⟨hk, h⟩))
  split at h
  · rename_i hk; exact Or.inr (Or.inr (Or.inr (Or.inl ⟨hk, h⟩)))
  split at h
  · rename_i hk; exact Or.inr (Or.inr (Or.inr (Or.inr (Or.inl ⟨hk, h⟩))))
  split at h
  · rename_i hk; exact Or.inr (Or.inr (Or.inr (Or.inr (Or.inr (Or.inl ⟨hk, h⟩)))))
  split at h
  · rename_i hk; exact Or.inr (Or.inr (Or.inr (Or.inr (Or.inr (Or.inr ⟨hk, h⟩)))))
  · exact Result.noConfusion h

theorem parseLocationDirective_has_redirect {n : Nat} {loc loc1 : LocationBlock}
    {st st1 : PState} (h : parseLocationDirective n loc st = .ok loc1 st1)
    (hk : keyword st ≠ "return".toList) : loc1.has_redirect = loc.has_redirect := by
  rcases parseLocationDirective_cases h with
    ⟨_, h1⟩ | ⟨_, h1⟩ | ⟨_, h1⟩ | ⟨_, h1⟩ | ⟨_, h1⟩ | ⟨hk1, _⟩ | ⟨_, h1⟩
  · exact (congrArg LocationBlock.has_redirect (loc_root_eq_ok h1)).trans rfl
  · exact (congrArg LocationBlock.has_redirect (loc_methods_frame h1)).trans rfl
  · exact (congrArg LocationBlock.has_redirect (loc_autoindex_frame h1)).trans rfl
  · exact (congrArg LocationBlock.has_redirect (loc_index_frame h1)).trans rfl
  · exact (congrArg LocationBlock.has_redirect (loc_upload_store_eq_ok h1)).trans rfl
  · exact absurd hk1 hk
  · exact (congrArg LocationBlock.has_redirect (loc_cgi_pass_eq_ok h1)).trans rfl

theorem parseLocationDirective_cgi_map {n : Nat} {loc loc1 : LocationBlock}
    {st st1 : PState} (h : parseLocationDirective n loc st = .ok loc1 st1) :
    loc1.cgi_map =
      if keyword st = "cgi_pass".toList then
        mapAssign (advance st).cur.text (advance (advance st)).cur.text loc.cgi_map
      else loc.cgi_map := by
  rcases parseLocationDirective_cases h with
    ⟨hk, h1⟩ | ⟨hk, h1⟩ | ⟨hk, h1⟩ | ⟨hk, h1⟩ | ⟨hk, h1⟩ | ⟨hk, h1⟩ | ⟨hk, h1⟩
  · rw [if_neg (by rw [hk]; decide)]
    exact (congrArg LocationBlock.cgi_map (loc_root_eq_ok h1)).trans rfl
  · rw [if_neg (by rw [hk]; decide)]
    exact (congrArg LocationBlock.cgi_map (loc_methods_frame h1)).trans rfl
  · rw [if_neg (by rw [hk]; decide)]
    exact (congrArg LocationBlock.cgi_map (loc_autoindex_frame h1)).trans rfl
  · rw [if_neg (by rw [hk]; decide)]
    exact (congrArg LocationBlock.cgi_map (loc_index_frame h1)).trans rfl
  · rw [if_neg (by rw [hk]; decide)]
    exact (congrArg LocationBlock.cgi_map (loc_upload_store_eq_ok h1)).trans rfl
  · rw [if_neg (by rw [hk]; decide)]
    exact (congrArg LocationBlock.cgi_map (loc_return_eq_ok h1)).trans rfl
  · rw [if_pos hk]
    exact (congrArg LocationBlock.cgi_map (loc_cgi_pass_eq_ok h1)).trans rfl

theorem parseServerDirective_error_pages {n : Nat} {srv srv1 : ServerBlock}
    {st st1 : PState} (h : parseServerDirective n srv st = .ok srv1 st1) :
    srv1.error_pages =
      if keyword st = "error_page".toList then
        mapAssign (atoi (advance st).cur.text) (advance (advance st)).cur.text srv.error_pages
      else srv.error_pages := by
  rcases parseServerDirective_cases h with
    ⟨hk, h1⟩ | ⟨hk, h1⟩ | ⟨hk, h1⟩ | ⟨hk, h1⟩ | ⟨hk, h1⟩ | ⟨hk, h1⟩ | ⟨hk, h1⟩
  · rw [if_neg (by rw [hk]; decide)]
    exact (congrArg ServerBlock.error_pages (dir_listen_eq_ok h1)).trans rfl
  · rw [if_neg (by rw [hk]; decide)]
    exact (congrArg ServerBlock.error_pages (dir_root_eq_ok h1)).trans rfl
  · rw [if_neg (by rw [hk]; decide)]
    exact (congrArg ServerBlock.error_pages (dir_index_frame h1)).trans rfl
  · rw [if_neg (by rw [hk]; decide)]
    exact (congrArg ServerBlock.error_pages (dir_server_name_eq_ok h1)).trans rfl
  · rw [if_neg (by rw [hk]; decide)]
    exact (congrArg ServerBlock.error_pages (dir_client_max_body_size_eq_ok h1)).trans rfl
  · rw [if_pos hk]
    exact (congrArg ServerBlock.error_pages (dir_error_page_eq_ok h1)).trans rfl
  · rw [if_neg (by rw [hk]; decide)]
    obtain ⟨loc, st2, _, h2⟩ := dir_location_eq_ok h1
    exact (congrArg ServerBlock.error_pages h2).trans rfl

theorem parseServerDirective_listens {n : Nat} {srv srv1 : ServerBlock}
    {st st1 : PState} (h : parseServerDirective n srv st = .ok srv1 st1)
    (hk : keyword st ≠ "listen".toList) : srv1.listens = srv.listens := by
  rcases parseServerDirective_cases h with
    ⟨hk1, _⟩ | ⟨_, h1⟩ | ⟨_, h1⟩ | ⟨_, h1⟩ | ⟨_, h1⟩ | ⟨_, h1⟩ | ⟨_, h1⟩
  · exact absurd hk1 hk
  · exact (congrArg ServerBlock.listens (dir_root_eq_ok h1)).trans rfl
  · exact (congrArg ServerBlock.listens (dir_index_frame h1)).trans rfl
  · exact (congrArg ServerBlock.listens (dir_server_name_eq_ok h1)).trans rfl
  · exact (congrArg ServerBlock.listens (dir_client_max_body_size_eq_ok h1)).trans rfl
  · exact (congrArg ServerBlock.listens (dir_error_page_eq_ok h1)).trans rfl
  · obtain ⟨loc, st2, _, h2⟩ := dir_location_eq_ok h1
    exact (congrArg ServerBlock.listens h2).trans rfl

section MapLemmas

variable {κ ν : Type} [LinearOrder κ]

theorem mem_mapAssign_sub {k : κ} {v : ν} {m : List (κ × ν)} {x : κ × ν}
    (h : x ∈ mapAssign k v m) : x = (k, v) ∨ x ∈ m := by
  induction m with
  | nil => simpa [mapAssign] using h
  | cons e r ih =>
    unfold mapAssign at h
    split_ifs at h with h1 h2
    · simpa using h
    · rcases List.mem_cons.mp h with h3 | h3
      · exact Or.inr (h3 ▸ List.mem_cons_self _ _)
      · rcases ih h3 with h4 | h4
        · exact Or.inl h4
        · exact Or.inr (List.mem_cons_of_mem _ h4)
    · rcases List.mem_cons.mp h with h3 | h3
      · exact Or.inl h3
      · exact Or.inr (List.mem_cons_of_mem _ h3)

theorem mapAssign_sorted {k : κ} {v : ν} {m : List (κ × ν)} (hs : KeysSorted m) :
    KeysSorted (mapAssign k v m) := by
  induction m with
  | nil => simp [mapAssign, KeysSorted]
  | cons e r ih =>
    unfold KeysSorted at hs ih ⊢
    rw [List.pairwise_cons] at hs
    unfold mapAssign
    split_ifs with h1 h2
    · rw [List.pairwise_cons]
      refine ⟨?_, List.pairwise_cons.mpr hs⟩
      intro x hx
      rcases List.mem_cons.mp hx with h3 | h3
      · rw [h3]; exact h1
      · exact lt_trans h1 (hs.1 x h3)
    · rw [List.pairwise_cons]
      refine ⟨?_, ih hs.2⟩
      intro x hx
      rcases mem_mapAssign_sub hx with h3 | h3
      · rw [h3]; exact h2
      · exact hs.1 x h3
    · have hek : e.1 = k := le_antisymm (not_lt.mp h1) (not_lt.mp h2)
      rw [List.pairwise_cons]
      refine ⟨?_, hs.2⟩
      intro x hx
      have := hs.1 x hx
      rw [hek] at this
      exact this

theorem mem_mapAssign_iff {k : κ} {v : ν} {m : List (κ × ν)} (hs : KeysSorted m)
    (c : κ) (p : ν) :
    (c, p) ∈ mapAssign k v m ↔ (c = k ∧ p = v) ∨ (c ≠ k ∧ (c, p) ∈ m) := by
  induction m with
  | nil => simp [mapAssign]
  | cons e r ih =>
    unfold KeysSorted at hs ih
    rw [List.pairwise_cons] at hs
    have ih := ih hs.2
    unfold mapAssign
    split_ifs with h1 h2
    · constructor
      · intro h
        rcases List.mem_cons.mp h with h3 | h3
        · exact Or.inl ⟨(Prod.mk.inj h3).1, (Prod.mk.inj h3).2⟩
        · refine Or.inr ⟨?_, h3⟩
          intro hck
          rcases List.mem_cons.mp h3 with h4 | h4
          · have : c = e.1 := by rw [← h4]
            rw [← this, hck] at h1
            exact lt_irrefl _ h1
          · have := hs.1 _ h4
            simp only at this
            rw [hck] at this
            exact lt_irrefl _ (lt_trans h1 this)
      · rintro (⟨h3, h4⟩ | ⟨_, h4⟩)
        · rw [h3, h4]; exact List.mem_cons_self _ _
        · exact List.mem_cons_of_mem _ h4
    · constructor
      · intro h
        rcases List.mem_cons.mp h with h3 | h3
        · refine Or.inr ⟨?_, h3 ▸ List.mem_cons_self _ _⟩
          intro hck
          have : c = e.1 := by rw [← h3]
          rw [← this, hck] at h2
          exact lt_irrefl _ h2
        · rcases (ih.mp h3) with h4 | ⟨h4, h5⟩
          · exact Or.inl h4
          · exact Or.inr ⟨h4, List.mem_cons_of_mem _ h5⟩
      · rintro (h3 | ⟨h3, h4⟩)
        · exact List.mem_cons_of_mem _ (ih.mpr (Or.inl h3))
        · rcases List.mem_cons.mp h4 with h5 | h5
          · rw [h5]; exact List.mem_cons_self _ _
          · exact List.mem_cons_of_mem _ (ih.mpr (Or.inr ⟨h3, h5⟩))
    · have hek : e.1 = k := le_antisymm (not_lt.mp h1) (not_lt.mp h2)
      constructor
      · intro h
        rcases List.mem_cons.mp h with h3 | h3
        · exact Or.inl ⟨(Prod.mk.inj h3).1, (Prod.mk.inj h3).2⟩
        · refine Or.inr ⟨?_, List.mem_cons_of_mem _ h3⟩
          intro hck
          have := hs.1 _ h3
          simp only at this
          rw [hck, hek] at this
          exact lt_irrefl _ this
      · rintro (⟨h3, h4⟩ | ⟨h3, h4⟩)
        · rw [h3, h4]; exact List.mem_cons_self _ _
        · rcases List.mem_cons.mp h4 with h5 | h5
          · have : c = e.1 := by rw [← h5]
            exact absurd (this.trans hek) h3
          · exact List.mem_cons_of_mem _ h5

theorem assignAll_sorted {m : List (κ × ν)} (ds : List (κ × ν)) (hs : KeysSorted m) :
    KeysSorted (assignAll m ds) := by
  induction ds generalizing m with
  | nil => exact hs
  | cons d r ih => exact ih (mapAssign_sorted hs)

theorem mem_assignAll_aux {m : List (κ × ν)} (ds : List (κ × ν)) (hs : KeysSorted m) (c : κ)
    (acc : Option ν) (hacc : ∀ p, (c, p) ∈ m ↔ acc = some p) (p : ν) :
    (c, p) ∈ assignAll m ds
      ↔ ds.foldl (fun a d => if d.1 = c then some d.2 else a) acc = some p := by
  induction ds generalizing m acc with
  | nil => exact hacc p
  | cons d r ih =>
    refine ih (mapAssign_sorted hs) _ ?_
    intro q
    rw [mem_mapAssign_iff hs]
    show _ ↔ (if d.1 = c then some d.2 else acc) = some q
    by_cases hd : d.1 = c
    · rw [if_pos hd]
      constructor
      · rintro (⟨_, h2⟩ | ⟨h1, _⟩)
        · rw [h2]
        · exact absurd hd.symm h1
      · intro h
        exact Or.inl ⟨hd.symm, (Option.some.inj h).symm⟩
    · rw [if_neg hd]
      constructor
      · rintro (⟨h1, _⟩ | ⟨_, h2⟩)
        · exact absurd h1.symm hd
        · exact (hacc q).mp h2
      · intro h
        exact Or.inr ⟨fun hx => hd hx.symm, (hacc q).mpr h⟩

/-- Starting from the empty map, the assignments of `ds` leave exactly the
keys named in `ds`, each with the value of the last pair that names it. -/
theorem mem_assignAll_nil (ds : List (κ × ν)) (c : κ) (p : ν) :
    (c, p) ∈ assignAll [] ds ↔ lastValue c ds = some p :=
  mem_assignAll_aux ds List.Pairwise.nil c none (by simp) p

end MapLemmas

theorem assignAll_cons {κ ν : Type} [LinearOrder κ] (m : List (κ × ν)) (d : κ × ν)
    (ds : List (κ × ν)) : assignAll m (d :: ds) = assignAll (mapAssign d.1 d.2 m) ds := rfl

theorem filter_map_cons_keyword {β : Type} (kw : Str) (f : PState → β) (st : PState)
    (tr : List PState) :
    ((st :: tr).filter fun s => keyword s = kw).map f
      = if keyword st = kw then f st :: (tr.filter fun s => keyword s = kw).map f
        else (tr.filter fun s => keyword s = kw).map f := by
  by_cases h : keyword st = kw
  · simp [List.filter_cons, h]
  · simp [List.filter_cons, h]

theorem errorPageDirectives_cons (st : PState) (tr : List PState) :
    errorPageDirectives (st :: tr)
      = if keyword st = "error_page".toList then
          (atoi (advance st).cur.text, (advance (advance st)).cur.text) :: errorPageDirectives tr
        else errorPageDirectives tr :=
  filter_map_cons_keyword _ _ st tr

theorem cgiPassDirectives_cons (st : PState) (tr : List PState) :
    cgiPassDirectives (st :: tr)
      = if keyword st = "cgi_pass".toList then
          ((advance st).cur.text, (advance (advance st)).cur.text) :: cgiPassDirectives tr
        else cgiPassDirectives tr :=
  filter_map_cons_keyword _ _ st tr

/-- One round of the loop of `parseServer` that is followed by a normal
return of the loop: the directive returned and the loop went on from there. -/
theorem parseServerLoop_succ_ok {n : Nat} {srv srv2 : ServerBlock} {st st2 : PState}
    (h : parseServerLoop (n + 1) srv st = .ok srv2 st2) :
    (st.cur.type = T_RBRACE ∧ srv2 = srv ∧ st2 = st
      ∧ serverDirectiveStarts (n + 1) srv st = [])
    ∨ (st.cur.type ≠ T_RBRACE ∧ st.cur.type ≠ T_EOF ∧ ∃ srv1 st1,
        parseServerDirective n srv st = .ok srv1 st1
        ∧ parseServerLoop n srv1 st1 = .ok srv2 st2
        ∧ serverDirectiveStarts (n + 1) srv st = st :: serverDirectiveStarts n srv1 st1) := by
  unfold parseServerLoop at h
  by_cases h1 : st.cur.type = T_RBRACE
  · left
    simp only [h1, ne_eq, not_true_eq_false, if_false] at h
    refine ⟨h1, (Result.ok.inj h).1.symm, (Result.ok.inj h).2.symm, ?_⟩
    rw [serverDirectiveStarts]
    simp only [h1, ne_eq, not_true_eq_false, if_false]
  · right
    simp only [ne_eq, h1, not_false_eq_true, if_true] at h
    by_cases h2 : st.cur.type = T_EOF
    · simp only [h2, if_true] at h
      exact Result.noConfusion h
    · simp only [h2, if_false] at h
      obtain ⟨srv1, st1, h3, h4⟩ := bind_eq_ok h
      refine ⟨h1, h2, srv1, st1, h3, h4, ?_⟩
      rw [serverDirectiveStarts]
      simp only [ne_eq, h1, not_false_eq_true, if_true, h2, if_false, h3]

/-- The same for the loop of `parseLocation`. -/
theorem parseLocationLoop_succ_ok {n : Nat} {loc loc2 : LocationBlock} {st st2 : PState}
    (h : parseLocationLoop (n + 1) loc st = .ok loc2 st2) :
    (st.cur.type = T_RBRACE ∧ loc2 = loc ∧ st2 = st
      ∧ locationDirectiveStarts (n + 1) loc st = [])
    ∨ (st.cur.type ≠ T_RBRACE ∧ st.cur.type ≠ T_EOF ∧ ∃ loc1 st1,
        parseLocationDirective n loc st = .ok loc1 st1
        ∧ parseLocationLoop n loc1 st1 = .ok loc2 st2
        ∧ locationDirectiveStarts (n + 1) loc st
            = st :: locationDirectiveStarts n loc1 st1) := by
  unfold parseLocationLoop at h
  by_cases h1 : st.cur.type = T_RBRACE
  · left
    simp only [h1, ne_eq, not_true_eq_false, if_false] at h
    refine ⟨h1, (Result.ok.inj h).1.symm, (Result.ok.inj h).2.symm, ?_⟩
    rw [locationDirectiveStarts]
    simp only [h1, ne_eq, not_true_eq_false, if_false]
  · right
    simp only [ne_eq, h1, not_false_eq_true, if_true] at h
    by_cases h2 : st.cur.type = T_EOF
    · simp only [h2, if_true] at h
      exact Result.noConfusion h
    · simp only [h2, if_false] at h
      obtain ⟨loc1, st1, h3, h4⟩ := bind_eq_ok h
      refine ⟨h1, h2, loc1, st1, h3, h4, ?_⟩
      rw [locationDirectiveStarts]
      simp only [ne_eq, h1, not_false_eq_true, if_true, h2, if_false, h3]

theorem parseServerLoop_error_pages {n : Nat} {srv srv2 : ServerBlock} {st st2 : PState}
    (h : parseServerLoop n srv st = .ok srv2 st2) :
    srv2.error_pages
      = assignAll srv.error_pages (errorPageDirectives (serverDirectiveStarts n srv st)) := by
  induction n generalizing srv st with
  | zero => exact Result.noConfusion h
  | succ n ih =>
    rcases parseServerLoop_succ_ok h with ⟨_, h2, _, h4⟩ | ⟨_, _, srv1, st1, h3, h4, h5⟩
    · rw [h4, h2]; rfl
    · rw [h5, errorPageDirectives_cons, ih h4, parseServerDirective_error_pages h3]
      split <;> rfl

theorem parseLocationLoop_cgi_map {n : Nat} {loc loc2 : LocationBlock} {st st2 : PState}
    (h : parseLocationLoop n loc st = .ok loc2 st2) :
    loc2.cgi_map
      = assignAll loc.cgi_map (cgiPassDirectives (locationDirectiveStarts n loc st)) := by
  induction n generalizing loc st with
  | zero => exact Result.noConfusion h
  | succ n ih =>
    rcases parseLocationLoop_succ_ok h with ⟨_, h2, _, h4⟩ | ⟨_, _, loc1, st1, h3, h4, h5⟩
    · rw [h4, h2]; rfl
    · rw [h5, cgiPassDirectives_cons, ih h4, parseLocationDirective_cgi_map h3]
      split <;> rfl

theorem parseLocationLoop_has_redirect {n : Nat} {loc loc2 : LocationBlock} {st st2 : PState}
    (h : parseLocationLoop n loc st = .ok loc2 st2)
    (hk : ∀ s ∈ locationDirectiveStarts n loc st, keyword s ≠ "return".toList) :
    loc2.has_redirect = loc.has_redirect := by
  induction n generalizing loc st with
  | zero => exact Result.noConfusion h
  | succ n ih =>
    rcases parseLocationLoop_succ_ok h with ⟨_, h2, _, _⟩ | ⟨_, _, loc1, st1, h3, h4, h5⟩
    · rw [h2]
    · rw [h5] at hk
      rw [ih h4 (fun s hs => hk s (List.mem_cons_of_mem _ hs)),
        parseLocationDirective_has_redirect h3 (hk st (List.mem_cons_self _ _))]

theorem parseServerLoop_listens {n : Nat} {srv srv2 : ServerBlock} {st st2 : PState}
    (h : parseServerLoop n srv st = .ok srv2 st2)
    (hk : ∀ s ∈ serverDirectiveStarts n srv st, keyword s ≠ "listen".toList) :
    srv2.listens = srv.listens := by
  induction n generalizing srv st with
  | zero => exact Result.noConfusion h
  | succ n ih =>
    rcases parseServerLoop_succ_ok h with ⟨_, h2, _, _⟩ | ⟨_, _, srv1, st1, h3, h4, h5⟩
    · rw [h2]
    · rw [h5] at hk
      rw [ih h4 (fun s hs => hk s (List.mem_cons_of_mem _ hs)),
        parseServerDirective_listens h3 (hk st (List.mem_cons_self _ _))]

/-- A server block that returns: both braces were there and the loop returned
the block, started from the empty block right after the opening brace. -/
theorem parseServer_eq_ok {n : Nat} {srv : ServerBlock} {st st1 : PState}
    (h : parseServer n st = .ok srv st1) :
    ∃ st3, (advance st).cur.type = T_LBRACE
      ∧ parseServerLoop n {} (advance (advance st)) = .ok srv st3
      ∧ st3.cur.type = T_RBRACE ∧ st1 = advance st3 := by
  unfold parseServer at h
  simp only at h
  obtain ⟨u, st2, h1, h2⟩ := bind_eq_ok h
  obtain ⟨srv1, st3, h3, h4⟩ := bind_eq_ok h2
  obtain ⟨u2, st4, h5, h6⟩ := bind_eq_ok h4
  obtain ⟨h7, h8⟩ := expect_eq_ok h1
  obtain ⟨h9, h10⟩ := expect_eq_ok h5
  obtain ⟨h11, h12⟩ := Result.ok.inj h6
  rw [h8] at h3
  rw [← h11]
  exact ⟨st3, h7, h3, h9, by rw [← h12, h10]⟩

theorem parseLocationDirective_return {fuel : Nat} {loc : LocationBlock} {st : PState}
    (ht : st.cur.type = T_IDENT) (hk : keyword st = "return".toList) :
    parseLocationDirective fuel loc st = loc_return loc st := by
  unfold keyword at hk
  unfold parseLocationDirective
  rw [if_neg (not_not.mpr ht), if_neg (by rw [hk]; decide), if_neg (by rw [hk]; decide),
    if_neg (by rw [hk]; decide), if_neg (by rw [hk]; decide), if_neg (by rw [hk]; decide),
    if_pos hk]

theorem loc_return_code_only {loc : LocationBlock} {st : PState}
    (hc : (advance st).cur.type = T_NUMBER ∨ (advance st).cur.type = T_IDENT)
    (hs : (advance (advance st)).cur.type = T_SEMI) :
    loc_return loc st
      = .ok (loc.setRedirect (advance st).cur.text []) (advance (advance (advance st))) := by
  unfold loc_return
  simp only
  rw [if_neg (by rcases hc with h | h <;> simp [h]), if_pos hs]

theorem loc_return_code_target {loc : LocationBlock} {st : PState}
    (hc : (advance st).cur.type = T_NUMBER ∨ (advance st).cur.type = T_IDENT)
    (ht : (advance (advance st)).cur.type = T_IDENT
      ∨ (advance (advance st)).cur.type = T_STRING)
    (hs : (advance (advance (advance st))).cur.type = T_SEMI) :
    loc_return loc st
      = .ok (loc.setRedirect (advance st).cur.text (advance (advance st)).cur.text)
          (advance (advance (advance (advance st)))) := by
  unfold loc_return
  simp only
  rw [if_neg (by rcases hc with h | h <;> simp [h]),
    if_neg (by rcases ht with h | h <;> simp [h]),
    if_neg (by rcases ht with h | h <;> simp [isIdentOrString, h]),
    expect_of_type semiWhat hs]
  simp only [Result.bind]

theorem setRedirect_fields (loc : LocationBlock) (code target : Str) :
    (loc.setRedirect code target).has_redirect = true
    ∧ (loc.setRedirect code target).redirect_code = code
    ∧ (loc.setRedirect code target).redirect_to = target := ⟨rfl, rfl, rfl⟩

/-- Claim C4: at a `return` directive whose status-code token `c` is a Number
or an Identifier, when `;` follows the code the location gets a redirect with
code the text of `c` and the empty target; when an Identifier or String token
`t` and then `;` follow, it gets code the text of `c` and target the text of
`t`.  A location block that parses without meeting a `return` directive has
no redirect. -/
theorem return_directive_spec (fuel : Nat) (loc : LocationBlock) (st : PState)
    (hi : st.cur.type = T_IDENT) (hk : keyword st = "return".toList)
    (hc : (advance st).cur.type = T_NUMBER ∨ (advance st).cur.type = T_IDENT) :
    ((advance (advance st)).cur.type = T_SEMI →
      ∃ loc1 st1, parseLocationDirective fuel loc st = .ok loc1 st1
        ∧ loc1.has_redirect = true
        ∧ loc1.redirect_code = (advance st).cur.text
        ∧ loc1.redirect_to = [])
    ∧ (((advance (advance st)).cur.type = T_IDENT
          ∨ (advance (advance st)).cur.type = T_STRING) →
        (advance (advance (advance st))).cur.type = T_SEMI →
        ∃ loc1 st1, parseLocationDirective fuel loc st = .ok loc1 st1
          ∧ loc1.has_redirect = true
          ∧ loc1.redirect_code = (advance st).cur.text
          ∧ loc1.redirect_to = (advance (advance st)).cur.text)
    ∧ (∀ (n : Nat) (pfx : Str) (s0 : PState) (loc2 : LocationBlock) (s2 : PState),
        parseLocation n pfx s0 = .ok loc2 s2 →
        (∀ s ∈ locationDirectiveStarts n (({} : LocationBlock).setPathPrefix pfx) s0,
          keyword s ≠ "return".toList) →
        loc2.has_redirect = false) := by
  refine ⟨?_, ?_, ?_⟩
  · intro hs
    exact ⟨_, _, (parseLocationDirective_return hi hk).trans (loc_return_code_only hc hs),
      setRedirect_fields loc _ _⟩
  · intro ht hs
    exact ⟨_, _, (parseLocationDirective_return hi hk).trans (loc_return_code_target hc ht hs),
      setRedirect_fields loc _ _⟩
  · intro n pfx s0 loc2 s2 h hno
    exact parseLocationLoop_has_redirect h hno
theorem return_directive_spec_witness :
    (∃ loc1 st1, parseLocationDirective 5 {} (advanceN 8 (initState sampleReturnSource))
        = .ok loc1 st1
      ∧ loc1.has_redirect = true ∧ loc1.redirect_code = "301".toList ∧ loc1.redirect_to = [])
    ∧ (∃ loc1 st1, parseLocationDirective 5 {} (advanceN 15 (initState sampleReturnSource))
        = .ok loc1 st1
      ∧ loc1.has_redirect = true ∧ loc1.redirect_code = "301".toList
      ∧ loc1.redirect_to = "/new".toList)
    ∧ ({ path_prefix := "/c".toList, root := "www".toList } : LocationBlock).has_redirect
        = false :=
  ⟨(return_directive_spec 5 {} (advanceN 8 (initState sampleReturnSource))
      (by decide) (by decide) (by decide)).1 (by decide),
   (return_directive_spec 5 {} (advanceN 15 (initState sampleReturnSource))
      (by decide) (by decide) (by decide)).2.1 (by decide) (by decide),
   (return_directive_spec 5 {} (advanceN 8 (initState sampleReturnSource))
      (by decide) (by decide) (by decide)).2.2 5 "/c".toList
      (advanceN 23 (initState sampleReturnSource))
      { path_prefix := "/c".toList, root := "www".toList }
      (advanceN 26 (initState sampleReturnSource)) (by decide) (by decide)⟩

/-- Claim C5: duplicate keys are last-wins.  For every server block that
parses successfully, a pair `(code, path)` is in its `error_pages` map exactly
when `path` is the path of the last `error_page` directive of the block with
that code (so the keys are exactly the codes the directives name); likewise a
pair `(extension, interpreter)` is in the `cgi_map` of a location block that
parses successfully exactly when it comes from the last `cgi_pass` directive
of the block for that extension. -/
theorem duplicate_keys_last_wins (fuel : Nat) (st : PState) :
    (∀ (srv : ServerBlock) (st1 : PState), parseServer fuel st = .ok srv st1 →
      ∀ (c : Int) (p : Str), (c, p) ∈ srv.error_pages ↔
        lastValue c (errorPageDirectives
          (serverDirectiveStarts fuel {} (advance (advance st)))) = some p)
    ∧ (∀ (pfx : Str) (loc : LocationBlock) (st1 : PState),
      parseLocation fuel pfx st = .ok loc st1 →
      ∀ (e p : Str), (e, p) ∈ loc.cgi_map ↔
        lastValue e (cgiPassDirectives
          (locationDirectiveStarts fuel (({} : LocationBlock).setPathPrefix pfx) st))
          = some p) := by
  constructor
  · intro srv st1 h c p
    obtain ⟨st3, _, h2, _, _⟩ := parseServer_eq_ok h
    rw [parseServerLoop_error_pages h2]
    exact mem_assignAll_nil _ c p
  · intro pfx loc st1 h e p
    unfold parseLocation at h
    rw [parseLocationLoop_cgi_map h]
    convert mem_assignAll_nil _ e p

theorem duplicate_keys_last_wins_witness :
    ((404, "/c.html".toList) ∈ sampleDuplicateServer.error_pages
      ∧ (404, "/a.html".toList) ∉ sampleDuplicateServer.error_pages
      ∧ (500, "/b.html".toList) ∈ sampleDuplicateServer.error_pages)
    ∧ ((".py".toList, "/usr/bin/python3".toList) ∈ sampleDuplicateLocation.cgi_map
      ∧ (".py".toList, "/usr/bin/python2".toList) ∉ sampleDuplicateLocation.cgi_map) :=
  ⟨⟨((duplicate_keys_last_wins 20 (initState sampleDuplicateSource)).1
        sampleDuplicateServer (advanceN 27 (initState sampleDuplicateSource)) (by decide)
        404 "/c.html".toList).mpr (by decide),
    fun h => absurd (((duplicate_keys_last_wins 20 (initState sampleDuplicateSource)).1
        sampleDuplicateServer (advanceN 27 (initState sampleDuplicateSource)) (by decide)
        404 "/a.html".toList).mp h) (by decide),
    ((duplicate_keys_last_wins 20 (initState sampleDuplicateSource)).1
        sampleDuplicateServer (advanceN 27 (initState sampleDuplicateSource)) (by decide)
        500 "/b.html".toList).mpr (by decide)⟩,
   ⟨((duplicate_keys_last_wins 20 (advanceN 17 (initState sampleDuplicateSource))).2
        "/cgi".toList sampleDuplicateLocation
        (advanceN 25 (initState sampleDuplicateSource)) (by decide)
        ".py".toList "/usr/bin/python3".toList).mpr (by decide),
    fun h => absurd (((duplicate_keys_last_wins 20
        (advanceN 17 (initState sampleDuplicateSource))).2
        "/cgi".toList sampleDuplicateLocation
        (advanceN 25 (initState sampleDuplicateSource)) (by decide)
        ".py".toList "/usr/bin/python2".toList).mp h) (by decide)⟩⟩

/-- One round of the loop of `parseConfig` that is followed by a normal
return of the loop. -/
theorem parseConfigLoop_succ_ok {n : Nat} {cfg cfg2 : Config} {st st2 : PState}
    (h : parseConfigLoop (n + 1) cfg st = .ok cfg2 st2) :
    (st.cur.type = T_EOF ∧ cfg2 = cfg ∧ st2 = st ∧ serverBlockTraces (n + 1) cfg st = [])
    ∨ (st.cur.type ≠ T_EOF ∧ st.cur.type = T_IDENT ∧ st.cur.text = "server".toList
        ∧ ∃ srv st1, parseServer n st = .ok srv st1
          ∧ parseConfigLoop n (cfg.addServer srv) st1 = .ok cfg2 st2
          ∧ serverBlockTraces (n + 1) cfg st
              = serverDirectiveStarts n {} (advance (advance st))
                  :: serverBlockTraces n (cfg.addServer srv) st1) := by
  unfold parseConfigLoop at h
  by_cases h1 : st.cur.type = T_EOF
  · left
    simp only [h1, ne_eq, not_true_eq_false, if_false] at h
    refine ⟨h1, (Result.ok.inj h).1.symm, (Result.ok.inj h).2.symm, ?_⟩
    rw [serverBlockTraces]
    simp only [h1, ne_eq, not_true_eq_false, if_false]
  · right
    simp only [ne_eq, h1, not_false_eq_true, if_true] at h
    by_cases h2 : st.cur.type = T_IDENT ∧ st.cur.text = "server".toList
    · simp only [h2, and_self, if_true] at h
      obtain ⟨srv, st1, h3, h4⟩ := bind_eq_ok h
      refine ⟨h1, h2.1, h2.2, srv, st1, h3, h4, ?_⟩
      rw [serverBlockTraces, if_pos h1, if_pos h2, h3]
    · rw [if_neg h2] at h
      exact Result.noConfusion h

/-- The servers added by the loop of `parseConfig` correspond, position by
position, to the directive lists recorded for the blocks, and each of them is
what the loop of `parseServer` returned on its list. -/
theorem parseConfigLoop_servers {n : Nat} {cfg cfg2 : Config} {st st2 : PState}
    (h : parseConfigLoop n cfg st = .ok cfg2 st2) :
    ∃ added : List ServerBlock, cfg2.servers = cfg.servers ++ added
      ∧ ∀ (i : Nat) (tr : List PState), (serverBlockTraces n cfg st)[i]? = some tr →
          ∃ srv, added[i]? = some srv
            ∧ ∃ m s0 s1, parseServerLoop m {} s0 = .ok srv s1
              ∧ tr = serverDirectiveStarts m {} s0 := by
  induction n generalizing cfg st with
  | zero => exact Result.noConfusion h
  | succ n ih =>
    rcases parseConfigLoop_succ_ok h with ⟨_, h2, _, h4⟩ | ⟨_, _, _, srv, st1, h3, h4, h5⟩
    · refine ⟨[], by rw [h2, List.append_nil], ?_⟩
      intro i tr htr
      rw [h4] at htr
      exact absurd htr (by simp)
    · obtain ⟨added, ha, hf⟩ := ih h4
      obtain ⟨st3, _, h6, _, _⟩ := parseServer_eq_ok h3
      refine ⟨srv :: added, ?_, ?_⟩
      · rw [ha]; simp [Config.addServer]
      · intro i tr htr
        rw [h5] at htr
        match i with
        | 0 =>
          have e1 : serverDirectiveStarts n {} (advance (advance st)) = tr := by
            simpa using htr
          exact ⟨srv, List.getElem?_cons_zero, n, _, st3, h6, e1.symm⟩
        | j + 1 =>
          rw [List.getElem?_cons_succ] at htr
          obtain ⟨srv2, hs2, hrest⟩ := hf j tr htr
          exact ⟨srv2, by rw [List.getElem?_cons_succ]; exact hs2, hrest⟩

theorem not_configOk_of_no_listen {fs : FileSystem} {cfg : Config} {base : Str}
    {srv : ServerBlock} (hm : srv ∈ cfg.servers) (hl : srv.listens = []) :
    ¬ ConfigOk fs cfg base :=
  fun hok => (hok.2 srv hm).1.1 hl

/-! ## More budget never changes a finished outcome -/

theorem Result.Extends.refl {α : Type} (r : Result α) : r.Extends r := fun _ => rfl

theorem Result.Extends.bind {α β : Type} {r1 r2 : Result α} {g1 g2 : α → PState → Result β}
    (h : r1.Extends r2) (hg : ∀ a s, (g1 a s).Extends (g2 a s)) :
    (r1.bind g1).Extends (r2.bind g2) := by
  intro hne
  cases r1 with
  | ok a s =>
    rw [h (fun hx => Result.noConfusion hx)]
    exact hg a s hne
  | err e =>
    rw [h (fun hx => Result.noConfusion hx)]
    rfl
  | outOfFuel => exact absurd rfl hne

theorem Result.Extends.of_eq {α : Type} {r1 r2 r : Result α} (h : r1.Extends r2)
    (h1 : r1 = r) (hne : r ≠ .outOfFuel) : r2 = r := by
  rw [← h1]; exact h (by rw [h1]; exact hne)

theorem dir_index_loop_mono {n m : Nat} (hnm : n ≤ m) (srv : ServerBlock) (st : PState) :
    (dir_index_loop n srv st).Extends (dir_index_loop m srv st) := by
  induction n generalizing m srv st with
  | zero => intro h; exact absurd rfl h
  | succ n ih =>
    obtain ⟨m, rfl⟩ : ∃ m1, m = m1 + 1 := ⟨m - 1, by omega⟩
    rw [dir_index_loop, dir_index_loop]
    split
    · exact ih (by omega) _ _
    · exact Result.Extends.refl _

theorem loc_index_loop_mono {n m : Nat} (hnm : n ≤ m) (loc : LocationBlock) (st : PState) :
    (loc_index_loop n loc st).Extends (loc_index_loop m loc st) := by
  induction n generalizing m loc st with
  | zero => intro h; exact absurd rfl h
  | succ n ih =>
    obtain ⟨m, rfl⟩ : ∃ m1, m = m1 + 1 := ⟨m - 1, by omega⟩
    rw [loc_index_loop, loc_index_loop]
    split
    · exact ih (by omega) _ _
    · exact Result.Extends.refl _

theorem loc_methods_loop_mono {n m : Nat} (hnm : n ≤ m) (loc : LocationBlock) (st : PState) :
    (loc_methods_loop n loc st).Extends (loc_methods_loop m loc st) := by
  induction n generalizing m loc st with
  | zero => intro h; exact absurd rfl h
  | succ n ih =>
    obtain ⟨m, rfl⟩ : ∃ m1, m = m1 + 1 := ⟨m - 1, by omega⟩
    rw [loc_methods_loop, loc_methods_loop]
    split
    · exact ih (by omega) _ _
    · exact Result.Extends.refl _

theorem dir_index_mono {n m : Nat} (hnm : n ≤ m) (srv : ServerBlock) (st : PState) :
    (dir_index n srv st).Extends (dir_index m srv st) := by
  unfold dir_index
  simp only
  split
  · exact Result.Extends.refl _
  · exact (dir_index_loop_mono hnm _ _).bind (fun _ _ => Result.Extends.refl _)

theorem loc_index_mono {n m : Nat} (hnm : n ≤ m) (loc : LocationBlock) (st : PState) :
    (loc_index n loc st).Extends (loc_index m loc st) := by
  unfold loc_index
  simp only
  split
  · exact Result.Extends.refl _
  · exact (loc_index_loop_mono hnm _ _).bind (fun _ _ => Result.Extends.refl _)

theorem loc_methods_mono {n m : Nat} (hnm : n ≤ m) (loc : LocationBlock) (st : PState) :
    (loc_methods n loc st).Extends (loc_methods m loc st) := by
  unfold loc_methods
  simp only
  split
  · exact Result.Extends.refl _
  · exact (loc_methods_loop_mono hnm _ _).bind (fun _ _ => Result.Extends.refl _)

theorem parseLocationDirective_mono {n m : Nat} (hnm : n ≤ m) (loc : LocationBlock)
    (st : PState) :
    (parseLocationDirective n loc st).Extends (parseLocationDirective m loc st) := by
  unfold parseLocationDirective
  split
  · exact Result.Extends.refl _
  split
  · exact Result.Extends.refl _
  split
  · exact loc_methods_mono hnm _ _
  split
  · exact Result.Extends.refl _
  split
  · exact loc_index_mono hnm _ _
  exact Result.Extends.refl _

theorem parseLocationLoop_mono {n m : Nat} (hnm : n ≤ m) (loc : LocationBlock) (st : PState) :
    (parseLocationLoop n loc st).Extends (parseLocationLoop m loc st) := by
  induction n generalizing m loc st with
  | zero => intro h; exact absurd rfl h
  | succ n ih =>
    obtain ⟨m, rfl⟩ : ∃ m1, m = m1 + 1 := ⟨m - 1, by omega⟩
    rw [parseLocationLoop, parseLocationLoop]
    split
    · split
      · exact Result.Extends.refl _
      · exact (parseLocationDirective_mono (by omega) _ _).bind
          (fun _ _ => ih (by omega) _ _)
    · exact Result.Extends.refl _

theorem dir_location_mono {n m : Nat} (hnm : n ≤ m) (srv : ServerBlock) (st : PState) :
    (dir_location n srv st).Extends (dir_location m srv st) := by
  unfold dir_location parseLocation
  simp only
  split
  · exact Result.Extends.refl _
  · exact (Result.Extends.refl _).bind (fun _ _ =>
      (parseLocationLoop_mono hnm _ _).bind (fun _ _ => Result.Extends.refl _))

theorem parseServerDirective_mono {n m : Nat} (hnm : n ≤ m) (srv : ServerBlock)
    (st : PState) :
    (parseServerDirective n srv st).Extends (parseServerDirective m srv st) := by
  unfold parseServerDirective
  split
  · exact Result.Extends.refl _
  split
  · exact Result.Extends.refl _
  split
  · exact Result.Extends.refl _
  split
  · exact dir_index_mono hnm _ _
  split
  · exact Result.Extends.refl _
  split
  · exact Result.Extends.refl _
  split
  · exact Result.Extends.refl _
  split
  · exact dir_location_mono hnm _ _
  exact Result.Extends.refl _

theorem parseServerLoop_mono {n m : Nat} (hnm : n ≤ m) (srv : ServerBlock) (st : PState) :
    (parseServerLoop n srv st).Extends (parseServerLoop m srv st) := by
  induction n generalizing m srv st with
  | zero => intro h; exact absurd rfl h
  | succ n ih =>
    obtain ⟨m, rfl⟩ : ∃ m1, m = m1 + 1 := ⟨m - 1, by omega⟩
    rw [parseServerLoop, parseServerLoop]
    split
    · split
      · exact Result.Extends.refl _
      · exact (parseServerDirective_mono (by omega) _ _).bind
          (fun _ _ => ih (by omega) _ _)
    · exact Result.Extends.refl _

theorem parseServer_mono {n m : Nat} (hnm : n ≤ m) (st : PState) :
    (parseServer n st).Extends (parseServer m st) := by
  unfold parseServer
  simp only
  exact (Result.Extends.refl _).bind (fun _ _ =>
    (parseServerLoop_mono hnm _ _).bind (fun _ _ => Result.Extends.refl _))

theorem parseConfigLoop_mono {n m : Nat} (hnm : n ≤ m) (cfg : Config) (st : PState) :
    (parseConfigLoop n cfg st).Extends (parseConfigLoop m cfg st) := by
  induction n generalizing m cfg st with
  | zero => intro h; exact absurd rfl h
  | succ n ih =>
    obtain ⟨m, rfl⟩ : ∃ m1, m = m1 + 1 := ⟨m - 1, by omega⟩
    rw [parseConfigLoop, parseConfigLoop]
    split
    · split
      · exact (parseServer_mono (by omega) _).bind (fun _ _ => ih (by omega) _ _)
      · exact Result.Extends.refl _
    · exact Result.Extends.refl _

/-- Once `parseFile` has finished within some budget, every larger budget
gives the same outcome. -/
theorem parseFile_mono {n m : Nat} (hnm : n ≤ m) (content : Str) :
    (parseFile n content).Extends (parseFile m content) :=
  parseConfigLoop_mono hnm _ _

/-! ## Properties of the lexer state kept by every lexer routine -/

section LexerInvariant

variable {P : Lexer → Prop} (hget : ∀ lx, P lx → P lx.get.2)
include hget

theorem skipSpaces_pres (n : Nat) {lx : Lexer} (h : P lx) : P (Lexer.skipSpaces n lx) := by
  induction n generalizing lx with
  | zero => exact h
  | succ n ih =>
    rw [Lexer.skipSpaces]
    split
    · exact ih (hget _ h)
    · exact h

theorem skipLine_pres (n : Nat) {lx : Lexer} (h : P lx) : P (Lexer.skipLine n lx) := by
  induction n generalizing lx with
  | zero => exact h
  | succ n ih =>
    rw [Lexer.skipLine]
    split
    · exact h
    · simp only
      split
      · exact ih (hget _ h)
      · exact hget _ h

theorem skipSpacesAndCommentsLoop_pres (n : Nat) {lx : Lexer} (h : P lx) :
    P (Lexer.skipSpacesAndCommentsLoop n lx) := by
  induction n generalizing lx with
  | zero => exact h
  | succ n ih =>
    rw [Lexer.skipSpacesAndCommentsLoop]
    split
    · exact ih (skipLine_pres hget _ (skipSpaces_pres hget _ h))
    · exact skipSpaces_pres hget _ h

theorem skipSpacesAndComments_pres {lx : Lexer} (h : P lx) : P lx.skipSpacesAndComments :=
  skipSpacesAndCommentsLoop_pres hget _ h

theorem readIdentLoop_pres (n : Nat) {lx : Lexer} (h : P lx) :
    P (Lexer.readIdentLoop n lx) := by
  induction n generalizing lx with
  | zero => exact h
  | succ n ih =>
    rw [Lexer.readIdentLoop]
    split
    · exact h
    · split
      · exact h
      · exact ih (hget _ h)

theorem readNumberOrIdentLoop_pres (n : Nat) {lx : Lexer} (b : Bool) (h : P lx) :
    P (Lexer.readNumberOrIdentLoop n lx b).1 := by
  induction n generalizing lx b with
  | zero => exact h
  | succ n ih =>
    rw [Lexer.readNumberOrIdentLoop]
    split
    · exact h
    · split
      · exact h
      · exact ih _ (hget _ h)

theorem readStringLoop_pres (n : Nat) {lx : Lexer} (h : P lx) :
    P (Lexer.readStringLoop n lx) := by
  induction n generalizing lx with
  | zero => exact h
  | succ n ih =>
    rw [Lexer.readStringLoop]
    split
    · simp only
      split
      · exact ih (hget _ (hget _ h))
      · exact ih (hget _ h)
    · exact h

theorem readString_pres {lx : Lexer} (h : P lx) : P lx.readString.2 := by
  unfold Lexer.readString
  simp only
  split
  · exact readStringLoop_pres hget _ (hget _ h)
  · exact hget _ (readStringLoop_pres hget _ (hget _ h))

theorem readNumberOrIdent_pres {lx : Lexer} (h : P lx) : P lx.readNumberOrIdent.2 := by
  unfold Lexer.readNumberOrIdent
  simp only
  split
  · exact readNumberOrIdentLoop_pres hget _ _ h
  · split
    · exact readNumberOrIdentLoop_pres hget _ _ h
    · exact readNumberOrIdentLoop_pres hget _ _ h

theorem readIdent_pres {lx : Lexer} (h : P lx) : P lx.readIdent.2 :=
  readIdentLoop_pres hget _ h

/-- Every property of the lexer state that `get` keeps is kept by `next`. -/
theorem next_pres {lx : Lexer} (h : P lx) : P lx.next.2 := by
  have h1 := skipSpacesAndComments_pres hget h
  unfold Lexer.next
  simp only
  split
  · exact h1
  split
  · exact hget _ h1
  split
  · exact hget _ h1
  split
  · exact hget _ h1
  split
  · exact readString_pres hget h1
  split
  · exact readNumberOrIdent_pres hget h1
  · exact readIdent_pres hget h1

end LexerInvariant

/-- The token returned by `next` carries the line the lexer is on when `next`
returns. -/
theorem next_line (lx : Lexer) : lx.next.1.line = lx.next.2.line := by
  unfold Lexer.next
  simp only
  split
  · rfl
  split
  · rfl
  split
  · rfl
  split
  · rfl
  split
  · unfold Lexer.readString
    simp only
    split <;> rfl
  split
  · unfold Lexer.readNumberOrIdent
    simp only
    split
    · rfl
    · split <;> rfl
  · rfl

/-- A token of kind `T_EOF` is returned only with the lexer at the end of its
input. -/
theorem next_eof (lx : Lexer) (h : lx.next.1.type = T_EOF) : lx.next.2.eof = true := by
  unfold Lexer.next at h ⊢
  simp only at h ⊢
  split
  · assumption
  · rename_i h0
    rw [if_neg h0] at h
    split
    · rename_i h1; rw [if_pos h1] at h; exact absurd h (by simp)
    rename_i h1; rw [if_neg h1] at h
    split
    · rename_i h2; rw [if_pos h2] at h; exact absurd h (by simp)
    rename_i h2; rw [if_neg h2] at h
    split
    · rename_i h3; rw [if_pos h3] at h; exact absurd h (by simp)
    rename_i h3; rw [if_neg h3] at h
    split
    · rename_i h4; rw [if_pos h4] at h
      unfold Lexer.readString at h ⊢
      simp only at h ⊢
      split
      · assumption
      · rename_i h5; rw [if_neg h5] at h; exact absurd h (by simp)
    rename_i h4; rw [if_neg h4] at h
    split
    · rename_i h5; rw [if_pos h5] at h
      unfold Lexer.readNumberOrIdent at h
      simp only at h
      split at h
      · exact absurd h (by simp)
      · split at h <;> exact absurd h (by simp)
    · rename_i h5; rw [if_neg h5] at h
      unfold Lexer.readIdent at h
      exact absurd h (by simp)

/-! ## The round budgets of the lexer loops are never used up

Every round of a lexer loop reads at least one character, so a budget of one
round per unread character lets the loop reach its own exit test: a larger
budget gives the same result. -/

theorem eof_of_remaining_zero {lx : Lexer} (h : lx.remaining = 0) : lx.eof = true := by
  unfold Lexer.remaining at h
  unfold Lexer.eof
  simp only [decide_eq_true_eq]
  omega

theorem remaining_get {lx : Lexer} (h : lx.eof = false) :
    lx.get.2.remaining + 1 = lx.remaining := by
  have hlt : lx.pos < lx.src.length := by
    unfold Lexer.eof at h
    simpa using h
  unfold Lexer.get
  rw [h]
  simp only [Bool.false_eq_true, if_false]
  unfold Lexer.remaining
  simp only
  omega

theorem remaining_get_le (lx : Lexer) : lx.get.2.remaining ≤ lx.remaining := by
  cases h : lx.eof
  · have := remaining_get h; omega
  · unfold Lexer.get; rw [h]; simp

theorem skipSpaces_fuel {n : Nat} {lx : Lexer} (h : lx.remaining ≤ n) :
    Lexer.skipSpaces n lx = Lexer.skipSpaces lx.remaining lx := by
  induction n generalizing lx with
  | zero =>
    have : lx.remaining = 0 := by omega
    rw [this]
  | succ n ih =>
    cases he : lx.eof
    · have hr := remaining_get he
      have e1 : lx.remaining = lx.get.2.remaining + 1 := hr.symm
      rw [e1, Lexer.skipSpaces, Lexer.skipSpaces]
      split
      · exact ih (by omega)
      · rfl
    · rw [Lexer.skipSpaces]
      simp only [he, Bool.not_true, Bool.false_and, Bool.false_eq_true, if_false]
      cases hk : lx.remaining with
      | zero => rfl
      | succ k => rw [Lexer.skipSpaces]; simp [he]

theorem skipLine_fuel {n : Nat} {lx : Lexer} (h : lx.remaining ≤ n) :
    Lexer.skipLine n lx = Lexer.skipLine lx.remaining lx := by
  induction n generalizing lx with
  | zero =>
    have : lx.remaining = 0 := by omega
    rw [this]
  | succ n ih =>
    cases he : lx.eof
    · have hr := remaining_get he
      have e1 : lx.remaining = lx.get.2.remaining + 1 := hr.symm
      rw [e1, Lexer.skipLine, Lexer.skipLine]
      simp only [he, Bool.false_eq_true, if_false]
      split
      · exact ih (by omega)
      · rfl
    · rw [Lexer.skipLine]
      simp only [he, if_true]
      cases hk : lx.remaining with
      | zero => rfl
      | succ k => rw [Lexer.skipLine]; simp [he]

theorem readIdentLoop_fuel {n : Nat} {lx : Lexer} (h : lx.remaining ≤ n) :
    Lexer.readIdentLoop n lx = Lexer.readIdentLoop lx.remaining lx := by
  induction n generalizing lx with
  | zero =>
    have : lx.remaining = 0 := by omega
    rw [this]
  | succ n ih =>
    cases he : lx.eof
    · have hr := remaining_get he
      have e1 : lx.remaining = lx.get.2.remaining + 1 := hr.symm
      rw [e1, Lexer.readIdentLoop, Lexer.readIdentLoop]
      simp only [he, Bool.false_eq_true, if_false]
      split
      · rfl
      · exact ih (by omega)
    · rw [Lexer.readIdentLoop]
      simp only [he, if_true]
      cases hk : lx.remaining with
      | zero => rfl
      | succ k => rw [Lexer.readIdentLoop]; simp [he]

theorem readNumberOrIdentLoop_fuel {n : Nat} {lx : Lexer} (b : Bool)
    (h : lx.remaining ≤ n) :
    Lexer.readNumberOrIdentLoop n lx b = Lexer.readNumberOrIdentLoop lx.remaining lx b := by
  induction n generalizing lx b with
  | zero =>
    have : lx.remaining = 0 := by omega
    rw [this]
  | succ n ih =>
    cases he : lx.eof
    · have hr := remaining_get he
      have e1 : lx.remaining = lx.get.2.remaining + 1 := hr.symm
      rw [e1, Lexer.readNumberOrIdentLoop, Lexer.readNumberOrIdentLoop]
      simp only [he, Bool.false_eq_true, if_false]
      split
      · rfl
      · exact ih _ (by omega)
    · rw [Lexer.readNumberOrIdentLoop]
      simp only [he, if_true]
      cases hk : lx.remaining with
      | zero => rfl
      | succ k => rw [Lexer.readNumberOrIdentLoop]; simp [he]

/-- With a budget of at least the number of unread characters the loop of
`readString` stops at its own exit test, whatever the budget. -/
theorem readStringLoop_fuel {n m : Nat} {lx : Lexer} (hn : lx.remaining ≤ n)
    (hm : lx.remaining ≤ m) :
    Lexer.readStringLoop n lx = Lexer.readStringLoop m lx := by
  induction n generalizing m lx with
  | zero =>
    have he : lx.eof = true := eof_of_remaining_zero (by omega)
    cases m with
    | zero => rfl
    | succ m => rw [Lexer.readStringLoop, Lexer.readStringLoop]; simp [he]
  | succ n ih =>
    cases he : lx.eof
    · have hr := remaining_get he
      obtain ⟨m, rfl⟩ : ∃ m1, m = m1 + 1 := ⟨m - 1, by omega⟩
      rw [Lexer.readStringLoop, Lexer.readStringLoop]
      split
      · simp only
        split
        · have := remaining_get_le lx.get.2
          exact ih (by omega) (by omega)
        · exact ih (by omega) (by omega)
      · rfl
    · rw [Lexer.readStringLoop]
      simp only [he, Bool.not_true, Bool.false_and, Bool.false_eq_true, if_false]
      cases m with
      | zero => rfl
      | succ m => rw [Lexer.readStringLoop]; simp [he]

theorem skipLine_remaining_lt {n : Nat} {lx : Lexer} (he : lx.eof = false) :
    (Lexer.skipLine (n + 1) lx).remaining < lx.remaining := by
  have hr := remaining_get he
  rw [Lexer.skipLine]
  simp only [he, Bool.false_eq_true, if_false]
  split
  · have : (Lexer.skipLine n lx.get.2).remaining ≤ lx.get.2.remaining :=
      skipLine_pres (P := fun l => l.remaining ≤ lx.get.2.remaining)
        (fun l hl => le_trans (remaining_get_le l) hl) n (le_refl _)
    omega
  · omega

/-- The outer loop of `skipSpacesAndComments` stops at its own exit test when
its budget exceeds the number of unread characters. -/
theorem skipSpacesAndCommentsLoop_fuel {n m : Nat} {lx : Lexer} (hn : lx.remaining < n)
    (hm : lx.remaining < m) :
    Lexer.skipSpacesAndCommentsLoop n lx = Lexer.skipSpacesAndCommentsLoop m lx := by
  induction n generalizing m lx with
  | zero => omega
  | succ n ih =>
    obtain ⟨m, rfl⟩ : ∃ m1, m = m1 + 1 := ⟨m - 1, by omega⟩
    rw [Lexer.skipSpacesAndCommentsLoop, Lexer.skipSpacesAndCommentsLoop]
    split
    · rename_i hc
      have hle : (Lexer.skipSpaces lx.remaining lx).remaining ≤ lx.remaining :=
        skipSpaces_pres (P := fun l => l.remaining ≤ lx.remaining)
          (fun l hl => le_trans (remaining_get_le l) hl) _ (le_refl _)
      have he : (Lexer.skipSpaces lx.remaining lx).eof = false := by
        simp only [Bool.and_eq_true, Bool.not_eq_true'] at hc
        exact hc.1
      have hpos : 0 < (Lexer.skipSpaces lx.remaining lx).remaining := by
        have := remaining_get he; omega
      have hlt := skipLine_remaining_lt
        (n := (Lexer.skipSpaces lx.remaining lx).remaining - 1) he
      rw [Nat.sub_add_cancel hpos] at hlt
      exact ih (by omega) (by omega)
    · rfl

theorem bufferedText_cons_newline (r : Str) : bufferedText ('\n' :: r) = '\n' :: bufferedText r := by
  unfold bufferedText
  cases r with
  | nil => simp
  | cons x xs =>
    simp only [List.getLast?_cons_cons, reduceCtorEq, if_false]
    split <;> simp

theorem bufferedText_cons_other {c : Char} (hc : c ≠ '\n') (r : Str) :
    bufferedText (c :: r) = c :: (if r = [] then ['\n'] else bufferedText r) := by
  unfold bufferedText
  cases r with
  | nil => simp [hc]
  | cons x xs =>
    simp only [List.getLast?_cons_cons, reduceCtorEq, if_false]
    split <;> simp

theorem readLines_eq {n : Nat} {inp : Str} (buf : Str) (h : inp.length ≤ n) :
    readLines n inp buf = buf ++ bufferedText inp := by
  induction n generalizing inp buf with
  | zero =>
    have : inp = [] := List.length_eq_zero.mp (by omega)
    subst this
    simp [readLines, bufferedText]
  | succ n ih =>
    cases hinp : inp with
    | nil => simp [readLines, getline, bufferedText]
    | cons c r =>
      subst hinp
      rw [readLines]
      have hg : getline (c :: r)
          = some ((c :: r).takeWhile (fun x => x != '\n'),
              ((c :: r).dropWhile (fun x => x != '\n')).drop 1) := by
        simp [getline]
      rw [hg]
      simp only
      have hlen : (((c :: r).dropWhile (fun x => x != '\n')).drop 1).length ≤ n := by
        have h1 := (List.dropWhile_sublist (l := c :: r) (fun x => x != '\n')).length_le
        simp only [List.length_drop, List.length_cons] at h h1 ⊢
        omega
      rw [ih _ hlen]
      clear ih hg hlen h
      have key : ∀ s : Str, s ≠ [] →
          s.takeWhile (fun x => x != '\n') ++ ['\n']
            ++ bufferedText ((s.dropWhile (fun x => x != '\n')).drop 1) = bufferedText s := by
        intro s
        induction s with
        | nil => intro h; exact absurd rfl h
        | cons x xs ihs =>
          intro _
          by_cases hx : x = '\n'
          · subst hx
            simp [List.takeWhile_cons, List.dropWhile_cons, bufferedText_cons_newline]
          · have hx2 : (x != '\n') = true := by simpa using hx
            rw [List.takeWhile_cons, List.dropWhile_cons, if_pos hx2, if_pos hx2,
              bufferedText_cons_other hx]
            by_cases hxs : xs = []
            · subst hxs; simp [bufferedText]
            · rw [if_neg hxs, ← ihs hxs]; simp
      rw [List.append_assoc, List.append_assoc, ← List.append_assoc _ ['\n'] _,
        key (c :: r) (by simp)]

/-- The text buffered by `Lexer::load` is the file content, with a newline
added at the end when the content is not empty and does not end with one. -/
theorem load_src (content : Str) : (Lexer.load content).src = bufferedText content := by
  unfold Lexer.load
  simp only
  rw [readLines_eq [] (le_refl _), List.nil_append]

/-! ## White space and comments up to the end of the input give `T_EOF` -/

theorem rest_eq_nil_of_eof {lx : Lexer} (h : lx.eof = true) : lx.rest = [] := by
  unfold Lexer.eof at h
  unfold Lexer.rest
  exact List.drop_eq_nil_of_le (by simpa using h)

theorem rest_of_not_eof {lx : Lexer} (h : lx.eof = false) :
    lx.rest = lx.peek :: lx.get.2.rest ∧ lx.get.1 = lx.peek := by
  have hlt : lx.pos < lx.src.length := by
    unfold Lexer.eof at h
    simpa using h
  have hd : lx.src.getD lx.pos '\x00' = lx.src[lx.pos] := by
    rw [List.getD_eq_getElem?_getD, List.getElem?_eq_getElem hlt]; rfl
  unfold Lexer.rest Lexer.peek Lexer.get
  rw [h]
  simp only [Bool.false_eq_true, if_false]
  rw [hd]
  exact ⟨List.drop_eq_getElem_cons hlt, trivial⟩

theorem skipSpaces_blank {n : Nat} {lx : Lexer} (hn : lx.remaining ≤ n)
    (hb : blankText false lx.rest = true) :
    blankText false (Lexer.skipSpaces n lx).rest = true
    ∧ ((Lexer.skipSpaces n lx).eof = true ∨ isspace (Lexer.skipSpaces n lx).peek = false) := by
  induction n generalizing lx with
  | zero =>
    rw [Lexer.skipSpaces]
    exact ⟨hb, Or.inl (eof_of_remaining_zero (by omega))⟩
  | succ n ih =>
    rw [Lexer.skipSpaces]
    cases he : lx.eof
    · cases hs : isspace lx.peek
      · rw [if_neg (by simp)]
        exact ⟨hb, Or.inr hs⟩
      · rw [if_pos (by simp)]
        have hr := remaining_get he
        refine ih (by omega) ?_
        rw [(rest_of_not_eof he).1, blankText, if_pos hs] at hb
        exact hb
    · rw [if_neg (by simp)]
      exact ⟨hb, Or.inl he⟩

theorem skipLine_blank {n : Nat} {lx : Lexer} (hn : lx.remaining ≤ n)
    (hb : blankText true lx.rest = true) :
    blankText false (Lexer.skipLine n lx).rest = true := by
  induction n generalizing lx with
  | zero =>
    rw [Lexer.skipLine, rest_eq_nil_of_eof (eof_of_remaining_zero (by omega))]
    rfl
  | succ n ih =>
    rw [Lexer.skipLine]
    cases he : lx.eof
    · simp only [Bool.false_eq_true, if_false]
      have hr := remaining_get he
      obtain ⟨h1, h2⟩ := rest_of_not_eof he
      rw [h1, blankText] at hb
      rw [h2]
      by_cases hc : lx.peek = '\n'
      · rw [if_pos hc] at hb
        simp only [hc, bne_self_eq_false, Bool.false_eq_true, if_false]
        exact hb
      · rw [if_neg hc] at hb
        have : (lx.peek != '\n') = true := by simpa using hc
        simp only [this, if_true]
        exact ih (by omega) hb
    · simp only [if_true]
      rw [rest_eq_nil_of_eof he]
      rfl

theorem skipSpacesAndCommentsLoop_blank {n : Nat} {lx : Lexer} (hn : lx.remaining < n)
    (hb : blankText false lx.rest = true) :
    (Lexer.skipSpacesAndCommentsLoop n lx).eof = true := by
  induction n generalizing lx with
  | zero => omega
  | succ n ih =>
    rw [Lexer.skipSpacesAndCommentsLoop]
    obtain ⟨hb1, hex⟩ := skipSpaces_blank (le_refl lx.remaining) hb
    have hle : (Lexer.skipSpaces lx.remaining lx).remaining ≤ lx.remaining :=
      skipSpaces_pres (P := fun l => l.remaining ≤ lx.remaining)
        (fun l hl => le_trans (remaining_get_le l) hl) _ (le_refl _)
    cases he : (Lexer.skipSpaces lx.remaining lx).eof
    · have hs : isspace (Lexer.skipSpaces lx.remaining lx).peek = false := by
        rcases hex with h | h
        · rw [he] at h; exact absurd h (by decide)
        · exact h
      obtain ⟨h1, h2⟩ := rest_of_not_eof he
      rw [h1, blankText, hs] at hb1
      simp only [Bool.false_eq_true, if_false] at hb1
      have hc : (Lexer.skipSpaces lx.remaining lx).peek = '#' := by
        by_contra hne
        rw [if_neg hne] at hb1
        exact absurd hb1 (by decide)
      rw [if_pos hc] at hb1
      have hcond : (!false && (Lexer.skipSpaces lx.remaining lx).peek == '#') = true := by
        simp [hc]
      rw [if_pos hcond]
      have hr := remaining_get he
      have hpos : (Lexer.skipSpaces lx.remaining lx).remaining
          = (Lexer.skipSpaces lx.remaining lx).get.2.remaining + 1 := hr.symm
      have hblank : blankText false
          (Lexer.skipLine (Lexer.skipSpaces lx.remaining lx).remaining
            (Lexer.skipSpaces lx.remaining lx)).rest = true := by
        rw [hpos, Lexer.skipLine]
        simp only [he, Bool.false_eq_true, if_false]
        have : ((Lexer.skipSpaces lx.remaining lx).get.1 != '\n') = true := by
          rw [h2, hc]; decide
        simp only [this, if_true]
        exact skipLine_blank (le_refl _) hb1
      have hlt := skipLine_remaining_lt
        (n := (Lexer.skipSpaces lx.remaining lx).get.2.remaining) he
      rw [← hpos] at hlt
      exact ih (by omega) hblank
    · simp only [Bool.not_true, Bool.false_and, Bool.false_eq_true, if_false]
      exact he

/-- When only white space and comments are left to read, `next` returns a
`T_EOF` token. -/
theorem next_eof_of_blank {lx : Lexer} (hb : blankText false lx.rest = true) :
    lx.next.1.type = T_EOF := by
  have h : lx.skipSpacesAndComments.eof = true :=
    skipSpacesAndCommentsLoop_blank (Nat.lt_succ_self _) hb
  unfold Lexer.next
  simp only [h, if_true]

/-- When only white space and comments follow the current token, the next
`advance` makes the current token a `T_EOF` token: this is how a source that
ends in white space and comments brings the parser to the end of the input. -/
theorem advance_eof_of_blank (st : PState) (hb : blankText false st.lex.rest = true) :
    (advance st).cur.type = T_EOF :=
  next_eof_of_blank hb

theorem get_lexLineInv (src : Str) (lx : Lexer) (h : LexLineInv src lx) :
    LexLineInv src lx.get.2 := by
  obtain ⟨hs, hl⟩ := h
  unfold Lexer.get
  split
  · exact ⟨hs, hl⟩
  · rename_i he
    have hlt : lx.pos < src.length := by
      unfold Lexer.eof at he
      rw [hs] at he
      simpa using he
    refine ⟨hs, ?_⟩
    simp only
    rw [hs, hl, List.take_succ, List.getElem?_eq_getElem hlt]
    have hd : src.getD lx.pos '\x00' = src[lx.pos] := by
      rw [List.getD_eq_getElem?_getD, List.getElem?_eq_getElem hlt]; rfl
    rw [hd]
    unfold newlineCount
    rw [List.count_append]
    by_cases hc : src[lx.pos] = '\n'
    · rw [if_pos hc, hc]; simp; omega
    · rw [if_neg hc]
      have : List.count '\n' (some src[lx.pos]).toList = 0 := by
        simp [List.count_cons, hc]
      rw [this]; rfl

theorem advance_lineInv (src : Str) (st : PState) (h : LexLineInv src st.lex) :
    LineInv src (advance st) := by
  have h1 : LexLineInv src st.lex.next.2 := next_pres (get_lexLineInv src) h
  refine ⟨h1, ?_⟩
  intro he
  have he2 := next_eof st.lex he
  show st.lex.next.1.line = _
  rw [next_line, h1.2]
  congr 2
  apply List.take_of_length_le
  unfold Lexer.eof at he2
  rw [h1.1] at he2
  simpa using he2

theorem advance_lineInv_of_lineInv (src : Str) (st : PState) (h : LineInv src st) :
    LineInv src (advance st) :=
  advance_lineInv src st h.1

/-- The state from which `parseConfig` starts satisfies the line invariant
for the buffered source. -/
theorem initState_lineInv (content : Str) :
    LineInv (Lexer.load content).src (initState content) :=
  advance_lineInv _ _ ⟨rfl, rfl⟩

/-! ## Properties of the parser state kept by every parser routine -/

section ParserInvariant

variable {Q : PState → Prop} (hadv : ∀ st, Q st → Q (advance st))
include hadv

theorem semi_tail_pres {α : Type} {a b : α} {st st1 : PState}
    (h : ((expect T_SEMI semiWhat st).bind fun _ st3 => Result.ok a st3) = .ok b st1)
    (hq : Q st) : Q st1 := by
  rw [(semi_tail_eq_ok h).2.2]; exact hadv _ hq

theorem expect_pres {t : TokType} {w : Str} {st st1 : PState} {u : Unit}
    (h : expect t w st = .ok u st1) (hq : Q st) : Q st1 := by
  rw [(expect_eq_ok h).2]; exact hadv _ hq

theorem dir_listen_pres {srv srv1 : ServerBlock} {st st1 : PState}
    (h : dir_listen srv st = .ok srv1 st1) (hq : Q st) : Q st1 := by
  unfold dir_listen at h
  simp only at h
  split at h
  · exact Result.noConfusion h
  · exact semi_tail_pres hadv h (hadv _ (hadv _ hq))

theorem dir_root_pres {srv srv1 : ServerBlock} {st st1 : PState}
    (h : dir_root srv st = .ok srv1 st1) (hq : Q st) : Q st1 := by
  unfold dir_root at h
  simp only at h
  split at h
  · exact Result.noConfusion h
  · exact semi_tail_pres hadv h (hadv _ (hadv _ hq))

theorem dir_server_name_pres {srv srv1 : ServerBlock} {st st1 : PState}
    (h : dir_server_name srv st = .ok srv1 st1) (hq : Q st) : Q st1 := by
  unfold dir_server_name at h
  simp only at h
  split at h
  · exact Result.noConfusion h
  · exact semi_tail_pres hadv h (hadv _ (hadv _ hq))

theorem dir_client_max_body_size_pres {srv srv1 : ServerBlock} {st st1 : PState}
    (h : dir_client_max_body_size srv st = .ok srv1 st1) (hq : Q st) : Q st1 := by
  unfold dir_client_max_body_size at h
  simp only at h
  split at h
  · exact Result.noConfusion h
  · exact semi_tail_pres hadv h (hadv _ (hadv _ hq))

theorem dir_error_page_pres {srv srv1 : ServerBlock} {st st1 : PState}
    (h : dir_error_page srv st = .ok srv1 st1) (hq : Q st) : Q st1 := by
  unfold dir_error_page at h
  simp only at h
  split at h
  · exact Result.noConfusion h
  · split at h
    · exact Result.noConfusion h
    · exact semi_tail_pres hadv h (hadv _ (hadv _ (hadv _ hq)))

theorem dir_index_loop_pres {n : Nat} {srv srv1 : ServerBlock} {st st1 : PState}
    (h : dir_index_loop n srv st = .ok srv1 st1) (hq : Q st) : Q st1 := by
  induction n generalizing srv st with
  | zero => exact Result.noConfusion h
  | succ n ih =>
    unfold dir_index_loop at h
    split at h
    · exact ih h (hadv _ hq)
    · rw [← (Result.ok.inj h).2]; exact hq

theorem dir_index_pres {n : Nat} {srv srv1 : ServerBlock} {st st1 : PState}
    (h : dir_index n srv st = .ok srv1 st1) (hq : Q st) : Q st1 := by
  unfold dir_index at h
  simp only at h
  split at h
  · exact Result.noConfusion h
  · obtain ⟨srv2, st2, h1, h2⟩ := bind_eq_ok h
    exact semi_tail_pres hadv h2 (dir_index_loop_pres hadv h1 (hadv _ hq))

theorem loc_root_pres {loc loc1 : LocationBlock} {st st1 : PState}
    (h : loc_root loc st = .ok loc1 st1) (hq : Q st) : Q st1 := by
  unfold loc_root at h
  simp only at h
  split at h
  · exact Result.noConfusion h
  · exact semi_tail_pres hadv h (hadv _ (hadv _ hq))

theorem loc_upload_store_pres {loc loc1 : LocationBlock} {st st1 : PState}
    (h : loc_upload_store loc st = .ok loc1 st1) (hq : Q st) : Q st1 := by
  unfold loc_upload_store at h
  simp only at h
  split at h
  · exact Result.noConfusion h
  · exact semi_tail_pres hadv h (hadv _ (hadv _ hq))

theorem loc_autoindex_pres {loc loc1 : LocationBlock} {st st1 : PState}
    (h : loc_autoindex loc st = .ok loc1 st1) (hq : Q st) : Q st1 := by
  unfold loc_autoindex at h
  simp only at h
  split at h
  · exact Result.noConfusion h
  · split at h
    · exact semi_tail_pres hadv h (hadv _ (hadv _ hq))
    · split at h
      · exact semi_tail_pres hadv h (hadv _ (hadv _ hq))
      · exact Result.noConfusion h

theorem loc_return_pres {loc loc1 : LocationBlock} {st st1 : PState}
    (h : loc_return loc st = .ok loc1 st1) (hq : Q st) : Q st1 := by
  unfold loc_return at h
  simp only at h
  split at h
  · exact Result.noConfusion h
  · split at h
    · rw [← (Result.ok.inj h).2]; exact hadv _ (hadv _ (hadv _ hq))
    · split at h
      · exact Result.noConfusion h
      · exact semi_tail_pres hadv h (hadv _ (hadv _ (hadv _ hq)))

theorem loc_cgi_pass_pres {loc loc1 : LocationBlock} {st st1 : PState}
    (h : loc_cgi_pass loc st = .ok loc1 st1) (hq : Q st) : Q st1 := by
  unfold loc_cgi_pass at h
  simp only at h
  split at h
  · exact Result.noConfusion h
  · split at h
    · exact Result.noConfusion h
    · exact semi_tail_pres hadv h (hadv _ (hadv _ (hadv _ hq)))

theorem loc_methods_loop_pres {n : Nat} {loc loc1 : LocationBlock} {st st1 : PState}
    (h : loc_methods_loop n loc st = .ok loc1 st1) (hq : Q st) : Q st1 := by
  induction n generalizing loc st with
  | zero => exact Result.noConfusion h
  | succ n ih =>
    unfold loc_methods_loop at h
    split at h
    · exact ih h (hadv _ hq)
    · rw [← (Result.ok.inj h).2]; exact hq

theorem loc_methods_pres {n : Nat} {loc loc1 : LocationBlock} {st st1 : PState}
    (h : loc_methods n loc st = .ok loc1 st1) (hq : Q st) : Q st1 := by
  unfold loc_methods at h
  simp only at h
  split at h
  · exact Result.noConfusion h
  · obtain ⟨loc2, st2, h1, h2⟩ := bind_eq_ok h
    exact semi_tail_pres hadv h2 (loc_methods_loop_pres hadv h1 (hadv _ hq))

theorem loc_index_loop_pres {n : Nat} {loc loc1 : LocationBlock} {st st1 : PState}
    (h : loc_index_loop n loc st = .ok loc1 st1) (hq : Q st) : Q st1 := by
  induction n generalizing loc st with
  | zero => exact Result.noConfusion h
  | succ n ih =>
    unfold loc_index_loop at h
    split at h
    · exact ih h (hadv _ hq)
    · rw [← (Result.ok.inj h).2]; exact hq

theorem loc_index_pres {n : Nat} {loc loc1 : LocationBlock} {st st1 : PState}
    (h : loc_index n loc st = .ok loc1 st1) (hq : Q st) : Q st1 := by
  unfold loc_index at h
  simp only at h
  split at h
  · exact Result.noConfusion h
  · obtain ⟨loc2, st2, h1, h2⟩ := bind_eq_ok h
    exact semi_tail_pres hadv h2 (loc_index_loop_pres hadv h1 (hadv _ hq))

theorem parseLocationDirective_pres {n : Nat} {loc loc1 : LocationBlock} {st st1 : PState}
    (h : parseLocationDirective n loc st = .ok loc1 st1) (hq : Q st) : Q st1 := by
  rcases parseLocationDirective_cases h with
    ⟨_, h1⟩ | ⟨_, h1⟩ | ⟨_, h1⟩ | ⟨_, h1⟩ | ⟨_, h1⟩ | ⟨_, h1⟩ | ⟨_, h1⟩
  · exact loc_root_pres hadv h1 hq
  · exact loc_methods_pres hadv h1 hq
  · exact loc_autoindex_pres hadv h1 hq
  · exact loc_index_pres hadv h1 hq
  · exact loc_upload_store_pres hadv h1 hq
  · exact loc_return_pres hadv h1 hq
  · exact loc_cgi_pass_pres hadv h1 hq

theorem parseLocationLoop_pres {n : Nat} {loc loc1 : LocationBlock} {st st1 : PState}
    (h : parseLocationLoop n loc st = .ok loc1 st1) (hq : Q st) : Q st1 := by
  induction n generalizing loc st with
  | zero => exact Result.noConfusion h
  | succ n ih =>
    rcases parseLocationLoop_succ_ok h with ⟨_, _, h3, _⟩ | ⟨_, _, loc2, st2, h3, h4, _⟩
    · rw [h3]; exact hq
    · exact ih h4 (parseLocationDirective_pres hadv h3 hq)

theorem dir_location_pres {n : Nat} {srv srv1 : ServerBlock} {st st1 : PState}
    (h : dir_location n srv st = .ok srv1 st1) (hq : Q st) : Q st1 := by
  unfold dir_location at h
  simp only at h
  split at h
  · exact Result.noConfusion h
  · obtain ⟨u, st3, h1, h2⟩ := bind_eq_ok h
    obtain ⟨loc, st4, h3, h4⟩ := bind_eq_ok h2
    obtain ⟨u2, st5, h5, h6⟩ := bind_eq_ok h4
    rw [← (Result.ok.inj h6).2]
    exact expect_pres hadv h5
      (parseLocationLoop_pres hadv h3 (expect_pres hadv h1 (hadv _ (hadv _ hq))))

theorem parseServerDirective_pres {n : Nat} {srv srv1 : ServerBlock} {st st1 : PState}
    (h : parseServerDirective n srv st = .ok srv1 st1) (hq : Q st) : Q st1 := by
  rcases parseServerDirective_cases h with
    ⟨_, h1⟩ | ⟨_, h1⟩ | ⟨_, h1⟩ | ⟨_, h1⟩ | ⟨_, h1⟩ | ⟨_, h1⟩ | ⟨_, h1⟩
  · exact dir_listen_pres hadv h1 hq
  · exact dir_root_pres hadv h1 hq
  · exact dir_index_pres hadv h1 hq
  · exact dir_server_name_pres hadv h1 hq
  · exact dir_client_max_body_size_pres hadv h1 hq
  · exact dir_error_page_pres hadv h1 hq
  · exact dir_location_pres hadv h1 hq

theorem parseServerLoop_pres {n : Nat} {srv srv1 : ServerBlock} {st st1 : PState}
    (h : parseServerLoop n srv st = .ok srv1 st1) (hq : Q st) : Q st1 := by
  induction n generalizing srv st with
  | zero => exact Result.noConfusion h
  | succ n ih =>
    rcases parseServerLoop_succ_ok h with ⟨_, _, h3, _⟩ | ⟨_, _, srv2, st2, h3, h4, _⟩
    · rw [h3]; exact hq
    · exact ih h4 (parseServerDirective_pres hadv h3 hq)

theorem parseServer_pres {n : Nat} {srv : ServerBlock} {st st1 : PState}
    (h : parseServer n st = .ok srv st1) (hq : Q st) : Q st1 := by
  obtain ⟨st3, _, h2, _, h4⟩ := parseServer_eq_ok h
  rw [h4]
  exact hadv _ (parseServerLoop_pres hadv h2 (hadv _ (hadv _ hq)))

theorem runServerBlocks_pres {fuel k : Nat} {st st1 : PState}
    (h : runServerBlocks fuel k st = some st1) (hq : Q st) : Q st1 := by
  induction k generalizing st with
  | zero => rw [← Option.some.inj h]; exact hq
  | succ k ih =>
    unfold runServerBlocks at h
    split at h
    · split at h
      · rename_i hs; exact ih h (parseServer_pres hadv hs hq)
      · exact Option.noConfusion h
    · exact Option.noConfusion h

theorem runServerDirectives_pres {fuel m : Nat} {srv srv1 : ServerBlock} {st st1 : PState}
    (h : runServerDirectives fuel m srv st = some (srv1, st1)) (hq : Q st) : Q st1 := by
  induction m generalizing srv st with
  | zero => rw [← (Prod.mk.inj (Option.some.inj h)).2]; exact hq
  | succ m ih =>
    unfold runServerDirectives at h
    split at h
    · split at h
      · rename_i hs; exact ih h (parseServerDirective_pres hadv hs hq)
      · exact Option.noConfusion h
    · exact Option.noConfusion h

theorem runLocationDirectives_pres {fuel j : Nat} {loc loc1 : LocationBlock}
    {st st1 : PState}
    (h : runLocationDirectives fuel j loc st = some (loc1, st1)) (hq : Q st) : Q st1 := by
  induction j generalizing loc st with
  | zero => rw [← (Prod.mk.inj (Option.some.inj h)).2]; exact hq
  | succ j ih =>
    unfold runLocationDirectives at h
    split at h
    · split at h
      · rename_i hs; exact ih h (parseLocationDirective_pres hadv hs hq)
      · exact Option.noConfusion h
    · exact Option.noConfusion h

end ParserInvariant

theorem parseServerLoop_err_after_run {fuel m : Nat} {srv srv1 : ServerBlock} {st d : PState}
    {E : ParseError} {B : Nat}
    (hrun : runServerDirectives fuel m srv st = some (srv1, d))
    (herr : ∀ M, B ≤ M → parseServerLoop (M + 1) srv1 d = .err E)
    (N : Nat) (hf : fuel ≤ N) (hM : B ≤ N) :
    parseServerLoop (N + m + 1) srv st = .err E := by
  induction m generalizing srv st with
  | zero =>
    obtain ⟨h1, h2⟩ := Prod.mk.inj (Option.some.inj hrun)
    rw [h1, h2]
    exact herr N hM
  | succ m ih =>
    unfold runServerDirectives at hrun
    split at hrun
    · rename_i hc
      split at hrun
      · rename_i srv2 st2 hs
        have hs2 : parseServerDirective (N + m + 1) srv st = .ok srv2 st2 :=
          (parseServerDirective_mono (by omega) srv st).of_eq hs
            (fun hx => Result.noConfusion hx)
        have e1 : N + (m + 1) + 1 = (N + m + 1) + 1 := by omega
        rw [e1, parseServerLoop, if_pos hc.1, if_neg hc.2, hs2]
        exact ih hrun
      · exact Option.noConfusion hrun
    · exact Option.noConfusion hrun

theorem parseLocationLoop_err_after_run {fuel j : Nat} {loc loc1 : LocationBlock}
    {st d : PState} {E : ParseError} {B : Nat}
    (hrun : runLocationDirectives fuel j loc st = some (loc1, d))
    (herr : ∀ M, B ≤ M → parseLocationLoop (M + 1) loc1 d = .err E)
    (N : Nat) (hf : fuel ≤ N) (hM : B ≤ N) :
    parseLocationLoop (N + j + 1) loc st = .err E := by
  induction j generalizing loc st with
  | zero =>
    obtain ⟨h1, h2⟩ := Prod.mk.inj (Option.some.inj hrun)
    rw [h1, h2]
    exact herr N hM
  | succ j ih =>
    unfold runLocationDirectives at hrun
    split at hrun
    · rename_i hc
      split at hrun
      · rename_i loc2 st2 hs
        have hs2 : parseLocationDirective (N + j + 1) loc st = .ok loc2 st2 :=
          (parseLocationDirective_mono (by omega) loc st).of_eq hs
            (fun hx => Result.noConfusion hx)
        have e1 : N + (j + 1) + 1 = (N + j + 1) + 1 := by omega
        rw [e1, parseLocationLoop, if_pos hc.1, if_neg hc.2, hs2]
        exact ih hrun
      · exact Option.noConfusion hrun
    · exact Option.noConfusion hrun

theorem parseConfigLoop_err_after_run {fuel k : Nat} {st s : PState} {E : ParseError}
    {B : Nat} (hrun : runServerBlocks fuel k st = some s)
    (herr : ∀ M, B ≤ M → ∀ cfg, parseConfigLoop (M + 1) cfg s = .err E)
    (N : Nat) (hf : fuel ≤ N) (hM : B ≤ N) (cfg : Config) :
    parseConfigLoop (N + k + 1) cfg st = .err E := by
  induction k generalizing st cfg with
  | zero =>
    rw [Option.some.inj hrun]
    exact herr N hM cfg
  | succ k ih =>
    unfold runServerBlocks at hrun
    split at hrun
    · rename_i hc
      split at hrun
      · rename_i srv st2 hs
        have hs2 : parseServer (N + k + 1) st = .ok srv st2 :=
          (parseServer_mono (by omega) st).of_eq hs (fun hx => Result.noConfusion hx)
        have e1 : N + (k + 1) + 1 = (N + k + 1) + 1 := by omega
        have hne : st.cur.type ≠ T_EOF := by rw [hc.1]; decide
        rw [e1, parseConfigLoop, if_pos hne, if_pos hc, hs2]
        exact ih hrun _
      · exact Option.noConfusion hrun
    · exact Option.noConfusion hrun

theorem parseServerLoop_unclosed (M : Nat) (srv : ServerBlock) {e : PState}
    (he : e.cur.type = T_EOF) :
    parseServerLoop (M + 1) srv e
      = .err { msg := "Unclosed server block".toList, line := e.cur.line } := by
  have hne : e.cur.type ≠ T_RBRACE := by rw [he]; decide
  rw [parseServerLoop, if_pos hne, if_pos he]

theorem parseLocationLoop_unclosed (M : Nat) (loc : LocationBlock) {e : PState}
    (he : e.cur.type = T_EOF) :
    parseLocationLoop (M + 1) loc e
      = .err { msg := "Unclosed location block".toList, line := e.cur.line } := by
  have hne : e.cur.type ≠ T_RBRACE := by rw [he]; decide
  rw [parseLocationLoop, if_pos hne, if_pos he]

theorem parseConfigLoop_server_err {M : Nat} {s : PState} {E : ParseError}
    (hkw : s.cur.type = T_IDENT ∧ s.cur.text = "server".toList)
    (hbrace : (advance s).cur.type = T_LBRACE)
    (herr : parseServerLoop M {} (advance (advance s)) = .err E) (cfg : Config) :
    parseConfigLoop (M + 1) cfg s = .err E := by
  have hne : s.cur.type ≠ T_EOF := by rw [hkw.1]; decide
  rw [parseConfigLoop, if_pos hne, if_pos hkw]
  unfold parseServer
  simp only
  rw [expect_of_type lbraceWhat hbrace]
  simp only [Result.bind, herr]

theorem parseServerLoop_location_err {M : Nat} {srv : ServerBlock} {d : PState}
    {E : ParseError}
    (hi : d.cur.type = T_IDENT) (hk : d.cur.text = "location".toList)
    (hp : isIdentOrString (advance d).cur = true)
    (hb : (advance (advance d)).cur.type = T_LBRACE)
    (herr : parseLocationLoop M (({} : LocationBlock).setPathPrefix (advance d).cur.text)
      (advance (advance (advance d))) = .err E) :
    parseServerLoop (M + 1) srv d = .err E := by
  have hne : d.cur.type ≠ T_RBRACE := by rw [hi]; decide
  have hne2 : ¬ d.cur.type = T_EOF := by rw [hi]; decide
  have hdir : parseServerDirective M srv d = .err E := by
    unfold parseServerDirective
    rw [if_neg (not_not.mpr hi), if_neg (by rw [hk]; decide), if_neg (by rw [hk]; decide),
      if_neg (by rw [hk]; decide), if_neg (by rw [hk]; decide), if_neg (by rw [hk]; decide),
      if_neg (by rw [hk]; decide), if_pos hk]
    unfold dir_location parseLocation
    simp only
    rw [if_neg (by rw [hp]; decide), expect_of_type lbraceWhat hb]
    simp only [Result.bind, herr]
  rw [parseServerLoop, if_pos hne, if_neg hne2, hdir]
  rfl

/-- Claim C7: when the parser has read zero or more complete server blocks,
then `server` and its opening brace, then zero or more complete server
directives, and then meets the end of the input, parsing fails with a
`ParseError` "Unclosed server block" whose line is one plus the number of
newline characters of the buffered source (the line of the `T_EOF` token);
when instead a `location` block is opened there and the end of the input is
met after zero or more complete location directives, parsing fails with
"Unclosed location block" at that same line.  The failure is reached with
every large enough step budget.  The parser meets the end of the input when
its current token is a `T_EOF` token, which is what `advance_eof_of_blank`
gives when only white space and comments follow the last token read. -/
theorem unclosed_block_error (content : Str) (fuel k m : Nat) (s : PState)
    (srv : ServerBlock) (e : PState)
    (hblocks : runServerBlocks fuel k (initState content) = some s)
    (hkw : s.cur.type = T_IDENT ∧ s.cur.text = "server".toList)
    (hbrace : (advance s).cur.type = T_LBRACE)
    (hdirs : runServerDirectives fuel m {} (advance (advance s)) = some (srv, e)) :
    (e.cur.type = T_EOF →
      ∃ N0, ∀ N, N0 ≤ N → parseFile N content
        = .err { msg := "Unclosed server block".toList,
                 line := 1 + newlineCount (Lexer.load content).src })
    ∧ (∀ (j : Nat) (loc : LocationBlock) (e2 : PState),
        e.cur.type = T_IDENT → e.cur.text = "location".toList →
        isIdentOrString (advance e).cur = true →
        (advance (advance e)).cur.type = T_LBRACE →
        runLocationDirectives fuel j (({} : LocationBlock).setPathPrefix (advance e).cur.text)
          (advance (advance (advance e))) = some (loc, e2) →
        e2.cur.type = T_EOF →
        ∃ N0, ∀ N, N0 ≤ N → parseFile N content
          = .err { msg := "Unclosed location block".toList,
                   line := 1 + newlineCount (Lexer.load content).src }) := by
  have hadv := advance_lineInv_of_lineInv (Lexer.load content).src
  have hs : LineInv (Lexer.load content).src s :=
    runServerBlocks_pres hadv hblocks (initState_lineInv content)
  have he : LineInv (Lexer.load content).src e :=
    runServerDirectives_pres hadv hdirs (hadv _ (hadv _ hs))
  constructor
  · intro heof
    refine ⟨fuel + m + 1 + k + 1, ?_⟩
    intro N hN
    obtain ⟨N1, rfl⟩ : ∃ N1, N = (fuel + N1) + m + 1 + k + 1 := ⟨N - (fuel + m + 1 + k + 1), by omega⟩
    unfold parseFile parseConfig
    have h1 : parseServerLoop ((fuel + N1) + m + 1) {} (advance (advance s))
        = .err { msg := "Unclosed server block".toList, line := e.cur.line } :=
      parseServerLoop_err_after_run hdirs (B := 0)
        (fun M _ => parseServerLoop_unclosed M srv heof) _ (by omega) (by omega)
    have h2 := parseConfigLoop_err_after_run hblocks (B := (fuel + N1) + m + 1)
      (E := { msg := "Unclosed server block".toList, line := e.cur.line })
      (fun M hM cfg => parseConfigLoop_server_err hkw hbrace
        ((parseServerLoop_mono hM _ _).of_eq h1 (fun hx => Result.noConfusion hx)) cfg)
      ((fuel + N1) + m + 1) (by omega) (le_refl _) {}
    rw [h2, he.2 heof]
  · intro j loc e2 hi hk hp hb hrun heof
    have he2 : LineInv (Lexer.load content).src e2 :=
      runLocationDirectives_pres hadv hrun (hadv _ (hadv _ (hadv _ he)))
    refine ⟨fuel + j + 1 + m + 1 + k + 1, ?_⟩
    intro N hN
    obtain ⟨N1, rfl⟩ : ∃ N1, N = (fuel + N1) + j + 1 + m + 1 + k + 1 :=
      ⟨N - (fuel + j + 1 + m + 1 + k + 1), by omega⟩
    unfold parseFile parseConfig
    have h0 : parseLocationLoop ((fuel + N1) + j + 1)
        (({} : LocationBlock).setPathPrefix (advance e).cur.text)
        (advance (advance (advance e)))
        = .err { msg := "Unclosed location block".toList, line := e2.cur.line } :=
      parseLocationLoop_err_after_run hrun (B := 0)
        (fun M _ => parseLocationLoop_unclosed M loc heof) _ (by omega) (by omega)
    have h1 : parseServerLoop ((fuel + N1) + j + 1 + m + 1) {} (advance (advance s))
        = .err { msg := "Unclosed location block".toList, line := e2.cur.line } :=
      parseServerLoop_err_after_run hdirs (B := (fuel + N1) + j + 1)
        (fun M hM => parseServerLoop_location_err hi hk hp hb
          ((parseLocationLoop_mono hM _ _).of_eq h0 (fun hx => Result.noConfusion hx)))
        _ (by omega) (le_refl _)
    have h2 := parseConfigLoop_err_after_run hblocks (B := (fuel + N1) + j + 1 + m + 1)
      (E := { msg := "Unclosed location block".toList, line := e2.cur.line })
      (fun M hM cfg => parseConfigLoop_server_err hkw hbrace
        ((parseServerLoop_mono hM _ _).of_eq h1 (fun hx => Result.noConfusion hx)) cfg)
      ((fuel + N1) + j + 1 + m + 1) (by omega) (le_refl _) {}
    rw [h2, he2.2 heof]
theorem unclosed_block_error_witness :
    (∃ N0, ∀ N, N0 ≤ N → parseFile N sampleUnclosedServerSource
        = .err { msg := "Unclosed server block".toList, line := 7 })
    ∧ (∃ N0, ∀ N, N0 ≤ N → parseFile N sampleUnclosedLocationSource
        = .err { msg := "Unclosed location block".toList, line := 5 }) :=
  ⟨(unclosed_block_error sampleUnclosedServerSource 5 1 1
      (advanceN 6 (initState sampleUnclosedServerSource)) { root := "www".toList }
      (advanceN 11 (initState sampleUnclosedServerSource))
      (by decide) (by decide) (by decide) (by decide)).1
      (advance_eof_of_blank (advanceN 10 (initState sampleUnclosedServerSource))
        (by decide)),
   (unclosed_block_error sampleUnclosedLocationSource 5 0 1
      (initState sampleUnclosedLocationSource) { root := "www".toList }
      (advanceN 5 (initState sampleUnclosedLocationSource))
      (by decide) (by decide) (by decide) (by decide)).2 1
      { path_prefix := "/x".toList, autoindex := true }
      (advanceN 11 (initState sampleUnclosedLocationSource))
      (by decide) (by decide) (by decide) (by decide) (by decide)
      (advance_eof_of_blank (advanceN 10 (initState sampleUnclosedLocationSource))
        (by decide))⟩

theorem rootedOrExplicit_iff (root : Str) :
    rootedOrExplicit root = true
      ↔ (['/'] <+: root ∨ ['.', '/'] <+: root ∨ ['.', '.', '/'] <+: root) := by
  constructor
  · intro h
    unfold rootedOrExplicit at h
    split at h
    · exact Or.inl ⟨_, rfl⟩
    · exact Or.inr (Or.inl ⟨_, rfl⟩)
    · exact Or.inr (Or.inr ⟨_, rfl⟩)
    · exact absurd h (by decide)
  · rintro (⟨t, rfl⟩ | ⟨t, rfl⟩ | ⟨t, rfl⟩) <;> rfl

theorem rootedOrExplicit_cons_other {c : Char} (t : Str) (h1 : c ≠ '/') (h2 : c ≠ '.') :
    rootedOrExplicit (c :: t) = false := by
  unfold rootedOrExplicit
  split <;> simp_all

theorem rootedOrExplicit_dot_other {d : Char} (t : Str) (h1 : d ≠ '/') (h2 : d ≠ '.') :
    rootedOrExplicit ('.' :: d :: t) = false := by
  unfold rootedOrExplicit
  split <;> simp_all

theorem rootedOrExplicit_dotdot_other {e : Char} (t : Str) (h1 : e ≠ '/') :
    rootedOrExplicit ('.' :: '.' :: e :: t) = false := by
  unfold rootedOrExplicit
  split <;> simp_all

/-- The test `normalizeRoot` makes on the declared root is the test "starts
with `/`, `./` or `../`". -/
theorem normalizeRoot_test (root : Str) :
    (!root.isEmpty
      && (root.getD 0 '\x00' == '/'
          || (decide (root.length > 1) && root.getD 0 '\x00' == '.'
              && (root.getD 1 '\x00' == '/'
                  || (decide (root.length > 2) && root.getD 1 '\x00' == '.'
                      && root.getD 2 '\x00' == '/')))))
      = rootedOrExplicit root := by
  match root with
  | [] => rfl
  | c :: t =>
    by_cases h1 : c = '/'
    · subst h1; simp [rootedOrExplicit]
    by_cases h2 : c = '.'
    · subst h2
      match t with
      | [] => simp [rootedOrExplicit]
      | d :: t2 =>
        by_cases h3 : d = '/'
        · subst h3; simp [rootedOrExplicit]
        by_cases h4 : d = '.'
        · subst h4
          match t2 with
          | [] => simp [rootedOrExplicit]
          | e :: t3 =>
            by_cases h5 : e = '/'
            · subst h5; simp [rootedOrExplicit]
            · rw [rootedOrExplicit_dotdot_other t3 h5]; simp [h5]
        · rw [rootedOrExplicit_dot_other t2 h3 h4]; simp [h3, h4]
    · rw [rootedOrExplicit_cons_other t h1 h2]; simp [h1, h2]

theorem getLast?_eq_getD (a : Str) (h : a ≠ []) :
    a.getD (a.length - 1) '\x00' = '/' ↔ a.getLast? = some '/' := by
  rw [List.getLast?_eq_getElem?, List.getD_eq_getElem?_getD]
  have hlt : a.length - 1 < a.length := by
    have := List.length_pos.mpr h; omega
  rw [List.getElem?_eq_getElem hlt]
  simp

theorem joinPath_eq_joinWithSlash (a b : Str) (ha : a ≠ []) :
    joinPath a b = joinWithSlash a b := by
  have hae : a.isEmpty = false := by cases a <;> simp_all
  unfold joinPath joinWithSlash
  simp only [hae, Bool.false_eq_true, if_false]
  by_cases hb : b = []
  · subst hb; simp
  · have hbe : b.isEmpty = false := by cases b <;> simp_all
    simp only [hbe, Bool.false_eq_true, if_false, hb]
    by_cases hl : a.getLast? = some '/'
    · rw [if_pos ((getLast?_eq_getD a ha).mpr hl), if_pos hl]
    · rw [if_neg (fun h => hl ((getLast?_eq_getD a ha).mp h)), if_neg hl]
      simp

/-- The three cases of `normalizeRoot`. -/
theorem normalizeRoot_eq (base root : Str) :
    normalizeRoot base root
      = if base = [] then root
        else if rootedOrExplicit root = true then root else joinPath base root := by
  unfold normalizeRoot
  rw [normalizeRoot_test]
  by_cases hb : base = []
  · subst hb; rfl
  · have hbe : base.isEmpty = false := by cases base <;> simp_all
    simp only [hbe, Bool.false_eq_true, if_false, hb]

/-- Claim C12: `normalizeRoot base root` is `root` unchanged when `base` is
empty or when `root` starts with `/`, `./` or `../`; in every other case it is
`base` joined with `root`: `base` itself when `root` is empty, otherwise
`base`, then one `/` unless `base` already ends with `/`, then `root`. -/
theorem normalizeRoot_spec (base root : Str) :
    (base = [] → normalizeRoot base root = root)
    ∧ ((['/'] <+: root ∨ ['.', '/'] <+: root ∨ ['.', '.', '/'] <+: root) →
        normalizeRoot base root = root)
    ∧ (base ≠ [] →
        ¬ (['/'] <+: root ∨ ['.', '/'] <+: root ∨ ['.', '.', '/'] <+: root) →
        normalizeRoot base root = joinWithSlash base root
        ∧ (root = [] → normalizeRoot base root = base)
        ∧ (root ≠ [] → base.getLast? = some '/' → normalizeRoot base root = base ++ root)
        ∧ (root ≠ [] → base.getLast? ≠ some '/' →
            normalizeRoot base root = base ++ '/' :: root)) := by
  have key := normalizeRoot_eq base root
  refine ⟨?_, ?_, ?_⟩
  · intro hb
    rw [key, if_pos hb]
  · intro hr
    rw [key, if_pos ((rootedOrExplicit_iff root).mpr hr)]
    split <;> rfl
  · intro hb hr
    have hj : normalizeRoot base root = joinWithSlash base root := by
      rw [key, if_neg hb, if_neg (fun h => hr ((rootedOrExplicit_iff root).mp h)),
        joinPath_eq_joinWithSlash base root hb]
    refine ⟨hj, ?_, ?_, ?_⟩
    · intro h0; rw [hj, joinWithSlash, if_pos h0]
    · intro h0 hl; rw [hj, joinWithSlash, if_neg h0, if_pos hl]
    · intro h0 hl; rw [hj, joinWithSlash, if_neg h0, if_neg hl]

theorem normalizeRoot_spec_witness :
    normalizeRoot [] "www".toList = "www".toList
    ∧ normalizeRoot "/srv".toList "../up".toList = "../up".toList
    ∧ normalizeRoot "/srv".toList [] = "/srv".toList
    ∧ normalizeRoot "/srv/".toList "www".toList = "/srv/www".toList
    ∧ normalizeRoot "/srv".toList "www".toList = "/srv/www".toList :=
  ⟨(normalizeRoot_spec [] "www".toList).1 rfl,
   (normalizeRoot_spec "/srv".toList "../up".toList).2.1 (by decide),
   ((normalizeRoot_spec "/srv".toList []).2.2 (by decide) (by decide)).2.1 rfl,
   ((normalizeRoot_spec "/srv/".toList "www".toList).2.2 (by decide) (by decide)).2.2.1
      (by decide) (by decide),
   ((normalizeRoot_spec "/srv".toList "www".toList).2.2 (by decide) (by decide)).2.2.2
      (by decide) (by decide)⟩

theorem stripLeadingSlash_cons_slash (p : Str) : stripLeadingSlash ('/' :: p) = p := by
  simp [stripLeadingSlash]

theorem stripLeadingSlash_of_no_slash {p : Str} (hp : ¬ ['/'] <+: p) :
    stripLeadingSlash p = p := by
  match p with
  | [] => rfl
  | c :: t =>
    have hc : c ≠ '/' := fun h => hp ⟨t, by rw [h]; rfl⟩
    simp [stripLeadingSlash, hc]

theorem prefix_joinPath (R x : Str) (hR : R ≠ []) : R <+: joinPath R x := by
  rw [joinPath_eq_joinWithSlash R x hR]
  unfold joinWithSlash
  split
  · exact List.prefix_refl R
  · split
    · exact List.prefix_append R x
    · exact List.prefix_append R ('/' :: x)

/-- The check `validateErrorPages` makes for one configured path is the
check of the file `errorPageFile effectiveRoot rel`, and a failing check names
that file at the end of its message. -/
theorem validateErrorPagesLoop_single (fs : FileSystem) (R : Str) (i : Nat) (c : Int)
    (rel : Str) :
    validateErrorPagesLoop fs R i [(c, rel)]
      = if fs (errorPageFile R rel) = FileKind.regular then .ok ()
        else .error { msg := serverTag i ++ ": error_page ".toList ++ intToString c
                        ++ " points to missing file: ".toList ++ errorPageFile R rel } := by
  unfold validateErrorPagesLoop
  simp only [errorPage_underRoot]
  by_cases h : fs (errorPageFile R rel) = FileKind.regular
  · rw [if_neg (by rw [not_file_check]; exact not_not.mpr h), if_pos h]
    rfl
  · rw [if_pos ((not_file_check _ _).mpr h), if_neg h]

/-- Claim C13: error-page paths are resolved under the effective root with or
without a leading slash.  For a non-empty effective root `R` and a path `p`
that does not start with `/`, the file checked for `/p` and the file checked
for `p` are both `joinPath R p`, so the two configured paths are validated
alike; and for every configured path the checked file name begins with `R`. -/
theorem error_page_under_root (R p : Str) (hR : R ≠ []) (hp : ¬ ['/'] <+: p) :
    errorPageFile R ('/' :: p) = joinPath R p
    ∧ errorPageFile R p = joinPath R p
    ∧ (∀ (fs : FileSystem) (i : Nat) (c : Int),
        validateErrorPagesLoop fs R i [(c, '/' :: p)] = validateErrorPagesLoop fs R i [(c, p)])
    ∧ (∀ (fs : FileSystem) (i : Nat) (c : Int) (rel : Str),
        (validateErrorPagesLoop fs R i [(c, rel)] = .ok ()
          ↔ ExistingFile fs (errorPageFile R rel))
        ∧ R <+: errorPageFile R rel) := by
  have h1 : errorPageFile R ('/' :: p) = joinPath R p := by
    unfold errorPageFile; rw [stripLeadingSlash_cons_slash]
  have h2 : errorPageFile R p = joinPath R p := by
    unfold errorPageFile; rw [stripLeadingSlash_of_no_slash hp]
  refine ⟨h1, h2, ?_, ?_⟩
  · intro fs i c
    rw [validateErrorPagesLoop_single, validateErrorPagesLoop_single, h1, h2]
  · intro fs i c rel
    refine ⟨?_, prefix_joinPath R _ hR⟩
    have := validateErrorPagesLoop_ok_iff fs R i [(c, rel)]
    simpa using this

theorem error_page_under_root_witness :
    errorPageFile "www".toList "/404.html".toList = "www/404.html".toList
    ∧ errorPageFile "www".toList "404.html".toList = "www/404.html".toList
    ∧ validateErrorPagesLoop sampleFs "www".toList 0 [(404, "/404.html".toList)]
        = validateErrorPagesLoop sampleFs "www".toList 0 [(404, "404.html".toList)]
    ∧ "www".toList <+: errorPageFile "www".toList "//etc/passwd".toList :=
  ⟨(error_page_under_root "www".toList "404.html".toList (by decide) (by decide)).1,
   (error_page_under_root "www".toList "404.html".toList (by decide) (by decide)).2.1,
   (error_page_under_root "www".toList "404.html".toList (by decide) (by decide)).2.2.1
      sampleFs 0 404,
   ((error_page_under_root "www".toList "404.html".toList (by decide) (by decide)).2.2.2
      sampleFs 0 404 "//etc/passwd".toList).2⟩

/-- Claim C14 fails as stated: with no base directory, a server root `www`
and a location root `img`, the claim has the directory `img` checked (it
exists here), but the code checks `www/img` and rejects the configuration. -/
theorem location_root_counterexample :
    validate sampleFsTwoDirs { servers := [sampleServerLocationRoot] } []
      = .error { msg :=
          "Server #0 location \x27/\x27: root not found or not a directory: www/img".toList }
    ∧ normalizeRoot [] "img".toList = "img".toList
    ∧ ExistingDir sampleFsTwoDirs (normalizeRoot [] "img".toList) := by
  refine ⟨rfl, rfl, ?_⟩
  unfold ExistingDir
  decide

/-- Claim C14 as amended: the effective root of a location is resolved
against the effective root of its server, not against the base directory.
When the server-level checks of a server pass and the locations before `loc`
pass, the directory checked for `loc` is `D`: validation of the server fails
with a message naming `D` when `D` is not an existing directory, and succeeds
only if it is one.  `D` is the effective root of the server when the location
declares no root, the declared root unchanged when that is absolute or
explicitly relative, and otherwise the declared root joined onto the
effective root of the server. -/
theorem location_effective_root (fs : FileSystem) (baseDir : Str) (srv : ServerBlock)
    (i : Nat) (lpre lpost : List LocationBlock) (loc : LocationBlock)
    (hsrv : ServerLevelOk fs baseDir srv)
    (hlocs : srv.locations = lpre ++ loc :: lpost)
    (hlpre : ∀ l ∈ lpre, LocationOk fs (normalizeRoot baseDir srv.root) l) :
    (¬ ExistingDir fs (locationRoot (normalizeRoot baseDir srv.root) loc) →
      validateServer fs srv i baseDir
        = .error { msg := locationTag i loc ++ ": root not found or not a directory: ".toList
                     ++ locationRoot (normalizeRoot baseDir srv.root) loc })
    ∧ (validateServer fs srv i baseDir = .ok () →
        ExistingDir fs (locationRoot (normalizeRoot baseDir srv.root) loc))
    ∧ (loc.root = [] →
        locationRoot (normalizeRoot baseDir srv.root) loc = normalizeRoot baseDir srv.root)
    ∧ (rootedOrExplicit loc.root = true →
        locationRoot (normalizeRoot baseDir srv.root) loc = loc.root)
    ∧ (loc.root ≠ [] → rootedOrExplicit loc.root = false →
        locationRoot (normalizeRoot baseDir srv.root) loc
          = joinWithSlash (normalizeRoot baseDir srv.root) loc.root) := by
  have hR : normalizeRoot baseDir srv.root ≠ [] := hsrv.2.2.1
  have hbad : ¬ ExistingDir fs (locationRoot (normalizeRoot baseDir srv.root) loc) →
      validateServer fs srv i baseDir
        = .error { msg := locationTag i loc ++ ": root not found or not a directory: ".toList
                     ++ locationRoot (normalizeRoot baseDir srv.root) loc } := by
    intro hb
    rw [validateServer_of_serverLevelOk fs srv i baseDir hsrv, hlocs,
      validateLocationsLoop_append fs _ _ lpre _ hlpre,
      validateLocationsLoop_bad_root fs _ _ loc lpost hb]
  refine ⟨hbad, ?_, ?_, ?_, ?_⟩
  · intro hok
    by_contra hb
    rw [hbad hb] at hok
    exact Except.noConfusion hok
  · intro h0
    unfold locationRoot
    rw [if_pos h0]
  · intro hr
    have hne : loc.root ≠ [] := by
      intro h0; rw [h0] at hr; exact absurd hr (by decide)
    unfold locationRoot
    rw [if_neg hne, normalizeRoot_eq, if_neg hR, if_pos hr]
  · intro hne hr
    unfold locationRoot
    rw [if_neg hne, normalizeRoot_eq, if_neg hR, if_neg (by rw [hr]; decide),
      joinPath_eq_joinWithSlash _ _ hR]

theorem location_effective_root_witness :
    validateServer sampleFsTwoDirs sampleServerLocationRoot 0 []
      = .error { msg :=
          "Server #0 location \x27/\x27: root not found or not a directory: www/img".toList }
    ∧ locationRoot (normalizeRoot [] sampleServerLocationRoot.root)
        { path_prefix := "/".toList, root := "img".toList } = "www/img".toList := by
  have h := location_effective_root sampleFsTwoDirs [] sampleServerLocationRoot 0 [] []
    { path_prefix := "/".toList, root := "img".toList }
    (by unfold ServerLevelOk ExistingDir ExistingFile; decide) rfl (by simp)
  refine ⟨?_, ?_⟩
  · exact (h.1 (by unfold ExistingDir; decide)).trans rfl
  · exact (h.2.2.2.2 (by decide) (by decide)).trans rfl

theorem dir_listen_ok (srv : ServerBlock) (st : PState)
    (ht : isIdentOrString (advance st).cur = true)
    (hs : (advance (advance st)).cur.type = T_SEMI) :
    dir_listen srv st
      = .ok (srv.addListen (splitHostPort (advance st).cur.text).1
              (splitHostPort (advance st).cur.text).2)
          (advance (advance (advance st))) := by
  unfold dir_listen
  simp only
  rw [if_neg (by rw [ht]; decide), expect_of_type semiWhat hs]
  simp only [Result.bind]

theorem parseServerDirective_listen {fuel : Nat} {srv : ServerBlock} {st : PState}
    (ht : st.cur.type = T_IDENT) (hk : keyword st = "listen".toList) :
    parseServerDirective fuel srv st = dir_listen srv st := by
  unfold keyword at hk
  unfold parseServerDirective
  rw [if_neg (not_not.mpr ht), if_pos hk]

theorem splitHostPort_port (s : Str) : (splitHostPort s).2 = atoi (portPart s) := by
  unfold splitHostPort portPart
  split <;> rfl

theorem takeSign_minus (r : Str) : takeSign ('-' :: r) = (true, r) := rfl

theorem atoi_neg_digits {p : Str} (hd : p.all isdigit = true) (hv : decVal p ≤ 2147483648) :
    atoi ('-' :: p) = -(decVal p : Int) := by
  unfold atoi strtol10
  have h1 : ('-' :: p).dropWhile isspace = '-' :: p := by
    simp [List.dropWhile_cons, isspace]
  simp only [h1, takeSign_minus, takeWhile_eq_self_of_all hd, if_true]
  unfold wrapInt32
  omega

theorem atoi_no_digits {p : Str}
    (h : p = [] ∨ ∃ c r, p = c :: r ∧ isdigit c = false ∧ isspace c = false
            ∧ c ≠ '-' ∧ c ≠ '+') :
    atoi p = 0 := by
  rcases h with rfl | ⟨c, r, rfl, hd, hsp, hm, hpl⟩
  · decide
  · unfold atoi strtol10
    have h1 : (c :: r).dropWhile isspace = c :: r := by
      simp [List.dropWhile_cons, hsp]
    have h2 : takeSign (c :: r) = (false, c :: r) := by
      unfold takeSign
      split
      · rename_i heq; exact absurd (List.cons.inj heq).1 hm
      · rename_i heq; exact absurd (List.cons.inj heq).1 hpl
      · rfl
    have h3 : (c :: r).takeWhile isdigit = [] := by
      simp [List.takeWhile_cons, hd]
    simp only [h1, h2, h3]
    decide

theorem validate_error_of_bad_port (fs : FileSystem) (cfg : Config) (baseDir : Str)
    (srv : ServerBlock) (e : ListenEntry) (hsrv : srv ∈ cfg.servers) (he : e ∈ srv.listens)
    (hbad : ¬ (1 ≤ e.port ∧ e.port ≤ 65535)) :
    ∃ err : ValidationError, validate fs cfg baseDir = .error err :=
  validate_error_of_not_ok fs cfg baseDir (fun hok => hbad ((hok.2 srv hsrv).1.2.1 e he))

/-- Claim C11 fails as stated.  The port text `4294967297` is an integer
outside [1, 65535], yet `atoi` turns it into port 1; the port text `80abc` is
not numeric, yet it is read as port 80 and not as 0.  Both configurations
parse, store a port in range, and pass validation. -/
theorem listen_port_counterexample :
    (parseFile 20 sampleOverflowPortSource
        = .ok { servers := [{ listens := [⟨"0.0.0.0".toList, 1⟩], root := "www".toList }] }
            (advanceN 9 (initState sampleOverflowPortSource))
      ∧ validate sampleFs
          { servers := [{ listens := [⟨"0.0.0.0".toList, 1⟩], root := "www".toList }] } []
          = .ok ())
    ∧ (parseFile 20 sampleTrailingPortSource
        = .ok { servers := [{ listens := [⟨"0.0.0.0".toList, 80⟩], root := "www".toList }] }
            (advanceN 9 (initState sampleTrailingPortSource))
      ∧ validate sampleFs
          { servers := [{ listens := [⟨"0.0.0.0".toList, 80⟩], root := "www".toList }] } []
          = .ok ()) := by
  refine ⟨⟨by decide, rfl⟩, ⟨by decide, rfl⟩⟩

/-- Claim C11 as amended: the parser never bounds-checks a listen port and
the validator always does.  A `listen` directive with an Identifier or String
value followed by `;` always returns, and stores as port what `atoi` reads
from the port part of the value (the text after its last colon): the integer
itself for a digit string that fits in a C `int`, its negation for such a
digit string after a minus sign, and 0 when the port part is empty or starts
with a character that is no digit, blank or sign.  And `validate` on any
configuration that contains a server with a stored listen port outside
[1, 65535] fails with a `ValidationError`, whatever the filesystem. -/
theorem listen_port_checked_by_validator :
    (∀ (fuel : Nat) (srv : ServerBlock) (st : PState),
      st.cur.type = T_IDENT → keyword st = "listen".toList →
      isIdentOrString (advance st).cur = true →
      (advance (advance st)).cur.type = T_SEMI →
      parseServerDirective fuel srv st
        = .ok (srv.addListen (splitHostPort (advance st).cur.text).1
                (atoi (portPart (advance st).cur.text)))
            (advance (advance (advance st))))
    ∧ (∀ p : Str, p.all isdigit = true → decVal p ≤ 2147483647 →
        atoi p = (decVal p : Int))
    ∧ (∀ p : Str, p.all isdigit = true → decVal p ≤ 2147483648 →
        atoi ('-' :: p) = -(decVal p : Int))
    ∧ (∀ p : Str,
        (p = [] ∨ ∃ c r, p = c :: r ∧ isdigit c = false ∧ isspace c = false
            ∧ c ≠ '-' ∧ c ≠ '+') →
        atoi p = 0)
    ∧ (∀ (fs : FileSystem) (cfg : Config) (baseDir : Str) (srv : ServerBlock)
        (e : ListenEntry), srv ∈ cfg.servers → e ∈ srv.listens →
        ¬ (1 ≤ e.port ∧ e.port ≤ 65535) →
        ∃ err : ValidationError, validate fs cfg baseDir = .error err) := by
  refine ⟨?_, ?_, ?_, ?_, ?_⟩
  · intro fuel srv st ht hk hv hs
    rw [parseServerDirective_listen ht hk, dir_listen_ok srv st hv hs, splitHostPort_port]
  · intro p hd hv
    exact atoi_digits hd hv
  · intro p hd hv
    exact atoi_neg_digits hd hv
  · intro p h
    exact atoi_no_digits h
  · intro fs cfg baseDir srv e hsrv he hbad
    exact validate_error_of_bad_port fs cfg baseDir srv e hsrv he hbad

theorem listen_port_checked_by_validator_witness :
    parseServerDirective 5 {} (advanceN 2 (initState sampleBigPortSource))
        = .ok { listens := [⟨"0.0.0.0".toList, 70000⟩] }
            (advanceN 5 (initState sampleBigPortSource))
    ∧ atoi "70000".toList = 70000
    ∧ atoi "-1".toList = -1
    ∧ atoi "http".toList = 0
    ∧ (validate sampleFs
        { servers := [{ listens := [⟨"0.0.0.0".toList, 70000⟩], root := "www".toList }] }
        []).isOk = false := by
  refine ⟨?_, ?_, ?_, ?_, ?_⟩
  · exact (listen_port_checked_by_validator.1 5 {}
      (advanceN 2 (initState sampleBigPortSource)) (by decide) (by decide) (by decide)
      (by decide)).trans (by decide)
  · exact listen_port_checked_by_validator.2.1 "70000".toList (by decide) (by decide)
  · exact listen_port_checked_by_validator.2.2.1 "1".toList (by decide) (by decide)
  · exact listen_port_checked_by_validator.2.2.2.1 "http".toList
      (Or.inr ⟨'h', "ttp".toList, rfl, by decide, by decide, by decide, by decide⟩)
  · obtain ⟨err, he⟩ := listen_port_checked_by_validator.2.2.2.2 sampleFs
      { servers := [{ listens := [⟨"0.0.0.0".toList, 70000⟩], root := "www".toList }] }
      [] { listens := [⟨"0.0.0.0".toList, 70000⟩], root := "www".toList }
      ⟨"0.0.0.0".toList, 70000⟩ (by simp) (by simp) (by decide)
    rw [he]
    rfl

/-! ## A failure inside a block is the failure of the whole parse -/

/-- When the parser, after `k` complete server blocks, fails at top level
with `E` for every budget from `B` on, the whole parse fails with `E` for
every large enough budget. -/
theorem parseFile_err_at_top {content : Str} {fuel k : Nat} {s : PState} {E : ParseError}
    {B : Nat}
    (hblocks : runServerBlocks fuel k (initState content) = some s)
    (herr : ∀ M, B ≤ M → ∀ cfg, parseConfigLoop (M + 1) cfg s = .err E) :
    ∃ N0, ∀ N, N0 ≤ N → parseFile N content = .err E := by
  refine ⟨fuel + B + k + 1, ?_⟩
  intro N hN
  obtain ⟨N1, rfl⟩ : ∃ N1, N = (fuel + B + N1) + k + 1 := ⟨N - (fuel + B + k + 1), by omega⟩
  unfold parseFile parseConfig
  exact parseConfigLoop_err_after_run hblocks herr _ (by omega) (by omega) {}

/-- When the parser, after `k` complete server blocks, `server`, its opening
brace and `m` complete server directives, fails in the server block with `E`
for every budget from `B` on, the whole parse fails with `E` for every large
enough budget. -/
theorem parseFile_err_in_server {content : Str} {fuel k m : Nat} {s e : PState}
    {srv : ServerBlock} {E : ParseError} {B : Nat}
    (hblocks : runServerBlocks fuel k (initState content) = some s)
    (hkw : s.cur.type = T_IDENT ∧ s.cur.text = "server".toList)
    (hbrace : (advance s).cur.type = T_LBRACE)
    (hdirs : runServerDirectives fuel m {} (advance (advance s)) = some (srv, e))
    (herr : ∀ M, B ≤ M → parseServerLoop (M + 1) srv e = .err E) :
    ∃ N0, ∀ N, N0 ≤ N → parseFile N content = .err E := by
  apply parseFile_err_at_top hblocks (B := fuel + B + m + 1)
  intro M hM cfg
  obtain ⟨M1, rfl⟩ : ∃ M1, M = (fuel + B + M1) + m + 1 := ⟨M - (fuel + B + m + 1), by omega⟩
  exact parseConfigLoop_server_err hkw hbrace
    (parseServerLoop_err_after_run hdirs herr _ (by omega) (by omega)) cfg

/-- The same for a failure inside a location block that was opened after the
`m` server directives and has `j` complete location directives. -/
theorem parseFile_err_in_location {content : Str} {fuel k m j : Nat} {s e e2 : PState}
    {srv : ServerBlock} {loc : LocationBlock} {E : ParseError} {B : Nat}
    (hblocks : runServerBlocks fuel k (initState content) = some s)
    (hkw : s.cur.type = T_IDENT ∧ s.cur.text = "server".toList)
    (hbrace : (advance s).cur.type = T_LBRACE)
    (hdirs : runServerDirectives fuel m {} (advance (advance s)) = some (srv, e))
    (hi : e.cur.type = T_IDENT) (hk : e.cur.text = "location".toList)
    (hp : isIdentOrString (advance e).cur = true)
    (hb : (advance (advance e)).cur.type = T_LBRACE)
    (hrun : runLocationDirectives fuel j
      (({} : LocationBlock).setPathPrefix (advance e).cur.text)
      (advance (advance (advance e))) = some (loc, e2))
    (herr : ∀ M, B ≤ M → parseLocationLoop (M + 1) loc e2 = .err E) :
    ∃ N0, ∀ N, N0 ≤ N → parseFile N content = .err E := by
  apply parseFile_err_in_server hblocks hkw hbrace hdirs (B := fuel + B + j + 1)
  intro M hM
  obtain ⟨M1, rfl⟩ : ∃ M1, M = (fuel + B + M1) + j + 1 := ⟨M - (fuel + B + j + 1), by omega⟩
  exact parseServerLoop_location_err hi hk hp hb
    (parseLocationLoop_err_after_run hrun herr _ (by omega) (by omega))

theorem parseConfigLoop_not_server (M : Nat) (cfg : Config) {s : PState}
    (h1 : s.cur.type ≠ T_EOF)
    (h2 : ¬ (s.cur.type = T_IDENT ∧ s.cur.text = "server".toList)) :
    parseConfigLoop (M + 1) cfg s
      = .err { msg := "Expected \x27server\x27 block".toList, line := s.cur.line } := by
  rw [parseConfigLoop, if_pos h1, if_neg h2]

theorem parseConfigLoop_eof (M : Nat) (cfg : Config) {s : PState}
    (h1 : s.cur.type = T_EOF) : parseConfigLoop (M + 1) cfg s = .ok cfg s := by
  rw [parseConfigLoop, if_neg (not_not.mpr h1)]

/-- Claim C15: the only tokens accepted at top level are Identifier tokens
with text `server`.  When, after zero or more complete server blocks, the
current token is neither `T_EOF` nor the identifier `server`, parsing fails
with the `ParseError` "Expected 'server' block" at the line of that token; and
a source whose first token is already `T_EOF` (no tokens at all) parses to a
configuration with zero servers. -/
theorem top_level_only_server (content : Str) (fuel k : Nat) (s : PState)
    (hblocks : runServerBlocks fuel k (initState content) = some s) :
    (s.cur.type ≠ T_EOF → ¬ (s.cur.type = T_IDENT ∧ s.cur.text = "server".toList) →
      ∃ N0, ∀ N, N0 ≤ N → parseFile N content
        = .err { msg := "Expected \x27server\x27 block".toList, line := s.cur.line })
    ∧ ((initState content).cur.type = T_EOF →
        ∀ N, parseFile (N + 1) content = .ok { servers := [] } (initState content)) := by
  constructor
  · intro h1 h2
    exact parseFile_err_at_top hblocks (B := 0)
      (fun M _ cfg => parseConfigLoop_not_server M cfg h1 h2)
  · intro h N
    unfold parseFile parseConfig
    exact parseConfigLoop_eof N _ h

theorem top_level_only_server_witness :
    (∃ N0, ∀ N, N0 ≤ N → parseFile N sampleTopLevelStringSource
        = .err { msg := "Expected \x27server\x27 block".toList, line := 4 })
    ∧ (∀ N, parseFile (N + 1) sampleBlankSource
        = .ok { servers := [] } (initState sampleBlankSource)) :=
  ⟨(top_level_only_server sampleTopLevelStringSource 5 1
      (advanceN 6 (initState sampleTopLevelStringSource)) (by decide)).1
      (by decide) (by decide),
   (top_level_only_server sampleBlankSource 0 0 (initState sampleBlankSource) rfl).2
      (advance_eof_of_blank _ (by decide))⟩

theorem parseServerDirective_unknown (M : Nat) (srv : ServerBlock) {e : PState}
    (hi : e.cur.type = T_IDENT) (hk : e.cur.text ∉ serverKeywords) :
    parseServerDirective M srv e
      = .err { msg := "Unknown server directive: ".toList ++ e.cur.text,
               line := e.cur.line } := by
  simp only [serverKeywords, List.mem_cons, List.mem_singleton, List.not_mem_nil, or_false,
    not_or] at hk
  obtain ⟨h1, h2, h3, h4, h5, h6, h7⟩ := hk
  unfold parseServerDirective
  rw [if_neg (not_not.mpr hi), if_neg h1, if_neg h2, if_neg h3, if_neg h4, if_neg h5,
    if_neg h6, if_neg h7]

theorem parseLocationDirective_unknown (M : Nat) (loc : LocationBlock) {e : PState}
    (hi : e.cur.type = T_IDENT) (hk : e.cur.text ∉ locationKeywords) :
    parseLocationDirective M loc e
      = .err { msg := "Unknown location directive: ".toList ++ e.cur.text,
               line := e.cur.line } := by
  simp only [locationKeywords, List.mem_cons, List.mem_singleton, List.not_mem_nil, or_false,
    not_or] at hk
  obtain ⟨h1, h2, h3, h4, h5, h6, h7⟩ := hk
  unfold parseLocationDirective
  rw [if_neg (not_not.mpr hi), if_neg h1, if_neg h2, if_neg h3, if_neg h4, if_neg h5,
    if_neg h6, if_neg h7]

theorem parseServerLoop_unknown (M : Nat) (srv : ServerBlock) {e : PState}
    (hi : e.cur.type = T_IDENT) (hk : e.cur.text ∉ serverKeywords) :
    parseServerLoop (M + 1) srv e
      = .err { msg := "Unknown server directive: ".toList ++ e.cur.text,
               line := e.cur.line } := by
  have h1 : e.cur.type ≠ T_RBRACE := by rw [hi]; decide
  have h2 : ¬ e.cur.type = T_EOF := by rw [hi]; decide
  rw [parseServerLoop, if_pos h1, if_neg h2, parseServerDirective_unknown M srv hi hk]
  rfl

theorem parseLocationLoop_unknown (M : Nat) (loc : LocationBlock) {e : PState}
    (hi : e.cur.type = T_IDENT) (hk : e.cur.text ∉ locationKeywords) :
    parseLocationLoop (M + 1) loc e
      = .err { msg := "Unknown location directive: ".toList ++ e.cur.text,
               line := e.cur.line } := by
  have h1 : e.cur.type ≠ T_RBRACE := by rw [hi]; decide
  have h2 : ¬ e.cur.type = T_EOF := by rw [hi]; decide
  rw [parseLocationLoop, if_pos h1, if_neg h2, parseLocationDirective_unknown M loc hi hk]
  rfl

/-- Claim C16: the directive sets are closed.  When, inside a server block,
the next directive starts with an Identifier that is none of `listen`, `root`,
`index`, `server_name`, `client_max_body_size`, `error_page` and `location`,
parsing fails with the `ParseError` "Unknown server directive: " followed by
the text of that Identifier, at its line; when, inside a location block, it
starts with an Identifier that is none of `root`, `methods`, `autoindex`,
`index`, `upload_store`, `return` and `cgi_pass`, parsing fails with "Unknown
location directive: " followed by the text, at its line. -/
theorem unknown_directive_error (content : Str) (fuel k m : Nat) (s : PState)
    (srv : ServerBlock) (e : PState)
    (hblocks : runServerBlocks fuel k (initState content) = some s)
    (hkw : s.cur.type = T_IDENT ∧ s.cur.text = "server".toList)
    (hbrace : (advance s).cur.type = T_LBRACE)
    (hdirs : runServerDirectives fuel m {} (advance (advance s)) = some (srv, e))
    (hi : e.cur.type = T_IDENT) :
    (e.cur.text ∉ serverKeywords →
      Contains ("Unknown server directive: ".toList ++ e.cur.text) e.cur.text
      ∧ ∃ N0, ∀ N, N0 ≤ N → parseFile N content
        = .err { msg := "Unknown server directive: ".toList ++ e.cur.text,
                 line := e.cur.line })
    ∧ (∀ (j : Nat) (loc : LocationBlock) (e2 : PState),
        e.cur.text = "location".toList →
        isIdentOrString (advance e).cur = true →
        (advance (advance e)).cur.type = T_LBRACE →
        runLocationDirectives fuel j (({} : LocationBlock).setPathPrefix (advance e).cur.text)
          (advance (advance (advance e))) = some (loc, e2) →
        e2.cur.type = T_IDENT → e2.cur.text ∉ locationKeywords →
        Contains ("Unknown location directive: ".toList ++ e2.cur.text) e2.cur.text
        ∧ ∃ N0, ∀ N, N0 ≤ N → parseFile N content
          = .err { msg := "Unknown location directive: ".toList ++ e2.cur.text,
                   line := e2.cur.line }) := by
  constructor
  · intro hk
    exact ⟨(List.suffix_append _ _).isInfix, parseFile_err_in_server hblocks hkw hbrace hdirs (B := 0)
      (fun M _ => parseServerLoop_unknown M srv hi hk)⟩
  · intro j loc e2 hl hp hb hrun hi2 hk2
    exact ⟨(List.suffix_append _ _).isInfix,
      parseFile_err_in_location hblocks hkw hbrace hdirs hi hl hp hb hrun (B := 0)
        (fun M _ => parseLocationLoop_unknown M loc hi2 hk2)⟩

theorem unknown_directive_error_witness :
    (∃ N0, ∀ N, N0 ≤ N → parseFile N sampleUnknownServerDirectiveSource
        = .err { msg := "Unknown server directive: gzip".toList, line := 3 })
    ∧ (∃ N0, ∀ N, N0 ≤ N → parseFile N sampleUnknownLocationDirectiveSource
        = .err { msg := "Unknown location directive: listen".toList, line := 4 }) :=
  ⟨((unknown_directive_error sampleUnknownServerDirectiveSource 5 0 1
      (initState sampleUnknownServerDirectiveSource)
      (({} : ServerBlock).setRoot "www".toList)
      (advanceN 5 (initState sampleUnknownServerDirectiveSource))
      rfl (by decide) (by decide) (by decide) (by decide)).1 (by decide)).2,
   ((unknown_directive_error sampleUnknownLocationDirectiveSource 5 0 0
      (initState sampleUnknownLocationDirectiveSource) {}
      (advanceN 2 (initState sampleUnknownLocationDirectiveSource))
      rfl (by decide) (by decide) (by decide) (by decide)).2 1
      ((({} : LocationBlock).setPathPrefix "/".toList).setAutoIndex true)
      (advanceN 8 (initState sampleUnknownLocationDirectiveSource))
      (by decide) (by decide) (by decide) (by decide) (by decide) (by decide)).2⟩

/-! ## The lexer seen through the text that is left to read -/

theorem eof_false_of_rest_cons {lx : Lexer} {c : Char} {t : Str} (h : lx.rest = c :: t) :
    lx.eof = false := by
  cases he : lx.eof
  · rfl
  · rw [rest_eq_nil_of_eof he] at h
    exact List.noConfusion h

/-- What `peek` and `get` do when the text left to read is `c :: t`. -/
theorem get_of_rest_cons {lx : Lexer} {c : Char} {t : Str} (h : lx.rest = c :: t) :
    lx.peek = c ∧ lx.get.1 = c ∧ lx.get.2.rest = t ∧ lx.get.2.src = lx.src
      ∧ lx.get.2.pos = lx.pos + 1
      ∧ lx.get.2.line = (if c = '\n' then lx.line + 1 else lx.line) := by
  have he := eof_false_of_rest_cons h
  obtain ⟨h1, h2⟩ := rest_of_not_eof he
  rw [h1] at h
  have hc : lx.peek = c := (List.cons.inj h).1
  have ht : lx.get.2.rest = t := (List.cons.inj h).2
  refine ⟨hc, h2.trans hc, ht, ?_, ?_, ?_⟩
  · unfold Lexer.get; rw [he]; rfl
  · unfold Lexer.get; rw [he]; rfl
  · have hp : lx.src.getD lx.pos '\x00' = c := by
      rw [← hc]; unfold Lexer.peek; rw [he]; rfl
    unfold Lexer.get; rw [he]
    simp only [Bool.false_eq_true, if_false]
    rw [hp]

theorem remaining_eq_rest_length (lx : Lexer) : lx.remaining = lx.rest.length := by
  unfold Lexer.remaining Lexer.rest
  rw [List.length_drop]

theorem skipSpaces_of_eof (n : Nat) {lx : Lexer} (h : lx.eof = true) :
    Lexer.skipSpaces n lx = lx := by
  cases n with
  | zero => rfl
  | succ n => rw [Lexer.skipSpaces, h]; rfl

theorem skipSpaces_of_not_space (n : Nat) {lx : Lexer} (h : isspace lx.peek = false) :
    Lexer.skipSpaces n lx = lx := by
  cases n with
  | zero => rfl
  | succ n => rw [Lexer.skipSpaces, h, Bool.and_false]; rfl

/-- At the end of the text `skipSpacesAndComments` changes nothing. -/
theorem skipSpacesAndComments_of_eof {lx : Lexer} (h : lx.eof = true) :
    lx.skipSpacesAndComments = lx := by
  unfold Lexer.skipSpacesAndComments
  rw [Lexer.skipSpacesAndCommentsLoop, skipSpaces_of_eof _ h]
  simp only [h, Bool.not_true, Bool.false_and, Bool.false_eq_true, if_false]

/-- Before a character that is neither white space nor `#`,
`skipSpacesAndComments` changes nothing. -/
theorem skipSpacesAndComments_of_head {lx : Lexer} {c : Char} {t : Str}
    (h : lx.rest = c :: t) (hs : isspace c = false) (hc : c ≠ '#') :
    lx.skipSpacesAndComments = lx := by
  have hp : lx.peek = c := (get_of_rest_cons h).1
  unfold Lexer.skipSpacesAndComments
  rw [Lexer.skipSpacesAndCommentsLoop, skipSpaces_of_not_space _ (by rw [hp]; exact hs)]
  have : (lx.peek == '#') = false := by rw [hp]; simpa using hc
  simp only [this, Bool.and_false, Bool.false_eq_true, if_false]

/-- At the end of the text `next` returns a `T_EOF` token with empty text and
the current line, and leaves the lexer as it is. -/
theorem next_of_eof {lx : Lexer} (h : lx.eof = true) :
    lx.next = ({ type := T_EOF, text := [], line := lx.line }, lx) := by
  unfold Lexer.next
  simp only [skipSpacesAndComments_of_eof h, h, if_true]

/-- Claim C18: once `Lexer::next` has returned a `T_EOF` token, every later
call returns a `T_EOF` token with empty text and the same line number, and
leaves the lexer state unchanged: after any number `n` of further calls the
next call returns that token and the state reached by the first call. -/
theorem next_after_eof (lx : Lexer) (h : lx.next.1.type = T_EOF) (n : Nat) :
    ((fun l : Lexer => l.next.2)^[n] lx.next.2).next
      = ({ type := T_EOF, text := [], line := lx.next.1.line }, lx.next.2) := by
  have he := next_eof lx h
  have hfix : (fun l : Lexer => l.next.2)^[n] lx.next.2 = lx.next.2 := by
    apply Function.iterate_fixed
    show lx.next.2.next.2 = lx.next.2
    rw [next_of_eof he]
  rw [hfix, next_of_eof he, next_line]

theorem next_after_eof_witness :
    (Lexer.load sampleUnterminatedSource).next.2.next.1.type = T_EOF
    ∧ ((fun l : Lexer => l.next.2)^[3] (Lexer.load sampleUnterminatedSource).next.2.next.2).next
      = ({ type := T_EOF, text := [], line := 2 },
         (Lexer.load sampleUnterminatedSource).next.2.next.2) :=
  ⟨by decide, next_after_eof (Lexer.load sampleUnterminatedSource).next.2 (by decide) 3⟩

theorem identStop_eq (c : Char) : identStop c = !isIdentChar c := by
  unfold identStop
  cases h : isIdentChar c
  · rfl
  · have h1 : c ≠ ';' := by rintro rfl; exact absurd h (by decide)
    have h2 : c ≠ '\x7b' := by rintro rfl; exact absurd h (by decide)
    have h3 : c ≠ '\x7d' := by rintro rfl; exact absurd h (by decide)
    have h4 : c ≠ '\x22' := by rintro rfl; exact absurd h (by decide)
    have h5 : c ≠ '#' := by rintro rfl; exact absurd h (by decide)
    simp [h1, h2, h3, h4, h5]

theorem readIdentLoop_stop (n : Nat) {lx : Lexer} {c : Char} {t : Str}
    (h : lx.rest = c :: t) (hc : identStop c = true) : Lexer.readIdentLoop n lx = lx := by
  cases n with
  | zero => rfl
  | succ n =>
    rw [Lexer.readIdentLoop, if_neg (by rw [eof_false_of_rest_cons h]; decide),
      if_pos (by rw [(get_of_rest_cons h).1]; exact hc)]

theorem substr_zero (s : Str) (p : Nat) : substr s p (p - p) = [] := by
  unfold substr
  rw [Nat.sub_self, List.take_zero]

/-- At a character that is not white space, not `#`, not a brace, semicolon or
quote, not a digit and not an identifier character, `next` returns an
Identifier token with empty text and leaves the lexer where it is. -/
theorem next_stuck {lx : Lexer} {c : Char} {t : Str} (h : lx.rest = c :: t)
    (hs : isspace c = false) (hi : isIdentChar c = false)
    (h1 : c ≠ '\x7b') (h2 : c ≠ '\x7d') (h3 : c ≠ ';') (h4 : c ≠ '\x22') (h5 : c ≠ '#') :
    lx.next = ({ type := T_IDENT, text := [], line := lx.line }, lx) := by
  have hp : lx.peek = c := (get_of_rest_cons h).1
  have hd : isdigit c = false := by
    cases hd : isdigit c
    · rfl
    · exfalso
      unfold isIdentChar isalnum at hi
      simp [hd] at hi
  have hstop : identStop c = true := by rw [identStop_eq, hi]; rfl
  unfold Lexer.next
  simp only [skipSpacesAndComments_of_head h hs h5, eof_false_of_rest_cons h, hp,
    Bool.false_eq_true, if_false, h1, h2, h3, h4, hd]
  unfold Lexer.readIdent
  simp only [readIdentLoop_stop _ h hstop, substr_zero]

theorem advance_stuck {st : PState} {c : Char} {t : Str} (h : st.lex.rest = c :: t)
    (hs : isspace c = false) (hi : isIdentChar c = false)
    (h1 : c ≠ '\x7b') (h2 : c ≠ '\x7d') (h3 : c ≠ ';') (h4 : c ≠ '\x22') (h5 : c ≠ '#') :
    advance st = { lex := st.lex, cur := { type := T_IDENT, text := [], line := st.lex.line } } := by
  unfold advance
  simp only [next_stuck h hs hi h1 h2 h3 h4 h5]
/-! ## A character outside the token alphabet stops the lexer for good -/

/-- At a state whose current token is an Identifier or a String and that
`advance` leaves as it is, the loop of `dir_index` uses up every budget. -/
theorem dir_index_loop_stuck (n : Nat) (srv : ServerBlock) (st : PState)
    (hcur : isIdentOrString st.cur = true) (hadv : advance st = st) :
    dir_index_loop n srv st = .outOfFuel := by
  induction n generalizing srv with
  | zero => rfl
  | succ n ih => rw [dir_index_loop, if_pos hcur, hadv]; exact ih _

theorem parseServerLoop_index_stuck (n : Nat) (srv : ServerBlock) (st : PState)
    (hi : st.cur.type = T_IDENT) (hk : st.cur.text = "index".toList)
    (hcur : isIdentOrString (advance st).cur = true)
    (hadv : advance (advance st) = advance st) :
    parseServerLoop n srv st = .outOfFuel := by
  cases n with
  | zero => rfl
  | succ n =>
    have h1 : st.cur.type ≠ T_RBRACE := by rw [hi]; decide
    have h2 : ¬ st.cur.type = T_EOF := by rw [hi]; decide
    have hd : parseServerDirective n srv st = .outOfFuel := by
      unfold parseServerDirective
      rw [if_neg (not_not.mpr hi), if_neg (by rw [hk]; decide), if_neg (by rw [hk]; decide),
        if_pos hk]
      unfold dir_index
      simp only [hcur, Bool.not_true, Bool.false_eq_true, if_false]
      rw [dir_index_loop_stuck n srv _ hcur hadv]
      rfl
    rw [parseServerLoop, if_pos h1, if_neg h2, hd]
    rfl

/-- Claim C17 (refuted by the code): on the source `server { index @; }` the
parser never returns.  The lexer, at the character `@`, returns an Identifier
token with empty text and stays where it is, so the loop of `dir_index` sees
an Identifier at every round: for every step budget, however large, the parse
has produced neither a `Config` nor a `ParseError`. -/
theorem index_at_sign_never_returns :
    (advanceN 3 (initState sampleStuckSource)).cur
        = { type := T_IDENT, text := [], line := 2 }
    ∧ advance (advanceN 3 (initState sampleStuckSource))
        = advanceN 3 (initState sampleStuckSource)
    ∧ ∀ n, parseFile n sampleStuckSource = .outOfFuel := by
  have hrest : (advanceN 3 (initState sampleStuckSource)).lex.rest
      = '@' :: ";\n\x7d\n".toList := by decide
  have hcur : (advanceN 3 (initState sampleStuckSource)).cur
      = { type := T_IDENT, text := [], line := 2 } := by decide
  have hline : (advanceN 3 (initState sampleStuckSource)).lex.line = 2 := by decide
  have hadv : advance (advanceN 3 (initState sampleStuckSource))
      = advanceN 3 (initState sampleStuckSource) := by
    rw [advance_stuck hrest (by decide) (by decide) (by decide) (by decide) (by decide)
      (by decide) (by decide), hline, ← hcur]
  refine ⟨hcur, hadv, ?_⟩
  intro n
  unfold parseFile parseConfig
  cases n with
  | zero => rfl
  | succ n =>
    have h1 : (initState sampleStuckSource).cur.type ≠ T_EOF := by decide
    have h2 : (initState sampleStuckSource).cur.type = T_IDENT
        ∧ (initState sampleStuckSource).cur.text = "server".toList := by decide
    have hb : (advance (initState sampleStuckSource)).cur.type = T_LBRACE := by decide
    have hs : parseServer n (initState sampleStuckSource) = .outOfFuel := by
      unfold parseServer
      simp only
      rw [expect_of_type _ hb]
      simp only [Result.bind]
      have hl := parseServerLoop_index_stuck n {} (advanceN 2 (initState sampleStuckSource))
        (by decide) (by decide) (by decide) hadv
      have e2 : advanceN 2 (initState sampleStuckSource)
          = advance (advance (initState sampleStuckSource)) := rfl
      rw [e2] at hl
      rw [hl]
    rw [parseConfigLoop, if_pos h1, if_pos h2, hs]
    rfl

/-- The loop of `readNumberOrIdent` reads a run `w` of identifier characters
that is followed by the end of the text or by another character: it stops
right after `w`, on the same line, with the flag telling whether `w` is all
digits. -/
theorem readNumberOrIdentLoop_run (w r : Str) (n : Nat) (lx : Lexer) (b : Bool)
    (hrest : lx.rest = w ++ r) (hall : ∀ c ∈ w, isIdentChar c = true)
    (hmax : ∀ c, r.head? = some c → isIdentChar c = false) (hn : w.length ≤ n) :
    (Lexer.readNumberOrIdentLoop n lx b).1.src = lx.src
    ∧ (Lexer.readNumberOrIdentLoop n lx b).1.pos = lx.pos + w.length
    ∧ (Lexer.readNumberOrIdentLoop n lx b).1.line = lx.line
    ∧ (Lexer.readNumberOrIdentLoop n lx b).1.rest = r
    ∧ (Lexer.readNumberOrIdentLoop n lx b).2 = (b && w.all isdigit) := by
  induction w generalizing n lx b with
  | nil =>
    have hstay : Lexer.readNumberOrIdentLoop n lx b = (lx, b) := by
      cases n with
      | zero => rfl
      | succ n =>
        rw [Lexer.readNumberOrIdentLoop]
        cases r with
        | nil =>
          have he : lx.eof = true := by
            cases he : lx.eof
            · have := (rest_of_not_eof he).1
              rw [hrest] at this
              exact List.noConfusion this
            · rfl
          rw [if_pos he]
        | cons c r =>
          have hrest1 : lx.rest = c :: r := hrest
          rw [if_neg (by rw [eof_false_of_rest_cons hrest1]; decide),
            if_pos (by rw [(get_of_rest_cons hrest1).1, identStop_eq, hmax c rfl]; rfl)]
    rw [hstay]
    exact ⟨rfl, rfl, rfl, hrest, by simp⟩
  | cons c w ih =>
    obtain ⟨n, rfl⟩ : ∃ n1, n = n1 + 1 := ⟨n - 1, by simp at hn; omega⟩
    have hrest1 : lx.rest = c :: (w ++ r) := hrest
    obtain ⟨hp, _, hr, hsrc, hpos, hline⟩ := get_of_rest_cons hrest1
    have hc : isIdentChar c = true := hall c (List.mem_cons_self _ _)
    have hnl : c ≠ '\n' := by rintro rfl; exact absurd hc (by decide)
    rw [if_neg hnl] at hline
    rw [Lexer.readNumberOrIdentLoop, if_neg (by rw [eof_false_of_rest_cons hrest1]; decide),
      if_neg (by rw [hp, identStop_eq, hc]; decide)]
    obtain ⟨i1, i2, i3, i4, i5⟩ := ih n lx.get.2 (if !isdigit lx.peek then false else b) hr
      (fun d hd => hall d (List.mem_cons_of_mem _ hd)) (by simp at hn; omega)
    refine ⟨i1.trans hsrc, ?_, i3.trans hline, i4, ?_⟩
    · rw [i2, hpos, List.length_cons]; omega
    · rw [i5, hp, List.all_cons]
      cases isdigit c <;> cases b <;> simp

theorem substr_rest (lx : Lexer) (w r : Str) (h : lx.rest = w ++ r) :
    substr lx.src lx.pos (lx.pos + w.length - lx.pos) = w := by
  unfold substr
  unfold Lexer.rest at h
  rw [h, Nat.add_sub_cancel_left, List.take_left]

/-- Claim C19: when the text left to read starts with a run `w` of identifier
characters (ASCII letters and digits and `_ . : - / [ ]`) that begins with a
digit and is maximal (followed by the end of the text or by a character that
is not an identifier character), `Lexer::next` returns `w` as a single token,
of kind `T_NUMBER` if every character of `w` is a digit and of kind `T_IDENT`
otherwise, and stops right after `w`. -/
theorem number_or_ident_token (lx : Lexer) (d : Char) (w r : Str)
    (hrest : lx.rest = d :: w ++ r) (hd : isdigit d = true)
    (hall : ∀ c ∈ d :: w, isIdentChar c = true)
    (hmax : ∀ c, r.head? = some c → isIdentChar c = false) :
    lx.next.1.text = d :: w
    ∧ (lx.next.1.type = T_NUMBER ↔ ∀ c ∈ d :: w, isdigit c = true)
    ∧ (lx.next.1.type = T_IDENT ↔ ¬ ∀ c ∈ d :: w, isdigit c = true)
    ∧ lx.next.2.rest = r := by
  have hrest1 : lx.rest = d :: (w ++ r) := hrest
  have hp : lx.peek = d := (get_of_rest_cons hrest1).1
  have hs : isspace d = false := isspace_of_isdigit hd
  have h5 : d ≠ '#' := by rintro rfl; exact absurd hd (by decide)
  have h1 : d ≠ '\x7b' := by rintro rfl; exact absurd hd (by decide)
  have h2 : d ≠ '\x7d' := by rintro rfl; exact absurd hd (by decide)
  have h3 : d ≠ ';' := by rintro rfl; exact absurd hd (by decide)
  have h4 : d ≠ '\x22' := by rintro rfl; exact absurd hd (by decide)
  have hlen : (d :: w).length ≤ lx.remaining := by
    rw [remaining_eq_rest_length, hrest, List.length_append]
    omega
  obtain ⟨i1, i2, _, i4, i5⟩ :=
    readNumberOrIdentLoop_run (d :: w) r lx.remaining lx true hrest hall hmax hlen
  have htext : substr (Lexer.readNumberOrIdentLoop lx.remaining lx true).1.src lx.pos
      ((Lexer.readNumberOrIdentLoop lx.remaining lx true).1.pos - lx.pos) = d :: w := by
    rw [i1, i2]
    exact substr_rest lx (d :: w) r hrest
  have hnext : lx.next = lx.readNumberOrIdent := by
    unfold Lexer.next
    simp only [skipSpacesAndComments_of_head hrest1 hs h5, eof_false_of_rest_cons hrest1, hp,
      Bool.false_eq_true, if_false, h1, h2, h3, h4, hd, if_true]
  rw [hnext]
  unfold Lexer.readNumberOrIdent
  simp only [htext, List.isEmpty_cons, Bool.false_eq_true, if_false, i5, Bool.true_and]
  by_cases hdig : ∀ c ∈ d :: w, isdigit c = true
  · have hall2 : (d :: w).all isdigit = true := List.all_eq_true.mpr hdig
    rw [if_pos hall2]
    exact ⟨rfl, ⟨fun _ => hdig, fun _ => rfl⟩,
      ⟨fun h => TokType.noConfusion h, fun h => absurd hdig h⟩, i4⟩
  · have hall2 : ¬ (d :: w).all isdigit = true := fun h => hdig (List.all_eq_true.mp h)
    rw [if_neg hall2]
    exact ⟨rfl, ⟨fun h => TokType.noConfusion h, fun h => absurd h hdig⟩,
      ⟨fun _ => hdig, fun _ => rfl⟩, i4⟩

theorem number_or_ident_token_witness :
    ((lexerAt "8080;".toList).next.1 = { type := T_NUMBER, text := "8080".toList, line := 1 })
    ∧ ((lexerAt "10M;".toList).next.1.text = "10M".toList
        ∧ (lexerAt "10M;".toList).next.1.type = T_IDENT)
    ∧ ((lexerAt "127.0.0.1:80 x".toList).next.1.text = "127.0.0.1:80".toList
        ∧ (lexerAt "127.0.0.1:80 x".toList).next.1.type = T_IDENT) :=
  ⟨by decide,
   ⟨(number_or_ident_token (lexerAt "10M;".toList) '1' "0M".toList ";".toList rfl
        (by decide) (by decide) (by decide)).1,
    (number_or_ident_token (lexerAt "10M;".toList) '1' "0M".toList ";".toList rfl
        (by decide) (by decide) (by decide)).2.2.1.mpr (by decide)⟩,
   ⟨(number_or_ident_token (lexerAt "127.0.0.1:80 x".toList) '1' "27.0.0.1:80".toList
        " x".toList rfl (by decide) (by decide) (by decide)).1,
    (number_or_ident_token (lexerAt "127.0.0.1:80 x".toList) '1' "27.0.0.1:80".toList
        " x".toList rfl (by decide) (by decide) (by decide)).2.2.1.mpr (by decide)⟩⟩

theorem stringBody_quote (t : Str) : stringBody ('\x22' :: t) = some ([], t) := by
  rw [stringBody]

theorem stringBody_backslash (c : Char) (t : Str) :
    stringBody ('\x5c' :: c :: t)
      = (stringBody t).map fun p => ('\x5c' :: c :: p.1, p.2) := by
  rw [stringBody]

theorem stringBody_backslash_end : stringBody ['\x5c'] = none := by
  rw [stringBody]
  · rfl
  · intro h; exact absurd h (by decide)
  · intro c t _ h; exact List.noConfusion h

theorem stringBody_other (c : Char) (t : Str) (h1 : c ≠ '\x22') (h2 : c ≠ '\x5c') :
    stringBody (c :: t) = (stringBody t).map fun p => (c :: p.1, p.2) := by
  rw [stringBody]
  · intro h; exact h1 h
  · intro d u h _; exact h2 h

/-- The loop of `readString`, started right after the opening quote of a
terminated literal, stops at the closing quote: it has read exactly the body,
and the line counter has grown by the number of newlines of the body. -/
theorem readStringLoop_run (n : Nat) (s body tail : Str) (lx : Lexer)
    (hrest : lx.rest = s) (hb : stringBody s = some (body, tail)) (hn : s.length ≤ n) :
    (Lexer.readStringLoop n lx).src = lx.src
    ∧ (Lexer.readStringLoop n lx).pos = lx.pos + body.length
    ∧ (Lexer.readStringLoop n lx).rest = '\x22' :: tail
    ∧ (Lexer.readStringLoop n lx).line = lx.line + newlineCount body
    ∧ s = body ++ '\x22' :: tail := by
  induction n using Nat.strong_induction_on generalizing s body tail lx with
  | _ n ih =>
  cases s with
  | nil => rw [stringBody] at hb; exact Option.noConfusion hb
  | cons c t =>
    have he := eof_false_of_rest_cons hrest
    obtain ⟨hp, hg1, hr, hsrc, hpos, hline⟩ := get_of_rest_cons hrest
    by_cases hq : c = '\x22'
    · subst hq
      rw [stringBody_quote] at hb
      obtain ⟨rfl, rfl⟩ := Prod.mk.inj (Option.some.inj hb)
      have hstay : Lexer.readStringLoop n lx = lx := by
        cases n with
        | zero => rfl
        | succ n => rw [Lexer.readStringLoop, if_neg (by rw [hp]; simp)]
      rw [hstay]
      exact ⟨rfl, rfl, hrest, by simp [newlineCount], rfl⟩
    · obtain ⟨n, rfl⟩ : ∃ n1, n = n1 + 1 := ⟨n - 1, by simp at hn; omega⟩
      have hcond : (!lx.eof && lx.peek != '\x22') = true := by
        rw [he, hp]; simpa using hq
      rw [Lexer.readStringLoop, if_pos hcond]
      simp only
      by_cases hbs : c = '\x5c'
      · subst hbs
        cases t with
        | nil => rw [stringBody_backslash_end] at hb; exact Option.noConfusion hb
        | cons c2 t2 =>
          rw [stringBody_backslash] at hb
          cases hb2 : stringBody t2 with
          | none => rw [hb2] at hb; exact Option.noConfusion hb
          | some p =>
            rw [hb2] at hb
            obtain ⟨rfl, rfl⟩ := Prod.mk.inj (Option.some.inj hb)
            have he2 := eof_false_of_rest_cons hr
            obtain ⟨_, _, hr2, hsrc2, hpos2, hline2⟩ := get_of_rest_cons hr
            have hc2 : (lx.get.1 == '\x5c' && !lx.get.2.eof) = true := by
              rw [hg1, he2]; rfl
            rw [if_pos hc2]
            obtain ⟨i1, i2, i3, i4, i5⟩ := ih n (Nat.lt_succ_self n) t2 p.1 p.2 lx.get.2.get.2
              hr2 (by rw [hb2]) (by simp at hn; omega)
            refine ⟨i1.trans (hsrc2.trans hsrc), ?_, i3, ?_, ?_⟩
            · rw [i2, hpos2, hpos]; simp only [List.length_cons]; omega
            · have hline1 : lx.get.2.line = lx.line := by
                rw [hline]; exact if_neg (by decide)
              rw [i4, hline2, hline1]
              unfold newlineCount
              rw [List.count_cons, List.count_cons]
              by_cases hnl : c2 = '\n'
              · simp [hnl]; omega
              · simp [hnl]
            · rw [i5]; rfl
      · rw [stringBody_other c t hq hbs] at hb
        cases hb2 : stringBody t with
        | none => rw [hb2] at hb; exact Option.noConfusion hb
        | some p =>
          rw [hb2] at hb
          obtain ⟨rfl, rfl⟩ := Prod.mk.inj (Option.some.inj hb)
          have hc2 : (lx.get.1 == '\x5c' && !lx.get.2.eof) = false := by
            rw [hg1]
            have : (c == '\x5c') = false := by simpa using hbs
            rw [this]; rfl
          rw [hc2]
          simp only [Bool.false_eq_true, if_false]
          obtain ⟨i1, i2, i3, i4, i5⟩ := ih n (Nat.lt_succ_self n) t p.1 p.2 lx.get.2
            hr (by rw [hb2]) (by simp at hn; omega)
          refine ⟨i1.trans hsrc, ?_, i3, ?_, ?_⟩
          · rw [i2, hpos]; simp only [List.length_cons]; omega
          · rw [i4, hline]
            unfold newlineCount
            rw [List.count_cons]
            by_cases hnl : c = '\n'
            · simp [hnl]; omega
            · simp [hnl]
          · rw [i5]; rfl

/-- A body without quote and backslash, followed by a quote, is the body
`stringBody` finds. -/
theorem stringBody_plain (b t : Str) (h : ∀ c ∈ b, c ≠ '\x22' ∧ c ≠ '\x5c') :
    stringBody (b ++ '\x22' :: t) = some (b, t) := by
  induction b with
  | nil => exact stringBody_quote t
  | cons c b ih =>
    have hc := h c (List.mem_cons_self _ _)
    rw [List.cons_append, stringBody_other c _ hc.1 hc.2,
      ih (fun d hd => h d (List.mem_cons_of_mem _ hd))]
    rfl

/-- Claim C20: for a terminated string literal `Lexer::next` returns a
`T_STRING` token whose text is exactly the source characters between the
opening quote and the first quote that is not taken as the character after a
backslash, backslashes and escaped characters kept as they stand; the lexer
stops right after that closing quote.  In particular a body without quote and
backslash is returned whole, whatever else it holds (`#`, `;`, braces,
spaces). -/
theorem string_token_verbatim (lx : Lexer) (s body tail : Str)
    (hrest : lx.rest = '\x22' :: s) (hb : stringBody s = some (body, tail)) :
    lx.next.1.type = T_STRING ∧ lx.next.1.text = body ∧ lx.next.2.rest = tail
    ∧ s = body ++ '\x22' :: tail
    ∧ ∀ b t, (∀ c ∈ b, c ≠ '\x22' ∧ c ≠ '\x5c') → s = b ++ '\x22' :: t →
        lx.next.1.text = b := by
  obtain ⟨hp, _, hr, hsrc, hpos, _⟩ := get_of_rest_cons hrest
  have hlen : s.length ≤ lx.get.2.remaining := by
    rw [remaining_eq_rest_length, hr]
  obtain ⟨i1, i2, i3, _, i5⟩ := readStringLoop_run lx.get.2.remaining s body tail lx.get.2 hr hb hlen
  obtain ⟨_, _, j3, _⟩ := get_of_rest_cons i3
  have hnext : lx.next = lx.readString := by
    unfold Lexer.next
    simp only [skipSpacesAndComments_of_head hrest (by decide) (by decide),
      eof_false_of_rest_cons hrest, hp, Bool.false_eq_true, if_false, if_true]
    rw [if_neg (by decide), if_neg (by decide), if_neg (by decide)]
  have htext : substr (Lexer.readStringLoop lx.get.2.remaining lx.get.2).src lx.get.2.pos
      ((Lexer.readStringLoop lx.get.2.remaining lx.get.2).pos - lx.get.2.pos) = body := by
    rw [i1, i2]
    exact substr_rest lx.get.2 body ('\x22' :: tail) (hr.trans i5)
  have hres : lx.next.1.type = T_STRING ∧ lx.next.1.text = body ∧ lx.next.2.rest = tail := by
    rw [hnext]
    unfold Lexer.readString
    simp only [eof_false_of_rest_cons i3, Bool.false_eq_true, if_false, htext]
    exact ⟨trivial, trivial, j3⟩
  refine ⟨hres.1, hres.2.1, hres.2.2, i5, ?_⟩
  intro b t hbt hs
  rw [hs, stringBody_plain b t hbt] at hb
  rw [hres.2.1]
  exact ((Prod.mk.inj (Option.some.inj hb)).1).symm

theorem string_token_verbatim_witness :
    ((lexerAt "\x22a\x5c\x22b\x22 x".toList).next.1.type = T_STRING
      ∧ (lexerAt "\x22a\x5c\x22b\x22 x".toList).next.1.text = ['a', '\x5c', '\x22', 'b']
      ∧ (lexerAt "\x22a\x5c\x22b\x22 x".toList).next.2.rest = " x".toList)
    ∧ (lexerAt "\x22# ;\x7b \x7d\x22;".toList).next.1.text = "# ;\x7b \x7d".toList :=
  ⟨⟨(string_token_verbatim (lexerAt "\x22a\x5c\x22b\x22 x".toList) "a\x5c\x22b\x22 x".toList
        ['a', '\x5c', '\x22', 'b'] " x".toList rfl (by decide)).1,
    (string_token_verbatim (lexerAt "\x22a\x5c\x22b\x22 x".toList) "a\x5c\x22b\x22 x".toList
        ['a', '\x5c', '\x22', 'b'] " x".toList rfl (by decide)).2.1,
    (string_token_verbatim (lexerAt "\x22a\x5c\x22b\x22 x".toList) "a\x5c\x22b\x22 x".toList
        ['a', '\x5c', '\x22', 'b'] " x".toList rfl (by decide)).2.2.1⟩,
   (string_token_verbatim (lexerAt "\x22# ;\x7b \x7d\x22;".toList) "# ;\x7b \x7d\x22;".toList
        "# ;\x7b \x7d".toList ";".toList rfl (by decide)).2.1⟩

/-! ## Listen entries: one per directive, flattened in declaration order -/

theorem pushAll_eq (l out : List ListenEntry) :
    l.foldl (fun o e => o ++ [e]) out = out ++ l := by
  induction l generalizing out with
  | nil => simp
  | cons e l ih => rw [List.foldl_cons, ih]; simp

theorem collectLoop_eq (ss : List ServerBlock) (out : List ListenEntry) :
    ss.foldl (fun out s => s.listens.foldl (fun o e => o ++ [e]) out) out
      = out ++ (ss.map fun s => s.listens).flatten := by
  induction ss generalizing out with
  | nil => simp
  | cons s ss ih =>
    rw [List.foldl_cons, ih, pushAll_eq]
    simp

theorem collectAllListens_eq (cfg : Config) :
    cfg.collectAllListens = (cfg.servers.map fun s => s.listens).flatten := by
  unfold Config.collectAllListens
  rw [collectLoop_eq, List.nil_append]

theorem listenOffset_succ (cfg : Config) (i : Nat) (s : ServerBlock)
    (h : cfg.servers[i]? = some s) :
    listenOffset cfg (i + 1) = listenOffset cfg i + s.listens.length := by
  unfold listenOffset
  rw [List.take_succ, h]
  simp

theorem listenOffset_mono (cfg : Config) {i j : Nat} (h : i ≤ j) :
    listenOffset cfg i ≤ listenOffset cfg j := by
  induction h with
  | refl => exact le_refl _
  | @step m _ ih =>
    show listenOffset cfg i ≤ listenOffset cfg (m + 1)
    cases hs : cfg.servers[m]? with
    | none =>
      have : listenOffset cfg (m + 1) = listenOffset cfg m := by
        unfold listenOffset
        rw [List.take_succ, hs]
        simp
      omega
    | some s => rw [listenOffset_succ cfg m s hs]; omega

theorem join_listens_getElem? (ss : List ServerBlock) (i k : Nat) (s : ServerBlock)
    (e : ListenEntry) (hs : ss[i]? = some s) (he : s.listens[k]? = some e) :
    ((ss.map fun s => s.listens).flatten)[((ss.take i).map fun s => s.listens.length).sum + k]?
      = some e := by
  induction ss generalizing i with
  | nil => simp at hs
  | cons t ss ih =>
    cases i with
    | zero =>
      have : t = s := by simpa using hs
      subst this
      have hk : k < t.listens.length := (List.getElem?_eq_some_iff.mp he).1
      simp only [List.take_zero, List.map_nil, List.sum_nil, Nat.zero_add, List.map_cons,
        List.flatten_cons]
      rw [List.getElem?_append_left hk]
      exact he
    | succ i =>
      have hs1 : ss[i]? = some s := by simpa using hs
      simp only [List.take_succ_cons, List.map_cons, List.sum_cons, List.flatten_cons]
      rw [List.getElem?_append_right (by omega)]
      have : t.listens.length + ((ss.take i).map fun s => s.listens.length).sum + k
          - t.listens.length = ((ss.take i).map fun s => s.listens.length).sum + k := by omega
      rw [this]
      exact ih i hs1

/-- Claim C30: `Config::collectAllListens` returns the concatenation, in
server declaration order, of each server's listens in their own order.  Its
length is the sum of the servers' listen counts; entry `k` of server `i` is
found at position `listenOffset cfg i + k` (the number of entries of the
servers before `i`, plus `k`); and that position is smaller than the position
of entry `k2` of server `i2` whenever `i < i2`, or `i = i2` and `k < k2`. -/
theorem collectAllListens_spec (cfg : Config) :
    cfg.collectAllListens = (cfg.servers.map fun s => s.listens).flatten
    ∧ cfg.collectAllListens.length = (cfg.servers.map fun s => s.listens.length).sum
    ∧ (∀ (i k : Nat) (s : ServerBlock) (e : ListenEntry),
        cfg.servers[i]? = some s → s.listens[k]? = some e →
        cfg.collectAllListens[listenOffset cfg i + k]? = some e)
    ∧ (∀ (i k i2 k2 : Nat) (s s2 : ServerBlock) (e e2 : ListenEntry),
        cfg.servers[i]? = some s → s.listens[k]? = some e →
        cfg.servers[i2]? = some s2 → s2.listens[k2]? = some e2 →
        (i < i2 ∨ (i = i2 ∧ k < k2)) →
        listenOffset cfg i + k < listenOffset cfg i2 + k2) := by
  refine ⟨collectAllListens_eq cfg, ?_, ?_, ?_⟩
  · rw [collectAllListens_eq, List.length_flatten, List.map_map]
    rfl
  · intro i k s e hs he
    rw [collectAllListens_eq]
    exact join_listens_getElem? cfg.servers i k s e hs he
  · intro i k i2 k2 s s2 e e2 hs he hs2 he2 h
    rcases h with h | ⟨rfl, h⟩
    · have hk : k < s.listens.length := (List.getElem?_eq_some_iff.mp he).1
      have h1 := listenOffset_succ cfg i s hs
      have h2 : listenOffset cfg (i + 1) ≤ listenOffset cfg i2 :=
        listenOffset_mono cfg (Nat.succ_le_of_lt h)
      omega
    · omega

theorem collectAllListens_spec_witness :
    sampleTwoServers.collectAllListens
        = [⟨"a".toList, 1⟩, ⟨"b".toList, 2⟩, ⟨"c".toList, 3⟩]
    ∧ sampleTwoServers.collectAllListens[listenOffset sampleTwoServers 1 + 0]?
        = some ⟨"c".toList, 3⟩
    ∧ listenOffset sampleTwoServers 0 + 1 < listenOffset sampleTwoServers 1 + 0 :=
  ⟨(collectAllListens_spec sampleTwoServers).1.trans rfl,
   (collectAllListens_spec sampleTwoServers).2.2.1 1 0 _ _ rfl rfl,
   (collectAllListens_spec sampleTwoServers).2.2.2 0 1 1 0 _ _ _ _ rfl rfl rfl rfl
     (Or.inl (by decide))⟩

theorem listenDirectives_cons (st : PState) (tr : List PState) :
    listenDirectives (st :: tr)
      = if keyword st = "listen".toList then
          ⟨(splitHostPort (advance st).cur.text).1, (splitHostPort (advance st).cur.text).2⟩
            :: listenDirectives tr
        else listenDirectives tr :=
  filter_map_cons_keyword _ _ st tr

theorem parseServerDirective_listens_eq {n : Nat} {srv srv1 : ServerBlock}
    {st st1 : PState} (h : parseServerDirective n srv st = .ok srv1 st1) :
    srv1.listens = srv.listens ++ listenDirectives [st] := by
  by_cases hk : keyword st = "listen".toList
  · rw [listenDirectives_cons, if_pos hk]
    rcases parseServerDirective_cases h with
      ⟨_, h1⟩ | ⟨hk1, _⟩ | ⟨hk1, _⟩ | ⟨hk1, _⟩ | ⟨hk1, _⟩ | ⟨hk1, _⟩ | ⟨hk1, _⟩
    · exact (congrArg ServerBlock.listens (dir_listen_eq_ok h1)).trans rfl
    all_goals (rw [hk] at hk1; exact absurd hk1 (by decide))
  · rw [listenDirectives_cons, if_neg hk, parseServerDirective_listens h hk]
    exact (List.append_nil _).symm

theorem parseServerLoop_listens_eq {n : Nat} {srv srv2 : ServerBlock} {st st2 : PState}
    (h : parseServerLoop n srv st = .ok srv2 st2) :
    srv2.listens = srv.listens ++ listenDirectives (serverDirectiveStarts n srv st) := by
  induction n generalizing srv st with
  | zero => exact Result.noConfusion h
  | succ n ih =>
    rcases parseServerLoop_succ_ok h with ⟨_, h2, _, h4⟩ | ⟨_, _, srv1, st1, h3, h4, h5⟩
    · rw [h4, h2]; exact (List.append_nil _).symm
    · rw [h5, ih h4, parseServerDirective_listens_eq h3, List.append_assoc]
      congr 1
      rw [listenDirectives_cons, listenDirectives_cons]
      split <;> rfl

/-- Claim C29: for every server block that parses successfully, its listens
sequence has exactly one entry per `listen` directive of the block, in source
order, with no de-duplication.  When a source parses and `tr` is the list of
directives of its server block number `i`, server number `i` of the
configuration has as listens the entries of the `listen` directives of `tr`,
in their order (what `splitHostPort` reads from each argument), so their
number is the number of `listen` directives. -/
theorem listens_one_per_directive (fuel : Nat) (content : Str) (cfg : Config) (st1 : PState)
    (hparse : parseFile fuel content = .ok cfg st1)
    (i : Nat) (tr : List PState)
    (htr : (serverBlockTraces fuel {} (initState content))[i]? = some tr) :
    ∃ srv, cfg.servers[i]? = some srv
      ∧ srv.listens = listenDirectives tr
      ∧ srv.listens.length = (tr.filter fun s => keyword s = "listen".toList).length := by
  unfold parseFile parseConfig at hparse
  obtain ⟨added, ha, hf⟩ := parseConfigLoop_servers hparse
  obtain ⟨srv, hs, m, s0, s1, hloop, htr2⟩ := hf i tr htr
  have hcfg : cfg.servers = added := by rw [ha]; rfl
  have hl : srv.listens = listenDirectives tr := by
    rw [parseServerLoop_listens_eq hloop, htr2]; rfl
  refine ⟨srv, by rw [hcfg]; exact hs, hl, ?_⟩
  rw [hl]
  unfold listenDirectives
  rw [List.length_map]

theorem listens_one_per_directive_witness :
    ∃ srv, (({ servers := [{ listens := [⟨"0.0.0.0".toList, 80⟩, ⟨"0.0.0.0".toList, 80⟩,
                                          ⟨"127.0.0.1".toList, 81⟩],
                              root := "www".toList }] } : Config).servers)[0]? = some srv
      ∧ srv.listens = [⟨"0.0.0.0".toList, 80⟩, ⟨"0.0.0.0".toList, 80⟩, ⟨"127.0.0.1".toList, 81⟩]
      ∧ srv.listens.length = 3 :=
  listens_one_per_directive 20 sampleTwoListensSource
    { servers := [{ listens := [⟨"0.0.0.0".toList, 80⟩, ⟨"0.0.0.0".toList, 80⟩,
                                ⟨"127.0.0.1".toList, 81⟩],
                    root := "www".toList }] }
    (advanceN 15 (initState sampleTwoListensSource)) (by decide) 0
    [advanceN 2 (initState sampleTwoListensSource), advanceN 5 (initState sampleTwoListensSource),
     advanceN 8 (initState sampleTwoListensSource), advanceN 11 (initState sampleTwoListensSource)]
    (by decide)

/-! ## Directives that read a list of arguments -/

theorem advanceN_succ (k : Nat) (st : PState) : advanceN (k + 1) st = advanceN k (advance st) :=
  rfl

theorem advanceN_succ_last (k : Nat) (st : PState) :
    advanceN (k + 1) st = advance (advanceN k st) :=
  Function.iterate_succ_apply' advance k st

theorem argTexts_succ (k : Nat) (st : PState) :
    argTexts (k + 1) st = st.cur.text :: argTexts k (advance st) := by
  unfold argTexts
  rw [List.range_succ_eq_map, List.map_cons, List.map_map]
  rfl

/-- The loop of `dir_index` on `k` Identifier or String tokens followed by a
token of another kind: it appends their texts and stops at that token. -/
theorem dir_index_loop_run (k : Nat) (n : Nat) (srv : ServerBlock) (st : PState)
    (hargs : ∀ i, i < k → isIdentOrString (advanceN i st).cur = true)
    (hstop : isIdentOrString (advanceN k st).cur = false) (hn : k < n) :
    dir_index_loop n srv st
      = .ok { srv with index_files := srv.index_files ++ argTexts k st } (advanceN k st) := by
  induction k generalizing n srv st with
  | zero =>
    obtain ⟨n, rfl⟩ : ∃ n1, n = n1 + 1 := ⟨n - 1, by omega⟩
    have h0 : isIdentOrString st.cur = false := hstop
    rw [dir_index_loop, if_neg (by rw [h0]; decide)]
    simp [argTexts, advanceN]
  | succ k ih =>
    obtain ⟨n, rfl⟩ : ∃ n1, n = n1 + 1 := ⟨n - 1, by omega⟩
    have h0 : isIdentOrString st.cur = true := hargs 0 (by omega)
    rw [dir_index_loop, if_pos h0,
      ih n (srv.addIndex st.cur.text) (advance st)
        (fun i hi => hargs (i + 1) (by omega)) hstop (by omega),
      argTexts_succ, advanceN_succ]
    simp [ServerBlock.addIndex]

/-- The same for the loop of `loc_index`. -/
theorem loc_index_loop_run (k : Nat) (n : Nat) (loc : LocationBlock) (st : PState)
    (hargs : ∀ i, i < k → isIdentOrString (advanceN i st).cur = true)
    (hstop : isIdentOrString (advanceN k st).cur = false) (hn : k < n) :
    loc_index_loop n loc st
      = .ok { loc with index_files := loc.index_files ++ argTexts k st } (advanceN k st) := by
  induction k generalizing n loc st with
  | zero =>
    obtain ⟨n, rfl⟩ : ∃ n1, n = n1 + 1 := ⟨n - 1, by omega⟩
    have h0 : isIdentOrString st.cur = false := hstop
    rw [loc_index_loop, if_neg (by rw [h0]; decide)]
    simp [argTexts, advanceN]
  | succ k ih =>
    obtain ⟨n, rfl⟩ : ∃ n1, n = n1 + 1 := ⟨n - 1, by omega⟩
    have h0 : isIdentOrString st.cur = true := hargs 0 (by omega)
    rw [loc_index_loop, if_pos h0,
      ih n (loc.addIndex st.cur.text) (advance st)
        (fun i hi => hargs (i + 1) (by omega)) hstop (by omega),
      argTexts_succ, advanceN_succ]
    simp [LocationBlock.addIndex]

theorem not_isIdentOrString_of_semi {t : Token} (h : t.type = T_SEMI) :
    isIdentOrString t = false := by
  unfold isIdentOrString
  rw [h]
  rfl

theorem parseServerDirective_index {fuel : Nat} {srv : ServerBlock} {st : PState}
    (hi : st.cur.type = T_IDENT) (hk : keyword st = "index".toList) :
    parseServerDirective fuel srv st = dir_index fuel srv st := by
  unfold keyword at hk
  unfold parseServerDirective
  rw [if_neg (not_not.mpr hi), if_neg (by rw [hk]; decide), if_neg (by rw [hk]; decide),
    if_pos hk]

theorem parseLocationDirective_index {fuel : Nat} {loc : LocationBlock} {st : PState}
    (hi : st.cur.type = T_IDENT) (hk : keyword st = "index".toList) :
    parseLocationDirective fuel loc st = loc_index fuel loc st := by
  unfold keyword at hk
  unfold parseLocationDirective
  rw [if_neg (not_not.mpr hi), if_neg (by rw [hk]; decide), if_neg (by rw [hk]; decide),
    if_neg (by rw [hk]; decide), if_pos hk]

theorem dir_index_ok (fuel n : Nat) (srv : ServerBlock) (st : PState) (hn : 1 ≤ n)
    (hfuel : n < fuel)
    (hargs : ∀ i, i < n → isIdentOrString (advanceN (i + 1) st).cur = true)
    (hsemi : (advanceN (n + 1) st).cur.type = T_SEMI) :
    dir_index fuel srv st
      = .ok { srv with index_files := srv.index_files ++ argTexts n (advance st) }
          (advanceN (n + 2) st) := by
  have h0 : isIdentOrString (advance st).cur = true := hargs 0 (by omega)
  unfold dir_index
  simp only [h0, Bool.not_true, Bool.false_eq_true, if_false]
  rw [dir_index_loop_run n fuel srv (advance st) (fun i hi => hargs i hi)
    (not_isIdentOrString_of_semi hsemi) hfuel]
  simp only [Result.bind]
  rw [expect_of_type _ (by exact hsemi), advanceN_succ_last (n + 1) st, advanceN_succ n st]

theorem loc_index_ok (fuel n : Nat) (loc : LocationBlock) (st : PState) (hn : 1 ≤ n)
    (hfuel : n < fuel)
    (hargs : ∀ i, i < n → isIdentOrString (advanceN (i + 1) st).cur = true)
    (hsemi : (advanceN (n + 1) st).cur.type = T_SEMI) :
    loc_index fuel loc st
      = .ok { loc with index_files := loc.index_files ++ argTexts n (advance st) }
          (advanceN (n + 2) st) := by
  have h0 : isIdentOrString (advance st).cur = true := hargs 0 (by omega)
  unfold loc_index
  simp only [h0, Bool.not_true, Bool.false_eq_true, if_false]
  rw [loc_index_loop_run n fuel loc (advance st) (fun i hi => hargs i hi)
    (not_isIdentOrString_of_semi hsemi) hfuel]
  simp only [Result.bind]
  rw [expect_of_type _ (by exact hsemi), advanceN_succ_last (n + 1) st, advanceN_succ n st]

theorem parseServerDirective_index_files {n : Nat} {srv srv1 : ServerBlock}
    {st st1 : PState} (h : parseServerDirective n srv st = .ok srv1 st1)
    (hk : keyword st ≠ "index".toList) : srv1.index_files = srv.index_files := by
  rcases parseServerDirective_cases h with
    ⟨_, h1⟩ | ⟨_, h1⟩ | ⟨hk1, _⟩ | ⟨_, h1⟩ | ⟨_, h1⟩ | ⟨_, h1⟩ | ⟨_, h1⟩
  · exact (congrArg ServerBlock.index_files (dir_listen_eq_ok h1)).trans rfl
  · exact (congrArg ServerBlock.index_files (dir_root_eq_ok h1)).trans rfl
  · exact absurd hk1 hk
  · exact (congrArg ServerBlock.index_files (dir_server_name_eq_ok h1)).trans rfl
  · exact (congrArg ServerBlock.index_files (dir_client_max_body_size_eq_ok h1)).trans rfl
  · exact (congrArg ServerBlock.index_files (dir_error_page_eq_ok h1)).trans rfl
  · obtain ⟨loc, st2, _, h2⟩ := dir_location_eq_ok h1
    exact (congrArg ServerBlock.index_files h2).trans rfl

theorem parseLocationDirective_index_files {n : Nat} {loc loc1 : LocationBlock}
    {st st1 : PState} (h : parseLocationDirective n loc st = .ok loc1 st1)
    (hk : keyword st ≠ "index".toList) : loc1.index_files = loc.index_files := by
  rcases parseLocationDirective_cases h with
    ⟨_, h1⟩ | ⟨_, h1⟩ | ⟨_, h1⟩ | ⟨hk1, _⟩ | ⟨_, h1⟩ | ⟨_, h1⟩ | ⟨_, h1⟩
  · exact (congrArg LocationBlock.index_files (loc_root_eq_ok h1)).trans rfl
  · exact (congrArg LocationBlock.index_files (loc_methods_frame h1)).trans rfl
  · exact (congrArg LocationBlock.index_files (loc_autoindex_frame h1)).trans rfl
  · exact absurd hk1 hk
  · exact (congrArg LocationBlock.index_files (loc_upload_store_eq_ok h1)).trans rfl
  · exact (congrArg LocationBlock.index_files (loc_return_eq_ok h1)).trans rfl
  · exact (congrArg LocationBlock.index_files (loc_cgi_pass_eq_ok h1)).trans rfl

/-- Claim C28: for an `index` directive, at server or location level, with
`n ≥ 1` arguments that are Identifier or String tokens and are followed by
`;`, the handler returns and the block's `index_files` afterwards are its
`index_files` before the directive followed by the texts of the arguments in
source order (every other field of the block is left as it was).  A directive
of the block with another keyword leaves `index_files` as they are, so
several `index` directives accumulate.  An `index` directive whose first
argument is not an Identifier or String is a `ParseError`. -/
theorem index_directive_appends (fuel n : Nat) (st : PState)
    (hi : st.cur.type = T_IDENT) (hk : keyword st = "index".toList)
    (hn : 1 ≤ n) (hfuel : n < fuel)
    (hargs : ∀ i, i < n → isIdentOrString (advanceN (i + 1) st).cur = true)
    (hsemi : (advanceN (n + 1) st).cur.type = T_SEMI) :
    (∀ srv : ServerBlock, parseServerDirective fuel srv st
      = .ok { srv with index_files := srv.index_files ++ argTexts n (advance st) }
          (advanceN (n + 2) st))
    ∧ (∀ loc : LocationBlock, parseLocationDirective fuel loc st
      = .ok { loc with index_files := loc.index_files ++ argTexts n (advance st) }
          (advanceN (n + 2) st))
    ∧ (∀ (m : Nat) (srv srv1 : ServerBlock) (s s1 : PState),
        parseServerDirective m srv s = .ok srv1 s1 → keyword s ≠ "index".toList →
        srv1.index_files = srv.index_files)
    ∧ (∀ (m : Nat) (loc loc1 : LocationBlock) (s s1 : PState),
        parseLocationDirective m loc s = .ok loc1 s1 → keyword s ≠ "index".toList →
        loc1.index_files = loc.index_files)
    ∧ (∀ (m : Nat) (s : PState), s.cur.type = T_IDENT → keyword s = "index".toList →
        isIdentOrString (advance s).cur = false →
        (∀ srv : ServerBlock, parseServerDirective m srv s
          = .err { msg := "index expects at least one filename".toList,
                   line := (advance s).cur.line })
        ∧ (∀ loc : LocationBlock, parseLocationDirective m loc s
          = .err { msg := "index expects at least one filename".toList,
                   line := (advance s).cur.line })) := by
  refine ⟨?_, ?_, ?_, ?_, ?_⟩
  · intro srv
    rw [parseServerDirective_index hi hk]
    exact dir_index_ok fuel n srv st hn hfuel hargs hsemi
  · intro loc
    rw [parseLocationDirective_index hi hk]
    exact loc_index_ok fuel n loc st hn hfuel hargs hsemi
  · intro m srv srv1 s s1 h hne
    exact parseServerDirective_index_files h hne
  · intro m loc loc1 s s1 h hne
    exact parseLocationDirective_index_files h hne
  · intro m s hsi hsk hbad
    constructor
    · intro srv
      rw [parseServerDirective_index hsi hsk]
      unfold dir_index
      simp only [hbad, Bool.not_false, if_true]
    · intro loc
      rw [parseLocationDirective_index hsi hsk]
      unfold loc_index
      simp only [hbad, Bool.not_false, if_true]

theorem index_directive_appends_witness :
    (parseServerDirective 5 {} (advanceN 2 (initState sampleListsSource))
      = .ok { index_files := ["a.html".toList, "b.html".toList] }
          (advanceN 6 (initState sampleListsSource)))
    ∧ (parseLocationDirective 5 { index_files := ["x".toList] }
        (advanceN 15 (initState sampleListsSource))
      = .ok { index_files := ["x".toList, "d.html".toList, "e.html".toList] }
          (advanceN 19 (initState sampleListsSource))) :=
  ⟨(index_directive_appends 5 2 (advanceN 2 (initState sampleListsSource))
      (by decide) (by decide) (by decide) (by decide) (by decide) (by decide)).1 {},
   (index_directive_appends 5 2 (advanceN 15 (initState sampleListsSource))
      (by decide) (by decide) (by decide) (by decide) (by decide) (by decide)).2.1
      { index_files := ["x".toList] }⟩

/-! ## The method set of a location -/

section SetInsert

variable {κ : Type} [LinearOrder κ]

theorem mem_setInsert_iff (k x : κ) (s : List κ) : x ∈ setInsert k s ↔ x = k ∨ x ∈ s := by
  induction s with
  | nil => simp [setInsert]
  | cons e r ih =>
    unfold setInsert
    split
    · simp
    · split
      · rw [List.mem_cons, ih, List.mem_cons]
        tauto
      · rename_i h1 h2
        have hke : k = e := le_antisymm (not_lt.mp h2) (not_lt.mp h1)
        rw [hke, List.mem_cons]
        tauto

theorem setInsert_sorted (k : κ) {s : List κ} (hs : s.Pairwise (· < ·)) :
    (setInsert k s).Pairwise (· < ·) := by
  induction s with
  | nil => simp [setInsert]
  | cons e r ih =>
    rw [List.pairwise_cons] at hs
    unfold setInsert
    split
    · rename_i h1
      rw [List.pairwise_cons]
      refine ⟨?_, List.pairwise_cons.mpr hs⟩
      intro a ha
      rcases List.mem_cons.mp ha with rfl | ha
      · exact h1
      · exact lt_trans h1 (hs.1 a ha)
    · split
      · rename_i h1 h2
        rw [List.pairwise_cons]
        refine ⟨?_, ih hs.2⟩
        intro a ha
        rcases (mem_setInsert_iff k a r).mp ha with rfl | ha
        · exact h2
        · exact hs.1 a ha
      · exact List.pairwise_cons.mpr hs

theorem mem_insertAll_iff (x : κ) (s xs : List κ) : x ∈ insertAll s xs ↔ x ∈ s ∨ x ∈ xs := by
  induction xs generalizing s with
  | nil => simp [insertAll]
  | cons y ys ih =>
    show x ∈ insertAll (setInsert y s) ys ↔ _
    rw [ih, mem_setInsert_iff, List.mem_cons]
    tauto

theorem insertAll_sorted {s : List κ} (xs : List κ) (hs : s.Pairwise (· < ·)) :
    (insertAll s xs).Pairwise (· < ·) := by
  induction xs generalizing s with
  | nil => exact hs
  | cons y ys ih => exact ih (setInsert_sorted y hs)

end SetInsert

/-- The loop of `loc_methods` on `k` Identifier tokens followed by a token of
another kind: it inserts their texts and stops at that token. -/
theorem loc_methods_loop_run (k : Nat) (n : Nat) (loc : LocationBlock) (st : PState)
    (hargs : ∀ i, i < k → (advanceN i st).cur.type = T_IDENT)
    (hstop : (advanceN k st).cur.type ≠ T_IDENT) (hn : k < n) :
    loc_methods_loop n loc st
      = .ok { loc with methods := insertAll loc.methods (argTexts k st) } (advanceN k st) := by
  induction k generalizing n loc st with
  | zero =>
    obtain ⟨n, rfl⟩ : ∃ n1, n = n1 + 1 := ⟨n - 1, by omega⟩
    have h0 : st.cur.type ≠ T_IDENT := hstop
    rw [loc_methods_loop, if_neg h0]
    rfl
  | succ k ih =>
    obtain ⟨n, rfl⟩ : ∃ n1, n = n1 + 1 := ⟨n - 1, by omega⟩
    have h0 : st.cur.type = T_IDENT := hargs 0 (by omega)
    rw [loc_methods_loop, if_pos h0,
      ih n (loc.addMethod st.cur.text) (advance st)
        (fun i hi => hargs (i + 1) (by omega)) hstop (by omega),
      argTexts_succ, advanceN_succ]
    rfl

theorem parseLocationDirective_methods {fuel : Nat} {loc : LocationBlock} {st : PState}
    (hi : st.cur.type = T_IDENT) (hk : keyword st = "methods".toList) :
    parseLocationDirective fuel loc st = loc_methods fuel loc st := by
  unfold keyword at hk
  unfold parseLocationDirective
  rw [if_neg (not_not.mpr hi), if_neg (by rw [hk]; decide), if_pos hk]

theorem loc_methods_ok (fuel n : Nat) (loc : LocationBlock) (st : PState) (hn : 1 ≤ n)
    (hfuel : n < fuel)
    (hargs : ∀ i, i < n → (advanceN (i + 1) st).cur.type = T_IDENT)
    (hsemi : (advanceN (n + 1) st).cur.type = T_SEMI) :
    loc_methods fuel loc st
      = .ok { loc with methods := insertAll loc.methods (argTexts n (advance st)) }
          (advanceN (n + 2) st) := by
  have h0 : (advance st).cur.type = T_IDENT := hargs 0 (by omega)
  have hstop : (advanceN n (advance st)).cur.type ≠ T_IDENT := by
    intro h
    have h2 : (advanceN n (advance st)).cur.type = T_SEMI := hsemi
    rw [h2] at h
    exact TokType.noConfusion h
  unfold loc_methods
  simp only [h0, ne_eq, not_true_eq_false, if_false]
  rw [loc_methods_loop_run n fuel loc (advance st) (fun i hi => hargs i hi) hstop hfuel]
  simp only [Result.bind]
  rw [expect_of_type _ (by exact hsemi), advanceN_succ_last (n + 1) st, advanceN_succ n st]

/-- Claim C27: for a `methods` directive with `n ≥ 1` Identifier arguments
followed by `;`, the handler returns and the location's methods afterwards
are the set union of its previous methods with the argument texts: a name is
a member afterwards exactly when it was a member before or is the text of one
of the arguments (texts compared character by character, so case matters),
and the set, kept in strictly increasing order, holds every member once.  A
first argument that is not an Identifier is a `ParseError`. -/
theorem methods_directive_union (fuel n : Nat) (loc : LocationBlock) (st : PState)
    (hi : st.cur.type = T_IDENT) (hk : keyword st = "methods".toList)
    (hn : 1 ≤ n) (hfuel : n < fuel)
    (hargs : ∀ i, i < n → (advanceN (i + 1) st).cur.type = T_IDENT)
    (hsemi : (advanceN (n + 1) st).cur.type = T_SEMI)
    (hset : loc.methods.Pairwise (· < ·)) :
    parseLocationDirective fuel loc st
      = .ok { loc with methods := insertAll loc.methods (argTexts n (advance st)) }
          (advanceN (n + 2) st)
    ∧ (∀ x, x ∈ insertAll loc.methods (argTexts n (advance st))
        ↔ x ∈ loc.methods ∨ x ∈ argTexts n (advance st))
    ∧ (insertAll loc.methods (argTexts n (advance st))).Pairwise (· < ·)
    ∧ (insertAll loc.methods (argTexts n (advance st))).Nodup
    ∧ (∀ (m : Nat) (l : LocationBlock) (s : PState), s.cur.type = T_IDENT →
        keyword s = "methods".toList → (advance s).cur.type ≠ T_IDENT →
        parseLocationDirective m l s
          = .err { msg := "methods expects a list (GET/POST/DELETE)".toList,
                   line := (advance s).cur.line }) := by
  refine ⟨(parseLocationDirective_methods hi hk).trans
    (loc_methods_ok fuel n loc st hn hfuel hargs hsemi), ?_, ?_, ?_, ?_⟩
  · intro x
    exact mem_insertAll_iff x _ _
  · exact insertAll_sorted _ hset
  · exact (insertAll_sorted _ hset).imp (fun h => ne_of_lt h)
  · intro m l s hsi hsk hbad
    rw [parseLocationDirective_methods hsi hsk]
    unfold loc_methods
    simp only [hbad, ne_eq, not_false_eq_true, if_true]

theorem methods_directive_union_witness :
    argTexts 3 (advanceN 20 (initState sampleListsSource))
        = ["GET".toList, "GET".toList, "get".toList]
    ∧ parseLocationDirective 5 {} (advanceN 19 (initState sampleListsSource))
        = .ok { methods := ["GET".toList, "get".toList] }
            (advanceN 24 (initState sampleListsSource)) :=
  ⟨by decide,
   (methods_directive_union 5 3 {} (advanceN 19 (initState sampleListsSource))
      (by decide) (by decide) (by decide) (by decide) (by decide) (by decide)
      List.Pairwise.nil).1⟩

/-! ## The autoindex flag -/

theorem parseLocationDirective_autoindex_kw {fuel : Nat} {loc : LocationBlock} {st : PState}
    (hi : st.cur.type = T_IDENT) (hk : keyword st = "autoindex".toList) :
    parseLocationDirective fuel loc st = loc_autoindex loc st := by
  unfold keyword at hk
  unfold parseLocationDirective
  rw [if_neg (not_not.mpr hi), if_neg (by rw [hk]; decide), if_neg (by rw [hk]; decide),
    if_pos hk]

theorem parseLocationDirective_autoindex {n : Nat} {loc loc1 : LocationBlock}
    {st st1 : PState} (h : parseLocationDirective n loc st = .ok loc1 st1)
    (hk : keyword st ≠ "autoindex".toList) : loc1.autoindex = loc.autoindex := by
  rcases parseLocationDirective_cases h with
    ⟨_, h1⟩ | ⟨_, h1⟩ | ⟨hk1, _⟩ | ⟨_, h1⟩ | ⟨_, h1⟩ | ⟨_, h1⟩ | ⟨_, h1⟩
  · exact (congrArg LocationBlock.autoindex (loc_root_eq_ok h1)).trans rfl
  · exact (congrArg LocationBlock.autoindex (loc_methods_frame h1)).trans rfl
  · exact absurd hk1 hk
  · exact (congrArg LocationBlock.autoindex (loc_index_frame h1)).trans rfl
  · exact (congrArg LocationBlock.autoindex (loc_upload_store_eq_ok h1)).trans rfl
  · exact (congrArg LocationBlock.autoindex (loc_return_eq_ok h1)).trans rfl
  · exact (congrArg LocationBlock.autoindex (loc_cgi_pass_eq_ok h1)).trans rfl

theorem parseLocationLoop_autoindex {n : Nat} {loc loc2 : LocationBlock} {st st2 : PState}
    (h : parseLocationLoop n loc st = .ok loc2 st2)
    (hk : ∀ s ∈ locationDirectiveStarts n loc st, keyword s ≠ "autoindex".toList) :
    loc2.autoindex = loc.autoindex := by
  induction n generalizing loc st with
  | zero => exact Result.noConfusion h
  | succ n ih =>
    rcases parseLocationLoop_succ_ok h with ⟨_, h2, _, _⟩ | ⟨_, _, loc1, st1, h3, h4, h5⟩
    · rw [h2]
    · rw [h5] at hk
      rw [ih h4 (fun s hs => hk s (List.mem_cons_of_mem _ hs)),
        parseLocationDirective_autoindex h3 (hk st (List.mem_cons_self _ _))]

/-- Claim C26: at an `autoindex` directive, the Identifier `on` followed by
`;` sets the location's autoindex flag to true and the Identifier `off`
followed by `;` sets it to false (nothing else of the location changes);
every other argument fails with a `ParseError` at the argument's line: a
token that is not an Identifier (a Number, a String, ...) with the message
"autoindex expects 'on' or 'off'", an Identifier with another text with
"autoindex value must be 'on' or 'off'".  A location block that parses
without meeting an `autoindex` directive has autoindex false. -/
theorem autoindex_directive_spec (fuel : Nat) (loc : LocationBlock) (st : PState)
    (hi : st.cur.type = T_IDENT) (hk : keyword st = "autoindex".toList) :
    ((advance st).cur.type = T_IDENT → (advance st).cur.text = "on".toList →
      (advance (advance st)).cur.type = T_SEMI →
      parseLocationDirective fuel loc st
        = .ok { loc with autoindex := true } (advance (advance (advance st))))
    ∧ ((advance st).cur.type = T_IDENT → (advance st).cur.text = "off".toList →
      (advance (advance st)).cur.type = T_SEMI →
      parseLocationDirective fuel loc st
        = .ok { loc with autoindex := false } (advance (advance (advance st))))
    ∧ ((advance st).cur.type ≠ T_IDENT →
      parseLocationDirective fuel loc st
        = .err { msg := "autoindex expects \x27on\x27 or \x27off\x27".toList,
                 line := (advance st).cur.line })
    ∧ ((advance st).cur.type = T_IDENT → (advance st).cur.text ≠ "on".toList →
      (advance st).cur.text ≠ "off".toList →
      parseLocationDirective fuel loc st
        = .err { msg := "autoindex value must be \x27on\x27 or \x27off\x27".toList,
                 line := (advance st).cur.line })
    ∧ (∀ (n : Nat) (pfx : Str) (s0 : PState) (loc2 : LocationBlock) (s2 : PState),
        parseLocation n pfx s0 = .ok loc2 s2 →
        (∀ s ∈ locationDirectiveStarts n (({} : LocationBlock).setPathPrefix pfx) s0,
          keyword s ≠ "autoindex".toList) →
        loc2.autoindex = false) := by
  rw [parseLocationDirective_autoindex_kw hi hk]
  refine ⟨?_, ?_, ?_, ?_, ?_⟩
  · intro h1 h2 h3
    unfold loc_autoindex
    simp only [h1, ne_eq, not_true_eq_false, if_false, h2, if_true]
    rw [expect_of_type _ h3]
    rfl
  · intro h1 h2 h3
    unfold loc_autoindex
    simp only [h1, ne_eq, not_true_eq_false, if_false, h2]
    rw [if_neg (by decide), if_pos trivial, expect_of_type _ h3]
    rfl
  · intro h1
    unfold loc_autoindex
    simp only [h1, ne_eq, not_false_eq_true, if_true]
  · intro h1 h2 h3
    unfold loc_autoindex
    simp only [h1, ne_eq, not_true_eq_false, if_false, h2, h3]
  · intro n pfx s0 loc2 s2 h hno
    exact parseLocationLoop_autoindex h hno

theorem autoindex_directive_spec_witness :
    (parseLocationDirective 5 {} (advanceN 24 (initState sampleListsSource))
        = .ok { autoindex := true } (advanceN 27 (initState sampleListsSource)))
    ∧ (parseLocationDirective 5 { autoindex := true }
        (advanceN 27 (initState sampleListsSource))
        = .ok { autoindex := false } (advanceN 30 (initState sampleListsSource)))
    ∧ (parseLocationDirective 5 {} (advanceN 5 (initState sampleAutoindexSource))
        = .err { msg := "autoindex value must be \x27on\x27 or \x27off\x27".toList, line := 3 })
    ∧ (parseLocationDirective 5 {} (advanceN 12 (initState sampleAutoindexSource))
        = .err { msg := "autoindex expects \x27on\x27 or \x27off\x27".toList, line := 6 })
    ∧ (parseLocationDirective 5 {} (advanceN 19 (initState sampleAutoindexSource))
        = .err { msg := "autoindex expects \x27on\x27 or \x27off\x27".toList, line := 9 }) :=
  ⟨(autoindex_directive_spec 5 {} (advanceN 24 (initState sampleListsSource))
      (by decide) (by decide)).1 (by decide) (by decide) (by decide),
   (autoindex_directive_spec 5 { autoindex := true } (advanceN 27 (initState sampleListsSource))
      (by decide) (by decide)).2.1 (by decide) (by decide) (by decide),
   (autoindex_directive_spec 5 {} (advanceN 5 (initState sampleAutoindexSource))
      (by decide) (by decide)).2.2.2.1 (by decide) (by decide) (by decide),
   (autoindex_directive_spec 5 {} (advanceN 12 (initState sampleAutoindexSource))
      (by decide) (by decide)).2.2.1 (by decide),
   (autoindex_directive_spec 5 {} (advanceN 19 (initState sampleAutoindexSource))
      (by decide) (by decide)).2.2.1 (by decide)⟩

/-! ## Argument kinds of `listen` and `error_page` -/

/-- A directive that fails makes the loop of `parseServer` fail the same
way. -/
theorem parseServerLoop_directive_err (M : Nat) (srv : ServerBlock) {e : PState}
    {E : ParseError} (hi : e.cur.type = T_IDENT)
    (herr : parseServerDirective M srv e = .err E) :
    parseServerLoop (M + 1) srv e = .err E := by
  have h1 : e.cur.type ≠ T_RBRACE := by rw [hi]; decide
  have h2 : ¬ e.cur.type = T_EOF := by rw [hi]; decide
  rw [parseServerLoop, if_pos h1, if_neg h2, herr]
  rfl

theorem parseServerDirective_listen_bad (M : Nat) (srv : ServerBlock) {st : PState}
    (hi : st.cur.type = T_IDENT) (hk : keyword st = "listen".toList)
    (hbad : isIdentOrString (advance st).cur = false) :
    parseServerDirective M srv st
      = .err { msg := "listen expects \x27host:port\x27 or \x27port\x27".toList,
               line := (advance st).cur.line } := by
  rw [parseServerDirective_listen hi hk]
  unfold dir_listen
  simp only [hbad, Bool.not_false, if_true]

/-- Claim C25: a `listen` directive accepts only an Identifier or String
argument.  When, inside a server block, the token after `listen` is of another
kind (a Number such as `8080`, a brace, `;`, the end of the input), parsing
fails with the `ParseError` "listen expects 'host:port' or 'port'" at that
token's line, and no configuration is produced. -/
theorem listen_argument_kind (content : Str) (fuel k m : Nat) (s : PState)
    (srv : ServerBlock) (e : PState)
    (hblocks : runServerBlocks fuel k (initState content) = some s)
    (hkw : s.cur.type = T_IDENT ∧ s.cur.text = "server".toList)
    (hbrace : (advance s).cur.type = T_LBRACE)
    (hdirs : runServerDirectives fuel m {} (advance (advance s)) = some (srv, e))
    (hi : e.cur.type = T_IDENT) (hk : keyword e = "listen".toList)
    (hbad : (advance e).cur.type ≠ T_IDENT ∧ (advance e).cur.type ≠ T_STRING) :
    (∀ M, parseServerDirective M srv e
      = .err { msg := "listen expects \x27host:port\x27 or \x27port\x27".toList,
               line := (advance e).cur.line })
    ∧ ∃ N0, ∀ N, N0 ≤ N → parseFile N content
      = .err { msg := "listen expects \x27host:port\x27 or \x27port\x27".toList,
               line := (advance e).cur.line } := by
  have hb : isIdentOrString (advance e).cur = false := by
    unfold isIdentOrString
    simp [hbad.1, hbad.2]
  refine ⟨fun M => parseServerDirective_listen_bad M srv hi hk hb, ?_⟩
  exact parseFile_err_in_server hblocks hkw hbrace hdirs (B := 0)
    (fun M _ => parseServerLoop_directive_err M srv hi
      (parseServerDirective_listen_bad M srv hi hk hb))

theorem listen_argument_kind_witness :
    (advanceN 3 (initState sampleBarePortSource)).cur
        = { type := T_NUMBER, text := "8080".toList, line := 2 }
    ∧ ∃ N0, ∀ N, N0 ≤ N → parseFile N sampleBarePortSource
      = .err { msg := "listen expects \x27host:port\x27 or \x27port\x27".toList, line := 2 } :=
  ⟨by decide,
   (listen_argument_kind sampleBarePortSource 5 0 0 (initState sampleBarePortSource) {}
      (advanceN 2 (initState sampleBarePortSource)) rfl (by decide) (by decide) rfl
      (by decide) (by decide) (by decide)).2⟩

/-- What the loop of `readNumberOrIdent` has read when it stops, whatever
follows: a run `w` of characters, none of which stops an identifier, and the
flag tells whether they are all digits. -/
theorem readNumberOrIdentLoop_consumed (n : Nat) (lx : Lexer) (b : Bool) :
    ∃ w : Str, lx.rest = w ++ (Lexer.readNumberOrIdentLoop n lx b).1.rest
      ∧ (Lexer.readNumberOrIdentLoop n lx b).1.src = lx.src
      ∧ (Lexer.readNumberOrIdentLoop n lx b).1.pos = lx.pos + w.length
      ∧ (Lexer.readNumberOrIdentLoop n lx b).2 = (b && w.all isdigit)
      ∧ ∀ c ∈ w, identStop c = false := by
  induction n generalizing lx b with
  | zero => exact ⟨[], rfl, rfl, rfl, by simp [Lexer.readNumberOrIdentLoop], by simp⟩
  | succ n ih =>
    rw [Lexer.readNumberOrIdentLoop]
    cases he : lx.eof
    · simp only [Bool.false_eq_true, if_false]
      cases hs : identStop lx.peek
      · simp only [Bool.false_eq_true, if_false]
        obtain ⟨w, h1, h2, h3, h4, h5⟩ :=
          ih lx.get.2 (if (!isdigit lx.peek) = true then false else b)
        obtain ⟨r1, _⟩ := rest_of_not_eof he
        obtain ⟨_, _, _, gsrc, gpos, _⟩ := get_of_rest_cons r1
        refine ⟨lx.peek :: w, ?_, h2.trans gsrc, ?_, ?_, ?_⟩
        · rw [r1, List.cons_append, ← h1]
        · rw [h3, gpos, List.length_cons]; omega
        · rw [h4, List.all_cons]
          cases isdigit lx.peek <;> cases b <;> simp
        · intro c hc
          rcases List.mem_cons.mp hc with rfl | hc
          · exact hs
          · exact h5 c hc
      · rw [if_pos rfl]
        exact ⟨[], rfl, rfl, rfl, by simp, fun c hc => absurd hc (List.not_mem_nil c)⟩
    · rw [if_pos rfl]
      exact ⟨[], rfl, rfl, rfl, by simp, fun c hc => absurd hc (List.not_mem_nil c)⟩

/-- The branch `Lexer::next` takes, by the character found after white space
and comments. -/
theorem next_cases (lx : Lexer) :
    (lx.skipSpacesAndComments.eof = true
      ∧ lx.next = ({ type := T_EOF, text := [], line := lx.skipSpacesAndComments.line },
                   lx.skipSpacesAndComments))
    ∨ (lx.skipSpacesAndComments.eof = false ∧
      ((lx.skipSpacesAndComments.peek = '\x7b'
          ∧ lx.next = ({ type := T_LBRACE, text := ['\x7b'],
                         line := lx.skipSpacesAndComments.get.2.line },
                       lx.skipSpacesAndComments.get.2))
        ∨ (lx.skipSpacesAndComments.peek = '\x7d'
          ∧ lx.next = ({ type := T_RBRACE, text := ['\x7d'],
                         line := lx.skipSpacesAndComments.get.2.line },
                       lx.skipSpacesAndComments.get.2))
        ∨ (lx.skipSpacesAndComments.peek = ';'
          ∧ lx.next = ({ type := T_SEMI, text := [';'],
                         line := lx.skipSpacesAndComments.get.2.line },
                       lx.skipSpacesAndComments.get.2))
        ∨ (lx.skipSpacesAndComments.peek = '\x22'
          ∧ lx.next = lx.skipSpacesAndComments.readString)
        ∨ (isdigit lx.skipSpacesAndComments.peek = true
          ∧ lx.next = lx.skipSpacesAndComments.readNumberOrIdent)
        ∨ (isdigit lx.skipSpacesAndComments.peek = false
          ∧ lx.skipSpacesAndComments.peek ≠ '\x22'
          ∧ lx.next = lx.skipSpacesAndComments.readIdent))) := by
  unfold Lexer.next
  simp only
  cases he : lx.skipSpacesAndComments.eof
  · right
    refine ⟨rfl, ?_⟩
    simp only [Bool.false_eq_true, if_false]
    by_cases h1 : lx.skipSpacesAndComments.peek = '\x7b'
    · exact Or.inl ⟨h1, by rw [if_pos h1]⟩
    rw [if_neg h1]
    by_cases h2 : lx.skipSpacesAndComments.peek = '\x7d'
    · exact Or.inr (Or.inl ⟨h2, by rw [if_pos h2]⟩)
    rw [if_neg h2]
    by_cases h3 : lx.skipSpacesAndComments.peek = ';'
    · exact Or.inr (Or.inr (Or.inl ⟨h3, by rw [if_pos h3]⟩))
    rw [if_neg h3]
    by_cases h4 : lx.skipSpacesAndComments.peek = '\x22'
    · exact Or.inr (Or.inr (Or.inr (Or.inl ⟨h4, by rw [if_pos h4]⟩)))
    rw [if_neg h4]
    cases h5 : isdigit lx.skipSpacesAndComments.peek
    · exact Or.inr (Or.inr (Or.inr (Or.inr (Or.inr ⟨rfl, h4, by simp⟩))))
    · exact Or.inr (Or.inr (Or.inr (Or.inr (Or.inl ⟨rfl, by simp⟩))))
  · left
    exact ⟨rfl, by simp⟩

theorem readString_type (lx : Lexer) :
    lx.readString.1.type = T_EOF ∨ lx.readString.1.type = T_STRING := by
  unfold Lexer.readString
  simp only
  split
  · exact Or.inl rfl
  · exact Or.inr rfl

/-- A token of kind `T_NUMBER` returned by `Lexer::next` has a text that is a
non-empty string of digits. -/
theorem number_token_digits (lx : Lexer) (h : lx.next.1.type = T_NUMBER) :
    lx.next.1.text ≠ [] ∧ lx.next.1.text.all isdigit = true := by
  rcases next_cases lx with ⟨_, hn⟩ | ⟨_, ⟨_, hn⟩ | ⟨_, hn⟩ | ⟨_, hn⟩ | ⟨_, hn⟩ | ⟨_, hn⟩ |
    ⟨_, _, hn⟩⟩
  · rw [hn] at h; exact TokType.noConfusion h
  · rw [hn] at h; exact TokType.noConfusion h
  · rw [hn] at h; exact TokType.noConfusion h
  · rw [hn] at h; exact TokType.noConfusion h
  · rw [hn] at h
    rcases readString_type lx.skipSpacesAndComments with h1 | h1
    · rw [h1] at h; exact TokType.noConfusion h
    · rw [h1] at h; exact TokType.noConfusion h
  · rw [hn] at h ⊢
    obtain ⟨w, h1, h2, h3, h4, _⟩ := readNumberOrIdentLoop_consumed
      lx.skipSpacesAndComments.remaining lx.skipSpacesAndComments true
    have htext : substr (Lexer.readNumberOrIdentLoop lx.skipSpacesAndComments.remaining
          lx.skipSpacesAndComments true).1.src lx.skipSpacesAndComments.pos
        ((Lexer.readNumberOrIdentLoop lx.skipSpacesAndComments.remaining
          lx.skipSpacesAndComments true).1.pos - lx.skipSpacesAndComments.pos) = w := by
      rw [h2, h3]
      exact substr_rest _ w _ h1
    unfold Lexer.readNumberOrIdent at h ⊢
    simp only [htext, h4, Bool.true_and] at h ⊢
    cases w with
    | nil => simp at h
    | cons c w =>
      simp only [List.isEmpty_cons, Bool.false_eq_true, if_false] at h ⊢
      by_cases ha : (c :: w).all isdigit = true
      · rw [if_pos ha]
        exact ⟨List.cons_ne_nil _ _, ha⟩
      · rw [if_neg ha] at h
        exact TokType.noConfusion h
  · rw [hn] at h
    unfold Lexer.readIdent at h
    exact TokType.noConfusion h

theorem parseServerDirective_error_page_kw {fuel : Nat} {srv : ServerBlock} {st : PState}
    (hi : st.cur.type = T_IDENT) (hk : keyword st = "error_page".toList) :
    parseServerDirective fuel srv st = dir_error_page srv st := by
  unfold keyword at hk
  unfold parseServerDirective
  rw [if_neg (not_not.mpr hi), if_neg (by rw [hk]; decide), if_neg (by rw [hk]; decide),
    if_neg (by rw [hk]; decide), if_neg (by rw [hk]; decide), if_neg (by rw [hk]; decide),
    if_pos hk]

/-- Claim C24 fails as stated: `error_page abc /e.html;` is a parse error.
The source `server { error_page abc /e.html; }` gives the `ParseError`
"error_page expects a numeric code" at line 2 for every step budget from 20
on, so no configuration with key 0 is produced. -/
theorem error_page_word_counterexample :
    (advanceN 3 (initState sampleErrorPageWordSource)).cur
        = { type := T_IDENT, text := "abc".toList, line := 2 }
    ∧ ∀ N, 20 ≤ N → parseFile N sampleErrorPageWordSource
        = .err { msg := "error_page expects a numeric code".toList, line := 2 } := by
  refine ⟨by decide, ?_⟩
  intro N hN
  have h20 : parseFile 20 sampleErrorPageWordSource
      = .err { msg := "error_page expects a numeric code".toList, line := 2 } := by decide
  rw [← h20]
  exact parseFile_mono hN _ (by rw [h20]; exact fun h => Result.noConfusion h)

/-- Claim C24 as amended: an `error_page` directive whose status-code
argument is not a Number token (for instance the Identifier `abc`) is a
`ParseError`, "error_page expects a numeric code", at that token's line.  When
the argument is a Number token, a path (Identifier or String) and `;` follow,
the directive returns and records the path under the key `atoi` reads from
the code text; the text of a Number token that comes from the lexer is a
non-empty string of digits, so the key is the decimal value of the text
whenever that fits in a C `int`: no text that is not numeric is ever turned
into a key. -/
theorem error_page_code_kind (fuel : Nat) (srv : ServerBlock) (st : PState)
    (hi : st.cur.type = T_IDENT) (hk : keyword st = "error_page".toList) :
    ((advance st).cur.type ≠ T_NUMBER →
      parseServerDirective fuel srv st
        = .err { msg := "error_page expects a numeric code".toList,
                 line := (advance st).cur.line })
    ∧ ((advance st).cur.type = T_NUMBER →
        isIdentOrString (advance (advance st)).cur = true →
        (advance (advance (advance st))).cur.type = T_SEMI →
        parseServerDirective fuel srv st
            = .ok (srv.setErrorPage (atoi (advance st).cur.text)
                    (advance (advance st)).cur.text)
                (advance (advance (advance (advance st))))
          ∧ (advance st).cur.text ≠ []
          ∧ (advance st).cur.text.all isdigit = true
          ∧ (decVal (advance st).cur.text ≤ 2147483647 →
              atoi (advance st).cur.text = (decVal (advance st).cur.text : Int))) := by
  rw [parseServerDirective_error_page_kw hi hk]
  constructor
  · intro h
    unfold dir_error_page
    simp only [h, ne_eq, not_false_eq_true, if_true]
  · intro h1 h2 h3
    have hd := number_token_digits st.lex h1
    refine ⟨?_, hd.1, hd.2, fun hv => atoi_digits hd.2 hv⟩
    unfold dir_error_page
    simp only [h1, ne_eq, not_true_eq_false, if_false, h2, Bool.not_true, Bool.false_eq_true]
    rw [expect_of_type _ h3]
    rfl

theorem error_page_code_kind_witness :
    (parseServerDirective 5 {} (advanceN 2 (initState sampleErrorPageWordSource))
        = .err { msg := "error_page expects a numeric code".toList, line := 2 })
    ∧ (parseServerDirective 5 {} (advanceN 2 (initState sampleErrorPageSource))
        = .ok { error_pages := [(404, "/e.html".toList)] }
            (advanceN 6 (initState sampleErrorPageSource))) :=
  ⟨(error_page_code_kind 5 {} (advanceN 2 (initState sampleErrorPageWordSource))
      (by decide) (by decide)).1 (by decide),
   ((error_page_code_kind 5 {} (advanceN 2 (initState sampleErrorPageSource))
      (by decide) (by decide)).2 (by decide) (by decide) (by decide)).1⟩

/-! ## A string literal that is never closed -/

theorem eof_of_rest_nil {lx : Lexer} (h : lx.rest = []) : lx.eof = true := by
  cases he : lx.eof
  · have := (rest_of_not_eof he).1
    rw [h] at this
    exact List.noConfusion this
  · rfl

theorem readStringLoop_of_eof (n : Nat) {lx : Lexer} (h : lx.eof = true) :
    Lexer.readStringLoop n lx = lx := by
  cases n with
  | zero => rfl
  | succ n => rw [Lexer.readStringLoop, if_neg (by rw [h]; simp)]

/-- The loop of `readString`, started after the opening quote of a literal
that has no closing quote, runs to the end of the input. -/
theorem readStringLoop_unterminated (n : Nat) (s : Str) (lx : Lexer)
    (hrest : lx.rest = s) (hb : stringBody s = none) (hn : s.length ≤ n) :
    (Lexer.readStringLoop n lx).eof = true := by
  induction n using Nat.strong_induction_on generalizing s lx with
  | _ n ih =>
  cases s with
  | nil => rw [readStringLoop_of_eof n (eof_of_rest_nil hrest)]; exact eof_of_rest_nil hrest
  | cons c t =>
    have he := eof_false_of_rest_cons hrest
    obtain ⟨hp, hg1, hr, _, _, _⟩ := get_of_rest_cons hrest
    by_cases hq : c = '\x22'
    · subst hq
      rw [stringBody_quote] at hb
      exact Option.noConfusion hb
    · obtain ⟨n, rfl⟩ : ∃ n1, n = n1 + 1 := ⟨n - 1, by simp at hn; omega⟩
      have hcond : (!lx.eof && lx.peek != '\x22') = true := by
        rw [he, hp]; simpa using hq
      rw [Lexer.readStringLoop, if_pos hcond]
      simp only
      by_cases hbs : c = '\x5c'
      · subst hbs
        cases t with
        | nil =>
          have he2 : lx.get.2.eof = true := eof_of_rest_nil hr
          have hc2 : (lx.get.1 == '\x5c' && !lx.get.2.eof) = false := by
            rw [he2]; simp
          rw [hc2]
          simp only [Bool.false_eq_true, if_false]
          rw [readStringLoop_of_eof n he2]
          exact he2
        | cons c2 t2 =>
          rw [stringBody_backslash] at hb
          have hb2 : stringBody t2 = none := by
            cases h : stringBody t2 with
            | none => rfl
            | some p => rw [h] at hb; exact Option.noConfusion hb
          have he2 := eof_false_of_rest_cons hr
          obtain ⟨_, _, hr2, _, _, _⟩ := get_of_rest_cons hr
          have hc2 : (lx.get.1 == '\x5c' && !lx.get.2.eof) = true := by
            rw [hg1, he2]; rfl
          rw [if_pos hc2]
          exact ih n (Nat.lt_succ_self n) t2 lx.get.2.get.2 hr2 hb2 (by simp at hn; omega)
      · rw [stringBody_other c t hq hbs] at hb
        have hb2 : stringBody t = none := by
          cases h : stringBody t with
          | none => rfl
          | some p => rw [h] at hb; exact Option.noConfusion hb
        have hc2 : (lx.get.1 == '\x5c' && !lx.get.2.eof) = false := by
          rw [hg1]
          have : (c == '\x5c') = false := by simpa using hbs
          rw [this]; rfl
        rw [hc2]
        simp only [Bool.false_eq_true, if_false]
        exact ih n (Nat.lt_succ_self n) t lx.get.2 hr hb2 (by simp at hn; omega)

/-- The inner loop of `skipSpacesAndComments` on a run of white space that is
followed by another character stops at that character. -/
theorem skipSpaces_run (sp : Str) (c : Char) (t : Str) (n : Nat) (lx : Lexer)
    (hrest : lx.rest = sp ++ c :: t) (hsp : sp.all isspace = true) (hc : isspace c = false)
    (hn : sp.length ≤ n) :
    (Lexer.skipSpaces n lx).rest = c :: t
    ∧ (Lexer.skipSpaces n lx).src = lx.src
    ∧ (Lexer.skipSpaces n lx).pos = lx.pos + sp.length
    ∧ (Lexer.skipSpaces n lx).line = lx.line + newlineCount sp := by
  induction sp generalizing n lx with
  | nil =>
    have hrest1 : lx.rest = c :: t := hrest
    rw [skipSpaces_of_not_space n (by rw [(get_of_rest_cons hrest1).1]; exact hc)]
    exact ⟨hrest1, rfl, rfl, rfl⟩
  | cons d sp ih =>
    obtain ⟨n, rfl⟩ : ∃ n1, n = n1 + 1 := ⟨n - 1, by simp at hn; omega⟩
    have hrest1 : lx.rest = d :: (sp ++ c :: t) := hrest
    obtain ⟨hp, _, hr, hsrc, hpos, hline⟩ := get_of_rest_cons hrest1
    rw [List.all_cons, Bool.and_eq_true] at hsp
    have hcond : (!lx.eof && isspace lx.peek) = true := by
      rw [eof_false_of_rest_cons hrest1, hp, hsp.1]; rfl
    rw [Lexer.skipSpaces, if_pos hcond]
    obtain ⟨i1, i2, i3, i4⟩ := ih n lx.get.2 hr hsp.2 (by simp at hn; omega)
    refine ⟨i1, i2.trans hsrc, ?_, ?_⟩
    · rw [i3, hpos, List.length_cons]; omega
    · rw [i4, hline]
      unfold newlineCount
      rw [List.count_cons]
      by_cases hnl : d = '\n'
      · simp [hnl]; omega
      · simp [hnl]

/-- After a run of white space, before a character that is neither white
space nor `#`, `skipSpacesAndComments` stops at that character. -/
theorem skipSpacesAndComments_run (sp : Str) (c : Char) (t : Str) (lx : Lexer)
    (hrest : lx.rest = sp ++ c :: t) (hsp : sp.all isspace = true) (hc : isspace c = false)
    (hh : c ≠ '#') :
    lx.skipSpacesAndComments.rest = c :: t
    ∧ lx.skipSpacesAndComments.src = lx.src
    ∧ lx.skipSpacesAndComments.pos = lx.pos + sp.length
    ∧ lx.skipSpacesAndComments.line = lx.line + newlineCount sp := by
  have hlen : sp.length ≤ lx.remaining := by
    rw [remaining_eq_rest_length, hrest, List.length_append]; omega
  obtain ⟨i1, i2, i3, i4⟩ := skipSpaces_run sp c t lx.remaining lx hrest hsp hc hlen
  have hstop : Lexer.skipSpacesAndComments lx = Lexer.skipSpaces lx.remaining lx := by
    unfold Lexer.skipSpacesAndComments
    rw [Lexer.skipSpacesAndCommentsLoop]
    have : ((Lexer.skipSpaces lx.remaining lx).peek == '#') = false := by
      rw [(get_of_rest_cons i1).1]; simpa using hh
    simp only [this, Bool.and_false, Bool.false_eq_true, if_false]
  rw [hstop]
  exact ⟨i1, i2, i3, i4⟩

/-- The token `Lexer::next` returns at a literal that is never closed. -/
theorem next_unterminated (lx : Lexer) (s : Str)
    (hrest : lx.skipSpacesAndComments.rest = '\x22' :: s) (hopen : stringBody s = none) :
    lx.next.1.type = T_EOF ∧ lx.next.1.text = [] ∧ lx.next.2.eof = true := by
  obtain ⟨_, _, hr, _, _, _⟩ := get_of_rest_cons hrest
  have hlen : s.length ≤ lx.skipSpacesAndComments.get.2.remaining := by
    rw [remaining_eq_rest_length, hr]
  have he := readStringLoop_unterminated _ s lx.skipSpacesAndComments.get.2 hr hopen hlen
  have hnext : lx.next = lx.skipSpacesAndComments.readString := by
    rcases next_cases lx with ⟨h0, _⟩ | ⟨_, ⟨h1, _⟩ | ⟨h1, _⟩ | ⟨h1, _⟩ | ⟨_, hn⟩ | ⟨h1, _⟩ |
      ⟨_, h1, _⟩⟩
    · rw [eof_false_of_rest_cons hrest] at h0; exact Bool.noConfusion h0
    · rw [(get_of_rest_cons hrest).1] at h1; exact absurd h1 (by decide)
    · rw [(get_of_rest_cons hrest).1] at h1; exact absurd h1 (by decide)
    · rw [(get_of_rest_cons hrest).1] at h1; exact absurd h1 (by decide)
    · exact hn
    · rw [(get_of_rest_cons hrest).1] at h1; exact absurd h1 (by decide)
    · rw [(get_of_rest_cons hrest).1] at h1; exact absurd rfl h1
  rw [hnext]
  unfold Lexer.readString
  rw [if_pos he]
  exact ⟨rfl, rfl, he⟩

theorem err_with_line {α : Type} (m : Str) (l : Nat) :
    ∃ e, (Result.err { msg := m, line := l } : Result α) = .err e ∧ e.line = l :=
  ⟨_, rfl, rfl⟩

theorem isIdentOrString_of_eof {t : Token} (h : t.type = T_EOF) : isIdentOrString t = false := by
  unfold isIdentOrString
  rw [h]
  rfl

/-- A server directive whose first argument is a `T_EOF` token fails at the
line of that token. -/
theorem parseServerDirective_arg_eof {st : PState} (hi : st.cur.type = T_IDENT)
    (hk : st.cur.text ∈ serverKeywords) (he : (advance st).cur.type = T_EOF)
    (fuel : Nat) (srv : ServerBlock) :
    ∃ e, parseServerDirective fuel srv st = .err e ∧ e.line = (advance st).cur.line := by
  have hb := isIdentOrString_of_eof he
  simp only [serverKeywords, List.mem_cons, List.mem_singleton, List.not_mem_nil, or_false]
    at hk
  unfold parseServerDirective
  rw [if_neg (not_not.mpr hi)]
  rcases hk with hk | hk | hk | hk | hk | hk | hk
  · rw [if_pos hk]
    unfold dir_listen
    simp only [hb, Bool.not_false, if_true]
    exact err_with_line _ _
  · rw [if_neg (by rw [hk]; decide), if_pos hk]
    unfold dir_root
    simp only [hb, Bool.not_false, if_true]
    exact err_with_line _ _
  · rw [if_neg (by rw [hk]; decide), if_neg (by rw [hk]; decide), if_pos hk]
    unfold dir_index
    simp only [hb, Bool.not_false, if_true]
    exact err_with_line _ _
  · rw [if_neg (by rw [hk]; decide), if_neg (by rw [hk]; decide), if_neg (by rw [hk]; decide),
      if_pos hk]
    unfold dir_server_name
    simp only [hb, Bool.not_false, if_true]
    exact err_with_line _ _
  · rw [if_neg (by rw [hk]; decide), if_neg (by rw [hk]; decide), if_neg (by rw [hk]; decide),
      if_neg (by rw [hk]; decide), if_pos hk]
    unfold dir_client_max_body_size
    simp only [he, ne_eq, not_false_eq_true, and_self, if_true, reduceCtorEq]
    exact err_with_line _ _
  · rw [if_neg (by rw [hk]; decide), if_neg (by rw [hk]; decide), if_neg (by rw [hk]; decide),
      if_neg (by rw [hk]; decide), if_neg (by rw [hk]; decide), if_pos hk]
    unfold dir_error_page
    simp only [he, ne_eq, not_false_eq_true, if_true, reduceCtorEq]
    exact err_with_line _ _
  · rw [if_neg (by rw [hk]; decide), if_neg (by rw [hk]; decide), if_neg (by rw [hk]; decide),
      if_neg (by rw [hk]; decide), if_neg (by rw [hk]; decide), if_neg (by rw [hk]; decide),
      if_pos hk]
    unfold dir_location
    simp only [hb, Bool.not_false, if_true]
    exact err_with_line _ _

/-- The same for a location directive. -/
theorem parseLocationDirective_arg_eof {st : PState} (hi : st.cur.type = T_IDENT)
    (hk : st.cur.text ∈ locationKeywords) (he : (advance st).cur.type = T_EOF)
    (fuel : Nat) (loc : LocationBlock) :
    ∃ e, parseLocationDirective fuel loc st = .err e ∧ e.line = (advance st).cur.line := by
  have hb := isIdentOrString_of_eof he
  simp only [locationKeywords, List.mem_cons, List.mem_singleton, List.not_mem_nil, or_false]
    at hk
  unfold parseLocationDirective
  rw [if_neg (not_not.mpr hi)]
  rcases hk with hk | hk | hk | hk | hk | hk | hk
  · rw [if_pos hk]
    unfold loc_root
    simp only [hb, Bool.not_false, if_true]
    exact err_with_line _ _
  · rw [if_neg (by rw [hk]; decide), if_pos hk]
    unfold loc_methods
    simp only [he, ne_eq, not_false_eq_true, if_true, reduceCtorEq]
    exact err_with_line _ _
  · rw [if_neg (by rw [hk]; decide), if_neg (by rw [hk]; decide), if_pos hk]
    unfold loc_autoindex
    simp only [he, ne_eq, not_false_eq_true, if_true, reduceCtorEq]
    exact err_with_line _ _
  · rw [if_neg (by rw [hk]; decide), if_neg (by rw [hk]; decide), if_neg (by rw [hk]; decide),
      if_pos hk]
    unfold loc_index
    simp only [hb, Bool.not_false, if_true]
    exact err_with_line _ _
  · rw [if_neg (by rw [hk]; decide), if_neg (by rw [hk]; decide), if_neg (by rw [hk]; decide),
      if_neg (by rw [hk]; decide), if_pos hk]
    unfold loc_upload_store
    simp only [hb, Bool.not_false, if_true]
    exact err_with_line _ _
  · rw [if_neg (by rw [hk]; decide), if_neg (by rw [hk]; decide), if_neg (by rw [hk]; decide),
      if_neg (by rw [hk]; decide), if_neg (by rw [hk]; decide), if_pos hk]
    unfold loc_return
    simp only [he, ne_eq, not_false_eq_true, and_self, if_true, reduceCtorEq]
    exact err_with_line _ _
  · rw [if_neg (by rw [hk]; decide), if_neg (by rw [hk]; decide), if_neg (by rw [hk]; decide),
      if_neg (by rw [hk]; decide), if_neg (by rw [hk]; decide), if_neg (by rw [hk]; decide),
      if_pos hk]
    unfold loc_cgi_pass
    simp only [he, ne_eq, not_false_eq_true, if_true, reduceCtorEq]
    exact err_with_line _ _

/-- Claim C21: when a string literal is opened (after white space and
comments the lexer is at a quote, in particular when only white space
separates it from the quote) and the input ends before a closing quote that is
not taken after a backslash, the token returned for the literal is `T_EOF`
with empty text, never a `T_STRING`, and the lexer is left at the end of the
input.  A directive handler that
expected its argument there fails with a `ParseError` at the line of that
token: every server and location directive for its first argument, and
`error_page`, `cgi_pass` and `return` for their second argument. -/
theorem unterminated_string_eof (st : PState) (s : Str)
    (hrest : st.lex.skipSpacesAndComments.rest = '\x22' :: s) (hopen : stringBody s = none) :
    (advance st).cur.type = T_EOF ∧ (advance st).cur.text = []
    ∧ (advance st).lex.eof = true
    ∧ (∀ (lx : Lexer) (sp : Str), sp.all isspace = true → lx.rest = sp ++ '\x22' :: s →
        lx.skipSpacesAndComments.rest = '\x22' :: s)
    ∧ (st.cur.type = T_IDENT → st.cur.text ∈ serverKeywords →
        ∀ (fuel : Nat) (srv : ServerBlock),
          ∃ e, parseServerDirective fuel srv st = .err e ∧ e.line = (advance st).cur.line)
    ∧ (st.cur.type = T_IDENT → st.cur.text ∈ locationKeywords →
        ∀ (fuel : Nat) (loc : LocationBlock),
          ∃ e, parseLocationDirective fuel loc st = .err e ∧ e.line = (advance st).cur.line)
    ∧ (∀ p : PState, advance p = st → p.cur.type = T_IDENT →
        (keyword p = "error_page".toList → st.cur.type = T_NUMBER →
          ∀ (fuel : Nat) (srv : ServerBlock),
            ∃ e, parseServerDirective fuel srv p = .err e ∧ e.line = (advance st).cur.line)
        ∧ (keyword p = "cgi_pass".toList → st.cur.type = T_IDENT →
          ∀ (fuel : Nat) (loc : LocationBlock),
            ∃ e, parseLocationDirective fuel loc p = .err e
              ∧ e.line = (advance st).cur.line)
        ∧ (keyword p = "return".toList → (st.cur.type = T_NUMBER ∨ st.cur.type = T_IDENT) →
          ∀ (fuel : Nat) (loc : LocationBlock),
            ∃ e, parseLocationDirective fuel loc p = .err e
              ∧ e.line = (advance st).cur.line)) := by
  obtain ⟨h1, h2, h3⟩ := next_unterminated st.lex s hrest hopen
  have he : (advance st).cur.type = T_EOF := h1
  have hb := isIdentOrString_of_eof he
  refine ⟨h1, h2, h3, ?_, ?_, ?_, ?_⟩
  · intro lx sp hsp hlx
    exact (skipSpacesAndComments_run sp '\x22' s lx hlx hsp (by decide) (by decide)).1
  · intro hi hk fuel srv
    exact parseServerDirective_arg_eof hi hk he fuel srv
  · intro hi hk fuel loc
    exact parseLocationDirective_arg_eof hi hk he fuel loc
  · intro p hp hpi
    subst hp
    refine ⟨?_, ?_, ?_⟩
    · intro hk hn fuel srv
      rw [parseServerDirective_error_page_kw hpi hk]
      unfold dir_error_page
      simp only [hn, ne_eq, not_true_eq_false, if_false, hb, Bool.not_false, if_true]
      exact err_with_line _ _
    · intro hk hn fuel loc
      unfold keyword at hk
      unfold parseLocationDirective
      rw [if_neg (not_not.mpr hpi), if_neg (by rw [hk]; decide), if_neg (by rw [hk]; decide),
        if_neg (by rw [hk]; decide), if_neg (by rw [hk]; decide), if_neg (by rw [hk]; decide),
        if_neg (by rw [hk]; decide), if_pos hk]
      unfold loc_cgi_pass
      simp only [hn, ne_eq, not_true_eq_false, if_false, hb, Bool.not_false, if_true]
      exact err_with_line _ _
    · intro hk hn fuel loc
      rw [parseLocationDirective_return hpi hk]
      have hc : ¬ ((advance p).cur.type ≠ T_NUMBER ∧ (advance p).cur.type ≠ T_IDENT) := by
        intro h
        rcases hn with hn | hn
        · exact h.1 hn
        · exact h.2 hn
      have hs : ¬ (advance (advance p)).cur.type = T_SEMI := by
        rw [he]; decide
      unfold loc_return
      simp only
      rw [if_neg hc, if_neg hs]
      simp only [hb, Bool.not_false, if_true]
      exact err_with_line _ _

theorem unterminated_string_eof_witness :
    (advanceN 3 (initState sampleOpenStringSource)).cur = { type := T_EOF, text := [], line := 4 }
    ∧ ∃ e, parseServerDirective 5 {} (advanceN 2 (initState sampleOpenStringSource)) = .err e
        ∧ e.line = 4 :=
  ⟨by decide,
   (unterminated_string_eof (advanceN 2 (initState sampleOpenStringSource))
      "abc;\n\x7d\n".toList (by decide) (by decide)).2.2.2.2.1
      (by decide) (by decide) 5 {}⟩

/-! ## The line a token carries -/

theorem identStop_newline : identStop '\n' = true := by decide

theorem readIdentLoop_line (n : Nat) (lx : Lexer) :
    (Lexer.readIdentLoop n lx).line = lx.line := by
  induction n generalizing lx with
  | zero => rfl
  | succ n ih =>
    rw [Lexer.readIdentLoop]
    cases he : lx.eof
    · simp only [Bool.false_eq_true, if_false]
      cases hs : identStop lx.peek
      · simp only [Bool.false_eq_true, if_false]
        obtain ⟨r1, _⟩ := rest_of_not_eof he
        obtain ⟨_, _, _, _, _, gline⟩ := get_of_rest_cons r1
        have hnl : lx.peek ≠ '\n' := by
          intro h; rw [h, identStop_newline] at hs; exact Bool.noConfusion hs
        rw [ih, gline, if_neg hnl]
      · rw [if_pos rfl]
    · rw [if_pos rfl]

theorem readNumberOrIdentLoop_line (n : Nat) (lx : Lexer) (b : Bool) :
    (Lexer.readNumberOrIdentLoop n lx b).1.line = lx.line := by
  induction n generalizing lx b with
  | zero => rfl
  | succ n ih =>
    rw [Lexer.readNumberOrIdentLoop]
    cases he : lx.eof
    · simp only [Bool.false_eq_true, if_false]
      cases hs : identStop lx.peek
      · simp only [Bool.false_eq_true, if_false]
        obtain ⟨r1, _⟩ := rest_of_not_eof he
        obtain ⟨_, _, _, _, _, gline⟩ := get_of_rest_cons r1
        have hnl : lx.peek ≠ '\n' := by
          intro h; rw [h, identStop_newline] at hs; exact Bool.noConfusion hs
        rw [ih, gline, if_neg hnl]
      · rw [if_pos rfl]
    · rw [if_pos rfl]

theorem get_line_of_peek {lx : Lexer} (he : lx.eof = false) (hnl : lx.peek ≠ '\n') :
    lx.get.2.line = lx.line := by
  obtain ⟨r1, _⟩ := rest_of_not_eof he
  obtain ⟨_, _, _, _, _, gline⟩ := get_of_rest_cons r1
  rw [gline, if_neg hnl]

/-- A `T_STRING` token carries the line of the lexer after the closing
quote: the line of the opening quote plus the number of newlines of the
text. -/
theorem readString_line (lx : Lexer) (he : lx.eof = false) (hq : lx.peek = '\x22')
    (ht : lx.readString.1.type = T_STRING) :
    lx.readString.1.line = lx.line + newlineCount lx.readString.1.text := by
  obtain ⟨r1, _⟩ := rest_of_not_eof he
  obtain ⟨_, _, hr, hsrc, hpos, hline⟩ := get_of_rest_cons r1
  rw [hq, if_neg (by decide)] at hline
  have hlen : lx.get.2.rest.length ≤ lx.get.2.remaining := by
    rw [remaining_eq_rest_length]
  cases hb : stringBody lx.get.2.rest with
  | none =>
    have hend := readStringLoop_unterminated _ _ lx.get.2 rfl hb hlen
    unfold Lexer.readString at ht
    simp only [hend, if_true] at ht
    exact TokType.noConfusion ht
  | some p =>
    obtain ⟨i1, i2, i3, i4, i5⟩ :=
      readStringLoop_run lx.get.2.remaining _ p.1 p.2 lx.get.2 rfl hb hlen
    obtain ⟨_, _, _, _, _, jline⟩ := get_of_rest_cons i3
    rw [if_neg (by decide)] at jline
    have htext : substr (Lexer.readStringLoop lx.get.2.remaining lx.get.2).src lx.get.2.pos
        ((Lexer.readStringLoop lx.get.2.remaining lx.get.2).pos - lx.get.2.pos) = p.1 := by
      rw [i1, i2]
      exact substr_rest lx.get.2 p.1 ('\x22' :: p.2) i5
    unfold Lexer.readString
    simp only [eof_false_of_rest_cons i3, Bool.false_eq_true, if_false, htext]
    rw [jline, i4, hline]

/-- What the loop of `readIdent` has read when it stops. -/
theorem readIdentLoop_consumed (n : Nat) (lx : Lexer) :
    ∃ w : Str, lx.rest = w ++ (Lexer.readIdentLoop n lx).rest
      ∧ (Lexer.readIdentLoop n lx).src = lx.src
      ∧ (Lexer.readIdentLoop n lx).pos = lx.pos + w.length
      ∧ ∀ c ∈ w, identStop c = false := by
  induction n generalizing lx with
  | zero => exact ⟨[], rfl, rfl, rfl, fun c hc => absurd hc (List.not_mem_nil c)⟩
  | succ n ih =>
    rw [Lexer.readIdentLoop]
    cases he : lx.eof
    · simp only [Bool.false_eq_true, if_false]
      cases hs : identStop lx.peek
      · simp only [Bool.false_eq_true, if_false]
        obtain ⟨w, h1, h2, h3, h5⟩ := ih lx.get.2
        obtain ⟨r1, _⟩ := rest_of_not_eof he
        obtain ⟨_, _, _, gsrc, gpos, _⟩ := get_of_rest_cons r1
        refine ⟨lx.peek :: w, ?_, h2.trans gsrc, ?_, ?_⟩
        · rw [r1, List.cons_append, ← h1]
        · rw [h3, gpos, List.length_cons]; omega
        · intro c hc
          rcases List.mem_cons.mp hc with rfl | hc
          · exact hs
          · exact h5 c hc
      · rw [if_pos rfl]
        exact ⟨[], rfl, rfl, rfl, fun c hc => absurd hc (List.not_mem_nil c)⟩
    · rw [if_pos rfl]
      exact ⟨[], rfl, rfl, rfl, fun c hc => absurd hc (List.not_mem_nil c)⟩

theorem substr_one {lx : Lexer} (he : lx.eof = false) : substr lx.src lx.pos 1 = [lx.peek] := by
  obtain ⟨r1, _⟩ := rest_of_not_eof he
  unfold substr
  unfold Lexer.rest at r1
  rw [r1]
  rfl

/-- For a token that is neither a String nor `T_EOF`, the line it carries is
the line of the lexer where the token starts, and its text is the source text
from there. -/
theorem next_line_of_start (lx : Lexer)
    (ht : lx.next.1.type ≠ T_STRING ∧ lx.next.1.type ≠ T_EOF) :
    lx.next.1.line = lx.skipSpacesAndComments.line
    ∧ lx.next.1.text
        = substr lx.skipSpacesAndComments.src lx.skipSpacesAndComments.pos
            lx.next.1.text.length := by
  rcases next_cases lx with ⟨_, hn⟩ | ⟨he, ⟨h1, hn⟩ | ⟨h1, hn⟩ | ⟨h1, hn⟩ | ⟨h1, hn⟩ |
    ⟨_, hn⟩ | ⟨_, _, hn⟩⟩
  · rw [hn] at ht; exact absurd rfl ht.2
  · rw [hn]
    exact ⟨get_line_of_peek he (by rw [h1]; decide), ((substr_one he).trans (by rw [h1])).symm⟩
  · rw [hn]
    exact ⟨get_line_of_peek he (by rw [h1]; decide), ((substr_one he).trans (by rw [h1])).symm⟩
  · rw [hn]
    exact ⟨get_line_of_peek he (by rw [h1]; decide), ((substr_one he).trans (by rw [h1])).symm⟩
  · rw [hn] at ht
    rcases readString_type lx.skipSpacesAndComments with h | h
    · exact absurd h ht.2
    · exact absurd h ht.1
  · rw [hn]
    obtain ⟨w, h1, h2, h3, _, _⟩ := readNumberOrIdentLoop_consumed
      lx.skipSpacesAndComments.remaining lx.skipSpacesAndComments true
    have htext : substr (Lexer.readNumberOrIdentLoop lx.skipSpacesAndComments.remaining
          lx.skipSpacesAndComments true).1.src lx.skipSpacesAndComments.pos
        ((Lexer.readNumberOrIdentLoop lx.skipSpacesAndComments.remaining
          lx.skipSpacesAndComments true).1.pos - lx.skipSpacesAndComments.pos) = w := by
      rw [h2, h3]
      exact substr_rest _ w _ h1
    have hw : substr lx.skipSpacesAndComments.src lx.skipSpacesAndComments.pos w.length = w := by
      have := substr_rest _ w _ h1
      rwa [Nat.add_sub_cancel_left] at this
    unfold Lexer.readNumberOrIdent
    simp only [htext]
    split
    · exact ⟨readNumberOrIdentLoop_line _ _ _, hw.symm⟩
    · split
      · exact ⟨readNumberOrIdentLoop_line _ _ _, hw.symm⟩
      · exact ⟨readNumberOrIdentLoop_line _ _ _, hw.symm⟩
  · rw [hn]
    obtain ⟨w, h1, h2, h3, _⟩ := readIdentLoop_consumed
      lx.skipSpacesAndComments.remaining lx.skipSpacesAndComments
    have htext : substr (Lexer.readIdentLoop lx.skipSpacesAndComments.remaining
          lx.skipSpacesAndComments).src lx.skipSpacesAndComments.pos
        ((Lexer.readIdentLoop lx.skipSpacesAndComments.remaining
          lx.skipSpacesAndComments).pos - lx.skipSpacesAndComments.pos) = w := by
      rw [h2, h3]
      exact substr_rest _ w _ h1
    have hw : substr lx.skipSpacesAndComments.src lx.skipSpacesAndComments.pos w.length = w := by
      have := substr_rest _ w _ h1
      rwa [Nat.add_sub_cancel_left] at this
    unfold Lexer.readIdent
    simp only [htext]
    exact ⟨readIdentLoop_line _ _, hw.symm⟩

/-- A `T_STRING` token starts at a quote and carries the line of that quote
plus the number of newlines of its text. -/
theorem next_line_of_string (lx : Lexer) (ht : lx.next.1.type = T_STRING) :
    lx.skipSpacesAndComments.peek = '\x22'
    ∧ lx.next.1.line = lx.skipSpacesAndComments.line + newlineCount lx.next.1.text := by
  rcases next_cases lx with ⟨_, hn⟩ | ⟨he, ⟨h1, hn⟩ | ⟨h1, hn⟩ | ⟨h1, hn⟩ | ⟨h1, hn⟩ |
    ⟨_, hn⟩ | ⟨_, _, hn⟩⟩
  · rw [hn] at ht; exact TokType.noConfusion ht
  · rw [hn] at ht; exact TokType.noConfusion ht
  · rw [hn] at ht; exact TokType.noConfusion ht
  · rw [hn] at ht; exact TokType.noConfusion ht
  · rw [hn] at ht ⊢
    exact ⟨h1, readString_line _ he h1 ht⟩
  · rw [hn] at ht
    unfold Lexer.readNumberOrIdent at ht
    simp only at ht
    split at ht
    · exact TokType.noConfusion ht
    · split at ht
      · exact TokType.noConfusion ht
      · exact TokType.noConfusion ht
  · rw [hn] at ht
    unfold Lexer.readIdent at ht
    exact TokType.noConfusion ht

/-- Claim C22 fails as stated: in the source `root "a⏎b";` the String token
starts with the quote at position 5, on line 1, and carries line 2, the line
on which it ends. -/
theorem string_token_line_counterexample :
    (lexerAt sampleTwoLineStringSource).next.2.next.1
        = { type := T_STRING, text := "a\nb".toList, line := 2 }
    ∧ (lexerAt sampleTwoLineStringSource).next.2.skipSpacesAndComments.pos = 5
    ∧ sampleTwoLineStringSource.getD 5 '\x00' = '\x22'
    ∧ lineOfPos sampleTwoLineStringSource 5 = 1 := by
  decide

/-- Claim C22 as amended: every token returned by `Lexer::next` carries the
line number of the position at which the lexer stops after the token, one
plus the number of newlines read so far.  For an Identifier, a Number, a brace
and a semicolon this is the 1-based line of the token's first character (the
position reached after white space and comments, where the text of the token
stands in the source).  A String token, which starts with a quote there,
carries that line plus the number of newlines in its text: the line of its
closing quote.  A `T_EOF` token carries the line after the last newline of the
source. -/
theorem token_line_spec (src : Str) (lx : Lexer) (hinv : LexLineInv src lx) :
    lx.next.1.line = lineOfPos src lx.next.2.pos
    ∧ (lx.next.1.type ≠ T_STRING ∧ lx.next.1.type ≠ T_EOF →
        lx.next.1.line = lineOfPos src lx.skipSpacesAndComments.pos
        ∧ lx.next.1.text = substr src lx.skipSpacesAndComments.pos lx.next.1.text.length)
    ∧ (lx.next.1.type = T_STRING →
        src.getD lx.skipSpacesAndComments.pos '\x00' = '\x22'
        ∧ lx.next.1.line
            = lineOfPos src lx.skipSpacesAndComments.pos + newlineCount lx.next.1.text)
    ∧ (lx.next.1.type = T_EOF → lx.next.1.line = 1 + newlineCount src) := by
  have h1 : LexLineInv src lx.skipSpacesAndComments :=
    skipSpacesAndComments_pres (get_lexLineInv src) hinv
  have h2 : LexLineInv src lx.next.2 := next_pres (get_lexLineInv src) hinv
  have ha : lx.next.1.line = lineOfPos src lx.next.2.pos := by
    rw [next_line, h2.2]; rfl
  refine ⟨ha, ?_, ?_, ?_⟩
  · intro ht
    obtain ⟨a, b⟩ := next_line_of_start lx ht
    rw [h1.1] at b
    exact ⟨by rw [a, h1.2]; rfl, b⟩
  · intro ht
    obtain ⟨a, b⟩ := next_line_of_string lx ht
    constructor
    · have he : lx.skipSpacesAndComments.eof = false := by
        cases he : lx.skipSpacesAndComments.eof
        · rfl
        · unfold Lexer.peek at a
          rw [he, if_pos rfl] at a
          exact absurd a (by decide)
      unfold Lexer.peek at a
      rw [he, h1.1, if_neg (by decide)] at a
      exact a
    · rw [b, h1.2]; rfl
  · intro ht
    have he := next_eof lx ht
    rw [ha]
    unfold lineOfPos
    congr 2
    apply List.take_of_length_le
    unfold Lexer.eof at he
    rw [h2.1] at he
    simpa using he

theorem token_line_spec_witness :
    (lexerAt sampleTwoLineStringSource).next.1.line = 1
    ∧ (lexerAt sampleTwoLineStringSource).next.2.next.1.line = 1 + 1
    ∧ (lexerAt sampleTwoLineStringSource).next.2.next.2.next.1.line = 2 :=
  ⟨((token_line_spec sampleTwoLineStringSource (lexerAt sampleTwoLineStringSource)
      ⟨rfl, rfl⟩).2.1 (by decide)).1,
   ((token_line_spec sampleTwoLineStringSource (lexerAt sampleTwoLineStringSource).next.2
      (next_pres (get_lexLineInv _) ⟨rfl, rfl⟩)).2.2.1 (by decide)).2,
   ((token_line_spec sampleTwoLineStringSource (lexerAt sampleTwoLineStringSource).next.2.next.2
      (next_pres (get_lexLineInv _) (next_pres (get_lexLineInv _) ⟨rfl, rfl⟩))).2.1
      (by decide)).1⟩

/-! ## Where a `ParseError` is raised -/

theorem bind_eq_err {α β : Type} {r : Result α} {f : α → PState → Result β} {e : ParseError}
    (h : r.bind f = .err e) : r = .err e ∨ ∃ a st1, r = .ok a st1 ∧ f a st1 = .err e := by
  cases r with
  | ok a st1 => exact Or.inr ⟨a, st1, rfl, h⟩
  | err e1 => exact Or.inl (by simpa [Result.bind] using h)
  | outOfFuel => exact Result.noConfusion h

/-- An error with a message other than "Expected ';'", raised with the line
of the current token. -/
theorem errorAt_of_msg {α : Type} {m : Str} {e : ParseError} (s : PState)
    (hm : m ≠ "Expected ".toList ++ semiWhat)
    (h : (Result.err { msg := m, line := s.cur.line } : Result α) = .err e) :
    ErrorAt e s := by
  have he := Result.err.inj h
  rw [← he]
  exact ⟨rfl, fun h2 => absurd h2 hm⟩

theorem expect_err {t : TokType} {w : Str} {st : PState} {e : ParseError}
    (h : expect t w st = .err e) :
    e = { msg := "Expected ".toList ++ w, line := st.cur.line } ∧ st.cur.type ≠ t := by
  unfold expect accept at h
  by_cases ht : st.cur.type = t
  · simp only [ht, if_true] at h
    exact Result.noConfusion h
  · simp only [ht, if_false] at h
    exact ⟨(Result.err.inj h).symm, ht⟩

theorem expect_semi_errorAt {st : PState} {e : ParseError}
    (h : expect T_SEMI semiWhat st = .err e) : ErrorAt e st := by
  obtain ⟨h1, h2⟩ := expect_err h
  rw [h1]
  exact ⟨rfl, fun _ => h2⟩

theorem expect_brace_errorAt {t : TokType} {w : Str} {st : PState} {e : ParseError}
    (hw : w ≠ semiWhat) (h : expect t w st = .err e) : ErrorAt e st := by
  obtain ⟨h1, _⟩ := expect_err h
  rw [h1]
  exact ⟨rfl, fun h2 => absurd (List.append_cancel_left h2) hw⟩

theorem semi_tail_errorAt {α : Type} {a : α} {st : PState} {e : ParseError}
    (h : ((expect T_SEMI semiWhat st).bind fun _ st3 => Result.ok a st3) = .err e) :
    ErrorAt e st := by
  rcases bind_eq_err h with h1 | ⟨_, _, _, h2⟩
  · exact expect_semi_errorAt h1
  · exact Result.noConfusion h2

theorem dir_index_loop_not_err {n : Nat} {srv : ServerBlock} {st : PState} {e : ParseError} :
    dir_index_loop n srv st ≠ .err e := by
  induction n generalizing srv st with
  | zero => exact fun h => Result.noConfusion h
  | succ n ih =>
    rw [dir_index_loop]
    split
    · exact ih
    · exact fun h => Result.noConfusion h

theorem loc_index_loop_not_err {n : Nat} {loc : LocationBlock} {st : PState} {e : ParseError} :
    loc_index_loop n loc st ≠ .err e := by
  induction n generalizing loc st with
  | zero => exact fun h => Result.noConfusion h
  | succ n ih =>
    rw [loc_index_loop]
    split
    · exact ih
    · exact fun h => Result.noConfusion h

theorem loc_methods_loop_not_err {n : Nat} {loc : LocationBlock} {st : PState}
    {e : ParseError} : loc_methods_loop n loc st ≠ .err e := by
  induction n generalizing loc st with
  | zero => exact fun h => Result.noConfusion h
  | succ n ih =>
    rw [loc_methods_loop]
    split
    · exact ih
    · exact fun h => Result.noConfusion h

theorem unknown_msg_ne (p t : Str) (hp : p.head? ≠ some 'E') (hne : p ≠ []) :
    p ++ t ≠ "Expected ".toList ++ semiWhat := by
  intro h
  cases p with
  | nil => exact hne rfl
  | cons c p =>
    have hc := (List.cons.inj h).1
    exact hp (by rw [hc]; rfl)

section ErrorState

variable {Q : PState → Prop} (hadv : ∀ st, Q st → Q (advance st))
include hadv

theorem dir_listen_err {srv : ServerBlock} {st : PState} {e : ParseError}
    (h : dir_listen srv st = .err e) (hq : Q st) : ∃ s, Q s ∧ ErrorAt e s := by
  unfold dir_listen at h
  simp only at h
  split at h
  · exact ⟨_, hadv _ hq, errorAt_of_msg _ (by decide) h⟩
  · exact ⟨_, hadv _ (hadv _ hq), semi_tail_errorAt h⟩

theorem dir_root_err {srv : ServerBlock} {st : PState} {e : ParseError}
    (h : dir_root srv st = .err e) (hq : Q st) : ∃ s, Q s ∧ ErrorAt e s := by
  unfold dir_root at h
  simp only at h
  split at h
  · exact ⟨_, hadv _ hq, errorAt_of_msg _ (by decide) h⟩
  · exact ⟨_, hadv _ (hadv _ hq), semi_tail_errorAt h⟩

theorem dir_server_name_err {srv : ServerBlock} {st : PState} {e : ParseError}
    (h : dir_server_name srv st = .err e) (hq : Q st) : ∃ s, Q s ∧ ErrorAt e s := by
  unfold dir_server_name at h
  simp only at h
  split at h
  · exact ⟨_, hadv _ hq, errorAt_of_msg _ (by decide) h⟩
  · exact ⟨_, hadv _ (hadv _ hq), semi_tail_errorAt h⟩

theorem dir_client_max_body_size_err {srv : ServerBlock} {st : PState} {e : ParseError}
    (h : dir_client_max_body_size srv st = .err e) (hq : Q st) : ∃ s, Q s ∧ ErrorAt e s := by
  unfold dir_client_max_body_size at h
  simp only at h
  split at h
  · exact ⟨_, hadv _ hq, errorAt_of_msg _ (by decide) h⟩
  · exact ⟨_, hadv _ (hadv _ hq), semi_tail_errorAt h⟩

theorem dir_error_page_err {srv : ServerBlock} {st : PState} {e : ParseError}
    (h : dir_error_page srv st = .err e) (hq : Q st) : ∃ s, Q s ∧ ErrorAt e s := by
  unfold dir_error_page at h
  simp only at h
  split at h
  · exact ⟨_, hadv _ hq, errorAt_of_msg _ (by decide) h⟩
  · split at h
    · exact ⟨_, hadv _ (hadv _ hq), errorAt_of_msg _ (by decide) h⟩
    · exact ⟨_, hadv _ (hadv _ (hadv _ hq)), semi_tail_errorAt h⟩

theorem dir_index_err {n : Nat} {srv : ServerBlock} {st : PState} {e : ParseError}
    (h : dir_index n srv st = .err e) (hq : Q st) : ∃ s, Q s ∧ ErrorAt e s := by
  unfold dir_index at h
  simp only at h
  split at h
  · exact ⟨_, hadv _ hq, errorAt_of_msg _ (by decide) h⟩
  · rcases bind_eq_err h with h1 | ⟨srv2, st2, h1, h2⟩
    · exact absurd h1 dir_index_loop_not_err
    · exact ⟨_, dir_index_loop_pres hadv h1 (hadv _ hq), semi_tail_errorAt h2⟩

theorem loc_root_err {loc : LocationBlock} {st : PState} {e : ParseError}
    (h : loc_root loc st = .err e) (hq : Q st) : ∃ s, Q s ∧ ErrorAt e s := by
  unfold loc_root at h
  simp only at h
  split at h
  · exact ⟨_, hadv _ hq, errorAt_of_msg _ (by decide) h⟩
  · exact ⟨_, hadv _ (hadv _ hq), semi_tail_errorAt h⟩

theorem loc_upload_store_err {loc : LocationBlock} {st : PState} {e : ParseError}
    (h : loc_upload_store loc st = .err e) (hq : Q st) : ∃ s, Q s ∧ ErrorAt e s := by
  unfold loc_upload_store at h
  simp only at h
  split at h
  · exact ⟨_, hadv _ hq, errorAt_of_msg _ (by decide) h⟩
  · exact ⟨_, hadv _ (hadv _ hq), semi_tail_errorAt h⟩

theorem loc_autoindex_err {loc : LocationBlock} {st : PState} {e : ParseError}
    (h : loc_autoindex loc st = .err e) (hq : Q st) : ∃ s, Q s ∧ ErrorAt e s := by
  unfold loc_autoindex at h
  simp only at h
  split at h
  · exact ⟨_, hadv _ hq, errorAt_of_msg _ (by decide) h⟩
  · split at h
    · exact ⟨_, hadv _ (hadv _ hq), semi_tail_errorAt h⟩
    · split at h
      · exact ⟨_, hadv _ (hadv _ hq), semi_tail_errorAt h⟩
      · exact ⟨_, hadv _ hq, errorAt_of_msg _ (by decide) h⟩

theorem loc_return_err {loc : LocationBlock} {st : PState} {e : ParseError}
    (h : loc_return loc st = .err e) (hq : Q st) : ∃ s, Q s ∧ ErrorAt e s := by
  unfold loc_return at h
  simp only at h
  split at h
  · exact ⟨_, hadv _ hq, errorAt_of_msg _ (by decide) h⟩
  · split at h
    · exact Result.noConfusion h
    · split at h
      · exact ⟨_, hadv _ (hadv _ hq), errorAt_of_msg _ (by decide) h⟩
      · exact ⟨_, hadv _ (hadv _ (hadv _ hq)), semi_tail_errorAt h⟩

theorem loc_cgi_pass_err {loc : LocationBlock} {st : PState} {e : ParseError}
    (h : loc_cgi_pass loc st = .err e) (hq : Q st) : ∃ s, Q s ∧ ErrorAt e s := by
  unfold loc_cgi_pass at h
  simp only at h
  split at h
  · exact ⟨_, hadv _ hq, errorAt_of_msg _ (by decide) h⟩
  · split at h
    · exact ⟨_, hadv _ (hadv _ hq), errorAt_of_msg _ (by decide) h⟩
    · exact ⟨_, hadv _ (hadv _ (hadv _ hq)), semi_tail_errorAt h⟩

theorem loc_methods_err {n : Nat} {loc : LocationBlock} {st : PState} {e : ParseError}
    (h : loc_methods n loc st = .err e) (hq : Q st) : ∃ s, Q s ∧ ErrorAt e s := by
  unfold loc_methods at h
  simp only at h
  split at h
  · exact ⟨_, hadv _ hq, errorAt_of_msg _ (by decide) h⟩
  · rcases bind_eq_err h with h1 | ⟨loc2, st2, h1, h2⟩
    · exact absurd h1 loc_methods_loop_not_err
    · exact ⟨_, loc_methods_loop_pres hadv h1 (hadv _ hq), semi_tail_errorAt h2⟩

theorem loc_index_err {n : Nat} {loc : LocationBlock} {st : PState} {e : ParseError}
    (h : loc_index n loc st = .err e) (hq : Q st) : ∃ s, Q s ∧ ErrorAt e s := by
  unfold loc_index at h
  simp only at h
  split at h
  · exact ⟨_, hadv _ hq, errorAt_of_msg _ (by decide) h⟩
  · rcases bind_eq_err h with h1 | ⟨loc2, st2, h1, h2⟩
    · exact absurd h1 loc_index_loop_not_err
    · exact ⟨_, loc_index_loop_pres hadv h1 (hadv _ hq), semi_tail_errorAt h2⟩

theorem parseLocationDirective_err {n : Nat} {loc : LocationBlock} {st : PState}
    {e : ParseError} (h : parseLocationDirective n loc st = .err e) (hq : Q st) :
    ∃ s, Q s ∧ ErrorAt e s := by
  unfold parseLocationDirective at h
  split at h
  · exact ⟨_, hq, errorAt_of_msg _ (by decide) h⟩
  split at h
  · exact loc_root_err hadv h hq
  split at h
  · exact loc_methods_err hadv h hq
  split at h
  · exact loc_autoindex_err hadv h hq
  split at h
  · exact loc_index_err hadv h hq
  split at h
  · exact loc_upload_store_err hadv h hq
  split at h
  · exact loc_return_err hadv h hq
  split at h
  · exact loc_cgi_pass_err hadv h hq
  · exact ⟨_, hq, errorAt_of_msg _
      (unknown_msg_ne "Unknown location directive: ".toList _ (by decide) (by decide)) h⟩

theorem parseLocationLoop_err {n : Nat} {loc : LocationBlock} {st : PState}
    {e : ParseError} (h : parseLocationLoop n loc st = .err e) (hq : Q st) :
    ∃ s, Q s ∧ ErrorAt e s := by
  induction n generalizing loc st with
  | zero => exact Result.noConfusion h
  | succ n ih =>
    rw [parseLocationLoop] at h
    split at h
    · split at h
      · exact ⟨_, hq, errorAt_of_msg _ (by decide) h⟩
      · rcases bind_eq_err h with h1 | ⟨loc1, st1, h1, h2⟩
        · exact parseLocationDirective_err hadv h1 hq
        · exact ih h2 (parseLocationDirective_pres hadv h1 hq)
    · exact Result.noConfusion h

theorem dir_location_err {n : Nat} {srv : ServerBlock} {st : PState} {e : ParseError}
    (h : dir_location n srv st = .err e) (hq : Q st) : ∃ s, Q s ∧ ErrorAt e s := by
  unfold dir_location at h
  simp only at h
  split at h
  · exact ⟨_, hadv _ hq, errorAt_of_msg _ (by decide) h⟩
  · rcases bind_eq_err h with h1 | ⟨u, st3, h1, h2⟩
    · exact ⟨_, hadv _ (hadv _ hq), expect_brace_errorAt (by decide) h1⟩
    · have q3 : Q st3 := expect_pres hadv h1 (hadv _ (hadv _ hq))
      rcases bind_eq_err h2 with h3 | ⟨loc, st4, h3, h4⟩
      · unfold parseLocation at h3
        exact parseLocationLoop_err hadv h3 q3
      · unfold parseLocation at h3
        have q4 : Q st4 := parseLocationLoop_pres hadv h3 q3
        rcases bind_eq_err h4 with h5 | ⟨_, _, _, h6⟩
        · exact ⟨_, q4, expect_brace_errorAt (by decide) h5⟩
        · exact Result.noConfusion h6

theorem parseServerDirective_err {n : Nat} {srv : ServerBlock} {st : PState}
    {e : ParseError} (h : parseServerDirective n srv st = .err e) (hq : Q st) :
    ∃ s, Q s ∧ ErrorAt e s := by
  unfold parseServerDirective at h
  split at h
  · exact ⟨_, hq, errorAt_of_msg _ (by decide) h⟩
  split at h
  · exact dir_listen_err hadv h hq
  split at h
  · exact dir_root_err hadv h hq
  split at h
  · exact dir_index_err hadv h hq
  split at h
  · exact dir_server_name_err hadv h hq
  split at h
  · exact dir_client_max_body_size_err hadv h hq
  split at h
  · exact dir_error_page_err hadv h hq
  split at h
  · exact dir_location_err hadv h hq
  · exact ⟨_, hq, errorAt_of_msg _
      (unknown_msg_ne "Unknown server directive: ".toList _ (by decide) (by decide)) h⟩

theorem parseServerLoop_err {n : Nat} {srv : ServerBlock} {st : PState}
    {e : ParseError} (h : parseServerLoop n srv st = .err e) (hq : Q st) :
    ∃ s, Q s ∧ ErrorAt e s := by
  induction n generalizing srv st with
  | zero => exact Result.noConfusion h
  | succ n ih =>
    rw [parseServerLoop] at h
    split at h
    · split at h
      · exact ⟨_, hq, errorAt_of_msg _ (by decide) h⟩
      · rcases bind_eq_err h with h1 | ⟨srv1, st1, h1, h2⟩
        · exact parseServerDirective_err hadv h1 hq
        · exact ih h2 (parseServerDirective_pres hadv h1 hq)
    · exact Result.noConfusion h

theorem parseServer_err {n : Nat} {st : PState} {e : ParseError}
    (h : parseServer n st = .err e) (hq : Q st) : ∃ s, Q s ∧ ErrorAt e s := by
  unfold parseServer at h
  simp only at h
  rcases bind_eq_err h with h1 | ⟨u, st2, h1, h2⟩
  · exact ⟨_, hadv _ hq, expect_brace_errorAt (by decide) h1⟩
  · have q2 : Q st2 := expect_pres hadv h1 (hadv _ hq)
    rcases bind_eq_err h2 with h3 | ⟨srv, st3, h3, h4⟩
    · exact parseServerLoop_err hadv h3 q2
    · have q3 : Q st3 := parseServerLoop_pres hadv h3 q2
      rcases bind_eq_err h4 with h5 | ⟨_, _, _, h6⟩
      · exact ⟨_, q3, expect_brace_errorAt (by decide) h5⟩
      · exact Result.noConfusion h6

theorem parseConfigLoop_err {n : Nat} {cfg : Config} {st : PState} {e : ParseError}
    (h : parseConfigLoop n cfg st = .err e) (hq : Q st) : ∃ s, Q s ∧ ErrorAt e s := by
  induction n generalizing cfg st with
  | zero => exact Result.noConfusion h
  | succ n ih =>
    rw [parseConfigLoop] at h
    split at h
    · split at h
      · rcases bind_eq_err h with h1 | ⟨srv, st1, h1, h2⟩
        · exact parseServer_err hadv h1 hq
        · exact ih h2 (parseServer_pres hadv h1 hq)
      · exact ⟨_, hq, errorAt_of_msg _ (by decide) h⟩
    · exact Result.noConfusion h

end ErrorState

theorem get_line_pos (lx : Lexer) (h : 1 ≤ lx.line) : 1 ≤ lx.get.2.line := by
  unfold Lexer.get
  split
  · exact h
  · simp only
    split <;> omega

theorem advance_line_pos (st : PState) (h : 1 ≤ st.lex.line) :
    1 ≤ (advance st).cur.line ∧ 1 ≤ (advance st).lex.line := by
  have h1 : 1 ≤ st.lex.next.2.line := next_pres (P := fun l => 1 ≤ l.line) get_line_pos h
  refine ⟨?_, h1⟩
  show 1 ≤ st.lex.next.1.line
  rw [next_line]
  exact h1

/-! ## The parser state at the moment of a failure -/

section StopState

variable {Q : PState → Prop} (hadv : ∀ st, Q st → Q (advance st))
include hadv

omit hadv in
theorem stopsAt_ok {α : Type} (a : α) (st : PState) : StopsAt (Result.ok a st) st :=
  ⟨fun _ _ h => (Result.ok.inj h).2, fun _ h => Result.noConfusion h⟩

omit hadv in
theorem stopsAt_throw {α : Type} (m : Str) (st : PState)
    (hm : m ≠ "Expected ".toList ++ semiWhat) :
    StopsAt (Result.err { msg := m, line := st.cur.line } : Result α) st :=
  ⟨fun _ _ h => Result.noConfusion h, fun _ h => errorAt_of_msg st hm h⟩

omit hadv in
theorem stopsAt_bind {α β : Type} {r : Result α} {f : α → PState → Result β} {sr : PState}
    {k : α → PState → PState} (hr : Q sr ∧ StopsAt r sr)
    (hf : ∀ a st1, r = .ok a st1 → Q st1 → Q (k a st1) ∧ StopsAt (f a st1) (k a st1)) :
    Q (r.stopWith sr k) ∧ StopsAt (r.bind f) (r.stopWith sr k) := by
  cases r with
  | ok a st1 =>
    have hq : Q st1 := by
      have := hr.2.1 a st1 rfl
      rw [← this]; exact hr.1
    exact hf a st1 rfl hq
  | err e =>
    refine ⟨hr.1, fun _ _ h => Result.noConfusion h, fun e1 h => ?_⟩
    have : e = e1 := Result.err.inj h
    rw [← this]
    exact hr.2.2 e rfl
  | outOfFuel =>
    exact ⟨hr.1, fun _ _ h => Result.noConfusion h, fun _ h => Result.noConfusion h⟩

theorem expect_stopsAt (t : TokType) (w : Str) (st : PState)
    (hw : (t = T_SEMI ∧ w = semiWhat) ∨ w ≠ semiWhat) (hq : Q st) :
    Q (expect_stop t st) ∧ StopsAt (expect t w st) (expect_stop t st) := by
  unfold expect_stop expect accept
  by_cases ht : st.cur.type = t
  · simp only [ht, if_true]
    exact ⟨hadv _ hq, stopsAt_ok _ _⟩
  · simp only [ht, if_false]
    refine ⟨hq, fun _ _ h => Result.noConfusion h, fun e h => ?_⟩
    rcases hw with ⟨h1, h2⟩ | h2
    · have he := Result.err.inj h
      rw [← he]
      subst h1
      exact ⟨rfl, fun _ => ht⟩
    · exact errorAt_of_msg st (fun h3 => h2 (List.append_cancel_left h3)) h

theorem semi_tail_stopsAt {α : Type} (a : α) (st : PState) (hq : Q st) :
    Q (expect_stop T_SEMI st)
    ∧ StopsAt ((expect T_SEMI semiWhat st).bind fun _ st3 => Result.ok a st3)
        (expect_stop T_SEMI st) := by
  obtain ⟨h1, h2⟩ := expect_stopsAt hadv T_SEMI semiWhat st (Or.inl ⟨rfl, rfl⟩) hq
  refine ⟨h1, fun a1 st1 h => ?_, fun e h => ?_⟩
  · obtain ⟨u, st3, h3, h4⟩ := bind_eq_ok h
    rw [h2.1 u st3 h3]
    exact (Result.ok.inj h4).2
  · rcases bind_eq_err h with h3 | ⟨_, _, _, h4⟩
    · exact h2.2 e h3
    · exact Result.noConfusion h4

theorem dir_listen_stopsAt (srv : ServerBlock) (st : PState) (hq : Q st) :
    Q (dir_listen_stop st) ∧ StopsAt (dir_listen srv st) (dir_listen_stop st) := by
  unfold dir_listen dir_listen_stop
  simp only
  by_cases h1 : (!isIdentOrString (advance st).cur) = true
  · rw [if_pos h1, if_pos h1]
    exact ⟨hadv _ hq, stopsAt_throw _ _ (by decide)⟩
  · rw [if_neg h1, if_neg h1]
    exact semi_tail_stopsAt hadv _ _ (hadv _ (hadv _ hq))

theorem dir_root_stopsAt (srv : ServerBlock) (st : PState) (hq : Q st) :
    Q (dir_root_stop st) ∧ StopsAt (dir_root srv st) (dir_root_stop st) := by
  unfold dir_root dir_root_stop
  simp only
  by_cases h1 : (!isIdentOrString (advance st).cur) = true
  · rw [if_pos h1, if_pos h1]
    exact ⟨hadv _ hq, stopsAt_throw _ _ (by decide)⟩
  · rw [if_neg h1, if_neg h1]
    exact semi_tail_stopsAt hadv _ _ (hadv _ (hadv _ hq))

theorem dir_server_name_stopsAt (srv : ServerBlock) (st : PState) (hq : Q st) :
    Q (dir_server_name_stop st)
    ∧ StopsAt (dir_server_name srv st) (dir_server_name_stop st) := by
  unfold dir_server_name dir_server_name_stop
  simp only
  by_cases h1 : (!isIdentOrString (advance st).cur) = true
  · rw [if_pos h1, if_pos h1]
    exact ⟨hadv _ hq, stopsAt_throw _ _ (by decide)⟩
  · rw [if_neg h1, if_neg h1]
    exact semi_tail_stopsAt hadv _ _ (hadv _ (hadv _ hq))

theorem dir_client_max_body_size_stopsAt (srv : ServerBlock) (st : PState) (hq : Q st) :
    Q (dir_client_max_body_size_stop st)
    ∧ StopsAt (dir_client_max_body_size srv st) (dir_client_max_body_size_stop st) := by
  unfold dir_client_max_body_size dir_client_max_body_size_stop
  simp only
  by_cases h1 : (advance st).cur.type ≠ T_IDENT ∧ (advance st).cur.type ≠ T_NUMBER
  · rw [if_pos h1, if_pos h1]
    exact ⟨hadv _ hq, stopsAt_throw _ _ (by decide)⟩
  · rw [if_neg h1, if_neg h1]
    exact semi_tail_stopsAt hadv _ _ (hadv _ (hadv _ hq))

theorem dir_error_page_stopsAt (srv : ServerBlock) (st : PState) (hq : Q st) :
    Q (dir_error_page_stop st)
    ∧ StopsAt (dir_error_page srv st) (dir_error_page_stop st) := by
  unfold dir_error_page dir_error_page_stop
  simp only
  by_cases h1 : (advance st).cur.type ≠ T_NUMBER
  · rw [if_pos h1, if_pos h1]
    exact ⟨hadv _ hq, stopsAt_throw _ _ (by decide)⟩
  · rw [if_neg h1, if_neg h1]
    by_cases h2 : (!isIdentOrString (advance (advance st)).cur) = true
    · rw [if_pos h2, if_pos h2]
      exact ⟨hadv _ (hadv _ hq), stopsAt_throw _ _ (by decide)⟩
    · rw [if_neg h2, if_neg h2]
      exact semi_tail_stopsAt hadv _ _ (hadv _ (hadv _ (hadv _ hq)))

theorem dir_index_stopsAt (fuel : Nat) (srv : ServerBlock) (st : PState) (hq : Q st) :
    Q (dir_index_stop fuel srv st)
    ∧ StopsAt (dir_index fuel srv st) (dir_index_stop fuel srv st) := by
  unfold dir_index dir_index_stop
  simp only
  by_cases h1 : (!isIdentOrString (advance st).cur) = true
  · rw [if_pos h1, if_pos h1]
    exact ⟨hadv _ hq, stopsAt_throw _ _ (by decide)⟩
  · rw [if_neg h1, if_neg h1]
    cases hl : dir_index_loop fuel srv (advance st) with
    | ok srv1 st2 =>
      exact semi_tail_stopsAt hadv _ _ (dir_index_loop_pres hadv hl (hadv _ hq))
    | err e => exact absurd hl dir_index_loop_not_err
    | outOfFuel =>
      exact ⟨hadv _ hq, fun _ _ h => Result.noConfusion h, fun _ h => Result.noConfusion h⟩

theorem loc_root_stopsAt (loc : LocationBlock) (st : PState) (hq : Q st) :
    Q (loc_root_stop st) ∧ StopsAt (loc_root loc st) (loc_root_stop st) := by
  unfold loc_root loc_root_stop
  simp only
  by_cases h1 : (!isIdentOrString (advance st).cur) = true
  · rw [if_pos h1, if_pos h1]
    exact ⟨hadv _ hq, stopsAt_throw _ _ (by decide)⟩
  · rw [if_neg h1, if_neg h1]
    exact semi_tail_stopsAt hadv _ _ (hadv _ (hadv _ hq))

theorem loc_upload_store_stopsAt (loc : LocationBlock) (st : PState) (hq : Q st) :
    Q (loc_upload_store_stop st)
    ∧ StopsAt (loc_upload_store loc st) (loc_upload_store_stop st) := by
  unfold loc_upload_store loc_upload_store_stop
  simp only
  by_cases h1 : (!isIdentOrString (advance st).cur) = true
  · rw [if_pos h1, if_pos h1]
    exact ⟨hadv _ hq, stopsAt_throw _ _ (by decide)⟩
  · rw [if_neg h1, if_neg h1]
    exact semi_tail_stopsAt hadv _ _ (hadv _ (hadv _ hq))

theorem loc_methods_stopsAt (fuel : Nat) (loc : LocationBlock) (st : PState) (hq : Q st) :
    Q (loc_methods_stop fuel loc st)
    ∧ StopsAt (loc_methods fuel loc st) (loc_methods_stop fuel loc st) := by
  unfold loc_methods loc_methods_stop
  simp only
  by_cases h1 : (advance st).cur.type ≠ T_IDENT
  · rw [if_pos h1, if_pos h1]
    exact ⟨hadv _ hq, stopsAt_throw _ _ (by decide)⟩
  · rw [if_neg h1, if_neg h1]
    cases hl : loc_methods_loop fuel loc (advance st) with
    | ok loc1 st2 =>
      exact semi_tail_stopsAt hadv _ _ (loc_methods_loop_pres hadv hl (hadv _ hq))
    | err e => exact absurd hl loc_methods_loop_not_err
    | outOfFuel =>
      exact ⟨hadv _ hq, fun _ _ h => Result.noConfusion h, fun _ h => Result.noConfusion h⟩

theorem loc_index_stopsAt (fuel : Nat) (loc : LocationBlock) (st : PState) (hq : Q st) :
    Q (loc_index_stop fuel loc st)
    ∧ StopsAt (loc_index fuel loc st) (loc_index_stop fuel loc st) := by
  unfold loc_index loc_index_stop
  simp only
  by_cases h1 : (!isIdentOrString (advance st).cur) = true
  · rw [if_pos h1, if_pos h1]
    exact ⟨hadv _ hq, stopsAt_throw _ _ (by decide)⟩
  · rw [if_neg h1, if_neg h1]
    cases hl : loc_index_loop fuel loc (advance st) with
    | ok loc1 st2 =>
      exact semi_tail_stopsAt hadv _ _ (loc_index_loop_pres hadv hl (hadv _ hq))
    | err e => exact absurd hl loc_index_loop_not_err
    | outOfFuel =>
      exact ⟨hadv _ hq, fun _ _ h => Result.noConfusion h, fun _ h => Result.noConfusion h⟩

theorem loc_autoindex_stopsAt (loc : LocationBlock) (st : PState) (hq : Q st) :
    Q (loc_autoindex_stop st) ∧ StopsAt (loc_autoindex loc st) (loc_autoindex_stop st) := by
  unfold loc_autoindex loc_autoindex_stop
  simp only
  by_cases h1 : (advance st).cur.type ≠ T_IDENT
  · rw [if_pos h1, if_pos h1]
    exact ⟨hadv _ hq, stopsAt_throw _ _ (by decide)⟩
  · rw [if_neg h1, if_neg h1]
    by_cases h2 : (advance st).cur.text = "on".toList
    · rw [if_pos h2, if_pos h2]
      exact semi_tail_stopsAt hadv _ _ (hadv _ (hadv _ hq))
    · rw [if_neg h2, if_neg h2]
      by_cases h3 : (advance st).cur.text = "off".toList
      · rw [if_pos h3, if_pos h3]
        exact semi_tail_stopsAt hadv _ _ (hadv _ (hadv _ hq))
      · rw [if_neg h3, if_neg h3]
        exact ⟨hadv _ hq, stopsAt_throw _ _ (by decide)⟩

theorem loc_return_stopsAt (loc : LocationBlock) (st : PState) (hq : Q st) :
    Q (loc_return_stop st) ∧ StopsAt (loc_return loc st) (loc_return_stop st) := by
  unfold loc_return loc_return_stop
  simp only
  by_cases h1 : (advance st).cur.type ≠ T_NUMBER ∧ (advance st).cur.type ≠ T_IDENT
  · rw [if_pos h1, if_pos h1]
    exact ⟨hadv _ hq, stopsAt_throw _ _ (by decide)⟩
  · rw [if_neg h1, if_neg h1]
    by_cases h2 : (advance (advance st)).cur.type = T_SEMI
    · rw [if_pos h2, if_pos h2]
      exact ⟨hadv _ (hadv _ (hadv _ hq)), stopsAt_ok _ _⟩
    · rw [if_neg h2, if_neg h2]
      by_cases h3 : (!isIdentOrString (advance (advance st)).cur) = true
      · rw [if_pos h3, if_pos h3]
        exact ⟨hadv _ (hadv _ hq), stopsAt_throw _ _ (by decide)⟩
      · rw [if_neg h3, if_neg h3]
        exact semi_tail_stopsAt hadv _ _ (hadv _ (hadv _ (hadv _ hq)))

theorem loc_cgi_pass_stopsAt (loc : LocationBlock) (st : PState) (hq : Q st) :
    Q (loc_cgi_pass_stop st) ∧ StopsAt (loc_cgi_pass loc st) (loc_cgi_pass_stop st) := by
  unfold loc_cgi_pass loc_cgi_pass_stop
  simp only
  by_cases h1 : (advance st).cur.type ≠ T_IDENT
  · rw [if_pos h1, if_pos h1]
    exact ⟨hadv _ hq, stopsAt_throw _ _ (by decide)⟩
  · rw [if_neg h1, if_neg h1]
    by_cases h2 : (!isIdentOrString (advance (advance st)).cur) = true
    · rw [if_pos h2, if_pos h2]
      exact ⟨hadv _ (hadv _ hq), stopsAt_throw _ _ (by decide)⟩
    · rw [if_neg h2, if_neg h2]
      exact semi_tail_stopsAt hadv _ _ (hadv _ (hadv _ (hadv _ hq)))

theorem parseLocationDirective_stopsAt (fuel : Nat) (loc : LocationBlock) (st : PState)
    (hq : Q st) :
    Q (parseLocationDirective_stop fuel loc st)
    ∧ StopsAt (parseLocationDirective fuel loc st) (parseLocationDirective_stop fuel loc st) := by
  unfold parseLocationDirective parseLocationDirective_stop
  by_cases h0 : st.cur.type ≠ T_IDENT
  · rw [if_pos h0, if_pos h0]
    exact ⟨hq, stopsAt_throw _ _ (by decide)⟩
  rw [if_neg h0, if_neg h0]
  by_cases h1 : st.cur.text = "root".toList
  · rw [if_pos h1, if_pos h1]; exact loc_root_stopsAt hadv loc st hq
  rw [if_neg h1, if_neg h1]
  by_cases h2 : st.cur.text = "methods".toList
  · rw [if_pos h2, if_pos h2]; exact loc_methods_stopsAt hadv fuel loc st hq
  rw [if_neg h2, if_neg h2]
  by_cases h3 : st.cur.text = "autoindex".toList
  · rw [if_pos h3, if_pos h3]; exact loc_autoindex_stopsAt hadv loc st hq
  rw [if_neg h3, if_neg h3]
  by_cases h4 : st.cur.text = "index".toList
  · rw [if_pos h4, if_pos h4]; exact loc_index_stopsAt hadv fuel loc st hq
  rw [if_neg h4, if_neg h4]
  by_cases h5 : st.cur.text = "upload_store".toList
  · rw [if_pos h5, if_pos h5]; exact loc_upload_store_stopsAt hadv loc st hq
  rw [if_neg h5, if_neg h5]
  by_cases h6 : st.cur.text = "return".toList
  · rw [if_pos h6, if_pos h6]; exact loc_return_stopsAt hadv loc st hq
  rw [if_neg h6, if_neg h6]
  by_cases h7 : st.cur.text = "cgi_pass".toList
  · rw [if_pos h7, if_pos h7]; exact loc_cgi_pass_stopsAt hadv loc st hq
  rw [if_neg h7, if_neg h7]
  exact ⟨hq, stopsAt_throw _ _
    (unknown_msg_ne "Unknown location directive: ".toList _ (by decide) (by decide))⟩

theorem parseLocationLoop_stopsAt (n : Nat) :
    ∀ (loc : LocationBlock) (st : PState), Q st →
      Q (parseLocationLoop_stop n loc st)
      ∧ StopsAt (parseLocationLoop n loc st) (parseLocationLoop_stop n loc st) := by
  induction n with
  | zero =>
    intro loc st hq
    exact ⟨hq, fun _ _ h => Result.noConfusion h, fun _ h => Result.noConfusion h⟩
  | succ n ih =>
    intro loc st hq
    rw [parseLocationLoop, parseLocationLoop_stop]
    by_cases h1 : st.cur.type ≠ T_RBRACE
    · rw [if_pos h1, if_pos h1]
      by_cases h2 : st.cur.type = T_EOF
      · rw [if_pos h2, if_pos h2]
        exact ⟨hq, stopsAt_throw _ _ (by decide)⟩
      · rw [if_neg h2, if_neg h2]
        exact stopsAt_bind (parseLocationDirective_stopsAt hadv n loc st hq)
          (fun loc1 st1 _ hq1 => ih loc1 st1 hq1)
    · rw [if_neg h1, if_neg h1]
      exact ⟨hq, stopsAt_ok _ _⟩

theorem dir_location_stopsAt (fuel : Nat) (srv : ServerBlock) (st : PState) (hq : Q st) :
    Q (dir_location_stop fuel st)
    ∧ StopsAt (dir_location fuel srv st) (dir_location_stop fuel st) := by
  unfold dir_location dir_location_stop
  simp only
  by_cases h1 : (!isIdentOrString (advance st).cur) = true
  · rw [if_pos h1, if_pos h1]
    exact ⟨hadv _ hq, stopsAt_throw _ _ (by decide)⟩
  · rw [if_neg h1, if_neg h1]
    refine stopsAt_bind
      (expect_stopsAt hadv T_LBRACE lbraceWhat _ (Or.inr (by decide)) (hadv _ (hadv _ hq)))
      (fun _ st3 _ hq3 => ?_)
    refine stopsAt_bind (parseLocationLoop_stopsAt hadv fuel _ st3 hq3) (fun loc st4 _ hq4 => ?_)
    obtain ⟨q5, s5⟩ := expect_stopsAt hadv T_RBRACE rbraceWhat st4 (Or.inr (by decide)) hq4
    refine ⟨q5, fun a1 st1 h => ?_, fun e h => ?_⟩
    · obtain ⟨u, st5, h3, h4⟩ := bind_eq_ok h
      rw [s5.1 u st5 h3]
      exact (Result.ok.inj h4).2
    · rcases bind_eq_err h with h3 | ⟨_, _, _, h4⟩
      · exact s5.2 e h3
      · exact Result.noConfusion h4

theorem parseServerDirective_stopsAt (fuel : Nat) (srv : ServerBlock) (st : PState)
    (hq : Q st) :
    Q (parseServerDirective_stop fuel srv st)
    ∧ StopsAt (parseServerDirective fuel srv st) (parseServerDirective_stop fuel srv st) := by
  unfold parseServerDirective parseServerDirective_stop
  by_cases h0 : st.cur.type ≠ T_IDENT
  · rw [if_pos h0, if_pos h0]
    exact ⟨hq, stopsAt_throw _ _ (by decide)⟩
  rw [if_neg h0, if_neg h0]
  by_cases h1 : st.cur.text = "listen".toList
  · rw [if_pos h1, if_pos h1]; exact dir_listen_stopsAt hadv srv st hq
  rw [if_neg h1, if_neg h1]
  by_cases h2 : st.cur.text = "root".toList
  · rw [if_pos h2, if_pos h2]; exact dir_root_stopsAt hadv srv st hq
  rw [if_neg h2, if_neg h2]
  by_cases h3 : st.cur.text = "index".toList
  · rw [if_pos h3, if_pos h3]; exact dir_index_stopsAt hadv fuel srv st hq
  rw [if_neg h3, if_neg h3]
  by_cases h4 : st.cur.text = "server_name".toList
  · rw [if_pos h4, if_pos h4]; exact dir_server_name_stopsAt hadv srv st hq
  rw [if_neg h4, if_neg h4]
  by_cases h5 : st.cur.text = "client_max_body_size".toList
  · rw [if_pos h5, if_pos h5]; exact dir_client_max_body_size_stopsAt hadv srv st hq
  rw [if_neg h5, if_neg h5]
  by_cases h6 : st.cur.text = "error_page".toList
  · rw [if_pos h6, if_pos h6]; exact dir_error_page_stopsAt hadv srv st hq
  rw [if_neg h6, if_neg h6]
  by_cases h7 : st.cur.text = "location".toList
  · rw [if_pos h7, if_pos h7]; exact dir_location_stopsAt hadv fuel srv st hq
  rw [if_neg h7, if_neg h7]
  exact ⟨hq, stopsAt_throw _ _
    (unknown_msg_ne "Unknown server directive: ".toList _ (by decide) (by decide))⟩

theorem parseServerLoop_stopsAt (n : Nat) :
    ∀ (srv : ServerBlock) (st : PState), Q st →
      Q (parseServerLoop_stop n srv st)
      ∧ StopsAt (parseServerLoop n srv st) (parseServerLoop_stop n srv st) := by
  induction n with
  | zero =>
    intro srv st hq
    exact ⟨hq, fun _ _ h => Result.noConfusion h, fun _ h => Result.noConfusion h⟩
  | succ n ih =>
    intro srv st hq
    rw [parseServerLoop, parseServerLoop_stop]
    by_cases h1 : st.cur.type ≠ T_RBRACE
    · rw [if_pos h1, if_pos h1]
      by_cases h2 : st.cur.type = T_EOF
      · rw [if_pos h2, if_pos h2]
        exact ⟨hq, stopsAt_throw _ _ (by decide)⟩
      · rw [if_neg h2, if_neg h2]
        exact stopsAt_bind (parseServerDirective_stopsAt hadv n srv st hq)
          (fun srv1 st1 _ hq1 => ih srv1 st1 hq1)
    · rw [if_neg h1, if_neg h1]
      exact ⟨hq, stopsAt_ok _ _⟩

theorem parseServer_stopsAt (fuel : Nat) (st : PState) (hq : Q st) :
    Q (parseServer_stop fuel st) ∧ StopsAt (parseServer fuel st) (parseServer_stop fuel st) := by
  unfold parseServer parseServer_stop
  simp only
  refine stopsAt_bind
    (expect_stopsAt hadv T_LBRACE lbraceWhat _ (Or.inr (by decide)) (hadv _ hq))
    (fun _ st2 _ hq2 => ?_)
  refine stopsAt_bind (parseServerLoop_stopsAt hadv fuel _ st2 hq2) (fun srv st3 _ hq3 => ?_)
  obtain ⟨q4, s4⟩ := expect_stopsAt hadv T_RBRACE rbraceWhat st3 (Or.inr (by decide)) hq3
  refine ⟨q4, fun a1 st1 h => ?_, fun e h => ?_⟩
  · obtain ⟨u, st5, h3, h4⟩ := bind_eq_ok h
    rw [s4.1 u st5 h3]
    exact (Result.ok.inj h4).2
  · rcases bind_eq_err h with h3 | ⟨_, _, _, h4⟩
    · exact s4.2 e h3
    · exact Result.noConfusion h4

theorem parseConfigLoop_stopsAt (n : Nat) :
    ∀ (cfg : Config) (st : PState), Q st →
      Q (parseConfigLoop_stop n cfg st)
      ∧ StopsAt (parseConfigLoop n cfg st) (parseConfigLoop_stop n cfg st) := by
  induction n with
  | zero =>
    intro cfg st hq
    exact ⟨hq, fun _ _ h => Result.noConfusion h, fun _ h => Result.noConfusion h⟩
  | succ n ih =>
    intro cfg st hq
    rw [parseConfigLoop, parseConfigLoop_stop]
    by_cases h1 : st.cur.type ≠ T_EOF
    · rw [if_pos h1, if_pos h1]
      by_cases h2 : st.cur.type = T_IDENT ∧ st.cur.text = "server".toList
      · rw [if_pos h2, if_pos h2]
        exact stopsAt_bind (parseServer_stopsAt hadv n st hq)
          (fun srv st1 _ hq1 => ih _ st1 hq1)
      · rw [if_neg h2, if_neg h2]
        exact ⟨hq, stopsAt_throw _ _ (by decide)⟩
    · rw [if_neg h1, if_neg h1]
      exact ⟨hq, stopsAt_ok _ _⟩

end StopState

theorem parseFile_stopsAt (N : Nat) (content : Str) :
    ((∃ k, parseFile_stop N content = advanceN k (initState content))
      ∧ 1 ≤ (parseFile_stop N content).cur.line ∧ 1 ≤ (parseFile_stop N content).lex.line)
    ∧ StopsAt (parseFile N content) (parseFile_stop N content) := by
  have hadv : ∀ st : PState,
      ((∃ k, st = advanceN k (initState content)) ∧ 1 ≤ st.cur.line ∧ 1 ≤ st.lex.line) →
      ((∃ k, advance st = advanceN k (initState content)) ∧ 1 ≤ (advance st).cur.line
        ∧ 1 ≤ (advance st).lex.line) := by
    intro st ⟨⟨k, hk⟩, _, h2⟩
    exact ⟨⟨k + 1, by rw [advanceN_succ_last, hk]⟩, advance_line_pos st h2⟩
  have hinit : (∃ k, initState content = advanceN k (initState content))
      ∧ 1 ≤ (initState content).cur.line ∧ 1 ≤ (initState content).lex.line :=
    ⟨⟨0, rfl⟩, advance_line_pos _ (le_refl 1)⟩
  exact parseConfigLoop_stopsAt hadv N {} (initState content) hinit

/-- A directive with one argument whose `;` is missing: the error carries the
line of the token after the argument, and that token is the current token
when the handler throws. -/
theorem missing_semi_after_argument (srv : ServerBlock) (loc : LocationBlock) (st : PState)
    (ha : isIdentOrString (advance st).cur = true)
    (hs : (advance (advance st)).cur.type ≠ T_SEMI) :
    dir_listen srv st
        = .err { msg := "Expected \x27;\x27".toList, line := (advance (advance st)).cur.line }
    ∧ dir_root srv st
        = .err { msg := "Expected \x27;\x27".toList, line := (advance (advance st)).cur.line }
    ∧ dir_server_name srv st
        = .err { msg := "Expected \x27;\x27".toList, line := (advance (advance st)).cur.line }
    ∧ loc_root loc st
        = .err { msg := "Expected \x27;\x27".toList, line := (advance (advance st)).cur.line }
    ∧ loc_upload_store loc st
        = .err { msg := "Expected \x27;\x27".toList, line := (advance (advance st)).cur.line }
    ∧ dir_listen_stop st = advance (advance st)
    ∧ dir_root_stop st = advance (advance st)
    ∧ dir_server_name_stop st = advance (advance st)
    ∧ loc_root_stop st = advance (advance st)
    ∧ loc_upload_store_stop st = advance (advance st) := by
  have h1 : ¬ ((!isIdentOrString (advance st).cur) = true) := by rw [ha]; decide
  have he : ∀ (α : Type) (a : α),
      ((expect T_SEMI semiWhat (advance (advance st))).bind fun _ st3 => Result.ok a st3)
        = .err { msg := "Expected \x27;\x27".toList, line := (advance (advance st)).cur.line } := by
    intro α a
    unfold expect accept
    simp only [hs, if_false]
    rfl
  have hx : expect_stop T_SEMI (advance (advance st)) = advance (advance st) := by
    unfold expect_stop accept
    rw [if_neg hs]
  refine ⟨?_, ?_, ?_, ?_, ?_, ?_, ?_, ?_, ?_, ?_⟩
  · unfold dir_listen; simp only; rw [if_neg h1]; exact he _ _
  · unfold dir_root; simp only; rw [if_neg h1]; exact he _ _
  · unfold dir_server_name; simp only; rw [if_neg h1]; exact he _ _
  · unfold loc_root; simp only; rw [if_neg h1]; exact he _ _
  · unfold loc_upload_store; simp only; rw [if_neg h1]; exact he _ _
  · unfold dir_listen_stop; simp only; rw [if_neg h1]; exact hx
  · unfold dir_root_stop; simp only; rw [if_neg h1]; exact hx
  · unfold dir_server_name_stop; simp only; rw [if_neg h1]; exact hx
  · unfold loc_root_stop; simp only; rw [if_neg h1]; exact hx
  · unfold loc_upload_store_stop; simp only; rw [if_neg h1]; exact hx

theorem expect_semi_fails {α : Type} (a : α) {st : PState} (hs : st.cur.type ≠ T_SEMI) :
    ((expect T_SEMI semiWhat st).bind fun _ st3 => Result.ok a st3)
        = .err { msg := "Expected \x27;\x27".toList, line := st.cur.line }
    ∧ expect_stop T_SEMI st = st := by
  constructor
  · unfold expect accept
    simp only [hs, if_false]
    rfl
  · unfold expect_stop accept
    rw [if_neg hs]

/-- The other directives whose `;` is missing: the error carries the line of
the token after the last argument, the current token when the handler
throws. -/
theorem missing_semi_after_arguments (fuel : Nat) (srv : ServerBlock) (loc : LocationBlock)
    (st : PState) :
    (((advance st).cur.type = T_IDENT ∨ (advance st).cur.type = T_NUMBER) →
      (advance (advance st)).cur.type ≠ T_SEMI →
      dir_client_max_body_size srv st
          = .err { msg := "Expected \x27;\x27".toList,
                   line := (advance (advance st)).cur.line }
      ∧ dir_client_max_body_size_stop st = advance (advance st))
    ∧ ((advance st).cur.type = T_IDENT →
      ((advance st).cur.text = "on".toList ∨ (advance st).cur.text = "off".toList) →
      (advance (advance st)).cur.type ≠ T_SEMI →
      loc_autoindex loc st
          = .err { msg := "Expected \x27;\x27".toList,
                   line := (advance (advance st)).cur.line }
      ∧ loc_autoindex_stop st = advance (advance st))
    ∧ ((advance st).cur.type = T_NUMBER →
      isIdentOrString (advance (advance st)).cur = true →
      (advance (advance (advance st))).cur.type ≠ T_SEMI →
      dir_error_page srv st
          = .err { msg := "Expected \x27;\x27".toList,
                   line := (advance (advance (advance st))).cur.line }
      ∧ dir_error_page_stop st = advance (advance (advance st)))
    ∧ ((advance st).cur.type = T_IDENT →
      isIdentOrString (advance (advance st)).cur = true →
      (advance (advance (advance st))).cur.type ≠ T_SEMI →
      loc_cgi_pass loc st
          = .err { msg := "Expected \x27;\x27".toList,
                   line := (advance (advance (advance st))).cur.line }
      ∧ loc_cgi_pass_stop st = advance (advance (advance st)))
    ∧ (((advance st).cur.type = T_NUMBER ∨ (advance st).cur.type = T_IDENT) →
      isIdentOrString (advance (advance st)).cur = true →
      (advance (advance (advance st))).cur.type ≠ T_SEMI →
      loc_return loc st
          = .err { msg := "Expected \x27;\x27".toList,
                   line := (advance (advance (advance st))).cur.line }
      ∧ loc_return_stop st = advance (advance (advance st)))
    ∧ (∀ k, 1 ≤ k → k < fuel →
      (∀ i, i < k → isIdentOrString (advanceN (i + 1) st).cur = true) →
      isIdentOrString (advanceN (k + 1) st).cur = false →
      (advanceN (k + 1) st).cur.type ≠ T_SEMI →
      dir_index fuel srv st
          = .err { msg := "Expected \x27;\x27".toList, line := (advanceN (k + 1) st).cur.line }
      ∧ dir_index_stop fuel srv st = advanceN (k + 1) st
      ∧ loc_index fuel loc st
          = .err { msg := "Expected \x27;\x27".toList, line := (advanceN (k + 1) st).cur.line }
      ∧ loc_index_stop fuel loc st = advanceN (k + 1) st)
    ∧ (∀ k, 1 ≤ k → k < fuel →
      (∀ i, i < k → (advanceN (i + 1) st).cur.type = T_IDENT) →
      (advanceN (k + 1) st).cur.type ≠ T_IDENT →
      (advanceN (k + 1) st).cur.type ≠ T_SEMI →
      loc_methods fuel loc st
          = .err { msg := "Expected \x27;\x27".toList, line := (advanceN (k + 1) st).cur.line }
      ∧ loc_methods_stop fuel loc st = advanceN (k + 1) st) := by
  refine ⟨?_, ?_, ?_, ?_, ?_, ?_, ?_⟩
  · intro ha hs
    have h1 : ¬ ((advance st).cur.type ≠ T_IDENT ∧ (advance st).cur.type ≠ T_NUMBER) := by
      rcases ha with e | e <;> simp [e]
    constructor
    · unfold dir_client_max_body_size; simp only; rw [if_neg h1]
      exact (expect_semi_fails _ hs).1
    · unfold dir_client_max_body_size_stop; simp only; rw [if_neg h1]
      exact (expect_semi_fails () hs).2
  · intro ht hv hs
    constructor
    · unfold loc_autoindex; simp only; rw [if_neg (not_not.mpr ht)]
      rcases hv with e | e
      · rw [if_pos e]; exact (expect_semi_fails _ hs).1
      · rw [if_neg (by rw [e]; decide), if_pos e]; exact (expect_semi_fails _ hs).1
    · unfold loc_autoindex_stop; simp only; rw [if_neg (not_not.mpr ht)]
      rcases hv with e | e
      · rw [if_pos e]; exact (expect_semi_fails () hs).2
      · rw [if_neg (by rw [e]; decide), if_pos e]; exact (expect_semi_fails () hs).2
  · intro hc hp hs
    have h2 : ¬ ((!isIdentOrString (advance (advance st)).cur) = true) := by rw [hp]; decide
    constructor
    · unfold dir_error_page; simp only; rw [if_neg (not_not.mpr hc), if_neg h2]
      exact (expect_semi_fails _ hs).1
    · unfold dir_error_page_stop; simp only; rw [if_neg (not_not.mpr hc), if_neg h2]
      exact (expect_semi_fails () hs).2
  · intro hc hp hs
    have h2 : ¬ ((!isIdentOrString (advance (advance st)).cur) = true) := by rw [hp]; decide
    constructor
    · unfold loc_cgi_pass; simp only; rw [if_neg (not_not.mpr hc), if_neg h2]
      exact (expect_semi_fails _ hs).1
    · unfold loc_cgi_pass_stop; simp only; rw [if_neg (not_not.mpr hc), if_neg h2]
      exact (expect_semi_fails () hs).2
  · intro hc hp hs
    have h1 : ¬ ((advance st).cur.type ≠ T_NUMBER ∧ (advance st).cur.type ≠ T_IDENT) := by
      rcases hc with e | e <;> simp [e]
    have h2 : ¬ ((!isIdentOrString (advance (advance st)).cur) = true) := by rw [hp]; decide
    have h3 : ¬ (advance (advance st)).cur.type = T_SEMI := by
      intro e
      rw [not_isIdentOrString_of_semi e] at hp
      exact Bool.noConfusion hp
    constructor
    · unfold loc_return; simp only; rw [if_neg h1, if_neg h3, if_neg h2]
      exact (expect_semi_fails _ hs).1
    · unfold loc_return_stop; simp only; rw [if_neg h1, if_neg h3, if_neg h2]
      exact (expect_semi_fails () hs).2
  · intro k hk hf hargs hstop hs
    have h0 : isIdentOrString (advance st).cur = true := hargs 0 (by omega)
    have h1 : ¬ ((!isIdentOrString (advance st).cur) = true) := by rw [h0]; decide
    have hs1 : (advanceN k (advance st)).cur.type ≠ T_SEMI := hs
    have e1 := dir_index_loop_run k fuel srv (advance st) (fun i hi => hargs i hi) hstop hf
    have e2 := loc_index_loop_run k fuel loc (advance st) (fun i hi => hargs i hi) hstop hf
    refine ⟨?_, ?_, ?_, ?_⟩
    · unfold dir_index; simp only; rw [if_neg h1, e1]
      exact (expect_semi_fails _ hs1).1
    · unfold dir_index_stop; simp only; rw [if_neg h1, e1]
      exact (expect_semi_fails () hs1).2
    · unfold loc_index; simp only; rw [if_neg h1, e2]
      exact (expect_semi_fails _ hs1).1
    · unfold loc_index_stop; simp only; rw [if_neg h1, e2]
      exact (expect_semi_fails () hs1).2
  · intro k hk hf hargs hstop hs
    have h0 : (advance st).cur.type = T_IDENT := hargs 0 (by omega)
    have hs1 : (advanceN k (advance st)).cur.type ≠ T_SEMI := hs
    have e1 := loc_methods_loop_run k fuel loc (advance st) (fun i hi => hargs i hi) hstop hf
    constructor
    · unfold loc_methods; simp only; rw [if_neg (not_not.mpr h0), e1]
      exact (expect_semi_fails _ hs1).1
    · unfold loc_methods_stop; simp only; rw [if_neg (not_not.mpr h0), e1]
      exact (expect_semi_fails () hs1).2

/-- Claim C23: every `ParseError` raised during parsing carries the line
number of the parser's current token at the moment of failure, which is at
least 1.  When `parseFile` fails with `e`, the line of `e` is the line of the
current token of `parseFile_stop`, the state of the parser object at the
`throw`; that state is reached from the first token by some number of
`advance` calls, and it is the state `parseFile` returns whenever it returns.
When the message is "Expected ';'" the current token at the failure is not a
semicolon: for every directive that ends with `;` it is the token that
follows the last argument, the one found in the place of the `;`, whatever
line the directive keyword was on.  In general `expect` fails exactly when
the current token is not of the expected kind, with the line of that token. -/
theorem parse_error_line (N : Nat) (content : Str) (e : ParseError)
    (h : parseFile N content = .err e) :
    e.line = (parseFile_stop N content).cur.line
    ∧ (∃ k, parseFile_stop N content = advanceN k (initState content))
    ∧ 1 ≤ e.line
    ∧ (e.msg = "Expected \x27;\x27".toList → (parseFile_stop N content).cur.type ≠ T_SEMI)
    ∧ (∀ (M : Nat) (cfg : Config) (st1 : PState),
        parseFile M content = .ok cfg st1 → parseFile_stop M content = st1)
    ∧ (∀ (srv : ServerBlock) (loc : LocationBlock) (st : PState),
        isIdentOrString (advance st).cur = true → (advance (advance st)).cur.type ≠ T_SEMI →
        dir_listen srv st
            = .err { msg := "Expected \x27;\x27".toList,
                     line := (advance (advance st)).cur.line }
        ∧ dir_root srv st
            = .err { msg := "Expected \x27;\x27".toList,
                     line := (advance (advance st)).cur.line }
        ∧ dir_server_name srv st
            = .err { msg := "Expected \x27;\x27".toList,
                     line := (advance (advance st)).cur.line }
        ∧ loc_root loc st
            = .err { msg := "Expected \x27;\x27".toList,
                     line := (advance (advance st)).cur.line }
        ∧ loc_upload_store loc st
            = .err { msg := "Expected \x27;\x27".toList,
                     line := (advance (advance st)).cur.line }
        ∧ dir_listen_stop st = advance (advance st)
        ∧ dir_root_stop st = advance (advance st)
        ∧ dir_server_name_stop st = advance (advance st)
        ∧ loc_root_stop st = advance (advance st)
        ∧ loc_upload_store_stop st = advance (advance st))
    ∧ (∀ (fuel : Nat) (srv : ServerBlock) (loc : LocationBlock) (st : PState),
        (((advance st).cur.type = T_IDENT ∨ (advance st).cur.type = T_NUMBER) →
          (advance (advance st)).cur.type ≠ T_SEMI →
          dir_client_max_body_size srv st
              = .err { msg := "Expected \x27;\x27".toList,
                       line := (advance (advance st)).cur.line }
          ∧ dir_client_max_body_size_stop st = advance (advance st))
        ∧ ((advance st).cur.type = T_IDENT →
          ((advance st).cur.text = "on".toList ∨ (advance st).cur.text = "off".toList) →
          (advance (advance st)).cur.type ≠ T_SEMI →
          loc_autoindex loc st
              = .err { msg := "Expected \x27;\x27".toList,
                       line := (advance (advance st)).cur.line }
          ∧ loc_autoindex_stop st = advance (advance st))
        ∧ ((advance st).cur.type = T_NUMBER →
          isIdentOrString (advance (advance st)).cur = true →
          (advance (advance (advance st))).cur.type ≠ T_SEMI →
          dir_error_page srv st
              = .err { msg := "Expected \x27;\x27".toList,
                       line := (advance (advance (advance st))).cur.line }
          ∧ dir_error_page_stop st = advance (advance (advance st)))
        ∧ ((advance st).cur.type = T_IDENT →
          isIdentOrString (advance (advance st)).cur = true →
          (advance (advance (advance st))).cur.type ≠ T_SEMI →
          loc_cgi_pass loc st
              = .err { msg := "Expected \x27;\x27".toList,
                       line := (advance (advance (advance st))).cur.line }
          ∧ loc_cgi_pass_stop st = advance (advance (advance st)))
        ∧ (((advance st).cur.type = T_NUMBER ∨ (advance st).cur.type = T_IDENT) →
          isIdentOrString (advance (advance st)).cur = true →
          (advance (advance (advance st))).cur.type ≠ T_SEMI →
          loc_return loc st
              = .err { msg := "Expected \x27;\x27".toList,
                       line := (advance (advance (advance st))).cur.line }
          ∧ loc_return_stop st = advance (advance (advance st)))
        ∧ (∀ k, 1 ≤ k → k < fuel →
          (∀ i, i < k → isIdentOrString (advanceN (i + 1) st).cur = true) →
          isIdentOrString (advanceN (k + 1) st).cur = false →
          (advanceN (k + 1) st).cur.type ≠ T_SEMI →
          dir_index fuel srv st
              = .err { msg := "Expected \x27;\x27".toList, line := (advanceN (k + 1) st).cur.line }
          ∧ dir_index_stop fuel srv st = advanceN (k + 1) st
          ∧ loc_index fuel loc st
              = .err { msg := "Expected \x27;\x27".toList, line := (advanceN (k + 1) st).cur.line }
          ∧ loc_index_stop fuel loc st = advanceN (k + 1) st)
        ∧ (∀ k, 1 ≤ k → k < fuel →
          (∀ i, i < k → (advanceN (i + 1) st).cur.type = T_IDENT) →
          (advanceN (k + 1) st).cur.type ≠ T_IDENT →
          (advanceN (k + 1) st).cur.type ≠ T_SEMI →
          loc_methods fuel loc st
              = .err { msg := "Expected \x27;\x27".toList, line := (advanceN (k + 1) st).cur.line }
          ∧ loc_methods_stop fuel loc st = advanceN (k + 1) st))
    ∧ (∀ (t : TokType) (w : Str) (st : PState), st.cur.type ≠ t →
        expect t w st = .err { msg := "Expected ".toList ++ w, line := st.cur.line }) := by
  obtain ⟨⟨hk, hl, _⟩, hs⟩ := parseFile_stopsAt N content
  have hat := hs.2 e h
  refine ⟨hat.1, hk, ?_, hat.2, ?_, ?_, ?_, ?_⟩
  · rw [hat.1]; exact hl
  · intro M cfg st1 hok
    exact (parseFile_stopsAt M content).2.1 cfg st1 hok
  · intro srv loc st ha hsemi
    exact missing_semi_after_argument srv loc st ha hsemi
  · intro fuel srv loc st
    exact missing_semi_after_arguments fuel srv loc st
  · intro t w st ht
    unfold expect accept
    simp only [ht, if_false]
    rfl

theorem parse_error_line_witness :
    parseFile 20 sampleMissingSemiSource
        = .err { msg := "Expected \x27;\x27".toList, line := 3 }
    ∧ (advanceN 2 (initState sampleMissingSemiSource)).cur
        = { type := T_IDENT, text := "root".toList, line := 2 }
    ∧ (parseFile_stop 20 sampleMissingSemiSource).cur
        = { type := T_RBRACE, text := "\x7d".toList, line := 3 }
    ∧ (parseFile_stop 20 sampleMissingSemiSource).cur
        = (advanceN 4 (initState sampleMissingSemiSource)).cur
    ∧ 3 = (parseFile_stop 20 sampleMissingSemiSource).cur.line
    ∧ 1 ≤ 3 :=
  ⟨by decide, by decide, by decide, by decide,
   (parse_error_line 20 sampleMissingSemiSource
      { msg := "Expected \x27;\x27".toList, line := 3 } (by decide)).1,
   (parse_error_line 20 sampleMissingSemiSource
      { msg := "Expected \x27;\x27".toList, line := 3 } (by decide)).2.2.1⟩

/-! ## The parser accepts every source written in the grammar -/

theorem reads_cons {st : PState} {t : Lexeme} {ts : List Lexeme} (h : Reads st (t :: ts)) :
    st.cur.type = t.1 ∧ st.cur.text = t.2 ∧ Reads (advance st) ts :=
  ⟨congrArg Prod.fst h.1, congrArg Prod.snd h.1, h.2⟩

theorem reads_append (l1 : List Lexeme) :
    ∀ {st : PState} {l2 : List Lexeme}, Reads st (l1 ++ l2) → Reads (advanceN l1.length st) l2 := by
  induction l1 with
  | nil => intro st l2 h; exact h
  | cons t l1 ih =>
    intro st l2 h
    rw [List.length_cons, advanceN_succ]
    exact ih h.2

theorem reads_get (l : List Lexeme) :
    ∀ {st : PState} (i : Nat) (hi : i < l.length), Reads st l →
      (advanceN i st).cur.lexeme = l[i] := by
  induction l with
  | nil => intro st i hi; exact absurd hi (Nat.not_lt_zero _)
  | cons t l ih =>
    intro st i hi h
    cases i with
    | zero => exact h.1
    | succ i =>
      rw [advanceN_succ]
      exact ih i (by simpa using hi) h.2

/-- The current token after `initState` and the tokens that follow are the
token sequence of the loaded file. -/
theorem reads_tokenStream (n : Nat) :
    ∀ st : PState, Reads (advance st) (lexemes n st.lex) := by
  induction n with
  | zero => intro st; exact trivial
  | succ n ih =>
    intro st
    exact ⟨rfl, ih (advance st)⟩

theorem reads_initState (n : Nat) (content : Str) :
    Reads (initState content) (lexemes n (Lexer.load content)) :=
  reads_tokenStream n { lex := Lexer.load content, cur := {} }

theorem semi_tail_ok {α : Type} (a : α) {st : PState} (h : st.cur.type = T_SEMI) :
    ((expect T_SEMI semiWhat st).bind fun _ st3 => Result.ok a st3) = .ok a (advance st) := by
  rw [expect_of_type semiWhat h]
  rfl

theorem isIdentOrString_of_isPath {t : Token} {a : Lexeme} (h : t.lexeme = a)
    (ha : a.isPath = true) : isIdentOrString t = true := by
  rw [← h] at ha
  exact ha

theorem reads_kw {st : PState} {k : String} {ts : List Lexeme} (h : Reads st (kw k :: ts)) :
    st.cur.type = T_IDENT ∧ st.cur.text = k.toList ∧ Reads (advance st) ts :=
  reads_cons h

theorem reads_semi {st : PState} {ts : List Lexeme} (h : Reads st (semiLexeme :: ts)) :
    st.cur.type = T_SEMI ∧ Reads (advance st) ts :=
  ⟨(reads_cons h).1, (reads_cons h).2.2⟩

/-- A run of argument tokens followed by `;`, as the list handlers need it. -/
theorem reads_args {st : PState} {args r : List Lexeme} {p : Lexeme → Bool}
    (h : Reads st (args ++ semiLexeme :: r)) (hall : args.all p = true) :
    (∀ i, i < args.length → p (advanceN i st).cur.lexeme = true)
    ∧ (advanceN args.length st).cur.type = T_SEMI
    ∧ Reads (advanceN (args.length + 1) st) r := by
  refine ⟨?_, ?_, ?_⟩
  · intro i hi
    have h1 := reads_get (args ++ semiLexeme :: r) i
      (by rw [List.length_append]; omega) h
    rw [h1, List.getElem_append_left hi]
    exact List.all_eq_true.mp hall _ (List.getElem_mem _)
  · exact (reads_semi (reads_append args h)).1
  · rw [advanceN_succ_last]
    exact (reads_semi (reads_append args h)).2


theorem loc_one_path_ok {st : PState} {k : String} {p : Lexeme} {r : List Lexeme}
    (h : Reads st (kw k :: p :: semiLexeme :: r)) (hp : p.isPath = true) :
    st.cur.type = T_IDENT ∧ st.cur.text = k.toList
    ∧ isIdentOrString (advance st).cur = true
    ∧ (advance (advance st)).cur.type = T_SEMI := by
  obtain ⟨h1, h2, h3⟩ := reads_kw h
  exact ⟨h1, h2, isIdentOrString_of_isPath h3.1 hp, (reads_semi h3.2).1⟩

theorem parseLocationDirective_complete (d : LocationDirectiveForm)
    (hd : d.wellFormed = true) (fuel : Nat) (hfuel : d.tokens.length ≤ fuel)
    (loc : LocationBlock) (st : PState) (r : List Lexeme) (h : Reads st (d.tokens ++ r)) :
    ∃ loc1, parseLocationDirective fuel loc st = .ok loc1 (advanceN d.tokens.length st) := by
  cases d with
  | root p =>
    obtain ⟨h1, h2, h3, h4⟩ := loc_one_path_ok h hd
    refine ⟨loc.setRoot (advance st).cur.text, ?_⟩
    unfold parseLocationDirective
    rw [if_neg (not_not.mpr h1), if_pos h2]
    unfold loc_root
    simp only
    rw [if_neg (by rw [h3]; decide), semi_tail_ok _ h4]
    rfl
  | uploadStore p =>
    obtain ⟨h1, h2, h3, h4⟩ := loc_one_path_ok h hd
    refine ⟨loc.setUploadStore (advance st).cur.text, ?_⟩
    unfold parseLocationDirective
    rw [if_neg (not_not.mpr h1), if_neg (by rw [h2]; decide), if_neg (by rw [h2]; decide),
      if_neg (by rw [h2]; decide), if_neg (by rw [h2]; decide), if_pos h2]
    unfold loc_upload_store
    simp only
    rw [if_neg (by rw [h3]; decide), semi_tail_ok _ h4]
    rfl
  | autoindex v =>
    obtain ⟨h1, h2, h3⟩ := reads_kw h
    obtain ⟨v1, v2, h4⟩ := reads_cons h3
    have h5 := (reads_semi h4).1
    have hv : v = kw "on" ∨ v = kw "off" := by
      simpa [LocationDirectiveForm.wellFormed] using hd
    unfold parseLocationDirective
    rw [if_neg (not_not.mpr h1), if_neg (by rw [h2]; decide), if_neg (by rw [h2]; decide),
      if_pos h2]
    unfold loc_autoindex
    simp only
    rcases hv with hv | hv
    · subst hv
      have w1 : (advance st).cur.type = T_IDENT := v1
      have w2 : (advance st).cur.text = "on".toList := v2
      refine ⟨loc.setAutoIndex true, ?_⟩
      rw [if_neg (not_not.mpr w1), if_pos w2, semi_tail_ok _ h5]
      rfl
    · subst hv
      have w1 : (advance st).cur.type = T_IDENT := v1
      have w2 : (advance st).cur.text = "off".toList := v2
      refine ⟨loc.setAutoIndex false, ?_⟩
      rw [if_neg (not_not.mpr w1), if_neg (by rw [w2]; decide), if_pos w2, semi_tail_ok _ h5]
      rfl
  | methods ns =>
    obtain ⟨h1, h2, h3⟩ := reads_kw h
    have hw : ns ≠ [] ∧ ns.all (fun a => decide (a.1 = T_IDENT)) = true := by
      simpa [LocationDirectiveForm.wellFormed] using hd
    have h3a : Reads (advance st) (ns ++ semiLexeme :: r) := by
      have : ns ++ [semiLexeme] ++ r = ns ++ semiLexeme :: r := by simp
      rw [← this]; exact h3
    obtain ⟨a1, a2, _⟩ := reads_args h3a hw.2
    have hlen : (LocationDirectiveForm.methods ns).tokens.length = ns.length + 2 := by
      simp [LocationDirectiveForm.tokens]
    rw [hlen] at hfuel ⊢
    have hdisp : parseLocationDirective fuel loc st = loc_methods fuel loc st := by
      unfold parseLocationDirective
      rw [if_neg (not_not.mpr h1), if_neg (by rw [h2]; decide), if_pos h2]
    rw [hdisp]
    exact ⟨_, loc_methods_ok fuel ns.length loc st
      (Nat.pos_of_ne_zero (fun h0 => hw.1 (List.length_eq_zero.mp h0))) (by omega)
      (fun i hi => by simpa using a1 i hi) a2⟩
  | index fs =>
    obtain ⟨h1, h2, h3⟩ := reads_kw h
    have hw : fs ≠ [] ∧ fs.all Lexeme.isPath = true := by
      simpa [LocationDirectiveForm.wellFormed] using hd
    have h3a : Reads (advance st) (fs ++ semiLexeme :: r) := by
      have : fs ++ [semiLexeme] ++ r = fs ++ semiLexeme :: r := by simp
      rw [← this]; exact h3
    obtain ⟨a1, a2, _⟩ := reads_args h3a hw.2
    have hlen : (LocationDirectiveForm.index fs).tokens.length = fs.length + 2 := by
      simp [LocationDirectiveForm.tokens]
    rw [hlen] at hfuel ⊢
    have hdisp : parseLocationDirective fuel loc st = loc_index fuel loc st := by
      unfold parseLocationDirective
      rw [if_neg (not_not.mpr h1), if_neg (by rw [h2]; decide), if_neg (by rw [h2]; decide),
        if_neg (by rw [h2]; decide), if_pos h2]
    rw [hdisp]
    exact ⟨_, loc_index_ok fuel fs.length loc st
      (Nat.pos_of_ne_zero (fun h0 => hw.1 (List.length_eq_zero.mp h0))) (by omega)
      (fun i hi => a1 i hi) a2⟩
  | redirect c t =>
    have hdisp : st.cur.type = T_IDENT → st.cur.text = "return".toList →
        parseLocationDirective fuel loc st = loc_return loc st := by
      intro h1 h2
      unfold parseLocationDirective
      rw [if_neg (not_not.mpr h1), if_neg (by rw [h2]; decide), if_neg (by rw [h2]; decide),
        if_neg (by rw [h2]; decide), if_neg (by rw [h2]; decide), if_neg (by rw [h2]; decide),
        if_pos h2]
    cases t with
    | none =>
      obtain ⟨h1, h2, h3⟩ := reads_kw h
      rw [hdisp h1 h2]
      obtain ⟨c1, _, h4⟩ := reads_cons h3
      have hc : c.1 = T_NUMBER ∨ c.1 = T_IDENT := by
        simpa [LocationDirectiveForm.wellFormed] using hd
      rw [← c1] at hc
      exact ⟨_, loc_return_code_only hc (reads_semi h4).1⟩
    | some t =>
      obtain ⟨h1, h2, h3⟩ := reads_kw h
      rw [hdisp h1 h2]
      obtain ⟨c1, _, h4⟩ := reads_cons h3
      obtain ⟨t1, _, h5⟩ := reads_cons h4
      have hc : (c.1 = T_NUMBER ∨ c.1 = T_IDENT) ∧ t.isPath = true := by
        simpa [LocationDirectiveForm.wellFormed] using hd
      have ht : t.1 = T_IDENT ∨ t.1 = T_STRING := by
        simpa [Lexeme.isPath] using hc.2
      rw [← c1] at hc
      rw [← t1] at ht
      exact ⟨_, loc_return_code_target hc.1 ht (reads_semi h5).1⟩
  | cgiPass e i =>
    obtain ⟨h1, h2, h3⟩ := reads_kw h
    obtain ⟨e1, _, h4⟩ := reads_cons h3
    obtain ⟨h4a, h5⟩ := h4
    have hw : e.1 = T_IDENT ∧ i.isPath = true := by
      simpa [LocationDirectiveForm.wellFormed] using hd
    have hi := isIdentOrString_of_isPath h4a hw.2
    refine ⟨loc.mapCgi (advance st).cur.text (advance (advance st)).cur.text, ?_⟩
    unfold parseLocationDirective
    rw [if_neg (not_not.mpr h1), if_neg (by rw [h2]; decide), if_neg (by rw [h2]; decide),
      if_neg (by rw [h2]; decide), if_neg (by rw [h2]; decide), if_neg (by rw [h2]; decide),
      if_neg (by rw [h2]; decide), if_pos h2]
    unfold loc_cgi_pass
    simp only
    rw [if_neg (not_not.mpr (e1.trans hw.1)), if_neg (by rw [hi]; decide),
      semi_tail_ok _ (reads_semi h5).1]
    rfl

theorem advanceN_add (m n : Nat) (st : PState) :
    advanceN (m + n) st = advanceN n (advanceN m st) := by
  unfold advanceN
  rw [Nat.add_comm, Function.iterate_add_apply]

theorem locationDirective_tokens_head (d : LocationDirectiveForm) :
    ∃ k ts, d.tokens = kw k :: ts := by
  cases d with
  | root p => exact ⟨_, _, rfl⟩
  | methods ns => exact ⟨_, _, rfl⟩
  | autoindex v => exact ⟨_, _, rfl⟩
  | index fs => exact ⟨_, _, rfl⟩
  | uploadStore p => exact ⟨_, _, rfl⟩
  | redirect c t => cases t <;> exact ⟨_, _, rfl⟩
  | cgiPass e i => exact ⟨_, _, rfl⟩

theorem serverDirective_tokens_head (d : ServerDirectiveForm) :
    ∃ k ts, d.tokens = kw k :: ts := by
  cases d <;> exact ⟨_, _, rfl⟩

theorem parseLocationLoop_complete (body : List LocationDirectiveForm) :
    (∀ d ∈ body, d.wellFormed = true) →
    ∀ (fuel : Nat) (loc : LocationBlock) (st : PState) (r : List Lexeme),
      (locationBodyTokens body).length < fuel →
      Reads st (locationBodyTokens body ++ rbraceLexeme :: r) →
      ∃ loc1, parseLocationLoop fuel loc st
        = .ok loc1 (advanceN (locationBodyTokens body).length st) := by
  induction body with
  | nil =>
    intro _ fuel loc st r hf h
    obtain ⟨n, rfl⟩ : ∃ n, fuel = n + 1 := ⟨fuel - 1, by omega⟩
    have h1 : st.cur.type = T_RBRACE := (reads_cons h).1
    refine ⟨loc, ?_⟩
    rw [parseLocationLoop, if_neg (not_not.mpr h1)]
    rfl
  | cons d body ih =>
    intro hall fuel loc st r hf h
    obtain ⟨n, rfl⟩ : ∃ n, fuel = n + 1 := ⟨fuel - 1, by omega⟩
    have htok : locationBodyTokens (d :: body) = d.tokens ++ locationBodyTokens body := by
      simp [locationBodyTokens]
    rw [htok, List.length_append] at hf
    rw [htok, List.append_assoc] at h
    obtain ⟨k, ts, hk⟩ := locationDirective_tokens_head d
    have hpos : 1 ≤ d.tokens.length := by rw [hk]; simp
    have h1 : st.cur.type = T_IDENT := by
      rw [hk] at h
      exact (reads_kw h).1
    obtain ⟨loc1, hd⟩ := parseLocationDirective_complete d (hall d (List.mem_cons_self _ _)) n
      (by omega) loc st _ h
    obtain ⟨loc2, hl⟩ := ih (fun x hx => hall x (List.mem_cons_of_mem _ hx)) n loc1
      (advanceN d.tokens.length st) r (by omega) (reads_append d.tokens h)
    refine ⟨loc2, ?_⟩
    rw [parseLocationLoop, if_pos (by rw [h1]; decide), if_neg (by rw [h1]; decide), hd]
    simp only [Result.bind]
    rw [hl, htok, List.length_append, advanceN_add]

theorem srv_one_path_ok {st : PState} {k : String} {p : Lexeme} {r : List Lexeme}
    (h : Reads st (kw k :: p :: semiLexeme :: r)) :
    st.cur.type = T_IDENT ∧ st.cur.text = k.toList
    ∧ (advance st).cur.lexeme = p
    ∧ (advance (advance st)).cur.type = T_SEMI := by
  obtain ⟨h1, h2, h3⟩ := reads_kw h
  exact ⟨h1, h2, h3.1, (reads_semi h3.2).1⟩

theorem parseServerDirective_complete (d : ServerDirectiveForm)
    (hd : d.wellFormed = true) (fuel : Nat) (hfuel : d.tokens.length ≤ fuel)
    (srv : ServerBlock) (st : PState) (r : List Lexeme) (h : Reads st (d.tokens ++ r)) :
    ∃ srv1, parseServerDirective fuel srv st = .ok srv1 (advanceN d.tokens.length st)
      ∧ (d.isListen = false → srv1.listens = srv.listens) := by
  have hframe : ∀ (k : String) (srv1 : ServerBlock) (st1 : PState),
      st.cur.text = k.toList → k.toList ≠ "listen".toList →
      parseServerDirective fuel srv st = .ok srv1 st1 →
      ∃ srv2, parseServerDirective fuel srv st = .ok srv2 st1
        ∧ (d.isListen = false → srv2.listens = srv.listens) := by
    intro k srv1 st1 hk hne hok
    exact ⟨srv1, hok, fun _ => parseServerDirective_listens hok (by unfold keyword; rw [hk]; exact hne)⟩
  cases d with
  | listen a =>
    obtain ⟨h1, h2, h3, h4⟩ := srv_one_path_ok h
    have ha := isIdentOrString_of_isPath h3 hd
    have hdisp : parseServerDirective fuel srv st = dir_listen srv st := by
      unfold parseServerDirective
      rw [if_neg (not_not.mpr h1), if_pos h2]
    exact ⟨_, hdisp.trans (dir_listen_ok srv st ha h4), fun hl => Bool.noConfusion hl⟩
  | root p =>
    obtain ⟨h1, h2, h3, h4⟩ := srv_one_path_ok h
    have ha := isIdentOrString_of_isPath h3 hd
    apply hframe "root" (srv.setRoot (advance st).cur.text) _ h2 (by decide)
    unfold parseServerDirective
    rw [if_neg (not_not.mpr h1), if_neg (by rw [h2]; decide), if_pos h2]
    unfold dir_root
    simp only
    rw [if_neg (by rw [ha]; decide), semi_tail_ok _ h4]
    rfl
  | serverName p =>
    obtain ⟨h1, h2, h3, h4⟩ := srv_one_path_ok h
    have ha := isIdentOrString_of_isPath h3 hd
    apply hframe "server_name" (srv.setServerName (advance st).cur.text) _ h2 (by decide)
    unfold parseServerDirective
    rw [if_neg (not_not.mpr h1), if_neg (by rw [h2]; decide), if_neg (by rw [h2]; decide),
      if_neg (by rw [h2]; decide), if_pos h2]
    unfold dir_server_name
    simp only
    rw [if_neg (by rw [ha]; decide), semi_tail_ok _ h4]
    rfl
  | clientMaxBodySize s =>
    obtain ⟨h1, h2, h3, h4⟩ := srv_one_path_ok h
    have hs : s.1 = T_IDENT ∨ s.1 = T_NUMBER := by
      simpa [ServerDirectiveForm.wellFormed] using hd
    have hs1 : (advance st).cur.type = T_IDENT ∨ (advance st).cur.type = T_NUMBER := by
      rw [← h3] at hs; exact hs
    apply hframe "client_max_body_size"
      (srv.setClientMaxBodySize (parseSizeWithUnit (advance st).cur.text)) _ h2 (by decide)
    unfold parseServerDirective
    rw [if_neg (not_not.mpr h1), if_neg (by rw [h2]; decide), if_neg (by rw [h2]; decide),
      if_neg (by rw [h2]; decide), if_neg (by rw [h2]; decide), if_pos h2]
    unfold dir_client_max_body_size
    simp only
    rw [if_neg (by rcases hs1 with e | e <;> simp [e]), semi_tail_ok _ h4]
    rfl
  | errorPage c p =>
    obtain ⟨h1, h2, h3⟩ := reads_kw h
    obtain ⟨c1, _, h4⟩ := reads_cons h3
    obtain ⟨h4a, h5⟩ := h4
    have hw : c.1 = T_NUMBER ∧ p.isPath = true := by
      simpa [ServerDirectiveForm.wellFormed] using hd
    have hp := isIdentOrString_of_isPath h4a hw.2
    apply hframe "error_page"
      (srv.setErrorPage (atoi (advance st).cur.text) (advance (advance st)).cur.text) _ h2
      (by decide)
    unfold parseServerDirective
    rw [if_neg (not_not.mpr h1), if_neg (by rw [h2]; decide), if_neg (by rw [h2]; decide),
      if_neg (by rw [h2]; decide), if_neg (by rw [h2]; decide), if_neg (by rw [h2]; decide),
      if_pos h2]
    unfold dir_error_page
    simp only
    rw [if_neg (not_not.mpr (c1.trans hw.1)), if_neg (by rw [hp]; decide),
      semi_tail_ok _ (reads_semi h5).1]
    rfl
  | index fs =>
    obtain ⟨h1, h2, h3⟩ := reads_kw h
    have hw : fs ≠ [] ∧ fs.all Lexeme.isPath = true := by
      simpa [ServerDirectiveForm.wellFormed] using hd
    have h3a : Reads (advance st) (fs ++ semiLexeme :: r) := by
      have : fs ++ [semiLexeme] ++ r = fs ++ semiLexeme :: r := by simp
      rw [← this]; exact h3
    obtain ⟨a1, a2, _⟩ := reads_args h3a hw.2
    have hlen : (ServerDirectiveForm.index fs).tokens.length = fs.length + 2 := by
      simp [ServerDirectiveForm.tokens]
    rw [hlen] at hfuel ⊢
    have hdisp : parseServerDirective fuel srv st = dir_index fuel srv st := by
      unfold parseServerDirective
      rw [if_neg (not_not.mpr h1), if_neg (by rw [h2]; decide), if_neg (by rw [h2]; decide),
        if_pos h2]
    have hok := dir_index_ok fuel fs.length srv st
      (Nat.pos_of_ne_zero (fun h0 => hw.1 (List.length_eq_zero.mp h0))) (by omega)
      (fun i hi => a1 i hi) a2
    exact hframe "index" _ _ h2 (by decide) (hdisp.trans hok)
  | location p body =>
    obtain ⟨h1, h2, h3⟩ := reads_kw h
    obtain ⟨p1, h4⟩ := h3
    have hw : p.isPath = true ∧ ∀ x ∈ body, x.wellFormed = true := by
      simpa [ServerDirectiveForm.wellFormed] using hd
    have hp := isIdentOrString_of_isPath p1 hw.1
    have h4a : Reads (advance (advance st))
        (lbraceLexeme :: (locationBodyTokens body ++ rbraceLexeme :: r)) := by
      have : (lbraceLexeme :: locationBodyTokens body ++ [rbraceLexeme]) ++ r
          = lbraceLexeme :: (locationBodyTokens body ++ rbraceLexeme :: r) := by simp
      rw [← this]; exact h4
    have hb : (advance (advance st)).cur.type = T_LBRACE := (reads_cons h4a).1
    have h5 := (reads_cons h4a).2.2
    have hlen : (ServerDirectiveForm.location p body).tokens.length
        = (locationBodyTokens body).length + 4 := by
      simp [ServerDirectiveForm.tokens]
    rw [hlen] at hfuel ⊢
    obtain ⟨loc1, hl⟩ := parseLocationLoop_complete body hw.2 fuel
      (({} : LocationBlock).setPathPrefix (advance st).cur.text)
      (advance (advance (advance st))) r (by omega) h5
    have h6 := reads_append (locationBodyTokens body) h5
    have hc : (advanceN (locationBodyTokens body).length
        (advance (advance (advance st)))).cur.type = T_RBRACE := (reads_cons h6).1
    apply hframe "location" (srv.addLocation loc1) _ h2 (by decide)
    unfold parseServerDirective
    rw [if_neg (not_not.mpr h1), if_neg (by rw [h2]; decide), if_neg (by rw [h2]; decide),
      if_neg (by rw [h2]; decide), if_neg (by rw [h2]; decide), if_neg (by rw [h2]; decide),
      if_neg (by rw [h2]; decide), if_pos h2]
    unfold dir_location
    simp only
    rw [if_neg (by rw [hp]; decide), expect_of_type lbraceWhat hb]
    simp only [Result.bind]
    unfold parseLocation
    rw [hl]
    simp only
    rw [expect_of_type rbraceWhat hc]
    simp only
    have e1 : (locationBodyTokens body).length + 4
        = 3 + ((locationBodyTokens body).length + 1) := by omega
    rw [e1, advanceN_add, advanceN_succ_last]
    rfl

theorem parseServerLoop_complete (body : List ServerDirectiveForm) :
    (∀ d ∈ body, d.wellFormed = true) →
    ∀ (fuel : Nat) (srv : ServerBlock) (st : PState) (r : List Lexeme),
      (serverBodyTokens body).length < fuel →
      Reads st (serverBodyTokens body ++ rbraceLexeme :: r) →
      ∃ srv1, parseServerLoop fuel srv st
          = .ok srv1 (advanceN (serverBodyTokens body).length st)
        ∧ ((∀ d ∈ body, d.isListen = false) → srv1.listens = srv.listens) := by
  induction body with
  | nil =>
    intro _ fuel srv st r hf h
    obtain ⟨n, rfl⟩ : ∃ n, fuel = n + 1 := ⟨fuel - 1, by omega⟩
    have h1 : st.cur.type = T_RBRACE := (reads_cons h).1
    refine ⟨srv, ?_, fun _ => rfl⟩
    rw [parseServerLoop, if_neg (not_not.mpr h1)]
    rfl
  | cons d body ih =>
    intro hall fuel srv st r hf h
    obtain ⟨n, rfl⟩ : ∃ n, fuel = n + 1 := ⟨fuel - 1, by omega⟩
    have htok : serverBodyTokens (d :: body) = d.tokens ++ serverBodyTokens body := by
      simp [serverBodyTokens]
    rw [htok, List.length_append] at hf
    rw [htok, List.append_assoc] at h
    obtain ⟨k, ts, hk⟩ := serverDirective_tokens_head d
    have hpos : 1 ≤ d.tokens.length := by rw [hk]; simp
    have h1 : st.cur.type = T_IDENT := by
      rw [hk] at h
      exact (reads_kw h).1
    obtain ⟨srv1, hd, hl1⟩ := parseServerDirective_complete d
      (hall d (List.mem_cons_self _ _)) n (by omega) srv st _ h
    obtain ⟨srv2, hl, hl2⟩ := ih (fun x hx => hall x (List.mem_cons_of_mem _ hx)) n srv1
      (advanceN d.tokens.length st) r (by omega) (reads_append d.tokens h)
    refine ⟨srv2, ?_, ?_⟩
    · rw [parseServerLoop, if_pos (by rw [h1]; decide), if_neg (by rw [h1]; decide), hd]
      simp only [Result.bind]
      rw [hl, htok, List.length_append, advanceN_add]
    · intro hno
      rw [hl2 (fun x hx => hno x (List.mem_cons_of_mem _ hx)),
        hl1 (hno d (List.mem_cons_self _ _))]

theorem parseServer_complete (body : List ServerDirectiveForm)
    (hall : ∀ d ∈ body, d.wellFormed = true) (fuel : Nat) (st : PState) (r : List Lexeme)
    (hf : (serverTokens body).length ≤ fuel) (h : Reads st (serverTokens body ++ r)) :
    ∃ srv, parseServer fuel st = .ok srv (advanceN (serverTokens body).length st)
      ∧ ((∀ d ∈ body, d.isListen = false) → srv.listens = []) := by
  have hlen : (serverTokens body).length = (serverBodyTokens body).length + 3 := by
    simp [serverTokens]
  rw [hlen] at hf ⊢
  have h0 : Reads st (kw "server" :: lbraceLexeme
      :: (serverBodyTokens body ++ rbraceLexeme :: r)) := by
    have : serverTokens body ++ r
        = kw "server" :: lbraceLexeme :: (serverBodyTokens body ++ rbraceLexeme :: r) := by
      simp [serverTokens]
    rw [← this]; exact h
  obtain ⟨_, _, h1⟩ := reads_kw h0
  have hb : (advance st).cur.type = T_LBRACE := (reads_cons h1).1
  have h2 := (reads_cons h1).2.2
  obtain ⟨srv, hl, hno⟩ := parseServerLoop_complete body hall fuel {} (advance (advance st)) r
    (by omega) h2
  have h3 := reads_append (serverBodyTokens body) h2
  have hc : (advanceN (serverBodyTokens body).length (advance (advance st))).cur.type
      = T_RBRACE := (reads_cons h3).1
  refine ⟨srv, ?_, fun hn => (hno hn).trans rfl⟩
  unfold parseServer
  simp only
  rw [expect_of_type lbraceWhat hb]
  simp only [Result.bind]
  rw [hl]
  simp only
  rw [expect_of_type rbraceWhat hc]
  simp only
  have e1 : (serverBodyTokens body).length + 3 = 2 + ((serverBodyTokens body).length + 1) := by
    omega
  rw [e1, advanceN_add, advanceN_succ_last]
  rfl

theorem parseConfigLoop_complete (blocks : List (List ServerDirectiveForm)) :
    (∀ b ∈ blocks, ∀ d ∈ b, d.wellFormed = true) →
    ∀ (fuel : Nat) (cfg : Config) (st : PState),
      ((blocks.map serverTokens).flatten).length < fuel →
      Reads st ((blocks.map serverTokens).flatten ++ [eofLexeme]) →
      ∃ added st1, parseConfigLoop fuel cfg st = .ok { servers := cfg.servers ++ added } st1
        ∧ List.Forall₂ (fun b srv => (∀ d ∈ b, d.isListen = false) → srv.listens = [])
            blocks added := by
  induction blocks with
  | nil =>
    intro _ fuel cfg st hf h
    obtain ⟨n, rfl⟩ : ∃ n, fuel = n + 1 := ⟨fuel - 1, by omega⟩
    have h1 : st.cur.type = T_EOF := (reads_cons h).1
    refine ⟨[], st, ?_, List.Forall₂.nil⟩
    rw [parseConfigLoop, if_neg (not_not.mpr h1), List.append_nil]
  | cons b blocks ih =>
    intro hall fuel cfg st hf h
    obtain ⟨n, rfl⟩ : ∃ n, fuel = n + 1 := ⟨fuel - 1, by omega⟩
    have htok : ((b :: blocks).map serverTokens).flatten
        = serverTokens b ++ (blocks.map serverTokens).flatten := by simp
    rw [htok, List.length_append] at hf
    rw [htok, List.append_assoc] at h
    have hpos : 1 ≤ (serverTokens b).length := by simp [serverTokens]
    have h0 : Reads st (kw "server" :: (lbraceLexeme :: serverBodyTokens b ++ [rbraceLexeme]
        ++ ((blocks.map serverTokens).flatten ++ [eofLexeme]))) := h
    obtain ⟨h1, h2, _⟩ := reads_kw h0
    obtain ⟨srv, hs, hno⟩ := parseServer_complete b (hall b (List.mem_cons_self _ _)) n st _
      (by omega) h
    obtain ⟨added, st1, hl, hrel⟩ := ih (fun x hx => hall x (List.mem_cons_of_mem _ hx)) n
      (cfg.addServer srv) (advanceN (serverTokens b).length st) (by omega)
      (reads_append (serverTokens b) h)
    refine ⟨srv :: added, st1, ?_, List.Forall₂.cons hno hrel⟩
    rw [parseConfigLoop, if_pos (by rw [h1]; decide), if_pos ⟨h1, h2⟩, hs]
    simp only [Result.bind]
    rw [hl]
    simp [Config.addServer]

theorem listenless_server_of_blocks {blocks : List (List ServerDirectiveForm)}
    {servers : List ServerBlock}
    (hrel : List.Forall₂ (fun b srv => (∀ d ∈ b, d.isListen = false) → srv.listens = [])
      blocks servers)
    (hno : ∃ b ∈ blocks, ∀ d ∈ b, d.isListen = false) :
    ∃ srv ∈ servers, srv.listens = [] := by
  induction hrel with
  | nil =>
    obtain ⟨b, hb, _⟩ := hno
    exact absurd hb (List.not_mem_nil b)
  | cons hhead _ ih =>
    obtain ⟨b, hb, hd⟩ := hno
    rcases List.mem_cons.mp hb with rfl | hb1
    · exact ⟨_, List.mem_cons_self _ _, hhead hd⟩
    · obtain ⟨srv, hs, hl⟩ := ih ⟨b, hb1, hd⟩
      exact ⟨srv, List.mem_cons_of_mem _ hs, hl⟩

/-- Claim C6: a server block without a `listen` directive is a validation
failure, never a parse failure.  For every source whose token sequence is
that of a list of server blocks written in the grammar of the specification
(every directive with arguments of the kinds of its contract), parsing
succeeds for every large enough step budget, with one server per block in
order; a server whose block contains no `listen` directive has zero listen
entries; and when some block contains no `listen` directive,
`ConfigValidator::validate` fails with a `ValidationError` on the resulting
configuration for every base directory and every filesystem state. -/
theorem server_without_listen (content : Str) (blocks : List (List ServerDirectiveForm))
    (hform : ∀ b ∈ blocks, ∀ d ∈ b, d.wellFormed = true)
    (htok : lexemes (configTokens blocks).length (Lexer.load content) = configTokens blocks)
    (hno : ∃ b ∈ blocks, ∀ d ∈ b, d.isListen = false) :
    ∃ cfg : Config,
      (∃ N0 st1, ∀ N, N0 ≤ N → parseFile N content = .ok cfg st1)
      ∧ List.Forall₂ (fun b srv => (∀ d ∈ b, d.isListen = false) → srv.listens = [])
          blocks cfg.servers
      ∧ (∃ srv ∈ cfg.servers, srv.listens = [])
      ∧ ∀ (fs : FileSystem) (baseDir : Str),
          ∃ e : ValidationError, validate fs cfg baseDir = .error e := by
  have hr : Reads (initState content) ((blocks.map serverTokens).flatten ++ [eofLexeme]) := by
    have := reads_initState (configTokens blocks).length content
    rw [htok] at this
    exact this
  obtain ⟨added, st1, hp, hrel⟩ := parseConfigLoop_complete blocks hform
    (((blocks.map serverTokens).flatten).length + 1) {} (initState content)
    (Nat.lt_succ_self _) hr
  have hrel2 : List.Forall₂ (fun b srv => (∀ d ∈ b, d.isListen = false) → srv.listens = [])
      blocks ({ servers := ([] : List ServerBlock) ++ added } : Config).servers := by
    simpa using hrel
  obtain ⟨srv, hm, hl⟩ := listenless_server_of_blocks hrel2 hno
  refine ⟨{ servers := [] ++ added },
    ⟨((blocks.map serverTokens).flatten).length + 1, st1, ?_⟩, hrel2, ⟨srv, hm, hl⟩, ?_⟩
  · intro N hN
    have hmono := parseFile_mono hN content
    have h0 : parseFile (((blocks.map serverTokens).flatten).length + 1) content
        = .ok { servers := [] ++ added } st1 := hp
    rw [hmono (by rw [h0]; exact fun h => Result.noConfusion h), h0]
  · intro fs base
    exact validate_error_of_not_ok fs _ base (not_configOk_of_no_listen hm hl)

theorem server_without_listen_witness :
    (∀ b ∈ sampleNoListenBlocks, ∀ d ∈ b, d.wellFormed = true)
    ∧ lexemes (configTokens sampleNoListenBlocks).length (Lexer.load sampleNoListenSource)
        = configTokens sampleNoListenBlocks
    ∧ parseFile 20 sampleNoListenSource
        = .ok sampleNoListenConfig (advanceN 18 (initState sampleNoListenSource))
    ∧ (∃ srv, sampleNoListenConfig.servers[1]? = some srv ∧ srv.listens = [])
    ∧ (validate sampleFs sampleNoListenConfig []).isOk = false
    ∧ ∃ cfg : Config,
        (∃ N0 st1, ∀ N, N0 ≤ N → parseFile N sampleNoListenSource = .ok cfg st1)
        ∧ List.Forall₂ (fun b srv => (∀ d ∈ b, d.isListen = false) → srv.listens = [])
            sampleNoListenBlocks cfg.servers
        ∧ (∃ srv ∈ cfg.servers, srv.listens = [])
        ∧ ∀ (fs : FileSystem) (baseDir : Str),
            ∃ e : ValidationError, validate fs cfg baseDir = .error e :=
  ⟨by decide, by decide, by decide, ⟨_, rfl, rfl⟩, rfl,
   server_without_listen sampleNoListenSource sampleNoListenBlocks (by decide) (by decide)
     ⟨[.root (T_IDENT, "www".toList), .serverName (T_IDENT, "example.org".toList)],
      by decide, by decide⟩⟩

/-! ## Parsing does not depend on what the parser object did before -/

theorem loadOver_eq (lx : Lexer) (content : Str) : lx.loadOver content = Lexer.load content :=
  rfl

theorem advance_of_lex (lx : Lexer) (c1 c2 : Token) :
    advance { lex := lx, cur := c1 } = advance { lex := lx, cur := c2 } :=
  rfl

theorem parseFileOn_eq (p : PState) (fuel : Nat) (content : Str) :
    parseFileOn p fuel content = parseFile fuel content := by
  unfold parseFileOn parseFile initState
  rw [loadOver_eq]
  exact congrArg (parseConfig fuel) (advance_of_lex _ _ _)

/-- Claim C31: the parse result is a function of the source text alone.
`parseFile` called on a parser object in any state `p` (fresh, or left by an
earlier parse that returned or failed on another text) loads the text with
position 0 and line 1, and its first `advance` replaces the current token, so
the outcome is the one of a fresh parser: two parses of the same text from any
two prior states give the same outcome, the same `Config` or a `ParseError`
with the same line and message, and once a parse has finished within a step
budget every larger budget gives that same outcome. -/
theorem parse_function_of_source (p q : PState) (fuel : Nat) (content : Str) :
    (p.lex.loadOver content).pos = 0 ∧ (p.lex.loadOver content).line = 1
    ∧ (p.lex.loadOver content).src = bufferedText content
    ∧ parseFileOn p fuel content = parseFile fuel content
    ∧ parseFileOn p fuel content = parseFileOn q fuel content
    ∧ (∀ fuel2, fuel ≤ fuel2 → parseFileOn p fuel content ≠ .outOfFuel →
        parseFileOn q fuel2 content = parseFileOn p fuel content) := by
  refine ⟨rfl, rfl, load_src content, parseFileOn_eq p fuel content, ?_, ?_⟩
  · rw [parseFileOn_eq, parseFileOn_eq]
  · intro fuel2 hle hfin
    rw [parseFileOn_eq] at hfin ⊢
    rw [parseFileOn_eq]
    exact parseFile_mono hle content hfin

/-! ## The path prefix of a location -/

theorem parseLocationDirective_path_prefix {n : Nat} {loc loc1 : LocationBlock}
    {st st1 : PState} (h : parseLocationDirective n loc st = .ok loc1 st1) :
    loc1.path_prefix = loc.path_prefix := by
  rcases parseLocationDirective_cases h with
    ⟨_, h1⟩ | ⟨_, h1⟩ | ⟨_, h1⟩ | ⟨_, h1⟩ | ⟨_, h1⟩ | ⟨_, h1⟩ | ⟨_, h1⟩
  · exact (congrArg LocationBlock.path_prefix (loc_root_eq_ok h1)).trans rfl
  · exact (congrArg LocationBlock.path_prefix (loc_methods_frame h1)).trans rfl
  · exact (congrArg LocationBlock.path_prefix (loc_autoindex_frame h1)).trans rfl
  · exact (congrArg LocationBlock.path_prefix (loc_index_frame h1)).trans rfl
  · exact (congrArg LocationBlock.path_prefix (loc_upload_store_eq_ok h1)).trans rfl
  · exact (congrArg LocationBlock.path_prefix (loc_return_eq_ok h1)).trans rfl
  · exact (congrArg LocationBlock.path_prefix (loc_cgi_pass_eq_ok h1)).trans rfl

theorem parseLocationLoop_path_prefix {n : Nat} {loc loc2 : LocationBlock} {st st2 : PState}
    (h : parseLocationLoop n loc st = .ok loc2 st2) : loc2.path_prefix = loc.path_prefix := by
  induction n generalizing loc st with
  | zero => exact Result.noConfusion h
  | succ n ih =>
    rcases parseLocationLoop_succ_ok h with ⟨_, h2, _, _⟩ | ⟨_, _, loc1, st1, h3, h4, _⟩
    · rw [h2]
    · rw [ih h4, parseLocationDirective_path_prefix h3]

/-- Claim C36: for every location block that parses successfully, its
`path_prefix` is the text of the Identifier or String token that follows the
`location` keyword, whatever directives the block contains.  When the
`location` directive at `st` returns, the token after the keyword is an
Identifier or a String and the server has gained, at the end of its
locations, one location whose `path_prefix` is the text of that token; this
holds because `parseLocation` starts from the empty block with the prefix set
and no location directive that returns changes the prefix. -/
theorem location_prefix_from_token (fuel : Nat) (srv srv1 : ServerBlock) (st st1 : PState)
    (h : dir_location fuel srv st = .ok srv1 st1) :
    isIdentOrString (advance st).cur = true
    ∧ (∃ loc, srv1.locations = srv.locations ++ [loc]
        ∧ loc.path_prefix = (advance st).cur.text)
    ∧ (∀ (n : Nat) (pfx : Str) (s s1 : PState) (loc : LocationBlock),
        parseLocation n pfx s = .ok loc s1 → loc.path_prefix = pfx)
    ∧ (∀ (n : Nat) (loc loc1 : LocationBlock) (s s1 : PState),
        parseLocationDirective n loc s = .ok loc1 s1 → loc1.path_prefix = loc.path_prefix) := by
  have hall : ∀ (n : Nat) (pfx : Str) (s s1 : PState) (loc : LocationBlock),
      parseLocation n pfx s = .ok loc s1 → loc.path_prefix = pfx := by
    intro n pfx s s1 loc hp
    unfold parseLocation at hp
    exact parseLocationLoop_path_prefix hp
  refine ⟨?_, ?_, hall, fun n loc loc1 s s1 hd => parseLocationDirective_path_prefix hd⟩
  · cases hb : isIdentOrString (advance st).cur
    · unfold dir_location at h
      simp only [hb, Bool.not_false, if_true] at h
      exact Result.noConfusion h
    · rfl
  · obtain ⟨loc, st2, h1, h2⟩ := dir_location_eq_ok h
    exact ⟨loc, (congrArg ServerBlock.locations h2).trans rfl, hall _ _ _ _ _ h1⟩

theorem location_prefix_from_token_witness :
    ∃ loc, ({ locations := [{ path_prefix := "/".toList,
                               methods := ["GET".toList, "get".toList],
                               index_files := ["d.html".toList, "e.html".toList] }] }
              : ServerBlock).locations = [] ++ [loc]
      ∧ loc.path_prefix = "/".toList :=
  (location_prefix_from_token 10 {}
    { locations := [{ path_prefix := "/".toList, methods := ["GET".toList, "get".toList],
                      index_files := ["d.html".toList, "e.html".toList] }] }
    (advanceN 12 (initState sampleListsSource)) (advanceN 31 (initState sampleListsSource))
    (by decide)).2.1

/-! ## The order of the validation checks -/

theorem firstViolation_append (a b : List (Option Str)) :
    firstViolation (a ++ b)
      = match firstViolation a with
        | some m => some m
        | none => firstViolation b := by
  induction a with
  | nil => rfl
  | cons x a ih =>
    cases x with
    | none => exact ih
    | some m => rfl

theorem firstViolation_mem {l : List (Option Str)} {m : Str}
    (h : firstViolation l = some m) : some m ∈ l := by
  induction l with
  | nil => exact Option.noConfusion h
  | cons x l ih =>
    cases x with
    | none => exact List.mem_cons_of_mem _ (ih h)
    | some k =>
      have hk : k = m := Option.some.inj h
      rw [hk]
      exact List.mem_cons_self _ _

theorem validatePortsLoop_eq_checks (i : Nat) (l : List ListenEntry) :
    validatePortsLoop i l = outcomeOf (firstViolation (l.map (portCheck i))) := by
  induction l with
  | nil => rfl
  | cons e r ih =>
    unfold validatePortsLoop
    rw [List.map_cons]
    by_cases hp : 1 ≤ e.port ∧ e.port ≤ 65535
    · have hv : isValidPort e.port = true := by
        unfold isValidPort; simp [hp.1, hp.2]
      have hc : portCheck i e = none := by unfold portCheck; rw [if_pos hp]
      simp only [hv, Bool.not_true, Bool.false_eq_true, if_false]
      rw [ih, hc]
      rfl
    · have hv : isValidPort e.port = false := by
        unfold isValidPort
        by_contra hne
        simp only [Bool.not_eq_false, Bool.and_eq_true, decide_eq_true_eq] at hne
        exact hp hne
      have hc : portCheck i e = some (serverTag i ++ ": invalid port ".toList
          ++ toStringSizeT (intToSizeT e.port)) := by unfold portCheck; rw [if_neg hp]
      simp only [hv, Bool.not_false, if_true]
      rw [hc]
      rfl

theorem validateErrorPagesLoop_eq_checks (fs : FileSystem) (root : Str) (i : Nat)
    (l : List (Int × Str)) :
    validateErrorPagesLoop fs root i l
      = outcomeOf (firstViolation (l.map (errorPageCheck fs root i))) := by
  induction l with
  | nil => rfl
  | cons e r ih =>
    unfold validateErrorPagesLoop
    simp only
    rw [errorPage_underRoot, List.map_cons]
    by_cases hf : fs (errorPageFile root e.2) = FileKind.regular
    · have hc : errorPageCheck fs root i e = none := by unfold errorPageCheck; rw [if_pos hf]
      have hn : ¬ (!pathExists fs (errorPageFile root e.2)
          || !isFile fs (errorPageFile root e.2)) = true := by
        rw [not_file_check]; exact not_not.mpr hf
      rw [if_neg hn, ih, hc]
      rfl
    · have hc : errorPageCheck fs root i e
          = some (serverTag i ++ ": error_page ".toList ++ intToString e.1
              ++ " points to missing file: ".toList ++ errorPageFile root e.2) := by
        unfold errorPageCheck; rw [if_neg hf]
      have hn : (!pathExists fs (errorPageFile root e.2)
          || !isFile fs (errorPageFile root e.2)) = true := by
        rw [not_file_check]; exact hf
      rw [if_pos hn, hc]
      rfl

theorem validateLocationsLoop_eq_checks (fs : FileSystem) (root : Str) (i : Nat)
    (l : List LocationBlock) :
    validateLocationsLoop fs root i l
      = outcomeOf (firstViolation ((l.map (locationChecks fs root i)).flatten)) := by
  induction l with
  | nil => rfl
  | cons loc r ih =>
    unfold validateLocationsLoop
    simp only
    rw [lroot_eq, List.map_cons, List.flatten_cons, firstViolation_append]
    unfold locationChecks
    by_cases hd : fs (locationRoot root loc) = FileKind.directory
    · have hn : ¬ (!pathExists fs (locationRoot root loc)
          || !isDir fs (locationRoot root loc)) = true := by
        rw [not_dir_check]; exact not_not.mpr hd
      rw [if_neg hn, if_pos hd]
      by_cases hu : loc.upload_store = []
      · have hue : (!loc.upload_store.isEmpty) = false := by rw [hu]; rfl
        rw [hue, if_pos (Or.inl hu)]
        simp only [Bool.false_eq_true, if_false]
        exact ih
      · have hue : (!loc.upload_store.isEmpty) = true := by
          cases h : loc.upload_store with
          | nil => exact absurd h hu
          | cons c t => rfl
        rw [hue]
        simp only [if_true]
        by_cases hup : fs (normalizeRoot (locationRoot root loc) loc.upload_store)
            = FileKind.directory
        · have hn2 : ¬ (!pathExists fs (normalizeRoot (locationRoot root loc) loc.upload_store)
              || !isDir fs (normalizeRoot (locationRoot root loc) loc.upload_store)) = true := by
            rw [not_dir_check]; exact not_not.mpr hup
          rw [if_neg hn2, if_pos (Or.inr hup)]
          exact ih
        · have hn2 : (!pathExists fs (normalizeRoot (locationRoot root loc) loc.upload_store)
              || !isDir fs (normalizeRoot (locationRoot root loc) loc.upload_store)) = true := by
            rw [not_dir_check]; exact hup
          rw [if_pos hn2, if_neg (by rintro (h | h); exact hu h; exact hup h)]
          rfl
    · have hn : (!pathExists fs (locationRoot root loc)
          || !isDir fs (locationRoot root loc)) = true := by
        rw [not_dir_check]; exact hd
      rw [if_pos hn, if_neg hd]
      rfl

theorem validateServer_eq_checks (fs : FileSystem) (srv : ServerBlock) (i : Nat) (base : Str) :
    validateServer fs srv i base = outcomeOf (firstViolation (serverChecks fs base i srv)) := by
  unfold validateServer serverChecks validateErrorPages validateLocations
  rw [List.append_assoc, List.append_assoc, List.append_assoc, firstViolation_append]
  by_cases hl : srv.listens = []
  · have hle : srv.listens.isEmpty = true := by rw [hl]; rfl
    rw [hle, if_pos rfl, if_pos hl]
    rfl
  · have hle : srv.listens.isEmpty = false := by
      cases h : srv.listens with
      | nil => exact absurd h hl
      | cons c t => rfl
    rw [hle, if_neg hl]
    simp only [Bool.false_eq_true, if_false]
    rw [show firstViolation [none] = none from rfl]
    simp only
    rw [firstViolation_append, validatePortsLoop_eq_checks]
    cases hp : firstViolation (srv.listens.map (portCheck i)) with
    | some m => rfl
    | none =>
      simp only [outcomeOf]
      rw [firstViolation_append]
      by_cases he : normalizeRoot base srv.root = []
      · have hee : (normalizeRoot base srv.root).isEmpty = true := by rw [he]; rfl
        rw [hee, if_pos rfl, if_pos he]
        rfl
      · have hee : (normalizeRoot base srv.root).isEmpty = false := by
          cases h : normalizeRoot base srv.root with
          | nil => exact absurd h he
          | cons c t => rfl
        rw [hee, if_neg he]
        simp only [Bool.false_eq_true, if_false]
        by_cases hd : fs (normalizeRoot base srv.root) = FileKind.directory
        · have hn : ¬ (!pathExists fs (normalizeRoot base srv.root)
              || !isDir fs (normalizeRoot base srv.root)) = true := by
            rw [not_dir_check]; exact not_not.mpr hd
          rw [if_neg hn, if_pos hd]
          rw [show firstViolation [none, (none : Option Str)] = none from rfl]
          simp only
          rw [firstViolation_append, validateErrorPagesLoop_eq_checks,
            validateLocationsLoop_eq_checks]
          cases hep : firstViolation
              (srv.error_pages.map (errorPageCheck fs (normalizeRoot base srv.root) i)) with
          | some m => rfl
          | none => rfl
        · have hn : (!pathExists fs (normalizeRoot base srv.root)
              || !isDir fs (normalizeRoot base srv.root)) = true := by
            rw [not_dir_check]; exact hd
          rw [if_pos hn, if_neg hd]
          rfl

theorem validateServersLoop_eq_checks (fs : FileSystem) (base : Str) (i : Nat)
    (l : List ServerBlock) :
    validateServersLoop fs base i l = outcomeOf (firstViolation (serversChecks fs base i l)) := by
  induction l generalizing i with
  | nil => rfl
  | cons s r ih =>
    unfold validateServersLoop serversChecks
    rw [firstViolation_append, validateServer_eq_checks]
    cases hs : firstViolation (serverChecks fs base i s) with
    | some m => rfl
    | none => exact ih (i + 1)

/-- Claim C35: validation reports only the first failing check, in a fixed
order.  For a configuration with servers the outcome of `validate` is the
first failing check of the list `serversChecks`, which runs through the
servers in declaration order and, within a server, through the zero-listen
check, the listen ports in declaration order, the empty-root check, the
root-is-a-directory check, the error pages in the order of the map (ascending
status codes), and the locations in declaration order, each with its root
check before its upload-store check; `validate` succeeds when no check of the
list fails.  So with several violations the message is that of the earliest
one. -/
theorem validate_first_violation (fs : FileSystem) (cfg : Config) (baseDir : Str) :
    validate fs cfg baseDir = expectedOutcome fs cfg baseDir
    ∧ (∀ (st st1 : PState) (fuel : Nat) (srv : ServerBlock),
        parseServer fuel st = .ok srv st1 → KeysSorted srv.error_pages) := by
  constructor
  · unfold validate expectedOutcome
    by_cases h : cfg.servers = []
    · rw [h]; rfl
    · have he : cfg.servers.isEmpty = false := by
        cases hs : cfg.servers with
        | nil => exact absurd hs h
        | cons c t => rfl
      rw [he, if_neg h]
      simp only [Bool.false_eq_true, if_false]
      exact validateServersLoop_eq_checks fs baseDir 0 cfg.servers
  · intro st st1 fuel srv hp
    obtain ⟨st3, _, h2, _, _⟩ := parseServer_eq_ok hp
    rw [parseServerLoop_error_pages h2]
    exact assignAll_sorted _ List.Pairwise.nil

theorem validate_first_violation_witness :
    validate sampleFs sampleManyViolations []
        = .error { msg := "Server #1: no \x27listen\x27 directives".toList }
    ∧ validate sampleFs samplePortAndRoot []
        = .error { msg := "Server #0: invalid port 70000".toList } :=
  ⟨(validate_first_violation sampleFs sampleManyViolations []).1.trans rfl,
   (validate_first_violation sampleFs samplePortAndRoot []).1.trans rfl⟩

/-! ## What a validation message names -/

theorem outcomeOf_eq_error {o : Option Str} {e : ValidationError}
    (h : outcomeOf o = .error e) : o = some e.msg := by
  cases o with
  | none => exact Except.noConfusion h
  | some m =>
    have : ({ msg := m } : ValidationError) = e := Except.error.inj h
    rw [← this]

theorem joinPath_ne_nil (a b : Str) (ha : a ≠ []) : joinPath a b ≠ [] := by
  have hae : a.isEmpty = false := by cases a <;> simp_all
  unfold joinPath
  rw [hae]
  simp only [Bool.false_eq_true, if_false]
  split
  · exact ha
  · split
    · simp [ha]
    · simp

theorem normalizeRoot_ne_nil (base root : Str) (hb : base ≠ []) :
    normalizeRoot base root ≠ [] := by
  rw [normalizeRoot_eq, if_neg hb]
  split
  · rename_i h
    intro hr
    rw [hr] at h
    exact absurd h (by decide)
  · exact joinPath_ne_nil base root hb

theorem normalizeRoot_nil (base : Str) (hb : base ≠ []) : normalizeRoot base [] = base := by
  rw [normalizeRoot_eq, if_neg hb, if_neg (by decide)]
  have hae : base.isEmpty = false := by cases base <;> simp_all
  unfold joinPath
  rw [hae]
  rfl

theorem msg_ne_root_empty (t : Str) (c : Char) (x : Str) (hc : c ≠ '\x27') :
    t ++ (':' :: ' ' :: c :: x) ≠ t ++ ": \x27root\x27 is empty".toList := by
  intro h
  have h2 := congrArg (fun l : Str => l.getD 2 ' ') (List.append_cancel_left h)
  exact hc h2

theorem location_msg_ne_root_empty (t x : Str) :
    t ++ (' ' :: x) ≠ t ++ ": \x27root\x27 is empty".toList := by
  intro h
  have h2 : ' ' = ':' := congrArg (fun l : Str => l.getD 0 'x') (List.append_cancel_left h)
  exact absurd h2 (by decide)

/-- With a non-empty base directory no check of a server has the message
"'root' is empty". -/
theorem serverChecks_no_root_empty (fs : FileSystem) (base : Str) (i : Nat)
    (srv : ServerBlock) (hb : base ≠ []) :
    some (serverTag i ++ ": \x27root\x27 is empty".toList) ∉ serverChecks fs base i srv := by
  intro h
  unfold serverChecks at h
  rcases List.mem_append.mp h with h | h
  · rcases List.mem_append.mp h with h | h
    · rcases List.mem_append.mp h with h | h
      · rcases List.mem_append.mp h with h | h
        · have h1 := List.mem_singleton.mp h
          split at h1
          · exact msg_ne_root_empty _ 'n' _ (by decide) (Option.some.inj h1).symm
          · exact Option.noConfusion h1
        · obtain ⟨e, _, he⟩ := List.mem_map.mp h
          unfold portCheck at he
          split at he
          · exact Option.noConfusion he
          · have h2 := Option.some.inj he
            rw [List.append_assoc] at h2
            exact msg_ne_root_empty _ 'i' _ (by decide) h2
      · rcases List.mem_cons.mp h with h1 | h1
        · split at h1
          · rename_i hr
            exact normalizeRoot_ne_nil base srv.root hb hr
          · exact Option.noConfusion h1
        · have h2 := List.mem_singleton.mp h1
          split at h2
          · exact Option.noConfusion h2
          · have h3 := (Option.some.inj h2).symm
            rw [List.append_assoc] at h3
            exact msg_ne_root_empty _ 'r' _ (by decide) h3
    · obtain ⟨e, _, he⟩ := List.mem_map.mp h
      unfold errorPageCheck at he
      split at he
      · exact Option.noConfusion he
      · have h2 := Option.some.inj he
        rw [List.append_assoc, List.append_assoc, List.append_assoc] at h2
        exact msg_ne_root_empty _ 'e' _ (by decide) h2
  · obtain ⟨l, hl, hm⟩ := List.mem_flatten.mp h
    obtain ⟨loc, _, rfl⟩ := List.mem_map.mp hl
    unfold locationChecks at hm
    rcases List.mem_cons.mp hm with h1 | h1
    · split at h1
      · exact Option.noConfusion h1
      · have h2 := (Option.some.inj h1).symm
        unfold locationTag at h2
        simp only [List.append_assoc] at h2
        exact location_msg_ne_root_empty _ _ h2
    · have h1 := List.mem_singleton.mp h1
      split at h1
      · exact Option.noConfusion h1
      · have h2 := (Option.some.inj h1).symm
        unfold locationTag at h2
        simp only [List.append_assoc] at h2
        exact location_msg_ne_root_empty _ _ h2

/-- Claim C39: with a non-empty base directory `normalizeRoot` never returns
the empty string, so the rejection "'root' is empty" of `validateServer` can
occur only when the base directory is empty.  A server that declares no root
has the base directory itself as effective root: it is validated exactly as
the same server with the base directory as declared root and no base
directory, and it passes when its listen entries are valid, the base directory
is an existing directory and its error pages and locations are valid under
the base directory. -/
theorem root_empty_only_without_base (baseDir : Str) (hb : baseDir ≠ []) :
    (∀ root : Str, normalizeRoot baseDir root ≠ [])
    ∧ (∀ (fs : FileSystem) (srv : ServerBlock) (i : Nat),
        validateServer fs srv i baseDir
          ≠ .error { msg := serverTag i ++ ": \x27root\x27 is empty".toList })
    ∧ (∀ (fs : FileSystem) (srv : ServerBlock) (i : Nat), srv.root = [] →
        validateServer fs srv i baseDir = validateServer fs { srv with root := baseDir } i []
        ∧ (validateServer fs srv i baseDir = .ok () ↔
            (srv.listens ≠ []
              ∧ (∀ e ∈ srv.listens, 1 ≤ e.port ∧ e.port ≤ 65535)
              ∧ ExistingDir fs baseDir
              ∧ (∀ e ∈ srv.error_pages, ExistingFile fs (errorPageFile baseDir e.2))
              ∧ ∀ loc ∈ srv.locations, LocationOk fs baseDir loc))) := by
  refine ⟨fun root => normalizeRoot_ne_nil baseDir root hb, ?_, ?_⟩
  · intro fs srv i h
    rw [validateServer_eq_checks] at h
    exact serverChecks_no_root_empty fs baseDir i srv hb
      (firstViolation_mem (outcomeOf_eq_error h))
  · intro fs srv i hr
    constructor
    · unfold validateServer validateErrorPages validateLocations
      simp only [hr, normalizeRoot_nil baseDir hb]
      rfl
    · rw [validateServer_ok_iff]
      unfold ServerOk ServerLevelOk
      rw [hr, normalizeRoot_nil baseDir hb]
      constructor
      · rintro ⟨⟨h1, h2, _, h4, h5⟩, h6⟩
        exact ⟨h1, h2, h4, h5, h6⟩
      · rintro ⟨h1, h2, h4, h5, h6⟩
        exact ⟨⟨h1, h2, hb, h4, h5⟩, h6⟩

theorem root_empty_only_without_base_witness :
    normalizeRoot "www".toList [] = "www".toList
    ∧ validateServer sampleFs sampleServerNoRoot 0 "www".toList = .ok ()
    ∧ validateServer sampleFs sampleServerNoRoot 0 []
        = .error { msg := "Server #0: \x27root\x27 is empty".toList } :=
  ⟨(normalizeRoot_nil "www".toList (by decide)),
   (((root_empty_only_without_base "www".toList (by decide)).2.2 sampleFs sampleServerNoRoot 0
      rfl).2).mpr ⟨by decide, by decide, by unfold ExistingDir; decide,
        fun e he => absurd he (List.not_mem_nil e),
        fun loc hl => absurd hl (List.not_mem_nil loc)⟩,
   rfl⟩

/-! ## The text of a rejected port -/

theorem intToSizeT_of_nonneg (p : Int) (h0 : 0 ≤ p) (h1 : p < 18446744073709551616) :
    intToSizeT p = p.natAbs := by
  unfold intToSizeT
  rw [Int.emod_eq_of_lt h0 h1]
  exact Int.toNat_of_nonneg h0 |> fun h => by omega

theorem toStringSizeT_of_nonneg (p : Int) (h0 : 0 ≤ p) (h1 : p < 18446744073709551616) :
    toStringSizeT (intToSizeT p) = intToString p := by
  rw [intToSizeT_of_nonneg p h0 h1]
  unfold toStringSizeT intToString
  rw [if_neg (by omega)]

/-- Claim C40 (refuted by the code for negative ports): the source
`server { listen 0.0.0.0:-1; }` parses to a server with the listen port -1,
and `validate` rejects it with the message
"Server #0: invalid port 18446744073709551615", not "Server #0: invalid port
-1": the `int` port is passed to `toStringSizeT(size_t)` and printed as an
unsigned 64-bit number.  For a rejected port that is not negative the text is
the decimal representation of the port. -/
theorem negative_port_message :
    parseFile 20 sampleNegativePortSource
        = .ok { servers := [{ listens := [⟨"0.0.0.0".toList, -1⟩] }] }
            (advanceN 6 (initState sampleNegativePortSource))
    ∧ validate sampleFs { servers := [{ listens := [⟨"0.0.0.0".toList, -1⟩] }] } []
        = .error { msg := "Server #0: invalid port 18446744073709551615".toList }
    ∧ intToString (-1) = "-1".toList
    ∧ (∀ (i : Nat) (h : Str) (p : Int) (rest : List ListenEntry),
        ¬ (1 ≤ p ∧ p ≤ 65535) →
        validatePortsLoop i (⟨h, p⟩ :: rest)
          = .error { msg := serverTag i ++ ": invalid port ".toList
                       ++ toStringSizeT (intToSizeT p) })
    ∧ (∀ p : Int, 0 ≤ p → p < 18446744073709551616 →
        toStringSizeT (intToSizeT p) = intToString p) := by
  refine ⟨by decide, rfl, rfl, ?_, toStringSizeT_of_nonneg⟩
  intro i h p rest hbad
  rw [validatePortsLoop_eq_checks, List.map_cons]
  have hc : portCheck i ⟨h, p⟩ = some (serverTag i ++ ": invalid port ".toList
      ++ toStringSizeT (intToSizeT p)) := by
    unfold portCheck
    rw [if_neg hbad]
  rw [hc]
  rfl

/-! ## A call of `next` that reads nothing -/

/-- Claim C38 (refuted by the code): at the character `@` the lexer returns
an Identifier token with empty text and does not move, so the next call
returns the same token from the same position; so does the lexer that has
loaded a file with the content `@;`.  The same happens at every
character that is not white space, not `#`, not a brace, a semicolon or a
quote, and not an identifier character. -/
theorem next_without_progress :
    (lexerAt "@;".toList).next
        = ({ type := T_IDENT, text := [], line := 1 }, lexerAt "@;".toList)
    ∧ (lexerAt "@;".toList).next.2.pos = 0
    ∧ (lexerAt "@;".toList).next.2.next.1 = (lexerAt "@;".toList).next.1
    ∧ (Lexer.load "@;\n".toList).next
        = ({ type := T_IDENT, text := [], line := 1 }, Lexer.load "@;\n".toList)
    ∧ (∀ (lx : Lexer) (c : Char) (t : Str), lx.rest = c :: t →
        isspace c = false → isIdentChar c = false →
        c ≠ '\x7b' → c ≠ '\x7d' → c ≠ ';' → c ≠ '\x22' → c ≠ '#' →
        lx.next = ({ type := T_IDENT, text := [], line := lx.line }, lx)) := by
  have h : (lexerAt "@;".toList).next
      = ({ type := T_IDENT, text := [], line := 1 }, lexerAt "@;".toList) :=
    next_stuck (c := '@') (t := ";".toList) rfl (by decide) (by decide) (by decide) (by decide)
      (by decide) (by decide) (by decide)
  refine ⟨h, ?_, ?_, ?_, ?_⟩
  · rw [h]; rfl
  · rw [h]
    show (lexerAt "@;".toList).next.1 = _
    rw [h]
  · exact next_stuck (c := '@') (t := ";\n".toList) (by decide) (by decide) (by decide)
      (by decide) (by decide) (by decide) (by decide) (by decide)
  · intro lx c t h0 h1 h2 h3 h4 h5 h6 h7
    exact next_stuck h0 h1 h2 h3 h4 h5 h6 h7

/-! ## Directory requests -/

namespace DirectoryResolver

theorem fileExists_iff (fs : FileSystem) (p : Str) :
    fileExists fs p = true ↔ ExistingFile fs p := by
  unfold fileExists ExistingFile
  cases h : fs p <;> simp

theorem findIndexFile_found (fs : FileSystem) (dir : Str) (pre : List Str) (name : Str)
    (post : List Str)
    (hpre : ∀ n ∈ pre, ¬ ExistingFile fs (joinPath dir n))
    (hname : ExistingFile fs (joinPath dir name)) :
    findIndexFile fs dir (pre ++ name :: post) = some (joinPath dir name) := by
  induction pre with
  | nil =>
    unfold findIndexFile
    simp only [List.nil_append]
    rw [if_pos ((fileExists_iff fs _).mpr hname)]
  | cons n r ih =>
    rw [List.cons_append, findIndexFile]
    have hn : ¬ fileExists fs (joinPath dir n) = true := fun h =>
      hpre n (List.mem_cons_self _ _) ((fileExists_iff fs _).mp h)
    rw [if_neg hn]
    exact ih (fun m hm => hpre m (List.mem_cons_of_mem _ hm))

theorem findIndexFile_none (fs : FileSystem) (dir : Str) (l : List Str)
    (hall : ∀ n ∈ l, ¬ ExistingFile fs (joinPath dir n)) :
    findIndexFile fs dir l = none := by
  induction l with
  | nil => rfl
  | cons n r ih =>
    rw [findIndexFile]
    have hn : ¬ fileExists fs (joinPath dir n) = true := fun h =>
      hall n (List.mem_cons_self _ _) ((fileExists_iff fs _).mp h)
    rw [if_neg hn]
    exact ih (fun m hm => hall m (List.mem_cons_of_mem _ hm))

end DirectoryResolver

/-- Claim C34: `resolveDirectoryRequest` returns `ServeIndexFile`, with
`file_path` the directory joined with the first name of the index list (in
list order) whose joined path is an existing regular file, whenever there is
such a name, whatever `autoindexOn` is; when there is none it returns
`ServeAutoIndex` if `autoindexOn` is true and `Forbidden` if it is false. -/
theorem resolveDirectoryRequest_spec (fs : FileSystem) (gen : Str → Str → Str)
    (dir url : Str) (indexList : List Str) (autoindexOn : Bool) :
    (∀ (pre : List Str) (name : Str) (post : List Str),
        indexList = pre ++ name :: post →
        (∀ n ∈ pre, ¬ ExistingFile fs (DirectoryResolver.joinPath dir n)) →
        ExistingFile fs (DirectoryResolver.joinPath dir name) →
        (DirectoryResolver.resolveDirectoryRequest fs gen dir url indexList autoindexOn).decision
            = DirDecision.ServeIndexFile
        ∧ (DirectoryResolver.resolveDirectoryRequest fs gen dir url indexList
              autoindexOn).file_path
            = DirectoryResolver.joinPath dir name)
    ∧ ((∀ n ∈ indexList, ¬ ExistingFile fs (DirectoryResolver.joinPath dir n)) →
        (DirectoryResolver.resolveDirectoryRequest fs gen dir url indexList autoindexOn).decision
          = (if autoindexOn = true then DirDecision.ServeAutoIndex else DirDecision.Forbidden)
        ∧ (DirectoryResolver.resolveDirectoryRequest fs gen dir url indexList
              autoindexOn).file_path = []) := by
  constructor
  · intro pre name post hl hpre hname
    unfold DirectoryResolver.resolveDirectoryRequest
    rw [hl, DirectoryResolver.findIndexFile_found fs dir pre name post hpre hname]
    exact ⟨rfl, rfl⟩
  · intro hall
    unfold DirectoryResolver.resolveDirectoryRequest
    rw [DirectoryResolver.findIndexFile_none fs dir indexList hall]
    cases autoindexOn
    · exact ⟨rfl, rfl⟩
    · exact ⟨rfl, rfl⟩

theorem resolveDirectoryRequest_spec_witness :
    ((DirectoryResolver.resolveDirectoryRequest sampleFsIndex (fun _ _ => []) "www".toList
        "/".toList ["index.html".toList, "index.htm".toList, "home.html".toList] false).decision
        = DirDecision.ServeIndexFile
      ∧ (DirectoryResolver.resolveDirectoryRequest sampleFsIndex (fun _ _ => []) "www".toList
        "/".toList ["index.html".toList, "index.htm".toList, "home.html".toList] false).file_path
        = "www/index.htm".toList)
    ∧ (DirectoryResolver.resolveDirectoryRequest sampleFsIndex (fun _ _ => []) "www".toList
        "/".toList ["index.html".toList] true).decision = DirDecision.ServeAutoIndex
    ∧ (DirectoryResolver.resolveDirectoryRequest sampleFsIndex (fun _ _ => []) "www".toList
        "/".toList ["index.html".toList] false).decision = DirDecision.Forbidden :=
  ⟨(resolveDirectoryRequest_spec sampleFsIndex (fun _ _ => []) "www".toList "/".toList
      ["index.html".toList, "index.htm".toList, "home.html".toList] false).1
      ["index.html".toList] "index.htm".toList ["home.html".toList] rfl
      (by unfold ExistingFile; decide) (by unfold ExistingFile; decide),
   ((resolveDirectoryRequest_spec sampleFsIndex (fun _ _ => []) "www".toList "/".toList
      ["index.html".toList] true).2 (by unfold ExistingFile; decide)).1,
   ((resolveDirectoryRequest_spec sampleFsIndex (fun _ _ => []) "www".toList "/".toList
      ["index.html".toList] false).2 (by unfold ExistingFile; decide)).1⟩

/-! ## Path resolution -/

theorem splitPathLoop_nil (d : Char) (n : Nat) (parts : List Str) :
    splitPathLoop d n [] parts = parts := by
  cases n <;> rfl

theorem splitPathLoop_acc (d : Char) (n : Nat) :
    ∀ (inp : Str) (parts : List Str),
      splitPathLoop d n inp parts = parts ++ splitPathLoop d n inp [] := by
  induction n with
  | zero => intro inp parts; simp [splitPathLoop]
  | succ n ih =>
    intro inp parts
    rw [splitPathLoop, splitPathLoop]
    cases getlineDelim d inp with
    | none => simp
    | some r =>
      simp only
      rw [ih r.2 (parts ++ [r.1]), ih r.2 ([] ++ [r.1])]
      simp

theorem getlineDelim_cons (d c : Char) (t : Str) :
    getlineDelim d (c :: t)
      = some ((c :: t).takeWhile (fun x => x != d),
              ((c :: t).dropWhile (fun x => x != d)).drop 1) := rfl

/-- The pieces read by `splitPath` are the pieces of a split on the
delimiter, except that a final empty piece is not read. -/
theorem splitOn_eq_splitPathLoop (d : Char) (n : Nat) :
    ∀ (inp : Str), inp.length ≤ n →
      ∃ extra, inp.splitOn d = splitPathLoop d n inp [] ++ extra
        ∧ (extra = [] ∨ extra = [[]]) := by
  induction n with
  | zero =>
    intro inp h
    have : inp = [] := List.length_eq_zero.mp (Nat.le_zero.mp h)
    subst this
    exact ⟨[[]], rfl, Or.inr rfl⟩
  | succ n ih =>
    intro inp h
    cases inp with
    | nil => exact ⟨[[]], rfl, Or.inr rfl⟩
    | cons c t =>
      rw [splitPathLoop, getlineDelim_cons]
      simp only
      have hsplit := List.takeWhile_append_dropWhile (fun x => x != d) (c :: t)
      have htw : ∀ x ∈ (c :: t).takeWhile (fun x => x != d), ¬ ((fun y => y == d) x = true) := by
        intro x hx hxd
        have := List.mem_takeWhile_imp hx
        simp only [bne_iff_ne, ne_eq] at this
        exact this (by simpa using hxd)
      cases hdw : (c :: t).dropWhile (fun x => x != d) with
      | nil =>
        rw [hdw, List.append_nil] at hsplit
        rw [hsplit] at htw ⊢
        refine ⟨[], ?_, Or.inl rfl⟩
        rw [List.drop_nil, splitPathLoop_nil, List.append_nil]
        exact List.splitOnP_eq_single (fun y => y == d) _ htw
      | cons x r =>
        have hx : x = d := by
          have h1 := List.head_dropWhile_not (fun y => y != d) (c :: t)
            (by rw [hdw]; exact List.cons_ne_nil _ _)
          simp only [hdw, List.head_cons] at h1
          simpa using h1
        subst hx
        rw [hdw] at hsplit
        have hlen : r.length ≤ n := by
          have := congrArg List.length hsplit
          simp only [List.length_append, List.length_cons] at this
          simp only [List.length_cons] at h
          omega
        obtain ⟨extra, he, hex⟩ := ih r hlen
        refine ⟨extra, ?_, hex⟩
        rw [List.drop_one, List.tail_cons, splitPathLoop_acc, List.nil_append,
          List.append_assoc, ← he]
        have h2 : (c :: t).splitOn x
            = ((c :: t).takeWhile (fun y => y != x) ++ x :: r).splitOn x := by rw [hsplit]
        rw [h2]
        exact List.splitOnP_first (fun y => y == x) _ htw x (beq_self_eq_true x) r

theorem resolveSegments_eq_foldl (l : List Str) :
    ∀ stack : List Str,
      resolveSegments l stack
        = l.foldl
            (fun kept s =>
              if s = [] ∨ s = ['.'] then kept
              else if s = ['.', '.'] then kept.dropLast
              else kept ++ [s])
            stack := by
  induction l with
  | nil => intro stack; rfl
  | cons s r ih =>
    intro stack
    rw [resolveSegments, List.foldl_cons]
    by_cases h1 : s = [] ∨ s = ['.']
    · rw [if_pos h1, if_pos (by rcases h1 with h | h <;> simp [h])]
      exact ih stack
    · rw [if_neg h1, if_neg (by
        intro hh
        simp only [Bool.or_eq_true, List.isEmpty_iff, decide_eq_true_eq] at hh
        exact h1 hh)]
      by_cases h2 : s = ['.', '.']
      · rw [if_pos h2, if_pos h2, ih]
        cases stack <;> simp
      · rw [if_neg h2, if_neg h2]
        exact ih _

theorem resolveSegments_append (l1 l2 : List Str) (stack : List Str) :
    resolveSegments (l1 ++ l2) stack = resolveSegments l2 (resolveSegments l1 stack) := by
  rw [resolveSegments_eq_foldl, resolveSegments_eq_foldl, resolveSegments_eq_foldl,
    List.foldl_append]

theorem resolveSegments_splitPath (req : Str) :
    resolveSegments (splitPath req '/') [] = normalisedSegments req := by
  obtain ⟨extra, he, hex⟩ := splitOn_eq_splitPathLoop '/' req.length req (Nat.le_refl _)
  unfold normalisedSegments
  rw [← resolveSegments_eq_foldl, he, resolveSegments_append]
  rcases hex with h | h <;> subst h <;> rfl

theorem cleanRoot_eq (root : Str) :
    (if (!root.isEmpty && root.getD (root.length - 1) '\x00' == '/') = true then
        root.take (root.length - 1)
      else root) = stripOneSlash root := by
  unfold stripOneSlash
  rw [← List.dropLast_eq_take, List.getLast?_eq_getElem?]
  cases root with
  | nil => rfl
  | cons c t =>
    have hlt : (c :: t).length - 1 < (c :: t).length := by simp
    simp only [List.isEmpty_cons, Bool.not_false, Bool.true_and, beq_iff_eq]
    rw [List.getD_eq_getElem _ _ hlt, List.getElem?_eq_getElem hlt]
    simp

theorem foldl_segments (segs : List Str) :
    ∀ acc : Str,
      segs.foldl (fun oss seg => oss ++ ['/'] ++ seg) acc
        = acc ++ (segs.map (fun s => '/' :: s)).flatten := by
  induction segs with
  | nil => intro acc; simp
  | cons s r ih => intro acc; rw [List.foldl_cons, ih]; simp

theorem resolvePath_eq (root req : Str) (h : root ≠ []) :
    resolvePath root req = .ok (resolvePathSpec root req) := by
  unfold resolvePath resolvePathSpec
  rw [if_neg (by simpa using h)]
  simp only
  rw [cleanRoot_eq, resolveSegments_splitPath, foldl_segments]

/-- What the fold keeps: no empty, `.` or `..` segment, and nothing with a
slash when the pieces have none. -/
theorem foldl_kept (l : List Str) (hl : ∀ s ∈ l, '/' ∉ s) :
    ∀ stack : List Str,
      (∀ s ∈ stack, s ≠ [] ∧ s ≠ ['.'] ∧ s ≠ ['.', '.'] ∧ '/' ∉ s) →
      ∀ s ∈ l.foldl
            (fun kept s =>
              if s = [] ∨ s = ['.'] then kept
              else if s = ['.', '.'] then kept.dropLast
              else kept ++ [s])
            stack,
        s ≠ [] ∧ s ≠ ['.'] ∧ s ≠ ['.', '.'] ∧ '/' ∉ s := by
  induction l with
  | nil => intro stack hs; exact hs
  | cons a r ih =>
    intro stack hs
    rw [List.foldl_cons]
    apply ih (fun s hs => hl s (List.mem_cons_of_mem _ hs))
    by_cases h1 : a = [] ∨ a = ['.']
    · rw [if_pos h1]; exact hs
    · rw [if_neg h1]
      by_cases h2 : a = ['.', '.']
      · rw [if_pos h2]
        intro s hmem
        exact hs s (List.mem_of_mem_dropLast hmem)
      · rw [if_neg h2]
        intro s hmem
        rcases List.mem_append.mp hmem with hm | hm
        · exact hs s hm
        · rw [List.mem_singleton] at hm
          subst hm
          exact ⟨fun e => h1 (Or.inl e), fun e => h1 (Or.inr e), h2,
            hl s (List.mem_cons_self _ _)⟩

theorem splitOn_pieces_no_sep (d : Char) (l : Str) : ∀ s ∈ l.splitOn d, d ∉ s := by
  induction l with
  | nil =>
    intro s hs
    rw [List.splitOn_nil, List.mem_singleton] at hs
    subst hs
    exact List.not_mem_nil _
  | cons c t ih =>
    intro s hs
    unfold List.splitOn at hs ih
    rw [List.splitOnP_cons] at hs
    by_cases hc : (c == d) = true
    · rw [if_pos hc] at hs
      rcases List.mem_cons.mp hs with h | h
      · subst h; exact List.not_mem_nil _
      · exact ih s h
    · rw [if_neg hc] at hs
      cases hsp : List.splitOnP (fun x => x == d) t with
      | nil => rw [hsp] at hs; simp at hs
      | cons p ps =>
        rw [hsp] at hs ih
        simp only [List.modifyHead_cons, List.mem_cons] at hs
        rcases hs with h | h
        · subst h
          intro hm
          rcases List.mem_cons.mp hm with h3 | h3
          · exact hc (by simp [h3])
          · exact ih p (List.mem_cons_self _ _) h3
        · exact ih s (List.mem_cons_of_mem _ h)

theorem normalisedSegments_kept (req : Str) :
    ∀ s ∈ normalisedSegments req, s ≠ [] ∧ s ≠ ['.'] ∧ s ≠ ['.', '.'] ∧ '/' ∉ s :=
  foldl_kept _ (splitOn_pieces_no_sep '/' req) [] (fun s hs => absurd hs (List.not_mem_nil s))

theorem flatten_slash_eq_intercalate (segs : List Str) :
    (segs.map (fun s => '/' :: s)).flatten = List.intercalate ['/'] ([] :: segs) := by
  induction segs with
  | nil => rfl
  | cons s r ih =>
    rw [List.map_cons, List.flatten_cons, ih]
    cases r <;> simp [List.intercalate, List.intersperse]

/-- Claim C33: for a non-empty root, `resolvePath` returns the root with one
trailing slash removed, followed by a slash and the segment for every segment
of the normalised request (split on the slash, empty and `.` segments dropped,
`..` removing the segment kept last or nothing); the result begins with the
stripped root, and what follows it splits on the slash into an empty piece and
the kept segments, none of which is empty, `.` or `..`. -/
theorem resolvePath_spec (root req : Str) (h : root ≠ []) :
    resolvePath root req = .ok (resolvePathSpec root req)
    ∧ stripOneSlash root <+: resolvePathSpec root req
    ∧ ((resolvePathSpec root req).drop (stripOneSlash root).length).splitOn '/'
        = [] :: normalisedSegments req
    ∧ (∀ s ∈ normalisedSegments req, s ≠ [] ∧ s ≠ ".".toList ∧ s ≠ "..".toList ∧ '/' ∉ s) := by
  refine ⟨resolvePath_eq root req h, ⟨_, rfl⟩, ?_, normalisedSegments_kept req⟩
  unfold resolvePathSpec
  rw [List.drop_left, flatten_slash_eq_intercalate]
  apply List.splitOn_intercalate
  · intro l hl
    rcases List.mem_cons.mp hl with h1 | h1
    · subst h1; exact List.not_mem_nil _
    · exact (normalisedSegments_kept req l h1).2.2.2
  · exact List.cons_ne_nil _ _

theorem resolvePath_spec_witness :
    ("./www/site1".toList ≠ []
      ∧ resolvePath "./www/site1".toList "/../../etc/passwd".toList
          = .ok "./www/site1/etc/passwd".toList)
    ∧ resolvePath "/var/www".toList "/images/../css/.".toList = .ok "/var/www/css".toList
    ∧ resolvePath "/var/www/".toList "a//b/./c/../".toList = .ok "/var/www/a/b".toList
    ∧ resolvePath "/".toList "..".toList = .ok [] :=
  ⟨⟨by decide, (resolvePath_spec "./www/site1".toList "/../../etc/passwd".toList (by decide)).1⟩,
   (resolvePath_spec "/var/www".toList "/images/../css/.".toList (by decide)).1,
   (resolvePath_spec "/var/www/".toList "a//b/./c/../".toList (by decide)).1,
   (resolvePath_spec "/".toList "..".toList (by decide)).1⟩

/-! ## The tokens depend only on the text left to read -/

theorem sameRest_eof {d : Nat} {a b : Lexer} (h : SameRest d a b) : a.eof = b.eof := by
  cases ha : a.eof <;> cases hb : b.eof
  · rfl
  · have h1 := (rest_of_not_eof ha).1
    rw [h.1, rest_eq_nil_of_eof hb] at h1
    exact List.noConfusion h1
  · have h1 := (rest_of_not_eof hb).1
    rw [← h.1, rest_eq_nil_of_eof ha] at h1
    exact List.noConfusion h1
  · rfl

theorem sameRest_remaining {d : Nat} {a b : Lexer} (h : SameRest d a b) :
    a.remaining = b.remaining := by
  rw [remaining_eq_rest_length, remaining_eq_rest_length, h.1]

theorem sameRest_get {d : Nat} {a b : Lexer} (h : SameRest d a b) :
    a.peek = b.peek ∧ a.get.1 = b.get.1 ∧ SameRest d a.get.2 b.get.2 := by
  cases hb : b.eof
  · have ha : a.eof = false := (sameRest_eof h).trans hb
    have rb := (rest_of_not_eof hb).1
    have ra : a.rest = b.peek :: b.get.2.rest := h.1.trans rb
    obtain ⟨a1, a2, a3, _, _, a6⟩ := get_of_rest_cons ra
    obtain ⟨_, b2, _, _, _, b6⟩ := get_of_rest_cons rb
    refine ⟨a1, a2.trans b2.symm, a3, ?_⟩
    rw [a6, b6, h.2]
    split <;> omega
  · have ha : a.eof = true := (sameRest_eof h).trans hb
    have ga : a.get = ('\x00', a) := by unfold Lexer.get; rw [ha]; rfl
    have gb : b.get = ('\x00', b) := by unfold Lexer.get; rw [hb]; rfl
    have pa : a.peek = '\x00' := by unfold Lexer.peek; rw [ha]; rfl
    have pb : b.peek = '\x00' := by unfold Lexer.peek; rw [hb]; rfl
    rw [ga, gb, pa, pb]
    exact ⟨rfl, rfl, h⟩

theorem skipSpaces_sameRest {d : Nat} (n : Nat) :
    ∀ {a b : Lexer}, SameRest d a b →
      SameRest d (Lexer.skipSpaces n a) (Lexer.skipSpaces n b) := by
  induction n with
  | zero => intro a b h; exact h
  | succ n ih =>
    intro a b h
    rw [Lexer.skipSpaces, Lexer.skipSpaces, sameRest_eof h, (sameRest_get h).1]
    split
    · exact ih (sameRest_get h).2.2
    · exact h

theorem skipLine_sameRest {d : Nat} (n : Nat) :
    ∀ {a b : Lexer}, SameRest d a b →
      SameRest d (Lexer.skipLine n a) (Lexer.skipLine n b) := by
  induction n with
  | zero => intro a b h; exact h
  | succ n ih =>
    intro a b h
    rw [Lexer.skipLine, Lexer.skipLine, sameRest_eof h]
    split
    · exact h
    · simp only
      rw [(sameRest_get h).2.1]
      split
      · exact ih (sameRest_get h).2.2
      · exact (sameRest_get h).2.2

theorem skipSpacesAndCommentsLoop_sameRest {d : Nat} (n : Nat) :
    ∀ {a b : Lexer}, SameRest d a b →
      SameRest d (Lexer.skipSpacesAndCommentsLoop n a) (Lexer.skipSpacesAndCommentsLoop n b) := by
  induction n with
  | zero => intro a b h; exact h
  | succ n ih =>
    intro a b h
    have h1 : SameRest d (Lexer.skipSpaces a.remaining a) (Lexer.skipSpaces b.remaining b) := by
      rw [sameRest_remaining h]
      exact skipSpaces_sameRest _ h
    rw [Lexer.skipSpacesAndCommentsLoop, Lexer.skipSpacesAndCommentsLoop]
    rw [sameRest_eof h1, (sameRest_get h1).1]
    split
    · apply ih
      rw [sameRest_remaining h1]
      exact skipLine_sameRest _ h1
    · exact h1

theorem skipSpacesAndComments_sameRest {d : Nat} {a b : Lexer} (h : SameRest d a b) :
    SameRest d a.skipSpacesAndComments b.skipSpacesAndComments := by
  unfold Lexer.skipSpacesAndComments
  rw [sameRest_remaining h]
  exact skipSpacesAndCommentsLoop_sameRest _ h

theorem readIdentLoop_sameRest {d : Nat} (n : Nat) :
    ∀ {a b : Lexer}, SameRest d a b →
      SameRest d (Lexer.readIdentLoop n a) (Lexer.readIdentLoop n b) := by
  induction n with
  | zero => intro a b h; exact h
  | succ n ih =>
    intro a b h
    rw [Lexer.readIdentLoop, Lexer.readIdentLoop, sameRest_eof h, (sameRest_get h).1]
    split
    · exact h
    · split
      · exact h
      · exact ih (sameRest_get h).2.2

theorem readNumberOrIdentLoop_sameRest {d : Nat} (n : Nat) :
    ∀ {a b : Lexer} (f : Bool), SameRest d a b →
      SameRest d (Lexer.readNumberOrIdentLoop n a f).1 (Lexer.readNumberOrIdentLoop n b f).1
      ∧ (Lexer.readNumberOrIdentLoop n a f).2 = (Lexer.readNumberOrIdentLoop n b f).2 := by
  induction n with
  | zero => intro a b f h; exact ⟨h, rfl⟩
  | succ n ih =>
    intro a b f h
    rw [Lexer.readNumberOrIdentLoop, Lexer.readNumberOrIdentLoop, sameRest_eof h,
      (sameRest_get h).1]
    split
    · exact ⟨h, rfl⟩
    · split
      · exact ⟨h, rfl⟩
      · exact ih _ (sameRest_get h).2.2

theorem readStringLoop_sameRest {d : Nat} (n : Nat) :
    ∀ {a b : Lexer}, SameRest d a b →
      SameRest d (Lexer.readStringLoop n a) (Lexer.readStringLoop n b) := by
  induction n with
  | zero => intro a b h; exact h
  | succ n ih =>
    intro a b h
    have hg := (sameRest_get h).2.2
    rw [Lexer.readStringLoop, Lexer.readStringLoop, sameRest_eof h, (sameRest_get h).1]
    split
    · simp only
      rw [(sameRest_get h).2.1, sameRest_eof hg]
      split
      · exact ih (sameRest_get hg).2.2
      · exact ih hg
    · exact h

theorem consumed_refl (lx : Lexer) : Consumed lx lx := ⟨[], rfl, rfl, rfl⟩

theorem consumed_get (lx0 lx : Lexer) (h : Consumed lx0 lx) : Consumed lx0 lx.get.2 := by
  obtain ⟨w, h1, h2, h3⟩ := h
  cases he : lx.eof
  · have r := (rest_of_not_eof he).1
    obtain ⟨_, _, _, g4, g5, _⟩ := get_of_rest_cons r
    refine ⟨w ++ [lx.peek], ?_, g4.trans h2, ?_⟩
    · rw [h1, r, List.append_assoc]; rfl
    · rw [g5, h3, List.length_append, List.length_singleton]; omega
  · have g : lx.get = ('\x00', lx) := by unfold Lexer.get; rw [he]; rfl
    rw [g]
    exact ⟨w, h1, h2, h3⟩

theorem consumed_text {lx0 lx : Lexer} (h : Consumed lx0 lx) :
    lx0.rest = substr lx.src lx0.pos (lx.pos - lx0.pos) ++ lx.rest := by
  obtain ⟨w, h1, h2, h3⟩ := h
  rw [h2, h3]
  rw [substr_rest lx0 w lx.rest h1]
  exact h1

/-- Two routines that start from the same text and leave the same text have
read the same text. -/
theorem consumed_text_eq {a0 a b0 b : Lexer} (ha : Consumed a0 a) (hb : Consumed b0 b)
    (h0 : a0.rest = b0.rest) (h1 : a.rest = b.rest) :
    substr a.src a0.pos (a.pos - a0.pos) = substr b.src b0.pos (b.pos - b0.pos) := by
  have e1 := consumed_text ha
  have e2 := consumed_text hb
  rw [h0, e2, h1] at e1
  exact (List.append_cancel_right e1).symm

theorem readIdent_sameRest {d : Nat} {a b : Lexer} (h : SameRest d a b) :
    a.readIdent.1 = Token.shiftLine d b.readIdent.1
    ∧ SameRest d a.readIdent.2 b.readIdent.2 := by
  have h1 : SameRest d (Lexer.readIdentLoop a.remaining a) (Lexer.readIdentLoop b.remaining b) := by
    rw [sameRest_remaining h]
    exact readIdentLoop_sameRest _ h
  have ca : Consumed a (Lexer.readIdentLoop a.remaining a) :=
    readIdentLoop_pres (consumed_get a) _ (consumed_refl a)
  have cb : Consumed b (Lexer.readIdentLoop b.remaining b) :=
    readIdentLoop_pres (consumed_get b) _ (consumed_refl b)
  have ht := consumed_text_eq ca cb h.1 h1.1
  refine ⟨?_, h1⟩
  unfold Lexer.readIdent Token.shiftLine
  simp only
  rw [ht, h1.2]

theorem readNumberOrIdent_sameRest {d : Nat} {a b : Lexer} (h : SameRest d a b) :
    a.readNumberOrIdent.1 = Token.shiftLine d b.readNumberOrIdent.1
    ∧ SameRest d a.readNumberOrIdent.2 b.readNumberOrIdent.2 := by
  have h0 : SameRest d (Lexer.readNumberOrIdentLoop a.remaining a true).1
        (Lexer.readNumberOrIdentLoop b.remaining b true).1
      ∧ (Lexer.readNumberOrIdentLoop a.remaining a true).2
        = (Lexer.readNumberOrIdentLoop b.remaining b true).2 := by
    rw [sameRest_remaining h]
    exact readNumberOrIdentLoop_sameRest _ true h
  obtain ⟨h1, h2⟩ := h0
  have ca : Consumed a (Lexer.readNumberOrIdentLoop a.remaining a true).1 :=
    readNumberOrIdentLoop_pres (consumed_get a) _ _ (consumed_refl a)
  have cb : Consumed b (Lexer.readNumberOrIdentLoop b.remaining b true).1 :=
    readNumberOrIdentLoop_pres (consumed_get b) _ _ (consumed_refl b)
  have ht := consumed_text_eq ca cb h.1 h1.1
  unfold Lexer.readNumberOrIdent Token.shiftLine
  simp only
  rw [ht, h2, h1.2]
  split
  · exact ⟨rfl, h1⟩
  · split
    · exact ⟨rfl, h1⟩
    · exact ⟨rfl, h1⟩

theorem readString_sameRest {d : Nat} {a b : Lexer} (h : SameRest d a b) :
    a.readString.1 = Token.shiftLine d b.readString.1
    ∧ SameRest d a.readString.2 b.readString.2 := by
  have hg := (sameRest_get h).2.2
  have h1 : SameRest d (Lexer.readStringLoop a.get.2.remaining a.get.2)
      (Lexer.readStringLoop b.get.2.remaining b.get.2) := by
    rw [sameRest_remaining hg]
    exact readStringLoop_sameRest _ hg
  have ca : Consumed a.get.2 (Lexer.readStringLoop a.get.2.remaining a.get.2) :=
    readStringLoop_pres (consumed_get a.get.2) _ (consumed_refl _)
  have cb : Consumed b.get.2 (Lexer.readStringLoop b.get.2.remaining b.get.2) :=
    readStringLoop_pres (consumed_get b.get.2) _ (consumed_refl _)
  have ht := consumed_text_eq ca cb hg.1 h1.1
  have h2 := (sameRest_get h1).2.2
  unfold Lexer.readString Token.shiftLine
  simp only
  rw [sameRest_eof h1, ht]
  split
  · refine ⟨?_, h1⟩
    simp only
    rw [h1.2]
  · refine ⟨?_, h2⟩
    simp only
    rw [h2.2]

/-- After the white space and comments, `next` depends only on the text left
to read; the line counter only shifts the line of the token. -/
theorem next_sameRest_of_skip {d : Nat} {a b : Lexer}
    (h : SameRest d a.skipSpacesAndComments b.skipSpacesAndComments) :
    a.next.1 = Token.shiftLine d b.next.1 ∧ SameRest d a.next.2 b.next.2 := by
  have hg := (sameRest_get h).2.2
  unfold Lexer.next
  simp only
  rw [sameRest_eof h, (sameRest_get h).1]
  split
  · refine ⟨?_, h⟩
    unfold Token.shiftLine
    simp only
    rw [h.2]
  split
  · refine ⟨?_, hg⟩
    unfold Token.shiftLine
    simp only
    rw [hg.2]
  split
  · refine ⟨?_, hg⟩
    unfold Token.shiftLine
    simp only
    rw [hg.2]
  split
  · refine ⟨?_, hg⟩
    unfold Token.shiftLine
    simp only
    rw [hg.2]
  split
  · exact readString_sameRest h
  split
  · exact readNumberOrIdent_sameRest h
  · exact readIdent_sameRest h

theorem next_sameRest {d : Nat} {a b : Lexer} (h : SameRest d a b) :
    a.next.1 = Token.shiftLine d b.next.1 ∧ SameRest d a.next.2 b.next.2 :=
  next_sameRest_of_skip (skipSpacesAndComments_sameRest h)

theorem tokenStream_sameRest {d : Nat} (n : Nat) :
    ∀ {a b : Lexer}, SameRest d a b →
      tokenStream n a = (tokenStream n b).map (Token.shiftLine d) := by
  induction n with
  | zero => intro a b _; rfl
  | succ n ih =>
    intro a b h
    rw [tokenStream, tokenStream, List.map_cons, (next_sameRest h).1, ih (next_sameRest h).2]

/-! ## White space and comments before the text -/

/-- One round of the outer loop of `skipSpacesAndComments`. -/
theorem skipSpacesAndComments_unfold (a : Lexer) :
    a.skipSpacesAndComments
      = if (!(Lexer.skipSpaces a.remaining a).eof
            && (Lexer.skipSpaces a.remaining a).peek == '#') = true then
          (Lexer.skipLine (Lexer.skipSpaces a.remaining a).remaining
            (Lexer.skipSpaces a.remaining a)).skipSpacesAndComments
        else Lexer.skipSpaces a.remaining a := by
  unfold Lexer.skipSpacesAndComments
  rw [Lexer.skipSpacesAndCommentsLoop]
  split
  · rename_i hc
    have hle : (Lexer.skipSpaces a.remaining a).remaining ≤ a.remaining :=
      skipSpaces_pres (P := fun l => l.remaining ≤ a.remaining)
        (fun l hl => le_trans (remaining_get_le l) hl) _ (le_refl _)
    have he : (Lexer.skipSpaces a.remaining a).eof = false := by
      simp only [Bool.and_eq_true, Bool.not_eq_true'] at hc
      exact hc.1
    have hr := remaining_get he
    have hlt := skipLine_remaining_lt
      (n := (Lexer.skipSpaces a.remaining a).get.2.remaining) he
    rw [hr] at hlt
    exact skipSpacesAndCommentsLoop_fuel (by omega) (by omega)
  · rfl

theorem skipSpacesAndComments_space {a : Lexer} {c : Char} {t : Str} (h : a.rest = c :: t)
    (hs : isspace c = true) :
    a.skipSpacesAndComments = a.get.2.skipSpacesAndComments := by
  have he := eof_false_of_rest_cons h
  have hr := remaining_get he
  have h1 : Lexer.skipSpaces a.remaining a = Lexer.skipSpaces a.get.2.remaining a.get.2 := by
    rw [← hr, Lexer.skipSpaces, he, (get_of_rest_cons h).1, hs]
    rfl
  rw [skipSpacesAndComments_unfold a, skipSpacesAndComments_unfold a.get.2, h1]

theorem skipLine_step {a : Lexer} {c : Char} {t : Str} (h : a.rest = c :: t) :
    Lexer.skipLine a.remaining a
      = if c = '\n' then a.get.2 else Lexer.skipLine a.get.2.remaining a.get.2 := by
  have he := eof_false_of_rest_cons h
  have hr := remaining_get he
  rw [← hr, Lexer.skipLine, he]
  simp only [Bool.false_eq_true, if_false]
  rw [(get_of_rest_cons h).2.1]
  by_cases hc : c = '\n'
  · rw [if_pos hc, if_neg (by simp [hc])]
  · rw [if_neg hc, if_pos (by simpa using hc)]

theorem skipSpacesAndComments_hash {a : Lexer} {t : Str} (h : a.rest = '#' :: t) :
    a.skipSpacesAndComments
      = (Lexer.skipLine a.get.2.remaining a.get.2).skipSpacesAndComments := by
  have he := eof_false_of_rest_cons h
  have hp : a.peek = '#' := (get_of_rest_cons h).1
  have h1 : Lexer.skipSpaces a.remaining a = a :=
    skipSpaces_of_not_space _ (by rw [hp]; decide)
  rw [skipSpacesAndComments_unfold a, h1, he, hp, if_pos (by decide), skipLine_step h,
    if_neg (by decide)]

theorem newlineCount_cons (c : Char) (w : Str) :
    newlineCount (c :: w) = newlineCount w + (if c = '\n' then 1 else 0) := by
  unfold newlineCount
  rw [List.count_cons]
  by_cases h : c = '\n'
  · simp [h]
  · simp [h]

/-- A complete run of white space and comments before the text is skipped
together with the white space and comments the text itself begins with; the
second part is the same fact for a lexer that is inside a comment. -/
theorem blankPrefix_absorb (w : Str) :
    ∀ (a b : Lexer) (d : Nat), a.rest = w ++ b.rest → a.line + newlineCount w = b.line + d →
      (blankPrefix false w = true →
        SameRest d a.skipSpacesAndComments b.skipSpacesAndComments)
      ∧ (blankPrefix true w = true →
        SameRest d (Lexer.skipLine a.remaining a).skipSpacesAndComments
          b.skipSpacesAndComments) := by
  induction w with
  | nil =>
    intro a b d hr hl
    refine ⟨fun _ => ?_, fun h => Bool.noConfusion h⟩
    apply skipSpacesAndComments_sameRest
    refine ⟨hr, ?_⟩
    have : newlineCount [] = 0 := rfl
    omega
  | cons c w ih =>
    intro a b d hr hl
    have hr1 : a.rest = c :: (w ++ b.rest) := hr
    obtain ⟨_, _, g3, _, _, g6⟩ := get_of_rest_cons hr1
    have hl1 : a.get.2.line + newlineCount w = b.line + d := by
      rw [g6]
      rw [newlineCount_cons] at hl
      split
      · rename_i hc; rw [if_pos hc] at hl; omega
      · rename_i hc; rw [if_neg hc] at hl; omega
    obtain ⟨ih1, ih2⟩ := ih a.get.2 b d g3 hl1
    constructor
    · intro hb
      rw [blankPrefix] at hb
      by_cases hs : isspace c = true
      · rw [if_pos hs] at hb
        rw [skipSpacesAndComments_space hr1 hs]
        exact ih1 hb
      · rw [if_neg hs] at hb
        by_cases hc : c = '#'
        · rw [if_pos hc] at hb
          subst hc
          rw [skipSpacesAndComments_hash hr1]
          exact ih2 hb
        · rw [if_neg hc] at hb
          exact Bool.noConfusion hb
    · intro hb
      rw [blankPrefix] at hb
      rw [skipLine_step hr1]
      by_cases hc : c = '\n'
      · rw [if_pos hc] at hb ⊢
        exact ih1 hb
      · rw [if_neg hc] at hb ⊢
        exact ih2 hb

theorem tokenStream_blankPrefix (w : Str) (hw : blankPrefix false w = true) (n : Nat)
    (a b : Lexer) (d : Nat) (hr : a.rest = w ++ b.rest)
    (hl : a.line + newlineCount w = b.line + d) :
    tokenStream n a = (tokenStream n b).map (Token.shiftLine d) := by
  cases n with
  | zero => rfl
  | succ n =>
    have h := next_sameRest_of_skip ((blankPrefix_absorb w a b d hr hl).1 hw)
    rw [tokenStream, tokenStream, List.map_cons, h.1, tokenStream_sameRest n h.2]

theorem bufferedText_append (w s : Str) (hs : s ≠ []) :
    bufferedText (w ++ s) = w ++ bufferedText s := by
  unfold bufferedText
  have h1 : w ++ s ≠ [] := fun h => hs (List.append_eq_nil.mp h).2
  rw [if_neg h1, if_neg hs, List.getLast?_append_of_ne_nil _ hs]
  split
  · rfl
  · rw [List.append_assoc]

theorem load_rest (content : Str) : (Lexer.load content).rest = bufferedText content := by
  rw [← load_src]
  rfl

theorem blankPrefix_append_newline (w : Str) :
    ∀ m : Bool, blankPrefix m w = true → blankPrefix m (w ++ ['\n']) = true := by
  induction w with
  | nil =>
    intro m h
    cases m
    · decide
    · exact Bool.noConfusion h
  | cons c w ih =>
    intro m h
    cases m
    · rw [List.cons_append, blankPrefix]
      rw [blankPrefix] at h
      by_cases hs : isspace c = true
      · rw [if_pos hs] at h ⊢
        exact ih false h
      · rw [if_neg hs] at h ⊢
        by_cases hc : c = '#'
        · rw [if_pos hc] at h ⊢
          exact ih true h
        · rw [if_neg hc] at h
          exact Bool.noConfusion h
    · rw [List.cons_append, blankPrefix]
      rw [blankPrefix] at h
      by_cases hc : c = '\n'
      · rw [if_pos hc] at h ⊢
        exact ih false h
      · rw [if_neg hc] at h ⊢
        exact ih true h

theorem blankPrefix_bufferedText (w : Str) (hw : blankPrefix false w = true) :
    blankPrefix false (bufferedText w) = true := by
  unfold bufferedText
  split
  · rfl
  · split
    · exact hw
    · exact blankPrefix_append_newline w false hw

/-- Claim C37 fails as stated for the empty source: the file that consists of
one space (the prefix `w` is the space, which has no newline, and `s` is
empty) gives an `T_EOF` token on line 2, while the empty file gives it on
line 1, because `load` ends the last line of a file with a newline. -/
theorem blank_prefix_empty_source_counterexample :
    blankPrefix false " ".toList = true
    ∧ newlineCount " ".toList = 0
    ∧ tokenStream 1 (Lexer.load (" ".toList ++ []))
        = [{ type := T_EOF, text := [], line := 2 }]
    ∧ tokenStream 1 (Lexer.load []) = [{ type := T_EOF, text := [], line := 1 }]
    ∧ tokenStream 1 (Lexer.load (" ".toList ++ []))
        ≠ (tokenStream 1 (Lexer.load [])).map (Token.shiftLine (newlineCount " ".toList)) := by
  decide

/-- Claim C37 as amended: white space and comments before a source that is
not empty never change the tokens.  For every prefix `w` that is an
interleaving of white space characters and complete comments (`#`, characters
other than the newline, a newline) and every source `s` that is not empty,
the first `n` tokens `Lexer::next` returns on the file `w ++ s` read by `load`
are, for every `n`, those it returns on the file `s`, with the same kinds and
texts and with every line number increased by the number of newlines of `w`.
For the empty source the tokens of the file `w` are those of the empty file
with the lines increased by the number of newlines of the text `load` buffers
for `w`, which ends the last line of `w` with a newline.  On the text the
lexer reads the statement holds for every `s`: between the buffers `w ++ s`
and `s`, and between any two lexer states of which the first has `w` more to
read than the second. -/
theorem blank_prefix_keeps_tokens (w s : Str) (n : Nat) (hw : blankPrefix false w = true) :
    (s ≠ [] →
        tokenStream n (Lexer.load (w ++ s))
          = (tokenStream n (Lexer.load s)).map (Token.shiftLine (newlineCount w)))
    ∧ tokenStream n (Lexer.load w)
        = (tokenStream n (Lexer.load [])).map (Token.shiftLine (newlineCount (bufferedText w)))
    ∧ tokenStream n (lexerAt (w ++ s))
        = (tokenStream n (lexerAt s)).map (Token.shiftLine (newlineCount w))
    ∧ (∀ a b : Lexer, a.rest = w ++ b.rest → a.line = b.line →
        tokenStream n a = (tokenStream n b).map (Token.shiftLine (newlineCount w))) := by
  refine ⟨?_, ?_, ?_, ?_⟩
  · intro hs
    apply tokenStream_blankPrefix w hw n
    · rw [load_rest, load_rest, bufferedText_append w s hs]
    · rfl
  · apply tokenStream_blankPrefix (bufferedText w) (blankPrefix_bufferedText w hw) n
    · rw [load_rest, load_rest]
      exact (List.append_nil _).symm
    · rfl
  · exact tokenStream_blankPrefix w hw n _ _ _ rfl rfl
  · intro a b hr hl
    exact tokenStream_blankPrefix w hw n a b _ hr (by rw [hl])

theorem blank_prefix_keeps_tokens_witness :
    blankPrefix false " # one\n\t#\n ".toList = true
    ∧ "a \x7b\n\x2212\x22;".toList ≠ []
    ∧ tokenStream 5 (Lexer.load (" # one\n\t#\n ".toList ++ "a \x7b\n\x2212\x22;".toList))
        = [{ type := T_IDENT, text := "a".toList, line := 3 },
           { type := T_LBRACE, text := "\x7b".toList, line := 3 },
           { type := T_STRING, text := "12".toList, line := 4 },
           { type := T_SEMI, text := ";".toList, line := 4 },
           { type := T_EOF, text := [], line := 5 }]
    ∧ tokenStream 5 (Lexer.load "a \x7b\n\x2212\x22;".toList)
        = [{ type := T_IDENT, text := "a".toList, line := 1 },
           { type := T_LBRACE, text := "\x7b".toList, line := 1 },
           { type := T_STRING, text := "12".toList, line := 2 },
           { type := T_SEMI, text := ";".toList, line := 2 },
           { type := T_EOF, text := [], line := 3 }] :=
  ⟨by decide, by decide,
   ((blank_prefix_keeps_tokens " # one\n\t#\n ".toList "a \x7b\n\x2212\x22;".toList 5
      (by decide)).1 (by decide)).trans (by decide),
   by decide⟩

end Webserv
